import Mathlib

/-!
# Buddy allocator with a per-CPU page cache (mm/buddy.c)

A shallow embedding of `Memory-Allocator/Buddy/PCP_userspace/mm/buddy.c`.

* Page frame numbers, orders and counters are natural numbers.  Orders stay below
  `MAX_ORDER`, which the shifts `1 << order` of the source assume to be below the
  width of `int`; counters only grow up to the number of pages of the region.  The
  one place where an unsigned counter can wrap on the code paths modelled here is
  `nr_free--`, which is modelled with its wrap at `2^64`.
* An intrusive list (`struct list_head`) is the list of the page frame numbers of
  the pages linked on it, first entry first.
* The constants and helpers of `linux/buddy.h` and `linux/list.h` are not part of
  the sources at hand: constants are fields of `Config`, helpers are modelled from
  the specification and marked as such.
* `zone->pcp` is a pointer that is `NULL` until `pageset_init` runs; dereferencing
  it while `NULL` is a fault, which the embedding renders as `none`.
* The unsigned differences `max_order - 1` and `MAX_ORDER - 2` are not wrapped: the
  embedding follows the source for `MAX_ORDER >= 2`.
-/

namespace Buddy

/-! ## Configuration and data model -/

/-- Compile-time constants of `linux/buddy.h`.  `start_pfn` and `end_pfn` are the
values of `PFN_UP(PHYS_OFFSET)` and `PFN_DOWN(PHYS_OFFSET + MEMORY_SIZE)`. -/
structure Config where
  MAX_ORDER : Nat
  BATCH_SIZE : Nat
  start_pfn : Nat
  end_pfn : Nat
deriving DecidableEq, Repr

/-- Global `unsigned int pageblock_order = 10;`. -/
def pageblock_order : Nat := 10

/-- Number of pages of the region, `nr_pages = MEMORY_SIZE / PAGE_SIZE`, for a
page-aligned region. -/
def nr_pages (cfg : Config) : Nat := cfg.end_pfn - cfg.start_pfn

/-- Modelled from the spec: `struct page` of linux/buddy.h, reduced to the two
attributes the allocator reads: the `is_buddy` mark (`PageBuddy`) and the recorded
order (`page_private`).  List membership (`lru`) is carried by the lists. -/
structure page where
  PageBuddy : Bool
  page_private : Nat
deriving DecidableEq, Repr

/-- One `struct free_area`: `free_list[0]` and `nr_free`. -/
structure free_area where
  free_list : List Nat
  nr_free : Nat
deriving DecidableEq, Repr

/-- The `struct per_cpu_pages`: `count`, `high`, `batch` and `lists[0]`. -/
structure per_cpu_pages where
  count : Int
  high : Nat
  batch : Nat
  lists : List Nat
deriving DecidableEq, Repr

/-- The zone `BiscuitOS_zone` together with the page records `mem_map` of its
pages, indexed by page frame number. -/
structure zone where
  free_area : Nat → free_area
  pcp : Option per_cpu_pages
  mem_map : Nat → page
  managed_pages : Nat

/-! ## Helpers of the missing headers -/

/-- Modelled from the spec: `pfn_valid_within` of linux/buddy.h; a buddy index is
usable when it is not out of range, that is inside the region. -/
def pfn_valid_within (cfg : Config) (pfn : Nat) : Bool :=
  decide (cfg.start_pfn ≤ pfn) && decide (pfn < cfg.end_pfn)

/-- Modelled from the spec: `PageBuddy` test on the record of page `pfn`. -/
def PageBuddy (z : zone) (pfn : Nat) : Bool := (z.mem_map pfn).PageBuddy

/-- Modelled from the spec: `page_order`, the recorded order of page `pfn`. -/
def page_order (z : zone) (pfn : Nat) : Nat := (z.mem_map pfn).page_private

/-- Modelled from the spec: `set_page_order` of linux/buddy.h records the order
and marks the page as head of a free block. -/
def set_page_order (z : zone) (pfn order : Nat) : zone :=
  { z with mem_map := Function.update z.mem_map pfn ⟨true, order⟩ }

/-- Modelled from the spec: `rmv_page_order` of linux/buddy.h clears the mark and
the recorded order. -/
def rmv_page_order (z : zone) (pfn : Nat) : zone :=
  { z with mem_map := Function.update z.mem_map pfn ⟨false, 0⟩ }

/-- Loop of `__ffs`: position of the lowest set bit among the low `n` bits. -/
def __ffs_aux : Nat → Nat → Nat
  | 0, _ => 0
  | n + 1, word => if word % 2 = 1 then 0 else 1 + __ffs_aux n (word / 2)

/-- Modelled from the spec: `__ffs` is the trailing zero count of a 64-bit word
(64 for the word 0, where the C helper is not defined). -/
def __ffs (word : Nat) : Nat := __ffs_aux 64 word

/-- The statement `area->nr_free--` on an `unsigned long`. -/
def nr_free_dec (n : Nat) : Nat := if n = 0 then 2 ^ 64 - 1 else n - 1

/-- Replace the free area of one order. -/
def set_free_area (z : zone) (order : Nat) (a : free_area) : zone :=
  { z with free_area := Function.update z.free_area order a }

/-- The `list_del(&page->lru)` of a page found through `mem_map`: the entry leaves
whichever list it is linked on. -/
def list_del (z : zone) (pfn : Nat) : zone :=
  { z with
    free_area := fun o =>
      { free_list := (z.free_area o).free_list.erase pfn, nr_free := (z.free_area o).nr_free }
    pcp := z.pcp.map fun pcp => { pcp with lists := pcp.lists.erase pfn } }

/-! ## Buddy arithmetic -/

/-- The function `__find_buddy_pfn`: `page_pfn ^ (1 << order)`. -/
def __find_buddy_pfn (page_pfn order : Nat) : Nat := page_pfn ^^^ (1 <<< order)

/-- Outcome of `page_is_buddy`: `some 1` on the path that reaches `return 1`;
`none` where control runs off the end of the function without a `return`. -/
def page_is_buddy_ret (z : zone) (buddy order : Nat) : Option Nat :=
  if PageBuddy z buddy && page_order z buddy == order then some 1 else none

/-- The reading of `page_is_buddy` in which the missing return value is 0: `true` on the
path that reaches `return 1`, `false` where the source returns nothing.  The source does
not say this on the second path; what it says is `page_is_buddy_ret`.  The functions
built on this reading (`__free_one_page`, `__free_pages`, `memory_init`, `run`) serve for
the properties that hold whatever the value is, and as the term of comparison for the
functions `..._ret` of the section on the free path as written, which have no value
there. -/
def page_is_buddy (z : zone) (buddy order : Nat) : Bool :=
  (page_is_buddy_ret z buddy order).getD 0 != 0

/-! ## Freeing: `__free_one_page`, the missing value of `page_is_buddy` read as 0

The freeing functions of this and the next sections, and the call sequences built on
them, take the value of `page_is_buddy` from the reading `page_is_buddy` above.  They
agree with the source wherever no call of `page_is_buddy` ends without a value.  The free
path as the source has it follows in the section on the free path as written. -/

/-- The `while (order < max_order - 1)` loop of `__free_one_page` (label
`continue_merging`).  The first argument bounds the number of iterations, which is
at most `max_order - 1 - order` because every iteration raises `order`.  The result
is the zone and the values of `pfn`, `order` and `buddy_pfn` at `done_merging`. -/
def __free_one_page_merge (cfg : Config) (max_order : Nat) :
    Nat → zone → Nat → Nat → Nat → zone × Nat × Nat × Nat
  | 0, z, pfn, order, buddy_pfn => (z, pfn, order, buddy_pfn)
  | fuel + 1, z, pfn, order, buddy_pfn =>
    if order < max_order - 1 then
      if !pfn_valid_within cfg (__find_buddy_pfn pfn order) then
        (z, pfn, order, __find_buddy_pfn pfn order)
      else if !page_is_buddy z (__find_buddy_pfn pfn order) order then
        (z, pfn, order, __find_buddy_pfn pfn order)
      else
        __free_one_page_merge cfg max_order fuel
          (rmv_page_order
            (set_free_area (list_del z (__find_buddy_pfn pfn order)) order
              { free_list := ((list_del z (__find_buddy_pfn pfn order)).free_area order).free_list
                nr_free := nr_free_dec (z.free_area order).nr_free })
            (__find_buddy_pfn pfn order))
          (__find_buddy_pfn pfn order &&& pfn) (order + 1) (__find_buddy_pfn pfn order)
    else (z, pfn, order, buddy_pfn)

/-- The placement test of `__free_one_page` after `done_merging`: true when the
block goes to the tail of its list. -/
def __free_one_page_tail (cfg : Config) (z : zone) (pfn order buddy_pfn : Nat) : Bool :=
  if order = 0 then false
  else if decide (order < cfg.MAX_ORDER - 2) && pfn_valid_within cfg buddy_pfn then
    pfn_valid_within cfg (__find_buddy_pfn (buddy_pfn &&& pfn) (order + 1)) &&
      page_is_buddy z (__find_buddy_pfn (buddy_pfn &&& pfn) (order + 1)) (order + 1)
  else false

/-- Code from `done_merging` on: record the order, link the block at the head or at
the tail of `free_area[order]`, and count it. -/
def __free_one_page_place (cfg : Config) (z : zone) (pfn order buddy_pfn : Nat) : zone :=
  set_free_area (set_page_order z pfn order) order
    { free_list :=
        if __free_one_page_tail cfg (set_page_order z pfn order) pfn order buddy_pfn then
          (z.free_area order).free_list ++ [pfn]
        else pfn :: (z.free_area order).free_list
      nr_free := (z.free_area order).nr_free + 1 }

/-- The function `__free_one_page(zone, page, pfn, order)`.  The local `buddy_pfn`
has no initialiser in the source; it is read before being assigned only when the
loop body never runs and `order < MAX_ORDER - 2`, and starts as 0 here. -/
def __free_one_page (cfg : Config) (z : zone) (pfn order : Nat) : zone :=
  __free_one_page_place cfg
    (__free_one_page_merge cfg (min cfg.MAX_ORDER (pageblock_order + 1))
      (min cfg.MAX_ORDER (pageblock_order + 1) - 1 - order) z pfn order 0).1
    (__free_one_page_merge cfg (min cfg.MAX_ORDER (pageblock_order + 1))
      (min cfg.MAX_ORDER (pageblock_order + 1) - 1 - order) z pfn order 0).2.1
    (__free_one_page_merge cfg (min cfg.MAX_ORDER (pageblock_order + 1))
      (min cfg.MAX_ORDER (pageblock_order + 1) - 1 - order) z pfn order 0).2.2.1
    (__free_one_page_merge cfg (min cfg.MAX_ORDER (pageblock_order + 1))
      (min cfg.MAX_ORDER (pageblock_order + 1) - 1 - order) z pfn order 0).2.2.2

/-- The function `__free_pages_ok`. -/
def __free_pages_ok (cfg : Config) (z : zone) (pfn order : Nat) : zone :=
  __free_one_page cfg z pfn order

/-! ## The per-CPU cache: draining -/

/-- The `do ... while (--count && !list_empty(list))` loop of `free_pcppages_bulk`,
entered with a non-empty list: unlink the last entry, decrement `pcp->count`, append
the page to the local list `head`.  The first argument bounds the iterations by the
length of the list. -/
def free_pcppages_bulk_loop : Nat → Int → per_cpu_pages → List Nat → per_cpu_pages × List Nat
  | 0, _, pcp, head => (pcp, head)
  | fuel + 1, count, pcp, head =>
    match pcp.lists.getLast? with
    | none => (pcp, head)
    | some pg =>
      if count - 1 ≠ 0 ∧ pcp.lists.dropLast ≠ [] then
        free_pcppages_bulk_loop fuel (count - 1)
          { pcp with lists := pcp.lists.dropLast, count := pcp.count - 1 } (head ++ [pg])
      else ({ pcp with lists := pcp.lists.dropLast, count := pcp.count - 1 }, head ++ [pg])

/-- The function `free_pcppages_bulk(zone, count, pcp)`: move up to `count` pages
from the tail of the cache to a local list, then give each back with
`__free_one_page(zone, page, pfn, 0)`.  The first `list_last_entry` is not guarded
in the source; on an empty list it is a fault. -/
def free_pcppages_bulk (cfg : Config) (z : zone) (count : Int) (pcp : per_cpu_pages) :
    Option zone :=
  if pcp.lists = [] then none
  else
    some ((free_pcppages_bulk_loop pcp.lists.length count pcp []).2.foldl
      (fun z pg => __free_one_page cfg z pg 0)
      { z with pcp := some (free_pcppages_bulk_loop pcp.lists.length count pcp []).1 })

/-- The function `free_unref_page_commit(page, pfn)`. -/
def free_unref_page_commit (cfg : Config) (z : zone) (pfn : Nat) : Option zone :=
  match z.pcp with
  | none => none
  | some pcp =>
    if pcp.count + 1 ≥ (pcp.high : Int) then
      free_pcppages_bulk cfg
        { z with pcp := some { pcp with lists := pfn :: pcp.lists, count := pcp.count + 1 } }
        (pcp.batch : Int) { pcp with lists := pfn :: pcp.lists, count := pcp.count + 1 }
    else some { z with pcp := some { pcp with lists := pfn :: pcp.lists, count := pcp.count + 1 } }

/-- The function `free_unref_page`: free a 0-order page. -/
def free_unref_page (cfg : Config) (z : zone) (pfn : Nat) : Option zone :=
  free_unref_page_commit cfg z pfn

/-- The function `free_the_page`. -/
def free_the_page (cfg : Config) (z : zone) (pfn order : Nat) : Option zone :=
  if order = 0 then free_unref_page cfg z pfn else some (__free_pages_ok cfg z pfn order)

/-- The function `__free_pages(page, order)`. -/
def __free_pages (cfg : Config) (z : zone) (pfn order : Nat) : Option zone :=
  free_the_page cfg z pfn order

/-! ## Allocation -/

/-- The function `expand(zone, page, low, high, area)`; `size` is the local of that
name, `1 << high` at entry.  Recursion is on `high`. -/
def expand (z : zone) (pg low : Nat) : Nat → Nat → zone
  | 0, _ => z
  | high + 1, size =>
    if high + 1 > low then
      expand
        (set_page_order
          (set_free_area z high
            { free_list := (pg + size / 2) :: (z.free_area high).free_list
              nr_free := (z.free_area high).nr_free + 1 })
          (pg + size / 2) high)
        pg low high (size / 2)
    else z

/-- The `for (current_order = order; current_order < MAX_ORDER; ++current_order)`
loop of `__rmqueue_smallest`; the first argument is `MAX_ORDER - current_order`. -/
def __rmqueue_smallest_loop (z : zone) (order : Nat) : Nat → Nat → zone × Option Nat
  | 0, _ => (z, none)
  | fuel + 1, current_order =>
    match (z.free_area current_order).free_list with
    | [] => __rmqueue_smallest_loop z order fuel (current_order + 1)
    | pg :: rest =>
      (expand
        (set_free_area (rmv_page_order z pg) current_order
          { free_list := rest, nr_free := nr_free_dec (z.free_area current_order).nr_free })
        pg order current_order (1 <<< current_order), some pg)

/-- The function `__rmqueue_smallest(zone, order)`; `none` is `NULL`. -/
def __rmqueue_smallest (cfg : Config) (z : zone) (order : Nat) : zone × Option Nat :=
  __rmqueue_smallest_loop z order (cfg.MAX_ORDER - order) order

/-- The function `rmqueue_bulk(zone, 0, count, list, flags)`: the zone, the list
and the number `alloced` of pages appended to it. -/
def rmqueue_bulk (cfg : Config) : Nat → zone → List Nat → zone × List Nat × Nat
  | 0, z, list => (z, list, 0)
  | count + 1, z, list =>
    match (__rmqueue_smallest cfg z 0).2 with
    | none => ((__rmqueue_smallest cfg z 0).1, list, 0)
    | some pg =>
      ((rmqueue_bulk cfg count (__rmqueue_smallest cfg z 0).1 (list ++ [pg])).1,
       (rmqueue_bulk cfg count (__rmqueue_smallest cfg z 0).1 (list ++ [pg])).2.1,
       (rmqueue_bulk cfg count (__rmqueue_smallest cfg z 0).1 (list ++ [pg])).2.2 + 1)

/-- The refill step of `__rmqueue_pcplist`: `pcp->count += rmqueue_bulk(...)` when
the list is empty. -/
def __rmqueue_pcplist_refill (cfg : Config) (z : zone) (pcp : per_cpu_pages) :
    zone × per_cpu_pages :=
  if pcp.lists = [] then
    ((rmqueue_bulk cfg pcp.batch z pcp.lists).1,
     { pcp with
       count := pcp.count + ((rmqueue_bulk cfg pcp.batch z pcp.lists).2.2 : Int)
       lists := (rmqueue_bulk cfg pcp.batch z pcp.lists).2.1 })
  else (z, pcp)

/-- The function `__rmqueue_pcplist(zone, flags, pcp, list)` with
`list = &pcp->lists[0]`. -/
def __rmqueue_pcplist (cfg : Config) (z : zone) (pcp : per_cpu_pages) : zone × Option Nat :=
  match (__rmqueue_pcplist_refill cfg z pcp).2.lists with
  | [] => ({ (__rmqueue_pcplist_refill cfg z pcp).1 with
             pcp := some (__rmqueue_pcplist_refill cfg z pcp).2 }, none)
  | pg :: rest =>
    ({ (__rmqueue_pcplist_refill cfg z pcp).1 with
       pcp := some { (__rmqueue_pcplist_refill cfg z pcp).2 with
                     lists := rest
                     count := (__rmqueue_pcplist_refill cfg z pcp).2.count - 1 } }, some pg)

/-- The function `rmqueue_pcplist(zone, order, gfp_flags)`. -/
def rmqueue_pcplist (cfg : Config) (z : zone) : Option (zone × Option Nat) :=
  match z.pcp with
  | none => none
  | some pcp => some (__rmqueue_pcplist cfg z pcp)

/-- The function `rmqueue(zone, order, gfp_flags)`. -/
def rmqueue (cfg : Config) (z : zone) (order : Nat) : Option (zone × Option Nat) :=
  if order = 0 then rmqueue_pcplist cfg z else some (__rmqueue_smallest cfg z order)

/-- The function `get_page_from_freelist(gfp_mask, order)`. -/
def get_page_from_freelist (cfg : Config) (z : zone) (order : Nat) :
    Option (zone × Option Nat) :=
  rmqueue cfg z order

/-- The function `__alloc_pages(gfp_mask, order)`. -/
def __alloc_pages (cfg : Config) (z : zone) (order : Nat) : Option (zone × Option Nat) :=
  get_page_from_freelist cfg z order

/-! ## Initialisation -/

/-- The function `pageset_update(pcp, high, batch)`. -/
def pageset_update (pcp : per_cpu_pages) (high batch : Nat) : per_cpu_pages :=
  { pcp with high := high, batch := batch }

/-- The function `pageset_init`: a zeroed `per_cpu_pages` with an empty list, then
`pageset_update(pcp, 6 * batch, max(1UL, batch))` with `batch = BATCH_SIZE`. -/
def pageset_init (cfg : Config) (z : zone) : zone :=
  { z with pcp := some (pageset_update { count := 0, high := 0, batch := 0, lists := [] }
                          (6 * cfg.BATCH_SIZE) (max 1 cfg.BATCH_SIZE)) }

/-- The inner loop `while (start_pfn + (1UL << order) > end_pfn) order--;` of
`memory_init`, by recursion on `order`; `none` when `order` would go below 0. -/
def memory_init_order (end_pfn start_pfn : Nat) : Nat → Option Nat
  | 0 => if start_pfn + 1 <<< 0 > end_pfn then none else some 0
  | order + 1 =>
    if start_pfn + 1 <<< (order + 1) > end_pfn then memory_init_order end_pfn start_pfn order
    else some (order + 1)

/-- The loop `while (start_pfn < end_pfn)` of `memory_init`.  The first argument
bounds the iterations; running out of it with pages left is reported as `none`. -/
def memory_init_loop (cfg : Config) : Nat → zone → Nat → Option zone
  | 0, z, start_pfn => if start_pfn < cfg.end_pfn then none else some z
  | fuel + 1, z, start_pfn =>
    if start_pfn < cfg.end_pfn then
      match memory_init_order cfg.end_pfn start_pfn
          (min (cfg.MAX_ORDER - 1) (__ffs start_pfn)) with
      | none => none
      | some order =>
        match __free_pages cfg z start_pfn order with
        | none => none
        | some z1 => memory_init_loop cfg fuel z1 (start_pfn + 1 <<< order)
    else some z

/-- Modelled from the spec: the record of a page after the first loop of
`memory_init` (`INIT_LIST_HEAD(&page->lru)`, `page->page_type |= PAGE_TYPE_BASE`);
`PAGE_TYPE_BASE` is defined in linux/buddy.h, and a unit that has never been freed
is not marked free. -/
def page_init : page := { PageBuddy := false, page_private := 0 }

/-- State before the bootstrap loop of `memory_init`: every page record
initialised, every free area empty, `zone->pcp` still `NULL`. -/
def memory_init_zone (cfg : Config) : zone :=
  { free_area := fun _ => { free_list := [], nr_free := 0 }
    pcp := none
    mem_map := fun _ => page_init
    managed_pages := nr_pages cfg }

/-- The function `memory_init`: free the whole region block by block, then
`pageset_init`. -/
def memory_init (cfg : Config) : Option zone :=
  (memory_init_loop cfg (cfg.end_pfn - cfg.start_pfn) (memory_init_zone cfg) cfg.start_pfn).map
    (pageset_init cfg)

/-- The blocks `(start_pfn, order)` that the bootstrap loop of `memory_init` hands
to `__free_pages`, in the order of the calls. -/
def memory_init_blocks (cfg : Config) : Nat → Nat → List (Nat × Nat)
  | 0, _ => []
  | fuel + 1, start_pfn =>
    if start_pfn < cfg.end_pfn then
      match memory_init_order cfg.end_pfn start_pfn
          (min (cfg.MAX_ORDER - 1) (__ffs start_pfn)) with
      | none => []
      | some order =>
        (start_pfn, order) :: memory_init_blocks cfg fuel (start_pfn + 1 <<< order)
    else []

/-! ## Observations on a zone -/

/-- Sum of `free_area[o].nr_free << o` over the orders below `n`. -/
def free_units_upto (z : zone) : Nat → Nat
  | 0 => 0
  | n + 1 => free_units_upto z n + (z.free_area n).nr_free * 2 ^ n

/-- Weighted free total of the free areas: `sum_o free_area[o].nr_free * 2^o`. -/
def free_units (cfg : Config) (z : zone) : Nat := free_units_upto z cfg.MAX_ORDER

/-- The list `pcp->lists[0]`, empty while `zone->pcp` is `NULL`. -/
def pcp_list (z : zone) : List Nat :=
  match z.pcp with
  | none => []
  | some pcp => pcp.lists

/-- The counter `pcp->count`, 0 while `zone->pcp` is `NULL`. -/
def pcp_count (z : zone) : Int :=
  match z.pcp with
  | none => 0
  | some pcp => pcp.count

/-! ## Call sequences -/

/-- A call of the facade: `__alloc_pages(order)` or `__free_pages(page, order)`. -/
inductive Call where
  | alloc (order : Nat)
  | free (pfn order : Nat)
deriving DecidableEq, Repr

/-- Total size of a list of blocks `(pfn, order)`. -/
def held_units (held : List (Nat × Nat)) : Nat := (held.map fun b => 2 ^ b.2).sum

/-- One call made by a caller who holds the blocks `s.2`: a successful alloc adds
the returned block to the held blocks, a free removes the freed block from them.
`none` is a fault inside the allocator. -/
def call (cfg : Config) (s : zone × List (Nat × Nat)) : Call → Option (zone × List (Nat × Nat))
  | Call.alloc order =>
    match __alloc_pages cfg s.1 order with
    | none => none
    | some (z, none) => some (z, s.2)
    | some (z, some pg) => some (z, (pg, order) :: s.2)
  | Call.free pfn order =>
    (__free_pages cfg s.1 pfn order).map fun z => (z, s.2.erase (pfn, order))

/-- A sequence of calls, left to right. -/
def calls (cfg : Config) : zone × List (Nat × Nat) → List Call → Option (zone × List (Nat × Nat))
  | s, [] => some s
  | s, c :: cs =>
    match call cfg s c with
    | none => none
    | some s1 => calls cfg s1 cs

/-- The caller's side of the contract for a sequence of calls: every free returns a
block that is held at that moment, with the order it was allocated with. -/
def calls_ok (cfg : Config) : zone × List (Nat × Nat) → List Call → Bool
  | _, [] => true
  | s, Call.alloc order :: cs =>
    match call cfg s (Call.alloc order) with
    | none => true
    | some s1 => calls_ok cfg s1 cs
  | s, Call.free pfn order :: cs =>
    decide ((pfn, order) ∈ s.2) &&
      match call cfg s (Call.free pfn order) with
      | none => true
      | some s1 => calls_ok cfg s1 cs

/-- Units accounted for in a state: free units of the free areas, cached pages and
units held by the caller. -/
def total_units (cfg : Config) (s : zone × List (Nat × Nat)) : Int :=
  (free_units cfg s.1 : Int) + pcp_count s.1 + (held_units s.2 : Int)

/-- A sequence of calls on the zone set up by `memory_init`, the caller holding
nothing at the start. -/
def run (cfg : Config) (cs : List Call) : Option (zone × List (Nat × Nat)) :=
  (memory_init cfg).bind fun z0 => calls cfg (z0, []) cs

/-- `memory_init` succeeds and the sequence of calls respects the caller's side of
the contract. -/
def run_ok (cfg : Config) (cs : List Call) : Bool :=
  match memory_init cfg with
  | none => false
  | some z0 => calls_ok cfg (z0, []) cs

/-- A small configuration for concrete checks: `MAX_ORDER = 11`, `BATCH_SIZE = 1`
(so `high = 6`, `batch = 1`), a region of 8 pages, page frame numbers 8 to 15. -/
def cfg8 : Config := { MAX_ORDER := 11, BATCH_SIZE := 1, start_pfn := 8, end_pfn := 16 }

/-- A region of three pages, page frames 8 to 10, with `MAX_ORDER = 11` and
`BATCH_SIZE = 1`: the bootstrap loop cuts it into a block of order 1 at page 8 and a
block of order 0 at page 10. -/
def cfg3 : Config := { MAX_ORDER := 11, BATCH_SIZE := 1, start_pfn := 8, end_pfn := 11 }

/-- The zone `memory_init` sets up for `cfg8`: one free block of order 3 at page 8. -/
def zone8 : zone := (memory_init cfg8).getD (memory_init_zone cfg8)

/-- The zone of `cfg8` after `__alloc_pages(0)` and `__free_pages` of the page
obtained: page 8 sits in the per-CPU cache. -/
def zone8_cached : zone :=
  ((run cfg8 [Call.alloc 0, Call.free 8 0]).getD (zone8, [])).1

/-! ## Well-formed states -/

/-- Block `(pfn, order)` lies inside the region. -/
def block_in (cfg : Config) (b : Nat × Nat) : Prop :=
  cfg.start_pfn ≤ b.1 ∧ b.1 + 2 ^ b.2 ≤ cfg.end_pfn

/-- Blocks `(pfn, order)` without a page in common. -/
def disjoint_blocks (a b : Nat × Nat) : Prop :=
  a.1 + 2 ^ a.2 ≤ b.1 ∨ b.1 + 2 ^ b.2 ≤ a.1

/-- Well-formedness of a zone, relative to the list `busy` of the blocks that are
not free: the blocks held by callers or in flight inside an operation, and the
pages of the per-CPU cache as blocks of order 0. -/
structure zone_inv (cfg : Config) (z : zone) (busy : List (Nat × Nat)) : Prop where
  nr_free_eq : ∀ o, (z.free_area o).nr_free = (z.free_area o).free_list.length
  nodup : ∀ o, (z.free_area o).free_list.Nodup
  empty_above : ∀ o, cfg.MAX_ORDER ≤ o → (z.free_area o).free_list = []
  marked : ∀ o p, p ∈ (z.free_area o).free_list → PageBuddy z p = true ∧ page_order z p = o
  linked : ∀ p, pfn_valid_within cfg p = true → PageBuddy z p = true →
    p ∈ (z.free_area (page_order z p)).free_list
  free_in : ∀ o p, p ∈ (z.free_area o).free_list → block_in cfg (p, o) ∧ 2 ^ o ∣ p
  free_disj : ∀ o1 p1 o2 p2, p1 ∈ (z.free_area o1).free_list →
    p2 ∈ (z.free_area o2).free_list → p1 ≠ p2 → disjoint_blocks (p1, o1) (p2, o2)
  coalesced : ∀ o p, o < min cfg.MAX_ORDER (pageblock_order + 1) - 1 →
    p ∈ (z.free_area o).free_list → __find_buddy_pfn p o ∉ (z.free_area o).free_list
  busy_in : ∀ b ∈ busy, block_in cfg b ∧ 2 ^ b.2 ∣ b.1 ∧ b.2 < cfg.MAX_ORDER
  busy_free : ∀ b ∈ busy, ∀ o p, p ∈ (z.free_area o).free_list → disjoint_blocks b (p, o)
  busy_disj : busy.Pairwise disjoint_blocks
  pcp_busy : ∀ q ∈ pcp_list z, (q, 0) ∈ busy

/-- Every free block of the zone lies inside the window `[lo, hi)`. -/
def free_within (lo hi : Nat) (z : zone) : Prop :=
  ∀ o p, p ∈ (z.free_area o).free_list → lo ≤ p ∧ p + 2 ^ o ≤ hi

/-- Units of the free blocks of the orders below `n` that lie inside the window
`[a, a + 2^j)`. -/
def window_units_upto (z : zone) (a j : Nat) : Nat → Nat
  | 0 => 0
  | n + 1 =>
    window_units_upto z a j n +
      (z.free_area n).free_list.countP
        (fun q => decide (a ≤ q ∧ q + 2 ^ n ≤ a + 2 ^ j)) * 2 ^ n

/-- Well-formedness of the allocator state seen by a caller holding the blocks
`s.2`: the cache exists, `count` is the length of its list, `high` and `batch` are
as `pageset_init` set them, and the zone is well-formed with the cached pages and
the held blocks as busy blocks. -/
def alloc_inv (cfg : Config) (s : zone × List (Nat × Nat)) : Prop :=
  ∃ pcp, s.1.pcp = some pcp ∧ pcp.count = (pcp.lists.length : Int) ∧
    (pcp.high = 6 * cfg.BATCH_SIZE ∧ pcp.batch = max 1 cfg.BATCH_SIZE) ∧
    zone_inv cfg s.1 (pcp.lists.map (fun q => (q, 0)) ++ s.2)

/-! ## The parent index and the bulk refill in the words of the specification -/

/-- Parent index as the specification words it, `parent_of(index, order) =
index AND NOT(1 << order)`, which is `P = B & ~(1 << O)` in the doc comment of
`__find_buddy_pfn`.  On the 64-bit words of the source `~x` is `x ^ (2^64 - 1)`. -/
def parent_of (index order : Nat) : Nat := index &&& ((1 <<< order) ^^^ (2 ^ 64 - 1))

/-- The bulk refill as the specification words it: call `take_smallest(0)` up to `n`
times, stopping early when the zone is exhausted.  The result is the zone and the
blocks obtained, first obtained first. -/
def take_smallest_upto (cfg : Config) : Nat → zone → zone × List Nat
  | 0, z => (z, [])
  | n + 1, z =>
    match (__rmqueue_smallest cfg z 0).2 with
    | none => ((__rmqueue_smallest cfg z 0).1, [])
    | some pg =>
      ((take_smallest_upto cfg n (__rmqueue_smallest cfg z 0).1).1,
       pg :: (take_smallest_upto cfg n (__rmqueue_smallest cfg z 0).1).2)

/-! ## Call sequences on the zone -/

/-- A call on the zone itself: `__rmqueue_smallest(zone, order)` (`take_smallest`)
or `__free_one_page(zone, page, pfn, order)` (`give_back`). -/
inductive ZoneCall where
  | take_smallest (order : Nat)
  | give_back (pfn order : Nat)
deriving DecidableEq, Repr

/-- One zone call made by a caller who holds the blocks `s.2`. -/
def zone_call (cfg : Config) (s : zone × List (Nat × Nat)) : ZoneCall → zone × List (Nat × Nat)
  | ZoneCall.take_smallest order =>
    match (__rmqueue_smallest cfg s.1 order).2 with
    | none => ((__rmqueue_smallest cfg s.1 order).1, s.2)
    | some pg => ((__rmqueue_smallest cfg s.1 order).1, (pg, order) :: s.2)
  | ZoneCall.give_back pfn order => (__free_one_page cfg s.1 pfn order, s.2.erase (pfn, order))

/-- A sequence of zone calls, left to right. -/
def zone_calls (cfg : Config) :
    zone × List (Nat × Nat) → List ZoneCall → zone × List (Nat × Nat)
  | s, [] => s
  | s, c :: cs => zone_calls cfg (zone_call cfg s c) cs

/-- The caller's side of the contract for a sequence of zone calls: every
`give_back` returns a block that is held at that moment, with its order. -/
def zone_calls_ok (cfg : Config) : zone × List (Nat × Nat) → List ZoneCall → Bool
  | _, [] => true
  | s, ZoneCall.take_smallest order :: cs =>
    zone_calls_ok cfg (zone_call cfg s (ZoneCall.take_smallest order)) cs
  | s, ZoneCall.give_back pfn order :: cs =>
    decide ((pfn, order) ∈ s.2) &&
      zone_calls_ok cfg (zone_call cfg s (ZoneCall.give_back pfn order)) cs

/-- A sequence of zone calls on the zone set up by `memory_init`. -/
def zone_run (cfg : Config) (cs : List ZoneCall) : Option (zone × List (Nat × Nat)) :=
  (memory_init cfg).map fun z0 => zone_calls cfg (z0, []) cs

/-- `memory_init` succeeds and the zone calls respect the caller's side of the
contract. -/
def zone_run_ok (cfg : Config) (cs : List ZoneCall) : Bool :=
  match memory_init cfg with
  | none => false
  | some z0 => zone_calls_ok cfg (z0, []) cs

/-! ## Ownership of units -/

/-- Unit `u` is one of the `2^order` units of block `b = (pfn, order)`. -/
def block_covers (u : Nat) (b : Nat × Nat) : Bool := decide (b.1 ≤ u ∧ u < b.1 + 2 ^ b.2)

/-- The free blocks `(pfn, order)` of the free areas `free_area[0 .. MAX_ORDER-1]`. -/
def free_blocks (cfg : Config) (z : zone) : List (Nat × Nat) :=
  (List.range cfg.MAX_ORDER).flatMap fun o => (z.free_area o).free_list.map fun p => (p, o)

/-- Number of owners of unit `u`: the free blocks whose range holds `u`, the
entries of the per-CPU list that are `u`, and the held blocks whose range holds `u`. -/
def owners (cfg : Config) (s : zone × List (Nat × Nat)) (u : Nat) : Nat :=
  (free_blocks cfg s.1).countP (block_covers u) + (pcp_list s.1).count u +
    s.2.countP (block_covers u)

/-- The blocks that `expand(zone, page, low, high, area)` cuts the block of order
`high` at `pg` into: the block of order `low` at `pg`, which stays with the caller, and
for every order `j` from `low` to `high - 1` the upper half at `pg + 2^j`. -/
def expand_blocks (pg low high : Nat) : List (Nat × Nat) :=
  (pg, low) :: (List.range' low (high - low)).map (fun j => (pg + 2 ^ j, j))

/-! ## `__free_one_page` with checked accesses to page records -/

/-- The record of page frame `pfn` looked up in `mem_map`, which has one entry for
each page of the region: `none` for a page frame outside the region. -/
def lookup_page (cfg : Config) (z : zone) (pfn : Nat) : Option page :=
  if cfg.start_pfn ≤ pfn ∧ pfn < cfg.end_pfn then some (z.mem_map pfn) else none

/-- The test `page_is_buddy(page, buddy, order)` with the access to the record of
`buddy` checked. -/
def page_is_buddy_checked (cfg : Config) (z : zone) (buddy order : Nat) : Option Bool :=
  (lookup_page cfg z buddy).map fun _ => page_is_buddy z buddy order

/-- The merge loop of `__free_one_page` as in `__free_one_page_merge`, with every
access to the record of the buddy checked: `none` when a record outside the region
is read, unlinked or modified. -/
def __free_one_page_merge_checked (cfg : Config) (max_order : Nat) :
    Nat → zone → Nat → Nat → Nat → Option (zone × Nat × Nat × Nat)
  | 0, z, pfn, order, buddy_pfn => some (z, pfn, order, buddy_pfn)
  | fuel + 1, z, pfn, order, buddy_pfn =>
    if order < max_order - 1 then
      if !pfn_valid_within cfg (__find_buddy_pfn pfn order) then
        some (z, pfn, order, __find_buddy_pfn pfn order)
      else
        match page_is_buddy_checked cfg z (__find_buddy_pfn pfn order) order with
        | none => none
        | some false => some (z, pfn, order, __find_buddy_pfn pfn order)
        | some true =>
          __free_one_page_merge_checked cfg max_order fuel
            (rmv_page_order
              (set_free_area (list_del z (__find_buddy_pfn pfn order)) order
                { free_list :=
                    ((list_del z (__find_buddy_pfn pfn order)).free_area order).free_list
                  nr_free := nr_free_dec (z.free_area order).nr_free })
              (__find_buddy_pfn pfn order))
            (__find_buddy_pfn pfn order &&& pfn) (order + 1) (__find_buddy_pfn pfn order)
    else some (z, pfn, order, buddy_pfn)

/-- The placement test as in `__free_one_page_tail`, with the access to the record
of the buddy of the next order checked. -/
def __free_one_page_tail_checked (cfg : Config) (z : zone) (pfn order buddy_pfn : Nat) :
    Option Bool :=
  if order = 0 then some false
  else if decide (order < cfg.MAX_ORDER - 2) && pfn_valid_within cfg buddy_pfn then
    if pfn_valid_within cfg (__find_buddy_pfn (buddy_pfn &&& pfn) (order + 1)) then
      page_is_buddy_checked cfg z (__find_buddy_pfn (buddy_pfn &&& pfn) (order + 1)) (order + 1)
    else some false
  else some false

/-- The code from `done_merging` on as in `__free_one_page_place`, with the accesses
to the record of the page (`set_page_order`, `list_add`) and of the buddy of the next
order checked. -/
def __free_one_page_place_checked (cfg : Config) (z : zone) (pfn order buddy_pfn : Nat) :
    Option zone :=
  match lookup_page cfg z pfn with
  | none => none
  | some _ =>
    match __free_one_page_tail_checked cfg (set_page_order z pfn order) pfn order buddy_pfn with
    | none => none
    | some tail =>
      some (set_free_area (set_page_order z pfn order) order
        { free_list :=
            if tail then (z.free_area order).free_list ++ [pfn]
            else pfn :: (z.free_area order).free_list
          nr_free := (z.free_area order).nr_free + 1 })

/-- The function `__free_one_page` with every access to a page record checked. -/
def __free_one_page_checked (cfg : Config) (z : zone) (pfn order : Nat) : Option zone :=
  match __free_one_page_merge_checked cfg (min cfg.MAX_ORDER (pageblock_order + 1))
      (min cfg.MAX_ORDER (pageblock_order + 1) - 1 - order) z pfn order 0 with
  | none => none
  | some m => __free_one_page_place_checked cfg m.1 m.2.1 m.2.2.1 m.2.2.2

/-! ## The free path as written: `page_is_buddy` may end without a value

The source of `page_is_buddy` has one `return`, on the path where the buddy is marked
free with the tested order.  On every other path control reaches the end of the function
and no value is returned, while both callers test the value.  The functions of this
section follow the free path of the source with that in view: their result is `none` where
a caller reads the value of a call of `page_is_buddy` that returned none, or the local
`buddy_pfn` of `__free_one_page` before it is assigned (and, as before, where `zone->pcp`
is dereferenced while `NULL` or the drain starts on an empty list). -/

/-- The `while (order < max_order - 1)` loop of `__free_one_page` (label
`continue_merging`), with the value of `page_is_buddy` taken from `page_is_buddy_ret`.
The first argument bounds the number of iterations, which is at most
`max_order - 1 - order` because every iteration raises `order`.  The result is the zone
and the values of `pfn`, `order` and `buddy_pfn` at `done_merging`; `none` where
`!page_is_buddy(page, buddy, order)` tests a value that was not returned. -/
def __free_one_page_merge_ret (cfg : Config) (max_order : Nat) :
    Nat → zone → Nat → Nat → Nat → Option (zone × Nat × Nat × Nat)
  | 0, z, pfn, order, buddy_pfn => some (z, pfn, order, buddy_pfn)
  | fuel + 1, z, pfn, order, buddy_pfn =>
    if order < max_order - 1 then
      if !pfn_valid_within cfg (__find_buddy_pfn pfn order) then
        some (z, pfn, order, __find_buddy_pfn pfn order)
      else
        match page_is_buddy_ret z (__find_buddy_pfn pfn order) order with
        | none => none
        | some v =>
          if v = 0 then some (z, pfn, order, __find_buddy_pfn pfn order)
          else
            __free_one_page_merge_ret cfg max_order fuel
              (rmv_page_order
                (set_free_area (list_del z (__find_buddy_pfn pfn order)) order
                  { free_list :=
                      ((list_del z (__find_buddy_pfn pfn order)).free_area order).free_list
                    nr_free := nr_free_dec (z.free_area order).nr_free })
                (__find_buddy_pfn pfn order))
              (__find_buddy_pfn pfn order &&& pfn) (order + 1) (__find_buddy_pfn pfn order)
    else some (z, pfn, order, buddy_pfn)

/-- The placement test of `__free_one_page` after `done_merging`: `some true` when the
block goes to the tail of its list, `some false` when it goes to the head, `none` where
`pfn_valid_within(buddy_pfn) && page_is_buddy(higher_page, higher_buddy, order + 1)`
tests a value of `page_is_buddy` that was not returned. -/
def __free_one_page_tail_ret (cfg : Config) (z : zone) (pfn order buddy_pfn : Nat) :
    Option Bool :=
  if order = 0 then some false
  else if decide (order < cfg.MAX_ORDER - 2) && pfn_valid_within cfg buddy_pfn then
    if pfn_valid_within cfg (__find_buddy_pfn (buddy_pfn &&& pfn) (order + 1)) then
      (page_is_buddy_ret z (__find_buddy_pfn (buddy_pfn &&& pfn) (order + 1)) (order + 1)).map
        fun v => v != 0
    else some false
  else some false

/-- Code of `__free_one_page` from `done_merging` on: record the order, link the block
at the head or at the tail of `free_area[order]`, and count it. -/
def __free_one_page_place_ret (cfg : Config) (z : zone) (pfn order buddy_pfn : Nat) :
    Option zone :=
  (__free_one_page_tail_ret cfg (set_page_order z pfn order) pfn order buddy_pfn).map
    fun tail =>
      set_free_area (set_page_order z pfn order) order
        { free_list :=
            if tail then (z.free_area order).free_list ++ [pfn]
            else pfn :: (z.free_area order).free_list
          nr_free := (z.free_area order).nr_free + 1 }

/-- The function `__free_one_page(zone, page, pfn, order)`.  The local `buddy_pfn` has no
initialiser in the source.  Where the loop body runs (`order < max_order - 1`) it is
assigned before it is read, and where `order == 0` or `order >= MAX_ORDER - 2` the test
after `done_merging` does not read it; in these cases the 0 passed to the loop as the
initial value is never read.  In the remaining case, where the loop body never runs and
`0 < order < MAX_ORDER - 2`, the test reads `buddy_pfn` before it is assigned: no
result. -/
def __free_one_page_ret (cfg : Config) (z : zone) (pfn order : Nat) : Option zone :=
  if order < min cfg.MAX_ORDER (pageblock_order + 1) - 1 ∨ order = 0 ∨
      cfg.MAX_ORDER - 2 ≤ order then
    (__free_one_page_merge_ret cfg (min cfg.MAX_ORDER (pageblock_order + 1))
      (min cfg.MAX_ORDER (pageblock_order + 1) - 1 - order) z pfn order 0).bind
      fun m => __free_one_page_place_ret cfg m.1 m.2.1 m.2.2.1 m.2.2.2
  else none

/-- The function `__free_pages_ok`. -/
def __free_pages_ok_ret (cfg : Config) (z : zone) (pfn order : Nat) : Option zone :=
  __free_one_page_ret cfg z pfn order

/-- The function `free_pcppages_bulk(zone, count, pcp)`: move up to `count` pages from
the tail of the cache to a local list, then give each back with
`__free_one_page(zone, page, pfn, 0)`, first moved first.  The first `list_last_entry` is
not guarded in the source; on an empty list it is a fault. -/
def free_pcppages_bulk_ret (cfg : Config) (z : zone) (count : Int) (pcp : per_cpu_pages) :
    Option zone :=
  if pcp.lists = [] then none
  else
    (free_pcppages_bulk_loop pcp.lists.length count pcp []).2.foldlM
      (fun z pg => __free_one_page_ret cfg z pg 0)
      { z with pcp := some (free_pcppages_bulk_loop pcp.lists.length count pcp []).1 }

/-- The function `free_unref_page_commit(page, pfn)`. -/
def free_unref_page_commit_ret (cfg : Config) (z : zone) (pfn : Nat) : Option zone :=
  match z.pcp with
  | none => none
  | some pcp =>
    if pcp.count + 1 ≥ (pcp.high : Int) then
      free_pcppages_bulk_ret cfg
        { z with pcp := some { pcp with lists := pfn :: pcp.lists, count := pcp.count + 1 } }
        (pcp.batch : Int) { pcp with lists := pfn :: pcp.lists, count := pcp.count + 1 }
    else some { z with pcp := some { pcp with lists := pfn :: pcp.lists, count := pcp.count + 1 } }

/-- The function `free_unref_page`: free a 0-order page. -/
def free_unref_page_ret (cfg : Config) (z : zone) (pfn : Nat) : Option zone :=
  free_unref_page_commit_ret cfg z pfn

/-- The function `free_the_page`. -/
def free_the_page_ret (cfg : Config) (z : zone) (pfn order : Nat) : Option zone :=
  if order = 0 then free_unref_page_ret cfg z pfn else __free_pages_ok_ret cfg z pfn order

/-- The function `__free_pages(page, order)`. -/
def __free_pages_ret (cfg : Config) (z : zone) (pfn order : Nat) : Option zone :=
  free_the_page_ret cfg z pfn order

/-- The loop `while (start_pfn < end_pfn)` of `memory_init`.  The first argument bounds
the iterations; running out of it with pages left is reported as `none`. -/
def memory_init_loop_ret (cfg : Config) : Nat → zone → Nat → Option zone
  | 0, z, start_pfn => if start_pfn < cfg.end_pfn then none else some z
  | fuel + 1, z, start_pfn =>
    if start_pfn < cfg.end_pfn then
      match memory_init_order cfg.end_pfn start_pfn
          (min (cfg.MAX_ORDER - 1) (__ffs start_pfn)) with
      | none => none
      | some order =>
        match __free_pages_ret cfg z start_pfn order with
        | none => none
        | some z1 => memory_init_loop_ret cfg fuel z1 (start_pfn + 1 <<< order)
    else some z

/-- The function `memory_init`: free the whole region block by block, then
`pageset_init`. -/
def memory_init_ret (cfg : Config) : Option zone :=
  (memory_init_loop_ret cfg (cfg.end_pfn - cfg.start_pfn) (memory_init_zone cfg)
    cfg.start_pfn).map (pageset_init cfg)

/-- One call made by a caller who holds the blocks `s.2`: a successful alloc adds the
returned block to the held blocks, a free removes the freed block from them.  `none` is a
fault inside the allocator or a call of `page_is_buddy` that ended without a value. -/
def call_ret (cfg : Config) (s : zone × List (Nat × Nat)) :
    Call → Option (zone × List (Nat × Nat))
  | Call.alloc order =>
    match __alloc_pages cfg s.1 order with
    | none => none
    | some (z, none) => some (z, s.2)
    | some (z, some pg) => some (z, (pg, order) :: s.2)
  | Call.free pfn order =>
    (__free_pages_ret cfg s.1 pfn order).map fun z => (z, s.2.erase (pfn, order))

/-- A sequence of calls, left to right. -/
def calls_ret (cfg : Config) :
    zone × List (Nat × Nat) → List Call → Option (zone × List (Nat × Nat))
  | s, [] => some s
  | s, c :: cs =>
    match call_ret cfg s c with
    | none => none
    | some s1 => calls_ret cfg s1 cs

/-- The caller's side of the contract for a sequence of calls: every free returns a
block that is held at that moment, with the order it was allocated with. -/
def calls_ok_ret (cfg : Config) : zone × List (Nat × Nat) → List Call → Bool
  | _, [] => true
  | s, Call.alloc order :: cs =>
    match call_ret cfg s (Call.alloc order) with
    | none => true
    | some s1 => calls_ok_ret cfg s1 cs
  | s, Call.free pfn order :: cs =>
    decide ((pfn, order) ∈ s.2) &&
      match call_ret cfg s (Call.free pfn order) with
      | none => true
      | some s1 => calls_ok_ret cfg s1 cs

/-- A sequence of calls on the zone set up by `memory_init`, the caller holding nothing
at the start. -/
def run_ret (cfg : Config) (cs : List Call) : Option (zone × List (Nat × Nat)) :=
  (memory_init_ret cfg).bind fun z0 => calls_ret cfg (z0, []) cs

/-- `memory_init` returns and the sequence of calls respects the caller's side of the
contract. -/
def run_ok_ret (cfg : Config) (cs : List Call) : Bool :=
  match memory_init_ret cfg with
  | none => false
  | some z0 => calls_ok_ret cfg (z0, []) cs

/-- One zone call made by a caller who holds the blocks `s.2`: `__rmqueue_smallest`
(`take_smallest`) or `__free_one_page` (`give_back`). -/
def zone_call_ret (cfg : Config) (s : zone × List (Nat × Nat)) :
    ZoneCall → Option (zone × List (Nat × Nat))
  | ZoneCall.take_smallest order =>
    match (__rmqueue_smallest cfg s.1 order).2 with
    | none => some ((__rmqueue_smallest cfg s.1 order).1, s.2)
    | some pg => some ((__rmqueue_smallest cfg s.1 order).1, (pg, order) :: s.2)
  | ZoneCall.give_back pfn order =>
    (__free_one_page_ret cfg s.1 pfn order).map fun z => (z, s.2.erase (pfn, order))

/-- A sequence of zone calls, left to right. -/
def zone_calls_ret (cfg : Config) :
    zone × List (Nat × Nat) → List ZoneCall → Option (zone × List (Nat × Nat))
  | s, [] => some s
  | s, c :: cs =>
    match zone_call_ret cfg s c with
    | none => none
    | some s1 => zone_calls_ret cfg s1 cs

/-- The caller's side of the contract for a sequence of zone calls: every `give_back`
returns a block that is held at that moment, with its order. -/
def zone_calls_ok_ret (cfg : Config) : zone × List (Nat × Nat) → List ZoneCall → Bool
  | _, [] => true
  | s, ZoneCall.take_smallest order :: cs =>
    match zone_call_ret cfg s (ZoneCall.take_smallest order) with
    | none => true
    | some s1 => zone_calls_ok_ret cfg s1 cs
  | s, ZoneCall.give_back pfn order :: cs =>
    decide ((pfn, order) ∈ s.2) &&
      match zone_call_ret cfg s (ZoneCall.give_back pfn order) with
      | none => true
      | some s1 => zone_calls_ok_ret cfg s1 cs

/-- A sequence of zone calls on the zone set up by `memory_init`. -/
def zone_run_ret (cfg : Config) (cs : List ZoneCall) : Option (zone × List (Nat × Nat)) :=
  (memory_init_ret cfg).bind fun z0 => zone_calls_ret cfg (z0, []) cs

/-- `memory_init` returns and the zone calls respect the caller's side of the contract. -/
def zone_run_ok_ret (cfg : Config) (cs : List ZoneCall) : Bool :=
  match memory_init_ret cfg with
  | none => false
  | some z0 => zone_calls_ok_ret cfg (z0, []) cs

/-- The state a sequence of calls reaches on the zone set up by `memory_init`, for
naming it in concrete checks; the zone before `memory_init` where `run_ret` is `none`. -/
def run_state (cfg : Config) (cs : List Call) : zone × List (Nat × Nat) :=
  (run_ret cfg cs).getD (memory_init_zone cfg, [])

/-- The state a sequence of zone calls reaches on the zone set up by `memory_init`, for
naming it in concrete checks; the zone before `memory_init` where `zone_run_ret` is
`none`. -/
def zone_run_state (cfg : Config) (cs : List ZoneCall) : zone × List (Nat × Nat) :=
  (zone_run_ret cfg cs).getD (memory_init_zone cfg, [])

/-- A region of 8 pages, page frames 8 to 15, with `MAX_ORDER = 2` and `BATCH_SIZE = 1`:
the largest block has order 1, so `max_order - 1 = 1` and the merge loop of
`__free_one_page` runs at order 0 only. -/
def cfg2 : Config := { MAX_ORDER := 2, BATCH_SIZE := 1, start_pfn := 8, end_pfn := 16 }

/-- A region of 64 pages, page frames 16 to 79, with `MAX_ORDER = 11` and
`BATCH_SIZE = 1`: the bootstrap loop cuts it into the blocks (16, order 4),
(32, order 5) and (64, order 4). -/
def cfg64 : Config := { MAX_ORDER := 11, BATCH_SIZE := 1, start_pfn := 16, end_pfn := 80 }

/-- A region of 6 pages, page frames 8 to 13, with `MAX_ORDER = 11` and `BATCH_SIZE = 1`:
the bootstrap loop cuts it into the blocks (8, order 2) and (12, order 1). -/
def cfg6 : Config := { MAX_ORDER := 11, BATCH_SIZE := 1, start_pfn := 8, end_pfn := 14 }

/-- A region of 4096 pages, page frames 4096 to 8191, with `MAX_ORDER = 13` and
`BATCH_SIZE = 1`: `memory_init` frees it as one block of order 12, above the last order,
10, that the merge loop reaches. -/
def cfg13 : Config := { MAX_ORDER := 13, BATCH_SIZE := 1, start_pfn := 4096, end_pfn := 8192 }

/-! # Properties -/

/-! ## Bit arithmetic of buddies, accessors, and the allocation path -/

theorem xor_one_eq (k : Nat) : k ^^^ 1 = if k % 2 = 0 then k + 1 else k - 1 := by
  have h1 : (k ^^^ 1) / 2 = k / 2 := by rw [Nat.xor_div_two]; simp
  have h2 := @Nat.xor_mod_two_eq_one k 1
  split <;> omega

theorem and_xor_one_eq (k : Nat) : (k ^^^ 1) &&& k = k - k % 2 := by
  have h1 : ((k ^^^ 1) &&& k) / 2 = k / 2 := by rw [Nat.and_div_two, Nat.xor_div_two]; simp
  have h2 := @Nat.xor_mod_two_eq_one k 1
  have h3 := @Nat.and_mod_two_eq_one (k ^^^ 1) k
  omega

theorem two_pow_mul_xor (o a b : Nat) : (2 ^ o * a) ^^^ (2 ^ o * b) = 2 ^ o * (a ^^^ b) := by
  apply Nat.eq_of_testBit_eq
  intro i
  simp only [Nat.testBit_xor, Nat.testBit_mul_pow_two]
  cases decide (i ≥ o) <;> simp

theorem two_pow_mul_and (o a b : Nat) : (2 ^ o * a) &&& (2 ^ o * b) = 2 ^ o * (a &&& b) := by
  apply Nat.eq_of_testBit_eq
  intro i
  simp only [Nat.testBit_and, Nat.testBit_mul_pow_two]
  cases decide (i ≥ o) <;> simp

theorem find_buddy_pfn_eq (p o : Nat) : __find_buddy_pfn p o = p ^^^ 2 ^ o := by
  simp [__find_buddy_pfn, Nat.one_shiftLeft]

/-- buddy of a block whose parent starts at the block itself -/
theorem find_buddy_pfn_low (p o : Nat) (h : 2 ^ (o + 1) ∣ p) :
    __find_buddy_pfn p o = p + 2 ^ o := by
  obtain ⟨k, rfl⟩ := h
  rw [find_buddy_pfn_eq]
  have : 2 ^ (o + 1) * k = 2 ^ o * (2 * k) := by rw [pow_succ]; ring
  rw [this]
  conv => lhs; rhs; rw [← Nat.mul_one (2 ^ o)]
  rw [two_pow_mul_xor, xor_one_eq]
  have : (2 * k) % 2 = 0 := by omega
  simp [this]; ring

theorem find_buddy_pfn_high (p o : Nat) (h : 2 ^ (o + 1) ∣ p) :
    __find_buddy_pfn (p + 2 ^ o) o = p := by
  rw [← find_buddy_pfn_low p o h, find_buddy_pfn_eq, find_buddy_pfn_eq, Nat.xor_cancel_right]

theorem aligned_cases (p o : Nat) (h : 2 ^ o ∣ p) :
    2 ^ (o + 1) ∣ p ∨ ∃ q, 2 ^ (o + 1) ∣ q ∧ p = q + 2 ^ o := by
  obtain ⟨k, rfl⟩ := h
  rcases Nat.even_or_odd' k with ⟨m, hm | hm⟩
  · left; exact ⟨m, by rw [hm, pow_succ]; ring⟩
  · right; exact ⟨2 ^ (o + 1) * m, ⟨m, rfl⟩, by rw [hm, pow_succ]; ring⟩

theorem buddy_and_low (p o : Nat) (h : 2 ^ (o + 1) ∣ p) :
    __find_buddy_pfn p o &&& p = p := by
  rw [find_buddy_pfn_low p o h]
  obtain ⟨k, rfl⟩ := h
  have e1 : 2 ^ (o + 1) * k + 2 ^ o = 2 ^ o * (2 * k ^^^ 1) := by
    rw [xor_one_eq]; have : (2 * k) % 2 = 0 := by omega
    simp [this]; rw [pow_succ]; ring
  have e2 : 2 ^ (o + 1) * k = 2 ^ o * (2 * k) := by rw [pow_succ]; ring
  rw [e1]
  conv => lhs; rhs; rw [e2]
  rw [two_pow_mul_and, and_xor_one_eq, e2]
  have : (2 * k) % 2 = 0 := by omega
  simp [this]

theorem buddy_and_high (p o : Nat) (h : 2 ^ (o + 1) ∣ p) :
    __find_buddy_pfn (p + 2 ^ o) o &&& (p + 2 ^ o) = p := by
  rw [find_buddy_pfn_high p o h]
  have := buddy_and_low p o h
  rw [find_buddy_pfn_low p o h, Nat.and_comm] at this
  exact this

@[simp] theorem set_free_area_free_area (z : zone) (c : Nat) (a : free_area) (o : Nat) :
    (set_free_area z c a).free_area o = if o = c then a else z.free_area o := by
  simp [set_free_area, Function.update_apply]
@[simp] theorem set_free_area_mem_map (z : zone) (c : Nat) (a : free_area) :
    (set_free_area z c a).mem_map = z.mem_map := rfl
@[simp] theorem set_free_area_pcp (z : zone) (c : Nat) (a : free_area) :
    (set_free_area z c a).pcp = z.pcp := rfl
@[simp] theorem set_page_order_free_area (z : zone) (p o : Nat) :
    (set_page_order z p o).free_area = z.free_area := rfl
@[simp] theorem set_page_order_pcp (z : zone) (p o : Nat) :
    (set_page_order z p o).pcp = z.pcp := rfl
@[simp] theorem rmv_page_order_free_area (z : zone) (p : Nat) :
    (rmv_page_order z p).free_area = z.free_area := rfl
@[simp] theorem rmv_page_order_pcp (z : zone) (p : Nat) :
    (rmv_page_order z p).pcp = z.pcp := rfl
@[simp] theorem list_del_mem_map (z : zone) (p : Nat) : (list_del z p).mem_map = z.mem_map := rfl
@[simp] theorem list_del_free_list (z : zone) (p o : Nat) :
    ((list_del z p).free_area o).free_list = (z.free_area o).free_list.erase p := rfl
@[simp] theorem list_del_nr_free (z : zone) (p o : Nat) :
    ((list_del z p).free_area o).nr_free = (z.free_area o).nr_free := rfl

@[simp] theorem PageBuddy_set_free_area (z : zone) (c : Nat) (a : free_area) (p : Nat) :
    PageBuddy (set_free_area z c a) p = PageBuddy z p := rfl
@[simp] theorem page_order_set_free_area (z : zone) (c : Nat) (a : free_area) (p : Nat) :
    page_order (set_free_area z c a) p = page_order z p := rfl
@[simp] theorem PageBuddy_list_del (z : zone) (q p : Nat) :
    PageBuddy (list_del z q) p = PageBuddy z p := rfl
@[simp] theorem page_order_list_del (z : zone) (q p : Nat) :
    page_order (list_del z q) p = page_order z p := rfl
@[simp] theorem PageBuddy_set_page_order (z : zone) (q o p : Nat) :
    PageBuddy (set_page_order z q o) p = if p = q then true else PageBuddy z p := by
  simp only [PageBuddy, set_page_order, Function.update_apply]; split <;> rfl
@[simp] theorem page_order_set_page_order (z : zone) (q o p : Nat) :
    page_order (set_page_order z q o) p = if p = q then o else page_order z p := by
  simp only [page_order, set_page_order, Function.update_apply]; split <;> rfl
@[simp] theorem PageBuddy_rmv_page_order (z : zone) (q p : Nat) :
    PageBuddy (rmv_page_order z q) p = if p = q then false else PageBuddy z p := by
  simp only [PageBuddy, rmv_page_order, Function.update_apply]; split <;> rfl
@[simp] theorem page_order_rmv_page_order (z : zone) (q p : Nat) :
    page_order (rmv_page_order z q) p = if p = q then 0 else page_order z p := by
  simp only [page_order, rmv_page_order, Function.update_apply]; split <;> rfl
@[simp] theorem pcp_list_set_free_area (z : zone) (c : Nat) (a : free_area) :
    pcp_list (set_free_area z c a) = pcp_list z := rfl
@[simp] theorem pcp_list_set_page_order (z : zone) (p o : Nat) :
    pcp_list (set_page_order z p o) = pcp_list z := rfl
@[simp] theorem pcp_list_rmv_page_order (z : zone) (p : Nat) :
    pcp_list (rmv_page_order z p) = pcp_list z := rfl

theorem nr_free_dec_succ (n : Nat) : nr_free_dec (n + 1) = n := by simp [nr_free_dec]

theorem disjoint_blocks_symm {a b : Nat × Nat} (h : disjoint_blocks a b) : disjoint_blocks b a :=
  Or.symm h

/-- Taking the first block of `free_area[c]` off its list turns it into a busy block. -/
theorem zone_inv_take {cfg : Config} {z : zone} {busy : List (Nat × Nat)} {c pg : Nat}
    {rest : List Nat} (h : zone_inv cfg z busy) (hl : (z.free_area c).free_list = pg :: rest) :
    zone_inv cfg (set_free_area (rmv_page_order z pg) c
      { free_list := rest, nr_free := nr_free_dec (z.free_area c).nr_free }) ((pg, c) :: busy) := by
  have hpg : pg ∈ (z.free_area c).free_list := by rw [hl]; exact List.mem_cons_self _ _
  have hnd : pg ∉ rest ∧ rest.Nodup := by
    have := h.nodup c; rw [hl] at this; exact List.nodup_cons.mp this
  have sub : ∀ o p, p ∈ ((set_free_area (rmv_page_order z pg) c
      { free_list := rest, nr_free := nr_free_dec (z.free_area c).nr_free }).free_area o).free_list →
      p ∈ (z.free_area o).free_list ∧ p ≠ pg := by
    intro o p hp
    simp only [set_free_area_free_area, rmv_page_order_free_area] at hp
    by_cases hoc : o = c
    · subst hoc
      simp only [if_true] at hp
      exact ⟨by rw [hl]; exact List.mem_cons_of_mem _ hp, fun e => hnd.1 (e ▸ hp)⟩
    · simp only [hoc, if_false] at hp
      refine ⟨hp, fun e => hoc ?_⟩
      subst e
      exact ((h.marked o p hp).2).symm.trans (h.marked c p hpg).2
  refine ⟨?_, ?_, ?_, ?_, ?_, ?_, ?_, ?_, ?_, ?_, ?_, ?_⟩
  · intro o
    simp only [set_free_area_free_area, rmv_page_order_free_area]
    by_cases hoc : o = c
    · subst hoc
      have := h.nr_free_eq o
      rw [hl] at this
      simp [this, nr_free_dec_succ]
    · simp only [hoc, if_false]; exact h.nr_free_eq o
  · intro o
    simp only [set_free_area_free_area, rmv_page_order_free_area]
    by_cases hoc : o = c
    · simp only [hoc, if_true]; exact hnd.2
    · simp only [hoc, if_false]; exact h.nodup o
  · intro o ho
    simp only [set_free_area_free_area, rmv_page_order_free_area]
    by_cases hoc : o = c
    · subst hoc
      have := h.empty_above o ho
      rw [hl] at this
      exact absurd this (List.cons_ne_nil _ _)
    · simp only [hoc, if_false]; exact h.empty_above o ho
  · intro o p hp
    obtain ⟨hp1, hp2⟩ := sub o p hp
    simp only [PageBuddy_set_free_area, page_order_set_free_area, PageBuddy_rmv_page_order,
      page_order_rmv_page_order, hp2, if_false]
    exact h.marked o p hp1
  · intro p hv hb
    simp only [PageBuddy_set_free_area, PageBuddy_rmv_page_order] at hb
    by_cases hp : p = pg
    · simp [hp] at hb
    · simp only [hp, if_false] at hb
      have hm := h.linked p hv hb
      simp only [page_order_set_free_area, page_order_rmv_page_order, hp, if_false,
        set_free_area_free_area, rmv_page_order_free_area]
      by_cases hoc : page_order z p = c
      · simp only [hoc, if_true]
        rw [hoc, hl] at hm
        exact (List.mem_cons.mp hm).resolve_left hp
      · simp only [hoc, if_false]; exact hm
  · intro o p hp
    exact h.free_in o p (sub o p hp).1
  · intro o1 p1 o2 p2 h1 h2 hne
    exact h.free_disj o1 p1 o2 p2 (sub o1 p1 h1).1 (sub o2 p2 h2).1 hne
  · intro o p ho hp hb
    exact h.coalesced o p ho (sub o p hp).1 (sub o _ hb).1
  · intro b hb
    rcases List.mem_cons.mp hb with rfl | hb
    · have := h.free_in c pg hpg
      refine ⟨this.1, this.2, ?_⟩
      by_contra hc
      have := h.empty_above c (Nat.le_of_not_lt hc)
      rw [hl] at this
      exact List.cons_ne_nil _ _ this
    · exact h.busy_in b hb
  · intro b hb o p hp
    obtain ⟨hp1, hp2⟩ := sub o p hp
    rcases List.mem_cons.mp hb with rfl | hb
    · exact h.free_disj c pg o p hpg hp1 (Ne.symm hp2)
    · exact h.busy_free b hb o p hp1
  · refine List.pairwise_cons.mpr ⟨?_, h.busy_disj⟩
    intro b hb
    exact disjoint_blocks_symm (h.busy_free b hb c pg hpg)
  · intro q hq
    exact List.mem_cons_of_mem _ (h.pcp_busy q hq)

/-- One halving step of `expand`: the upper half becomes a free block. -/
theorem zone_inv_split {cfg : Config} {z : zone} {busy : List (Nat × Nat)} {pg hi : Nat}
    (h : zone_inv cfg z ((pg, hi + 1) :: busy)) :
    zone_inv cfg (set_page_order (set_free_area z hi
      { free_list := (pg + 2 ^ hi) :: (z.free_area hi).free_list
        nr_free := (z.free_area hi).nr_free + 1 }) (pg + 2 ^ hi) hi) ((pg, hi) :: busy) := by
  have hpow : 2 ^ (hi + 1) = 2 * 2 ^ hi := by rw [pow_succ]; ring
  have hpos := Nat.two_pow_pos hi
  have hin := h.busy_in (pg, hi + 1) (List.mem_cons_self _ _)
  have hfree := h.busy_free (pg, hi + 1) (List.mem_cons_self _ _)
  have hdisj := (List.pairwise_cons.mp h.busy_disj).1
  have hq : ∀ o, pg + 2 ^ hi ∉ (z.free_area o).free_list := by
    intro o hm
    have := hfree o _ hm
    have := Nat.two_pow_pos o
    simp only [disjoint_blocks] at *
    omega
  have hpgn : ∀ o, pg ∉ (z.free_area o).free_list := by
    intro o hm
    have := hfree o _ hm
    have := Nat.two_pow_pos o
    simp only [disjoint_blocks] at *
    omega
  have sub : ∀ o p, p ∈ ((set_page_order (set_free_area z hi
      { free_list := (pg + 2 ^ hi) :: (z.free_area hi).free_list
        nr_free := (z.free_area hi).nr_free + 1 }) (pg + 2 ^ hi) hi).free_area o).free_list →
      (p = pg + 2 ^ hi ∧ o = hi) ∨ (p ∈ (z.free_area o).free_list ∧ p ≠ pg + 2 ^ hi) := by
    intro o p hp
    simp only [set_free_area_free_area, set_page_order_free_area] at hp
    by_cases hoc : o = hi
    · subst hoc
      simp only [if_true] at hp
      rcases List.mem_cons.mp hp with e | hp
      · exact Or.inl ⟨e, rfl⟩
      · exact Or.inr ⟨hp, fun e => hq o (e ▸ hp)⟩
    · simp only [hoc, if_false] at hp
      exact Or.inr ⟨hp, fun e => hq o (e ▸ hp)⟩
  have sup : ∀ o p, p ∈ (z.free_area o).free_list → p ∈ ((set_page_order (set_free_area z hi
      { free_list := (pg + 2 ^ hi) :: (z.free_area hi).free_list
        nr_free := (z.free_area hi).nr_free + 1 }) (pg + 2 ^ hi) hi).free_area o).free_list := by
    intro o p hp
    simp only [set_free_area_free_area, set_page_order_free_area]
    by_cases hoc : o = hi
    · subst hoc; simp only [if_true]; exact List.mem_cons_of_mem _ hp
    · simp only [hoc, if_false]; exact hp
  have hnew : block_in cfg (pg + 2 ^ hi, hi) ∧ 2 ^ hi ∣ pg + 2 ^ hi := by
    refine ⟨?_, ?_⟩
    · have := hin.1
      simp only [block_in] at *
      omega
    · exact Nat.dvd_add (Nat.dvd_trans ⟨2, by rw [hpow]; ring⟩ hin.2.1) (Nat.dvd_refl _)
  have hnewd : ∀ o p, p ∈ (z.free_area o).free_list →
      disjoint_blocks (pg + 2 ^ hi, hi) (p, o) := by
    intro o p hp
    have := hfree o p hp
    simp only [disjoint_blocks] at *
    omega
  refine ⟨?_, ?_, ?_, ?_, ?_, ?_, ?_, ?_, ?_, ?_, ?_, ?_⟩
  · intro o
    simp only [set_free_area_free_area, set_page_order_free_area]
    by_cases hoc : o = hi
    · subst hoc; simp [h.nr_free_eq o]
    · simp only [hoc, if_false]; exact h.nr_free_eq o
  · intro o
    simp only [set_free_area_free_area, set_page_order_free_area]
    by_cases hoc : o = hi
    · subst hoc; simp only [if_true]; exact List.nodup_cons.mpr ⟨hq o, h.nodup o⟩
    · simp only [hoc, if_false]; exact h.nodup o
  · intro o ho
    simp only [set_free_area_free_area, set_page_order_free_area]
    by_cases hoc : o = hi
    · subst hoc; have := hin.2.2; simp only at this; omega
    · simp only [hoc, if_false]; exact h.empty_above o ho
  · intro o p hp
    rcases sub o p hp with ⟨rfl, rfl⟩ | ⟨hp1, hp2⟩
    · simp
    · simp only [PageBuddy_set_page_order, page_order_set_page_order, hp2, if_false,
        PageBuddy_set_free_area, page_order_set_free_area]
      exact h.marked o p hp1
  · intro p hv hb
    by_cases hp : p = pg + 2 ^ hi
    · subst hp; simp
    · simp only [PageBuddy_set_page_order, hp, if_false, PageBuddy_set_free_area] at hb
      have := sup _ _ (h.linked p hv hb)
      simpa only [page_order_set_page_order, hp, if_false, page_order_set_free_area] using this
  · intro o p hp
    rcases sub o p hp with ⟨rfl, rfl⟩ | ⟨hp1, _⟩
    · exact hnew
    · exact h.free_in o p hp1
  · intro o1 p1 o2 p2 h1 h2 hne
    rcases sub o1 p1 h1 with ⟨rfl, rfl⟩ | ⟨hp1, _⟩
    · rcases sub o2 p2 h2 with ⟨rfl, rfl⟩ | ⟨hp2, _⟩
      · exact absurd rfl hne
      · exact hnewd o2 p2 hp2
    · rcases sub o2 p2 h2 with ⟨rfl, rfl⟩ | ⟨hp2, _⟩
      · exact disjoint_blocks_symm (hnewd o1 p1 hp1)
      · exact h.free_disj o1 p1 o2 p2 hp1 hp2 hne
  · intro o p ho hp hb
    rcases sub o p hp with ⟨rfl, rfl⟩ | ⟨hp1, hp2⟩
    · rw [find_buddy_pfn_high pg o hin.2.1] at hb
      rcases sub o _ hb with ⟨e, _⟩ | ⟨hb1, _⟩
      · omega
      · exact hpgn o hb1
    · rcases sub o _ hb with ⟨e, rfl⟩ | ⟨hb1, _⟩
      · have e2 : p = pg := by
          have := congrArg (fun x => __find_buddy_pfn x o) e
          simp only [find_buddy_pfn_eq, Nat.xor_cancel_right] at this
          rw [this, ← find_buddy_pfn_eq, find_buddy_pfn_high pg o hin.2.1]
        exact hpgn o (e2 ▸ hp1)
      · exact h.coalesced o p ho hp1 hb1
  · intro b hb
    rcases List.mem_cons.mp hb with rfl | hb
    · refine ⟨?_, Nat.dvd_trans ⟨2, by rw [hpow]; ring⟩ hin.2.1, ?_⟩
      · have := hin.1
        simp only [block_in] at *
        omega
      · have := hin.2.2; simp only at this ⊢; omega
    · exact h.busy_in b (List.mem_cons_of_mem _ hb)
  · intro b hb0 o p hp
    rcases List.mem_cons.mp hb0 with rfl | hb1
    · rcases sub o p hp with ⟨rfl, rfl⟩ | ⟨hp1, _⟩
      · simp only [disjoint_blocks]; omega
      · have := hfree o p hp1
        simp only [disjoint_blocks] at *
        omega
    · rcases sub o p hp with ⟨rfl, rfl⟩ | ⟨hp1, _⟩
      · have := hdisj b hb1
        simp only [disjoint_blocks] at *
        omega
      · exact h.busy_free b (List.mem_cons_of_mem _ hb1) o p hp1
  · refine List.pairwise_cons.mpr ⟨?_, (List.pairwise_cons.mp h.busy_disj).2⟩
    intro b hb
    have := hdisj b hb
    simp only [disjoint_blocks] at *
    omega
  · intro q hq'
    have := h.pcp_busy q hq'
    rcases List.mem_cons.mp this with e | hm
    · simp only [Prod.mk.injEq] at e; omega
    · exact List.mem_cons_of_mem _ hm

theorem two_pow_succ_div_two (n : Nat) : 2 ^ (n + 1) / 2 = 2 ^ n := by
  rw [pow_succ]; omega

/-- `expand` turns the busy block `(pg, high)` into the busy block `(pg, low)`. -/
theorem zone_inv_expand {cfg : Config} {busy : List (Nat × Nat)} {pg low : Nat} :
    ∀ (high : Nat) (z : zone), low ≤ high → zone_inv cfg z ((pg, high) :: busy) →
      zone_inv cfg (expand z pg low high (2 ^ high)) ((pg, low) :: busy) := by
  intro high
  induction high with
  | zero =>
    intro z hl h
    have : low = 0 := by omega
    subst this
    simpa [expand] using h
  | succ n ih =>
    intro z hl h
    by_cases hc : n + 1 > low
    · simp only [expand, hc, if_true, two_pow_succ_div_two]
      exact ih _ (by omega) (zone_inv_split h)
    · have : low = n + 1 := by omega
      subst this
      simpa [expand] using h

theorem free_units_upto_congr (z1 z2 : zone)
    (h : ∀ o, (z1.free_area o).nr_free = (z2.free_area o).nr_free) :
    ∀ n, free_units_upto z1 n = free_units_upto z2 n := by
  intro n
  induction n with
  | zero => rfl
  | succ n ih => simp only [free_units_upto, ih, h]

theorem free_units_upto_set_ge (z : zone) (c : Nat) (a : free_area) :
    ∀ n, n ≤ c → free_units_upto (set_free_area z c a) n = free_units_upto z n := by
  intro n
  induction n with
  | zero => intro _; rfl
  | succ n ih =>
    intro hn
    have hne : n ≠ c := by omega
    simp only [free_units_upto, ih (by omega), set_free_area_free_area, hne, if_false]

theorem free_units_upto_set_lt (z : zone) (c : Nat) (a : free_area) :
    ∀ n, c < n → free_units_upto (set_free_area z c a) n + (z.free_area c).nr_free * 2 ^ c
      = free_units_upto z n + a.nr_free * 2 ^ c := by
  intro n
  induction n with
  | zero => intro h; omega
  | succ n ih =>
    intro hn
    by_cases hnc : n = c
    · subst hnc
      simp only [free_units_upto, free_units_upto_set_ge z n a n (Nat.le_refl _),
        set_free_area_free_area, if_true]
      omega
    · have := ih (by omega)
      simp only [free_units_upto, set_free_area_free_area, hnc, if_false]
      omega

theorem free_units_set_page_order (cfg : Config) (z : zone) (p o : Nat) :
    free_units cfg (set_page_order z p o) = free_units cfg z :=
  free_units_upto_congr (set_page_order z p o) z (fun _ => rfl) cfg.MAX_ORDER

theorem free_units_rmv_page_order (cfg : Config) (z : zone) (p : Nat) :
    free_units cfg (rmv_page_order z p) = free_units cfg z :=
  free_units_upto_congr (rmv_page_order z p) z (fun _ => rfl) cfg.MAX_ORDER

theorem free_units_list_del (cfg : Config) (z : zone) (p : Nat) :
    free_units cfg (list_del z p) = free_units cfg z :=
  free_units_upto_congr (list_del z p) z (fun _ => rfl) cfg.MAX_ORDER

theorem free_units_set_free_area (cfg : Config) (z : zone) (c : Nat) (a : free_area)
    (hc : c < cfg.MAX_ORDER) :
    free_units cfg (set_free_area z c a) + (z.free_area c).nr_free * 2 ^ c
      = free_units cfg z + a.nr_free * 2 ^ c :=
  free_units_upto_set_lt z c a _ hc

/-- `expand` from `high` down to `low` adds `2^high - 2^low` free units. -/
theorem free_units_expand (cfg : Config) (pg low : Nat) :
    ∀ (high : Nat) (z : zone), low ≤ high → high < cfg.MAX_ORDER →
      free_units cfg (expand z pg low high (2 ^ high)) + 2 ^ low = free_units cfg z + 2 ^ high := by
  intro high
  induction high with
  | zero =>
    intro z hl _
    have : low = 0 := by omega
    subst this
    simp [expand]
  | succ n ih =>
    intro z hl hm
    by_cases hc : n + 1 > low
    · simp only [expand, hc, if_true, two_pow_succ_div_two]
      have h1 := ih (set_page_order (set_free_area z n
        { free_list := (pg + 2 ^ n) :: (z.free_area n).free_list
          nr_free := (z.free_area n).nr_free + 1 }) (pg + 2 ^ n) n) (by omega) (by omega)
      rw [free_units_set_page_order] at h1
      have h2 := free_units_set_free_area cfg z n
        { free_list := (pg + 2 ^ n) :: (z.free_area n).free_list
          nr_free := (z.free_area n).nr_free + 1 } (by omega)
      have hpow : 2 ^ (n + 1) = 2 * 2 ^ n := by rw [pow_succ]; ring
      simp only [Nat.add_mul, Nat.one_mul] at h2
      omega
    · have : low = n + 1 := by omega
      subst this
      simp [expand]

theorem expand_pcp (pg low : Nat) : ∀ (high size : Nat) (z : zone),
    (expand z pg low high size).pcp = z.pcp := by
  intro high
  induction high with
  | zero => intro size z; rfl
  | succ n ih =>
    intro size z
    simp only [expand]
    split
    · rw [ih]; rfl
    · rfl

/-- What the scan of `__rmqueue_smallest` does: either every free area from `order`
up is empty and nothing changes, or the first block of the first non-empty one is
taken and expanded. -/
theorem rmqueue_smallest_loop_cases (z : zone) (order : Nat) :
    ∀ (fuel c : Nat),
      ((∀ o, c ≤ o → o < c + fuel → (z.free_area o).free_list = []) ∧
        __rmqueue_smallest_loop z order fuel c = (z, none)) ∨
      (∃ c1 pg rest, c ≤ c1 ∧ c1 < c + fuel ∧
        (∀ o, c ≤ o → o < c1 → (z.free_area o).free_list = []) ∧
        (z.free_area c1).free_list = pg :: rest ∧
        __rmqueue_smallest_loop z order fuel c =
          (expand (set_free_area (rmv_page_order z pg) c1
            { free_list := rest, nr_free := nr_free_dec (z.free_area c1).nr_free })
            pg order c1 (1 <<< c1), some pg)) := by
  intro fuel
  induction fuel with
  | zero =>
    intro c
    left
    exact ⟨fun o h1 h2 => by omega, rfl⟩
  | succ n ih =>
    intro c
    cases hl : (z.free_area c).free_list with
    | nil =>
      rcases ih (c + 1) with ⟨h1, h2⟩ | ⟨c1, pg, rest, h1, h2, h3, h4, h5⟩
      · left
        refine ⟨?_, ?_⟩
        · intro o ho1 ho2
          by_cases hoc : o = c
          · rw [hoc]; exact hl
          · exact h1 o (by omega) (by omega)
        · simp only [__rmqueue_smallest_loop, hl]; exact h2
      · right
        refine ⟨c1, pg, rest, by omega, by omega, ?_, h4, ?_⟩
        · intro o ho1 ho2
          by_cases hoc : o = c
          · rw [hoc]; exact hl
          · exact h3 o (by omega) ho2
        · simp only [__rmqueue_smallest_loop, hl]; exact h5
    | cons pg rest =>
      right
      refine ⟨c, pg, rest, Nat.le_refl _, by omega, fun o h1 h2 => by omega, hl, ?_⟩
      simp only [__rmqueue_smallest_loop, hl]

theorem rmqueue_smallest_cases (cfg : Config) (z : zone) (order : Nat) :
    ((∀ o, order ≤ o → o < cfg.MAX_ORDER → (z.free_area o).free_list = []) ∧
        __rmqueue_smallest cfg z order = (z, none)) ∨
      (∃ c pg rest, order ≤ c ∧ c < cfg.MAX_ORDER ∧
        (∀ o, order ≤ o → o < c → (z.free_area o).free_list = []) ∧
        (z.free_area c).free_list = pg :: rest ∧
        __rmqueue_smallest cfg z order =
          (expand (set_free_area (rmv_page_order z pg) c
            { free_list := rest, nr_free := nr_free_dec (z.free_area c).nr_free })
            pg order c (1 <<< c), some pg)) := by
  rcases rmqueue_smallest_loop_cases z order (cfg.MAX_ORDER - order) order with
    ⟨h1, h2⟩ | ⟨c1, pg, rest, h1, h2, h3, h4, h5⟩
  · left
    exact ⟨fun o ho1 ho2 => h1 o ho1 (by omega), h2⟩
  · right
    exact ⟨c1, pg, rest, h1, by omega, h3, h4, h5⟩

/-- A successful `__rmqueue_smallest(order)` keeps the zone well-formed with the
returned block busy, takes `2^order` units out of the free areas and leaves the
cache alone. -/
theorem rmqueue_smallest_some {cfg : Config} {z z1 : zone} {busy : List (Nat × Nat)}
    {order pg : Nat} (h : zone_inv cfg z busy)
    (hr : __rmqueue_smallest cfg z order = (z1, some pg)) :
    zone_inv cfg z1 ((pg, order) :: busy) ∧ free_units cfg z1 + 2 ^ order = free_units cfg z ∧
      z1.pcp = z.pcp := by
  rcases rmqueue_smallest_cases cfg z order with ⟨_, h2⟩ | ⟨c, pg1, rest, h1, h2, _, h4, h5⟩
  · rw [h2] at hr; simp at hr
  · rw [h5] at hr
    simp only [Prod.mk.injEq, Option.some.injEq] at hr
    obtain ⟨hz, hp⟩ := hr
    subst hp
    subst hz
    rw [Nat.one_shiftLeft]
    refine ⟨zone_inv_expand c _ h1 (zone_inv_take h h4), ?_, ?_⟩
    · have e1 := free_units_expand cfg pg1 order c (set_free_area (rmv_page_order z pg1) c
        { free_list := rest, nr_free := nr_free_dec (z.free_area c).nr_free }) h1 h2
      have e2 := free_units_set_free_area cfg (rmv_page_order z pg1) c
        { free_list := rest, nr_free := nr_free_dec (z.free_area c).nr_free } h2
      rw [free_units_rmv_page_order] at e2
      have e3 := h.nr_free_eq c
      rw [h4, List.length_cons] at e3
      generalize free_units cfg (set_free_area (rmv_page_order z pg1) c
        { free_list := rest, nr_free := nr_free_dec (z.free_area c).nr_free }) = X at e1 e2
      generalize free_units cfg (expand (set_free_area (rmv_page_order z pg1) c
        { free_list := rest, nr_free := nr_free_dec (z.free_area c).nr_free })
        pg1 order c (2 ^ c)) = Y at e1
      simp only [rmv_page_order_free_area, e3, nr_free_dec_succ, Nat.add_mul,
        Nat.one_mul] at e2
      omega
    · rw [expand_pcp]; rfl

/-! ## The freeing path: merge loop and placement -/

theorem find_buddy_pfn_ne (p o : Nat) : __find_buddy_pfn p o ≠ p := by
  intro h
  rw [find_buddy_pfn_eq] at h
  have h2 := congrArg (fun x => p ^^^ x) h
  simp only [Nat.xor_self, ← Nat.xor_assoc, Nat.zero_xor] at h2
  have := Nat.two_pow_pos o
  omega

theorem find_buddy_pfn_invol (p o : Nat) : __find_buddy_pfn (__find_buddy_pfn p o) o = p := by
  simp only [find_buddy_pfn_eq, Nat.xor_cancel_right]

theorem page_is_buddy_iff (z : zone) (b o : Nat) :
    page_is_buddy z b o = true ↔ PageBuddy z b = true ∧ page_order z b = o := by
  unfold page_is_buddy page_is_buddy_ret
  by_cases h1 : PageBuddy z b = true <;> by_cases h2 : page_order z b = o <;> simp [h1, h2]

/-- buddy and combined index of an aligned block -/
theorem buddy_cases (p o : Nat) (h : 2 ^ o ∣ p) :
    2 ^ (o + 1) ∣ (__find_buddy_pfn p o &&& p) ∧
    ((__find_buddy_pfn p o &&& p = p ∧ __find_buddy_pfn p o = p + 2 ^ o) ∨
     (__find_buddy_pfn p o &&& p = __find_buddy_pfn p o ∧ p = __find_buddy_pfn p o + 2 ^ o)) := by
  rcases aligned_cases p o h with h1 | ⟨q, h1, rfl⟩
  · rw [buddy_and_low p o h1]
    exact ⟨h1, Or.inl ⟨rfl, find_buddy_pfn_low p o h1⟩⟩
  · rw [buddy_and_high q o h1, find_buddy_pfn_high q o h1]
    exact ⟨h1, Or.inr ⟨rfl, rfl⟩⟩

/-- no cached page heads a free block -/
theorem pcp_not_free {cfg : Config} {z : zone} {busy : List (Nat × Nat)}
    (h : zone_inv cfg z busy) {q o : Nat} (hq : (q, 0) ∈ busy) :
    q ∉ (z.free_area o).free_list := by
  intro hm
  have := h.busy_free (q, 0) hq o q hm
  have := Nat.two_pow_pos o
  simp only [disjoint_blocks] at *
  omega

theorem list_del_pcp_eq (z : zone) (b : Nat) (h : b ∉ pcp_list z) : (list_del z b).pcp = z.pcp := by
  unfold list_del
  simp only
  unfold pcp_list at h
  cases hp : z.pcp with
  | none => rfl
  | some pcp =>
    rw [hp] at h
    simp only [Option.map_some', List.erase_of_not_mem h]

/-- One iteration of the merge loop of `__free_one_page`: the free buddy `b` is
unlinked and the busy block `(p, o)` grows into the busy block `(b & p, o + 1)`. -/
theorem zone_inv_merge {cfg : Config} {z : zone} {busy : List (Nat × Nat)} {p o : Nat}
    (h : zone_inv cfg z ((p, o) :: busy)) (hpcp : ∀ q ∈ pcp_list z, (q, 0) ∈ busy)
    (ho : o < min cfg.MAX_ORDER (pageblock_order + 1) - 1)
    (hv : pfn_valid_within cfg (__find_buddy_pfn p o) = true)
    (hb : page_is_buddy z (__find_buddy_pfn p o) o = true) :
    zone_inv cfg (rmv_page_order
      (set_free_area (list_del z (__find_buddy_pfn p o)) o
        { free_list := ((list_del z (__find_buddy_pfn p o)).free_area o).free_list
          nr_free := nr_free_dec (z.free_area o).nr_free })
      (__find_buddy_pfn p o)) ((__find_buddy_pfn p o &&& p, o + 1) :: busy) ∧
    (rmv_page_order
      (set_free_area (list_del z (__find_buddy_pfn p o)) o
        { free_list := ((list_del z (__find_buddy_pfn p o)).free_area o).free_list
          nr_free := nr_free_dec (z.free_area o).nr_free })
      (__find_buddy_pfn p o)).pcp = z.pcp ∧
    free_units cfg (rmv_page_order
      (set_free_area (list_del z (__find_buddy_pfn p o)) o
        { free_list := ((list_del z (__find_buddy_pfn p o)).free_area o).free_list
          nr_free := nr_free_dec (z.free_area o).nr_free })
      (__find_buddy_pfn p o)) + 2 ^ o = free_units cfg z := by
  have hpow : 2 ^ (o + 1) = 2 * 2 ^ o := by rw [pow_succ]; ring
  have hpos := Nat.two_pow_pos o
  have hin := h.busy_in (p, o) (List.mem_cons_self _ _)
  have hfree := h.busy_free (p, o) (List.mem_cons_self _ _)
  have hdisj := (List.pairwise_cons.mp h.busy_disj).1
  obtain ⟨hcd, hcases⟩ := buddy_cases p o hin.2.1
  generalize hbd : __find_buddy_pfn p o = b at *
  generalize hcc : b &&& p = c at *
  obtain ⟨hb1, hb2⟩ := (page_is_buddy_iff z b o).mp hb
  have hbm : b ∈ (z.free_area o).free_list := by
    have := h.linked b hv hb1
    rwa [hb2] at this
  have hbin := h.free_in o b hbm
  have hbo : ∀ o1, o1 ≠ o → b ∉ (z.free_area o1).free_list := by
    intro o1 hne hm
    exact hne ((h.marked o1 b hm).2.symm.trans hb2)
  have hbp : b ∉ pcp_list z := fun hm =>
    pcp_not_free h (List.mem_cons_of_mem _ (hpcp b hm)) hbm
  have hfl : ∀ o1, ((rmv_page_order
      (set_free_area (list_del z b) o
        { free_list := ((list_del z b).free_area o).free_list
          nr_free := nr_free_dec (z.free_area o).nr_free }) b).free_area o1).free_list
      = (z.free_area o1).free_list.erase b := by
    intro o1
    simp only [rmv_page_order_free_area, set_free_area_free_area, list_del_free_list]
    split
    · next e => rw [e]
    · rfl
  have sub : ∀ o1 q, q ∈ ((rmv_page_order
      (set_free_area (list_del z b) o
        { free_list := ((list_del z b).free_area o).free_list
          nr_free := nr_free_dec (z.free_area o).nr_free }) b).free_area o1).free_list ↔
      (q ∈ (z.free_area o1).free_list ∧ q ≠ b) := by
    intro o1 q
    rw [hfl, (h.nodup o1).mem_erase_iff]
    exact And.comm
  have hpcpeq : (rmv_page_order
      (set_free_area (list_del z b) o
        { free_list := ((list_del z b).free_area o).free_list
          nr_free := nr_free_dec (z.free_area o).nr_free }) b).pcp = z.pcp := by
    simp only [rmv_page_order_pcp, set_free_area_pcp]
    exact list_del_pcp_eq z b hbp
  have hnr : (z.free_area o).nr_free = ((z.free_area o).free_list.erase b).length + 1 := by
    rw [h.nr_free_eq o, List.length_erase_of_mem hbm]
    have := List.length_pos_of_mem hbm
    omega
  refine ⟨⟨?_, ?_, ?_, ?_, ?_, ?_, ?_, ?_, ?_, ?_, ?_, ?_⟩, hpcpeq, ?_⟩
  · intro o1
    rw [hfl]
    simp only [rmv_page_order_free_area, set_free_area_free_area, list_del_nr_free]
    by_cases hoc : o1 = o
    · subst hoc
      simp only [if_true]
      rw [hnr, nr_free_dec_succ]
    · simp only [hoc, if_false]
      rw [List.erase_of_not_mem (hbo o1 hoc)]
      exact h.nr_free_eq o1
  · intro o1
    rw [hfl]
    exact (h.nodup o1).erase b
  · intro o1 ho1
    rw [hfl, h.empty_above o1 ho1]
    rfl
  · intro o1 q hq
    obtain ⟨hq1, hq2⟩ := (sub o1 q).mp hq
    simp only [PageBuddy_rmv_page_order, page_order_rmv_page_order, hq2, if_false,
      PageBuddy_set_free_area, page_order_set_free_area, PageBuddy_list_del, page_order_list_del]
    exact h.marked o1 q hq1
  · intro q hqv hqb
    by_cases hq : q = b
    · simp [hq] at hqb
    · simp only [PageBuddy_rmv_page_order, hq, if_false, PageBuddy_set_free_area,
        PageBuddy_list_del] at hqb
      simp only [page_order_rmv_page_order, hq, if_false, page_order_set_free_area,
        page_order_list_del]
      exact (sub _ q).mpr ⟨h.linked q hqv hqb, hq⟩
  · intro o1 q hq
    exact h.free_in o1 q ((sub o1 q).mp hq).1
  · intro o1 p1 o2 p2 h1 h2 hne
    exact h.free_disj o1 p1 o2 p2 ((sub o1 p1).mp h1).1 ((sub o2 p2).mp h2).1 hne
  · intro o1 q ho1 hq hqb
    exact h.coalesced o1 q ho1 ((sub o1 q).mp hq).1 ((sub o1 _).mp hqb).1
  · intro x hx
    rcases List.mem_cons.mp hx with rfl | hx
    · refine ⟨?_, hcd, ?_⟩
      · have := hin.1
        have := hbin.1
        simp only [block_in] at *
        omega
      · simp only
        have : min cfg.MAX_ORDER (pageblock_order + 1) ≤ cfg.MAX_ORDER := Nat.min_le_left _ _
        omega
    · exact h.busy_in x (List.mem_cons_of_mem _ hx)
  · intro x hx o1 q hq
    obtain ⟨hq1, hq2⟩ := (sub o1 q).mp hq
    rcases List.mem_cons.mp hx with rfl | hx
    · have e1 := hfree o1 q hq1
      have e2 := h.free_disj o b o1 q hbm hq1 (Ne.symm hq2)
      have := Nat.two_pow_pos o1
      simp only [disjoint_blocks] at *
      omega
    · exact h.busy_free x (List.mem_cons_of_mem _ hx) o1 q hq1
  · refine List.pairwise_cons.mpr ⟨?_, (List.pairwise_cons.mp h.busy_disj).2⟩
    intro x hx
    have e1 := hdisj x hx
    have e2 := h.busy_free x (List.mem_cons_of_mem _ hx) o b hbm
    have := Nat.two_pow_pos x.2
    simp only [disjoint_blocks] at *
    omega
  · intro q hq
    have : pcp_list (rmv_page_order
      (set_free_area (list_del z b) o
        { free_list := ((list_del z b).free_area o).free_list
          nr_free := nr_free_dec (z.free_area o).nr_free }) b) = pcp_list z := by
      unfold pcp_list
      rw [hpcpeq]
    rw [this] at hq
    exact List.mem_cons_of_mem _ (hpcp q hq)
  · rw [free_units_rmv_page_order]
    have hlt : o < cfg.MAX_ORDER := by
      have : min cfg.MAX_ORDER (pageblock_order + 1) ≤ cfg.MAX_ORDER := Nat.min_le_left _ _
      omega
    have e2 := free_units_set_free_area cfg (list_del z b) o
      { free_list := ((list_del z b).free_area o).free_list
        nr_free := nr_free_dec (z.free_area o).nr_free } hlt
    rw [free_units_list_del] at e2
    generalize free_units cfg (set_free_area (list_del z b) o
      { free_list := ((list_del z b).free_area o).free_list
        nr_free := nr_free_dec (z.free_area o).nr_free }) = X at e2 ⊢
    simp only [list_del_nr_free, hnr, nr_free_dec_succ, Nat.add_mul, Nat.one_mul] at e2
    omega

/-- Linking the busy block `(p, o)` into `free_area[o]`, at any position, makes it
a free block, provided its buddy is not a free block of the same order while a
merge is still allowed. -/
theorem zone_inv_link {cfg : Config} {z : zone} {busy : List (Nat × Nat)} {p o : Nat}
    (L : List Nat) (hL : L.Perm (p :: (z.free_area o).free_list))
    (h : zone_inv cfg z ((p, o) :: busy)) (hpcp : ∀ q ∈ pcp_list z, (q, 0) ∈ busy)
    (hco : o < min cfg.MAX_ORDER (pageblock_order + 1) - 1 →
      __find_buddy_pfn p o ∉ (z.free_area o).free_list) :
    zone_inv cfg (set_free_area (set_page_order z p o) o
      { free_list := L, nr_free := (z.free_area o).nr_free + 1 }) busy := by
  have hpos := Nat.two_pow_pos o
  have hin := h.busy_in (p, o) (List.mem_cons_self _ _)
  have hfree := h.busy_free (p, o) (List.mem_cons_self _ _)
  have hdisj := (List.pairwise_cons.mp h.busy_disj).1
  have hp : ∀ o1, p ∉ (z.free_area o1).free_list := by
    intro o1 hm
    have := hfree o1 _ hm
    have := Nat.two_pow_pos o1
    simp only [disjoint_blocks] at *
    omega
  have sub : ∀ o1 q, q ∈ ((set_free_area (set_page_order z p o) o
      { free_list := L, nr_free := (z.free_area o).nr_free + 1 }).free_area o1).free_list ↔
      ((q = p ∧ o1 = o) ∨ (q ∈ (z.free_area o1).free_list ∧ q ≠ p)) := by
    intro o1 q
    simp only [set_free_area_free_area, set_page_order_free_area]
    by_cases hoc : o1 = o
    · subst hoc
      simp only [if_true, hL.mem_iff, List.mem_cons]
      constructor
      · rintro (e | hm)
        · exact Or.inl ⟨e, trivial⟩
        · exact Or.inr ⟨hm, fun e => hp o1 (e ▸ hm)⟩
      · rintro (⟨e, _⟩ | ⟨hm, _⟩)
        · exact Or.inl e
        · exact Or.inr hm
    · simp only [hoc, if_false]
      constructor
      · intro hm
        exact Or.inr ⟨hm, fun e => hp o1 (e ▸ hm)⟩
      · rintro (⟨_, e⟩ | ⟨hm, _⟩)
        · exact e.elim
        · exact hm
  refine ⟨?_, ?_, ?_, ?_, ?_, ?_, ?_, ?_, ?_, ?_, ?_, ?_⟩
  · intro o1
    simp only [set_free_area_free_area, set_page_order_free_area]
    by_cases hoc : o1 = o
    · subst hoc
      simp only [if_true, hL.length_eq, List.length_cons, h.nr_free_eq o1]
    · simp only [hoc, if_false]; exact h.nr_free_eq o1
  · intro o1
    simp only [set_free_area_free_area, set_page_order_free_area]
    by_cases hoc : o1 = o
    · subst hoc
      simp only [if_true]
      exact hL.nodup_iff.mpr (List.nodup_cons.mpr ⟨hp o1, h.nodup o1⟩)
    · simp only [hoc, if_false]; exact h.nodup o1
  · intro o1 ho1
    simp only [set_free_area_free_area, set_page_order_free_area]
    by_cases hoc : o1 = o
    · subst hoc; have := hin.2.2; simp only at this; omega
    · simp only [hoc, if_false]; exact h.empty_above o1 ho1
  · intro o1 q hq
    rcases (sub o1 q).mp hq with ⟨rfl, rfl⟩ | ⟨hq1, hq2⟩
    · simp
    · simp only [PageBuddy_set_free_area, page_order_set_free_area, PageBuddy_set_page_order,
        page_order_set_page_order, hq2, if_false]
      exact h.marked o1 q hq1
  · intro q hqv hqb
    by_cases hq : q = p
    · subst hq
      simp only [page_order_set_free_area, page_order_set_page_order, if_true]
      exact (sub o q).mpr (Or.inl ⟨rfl, rfl⟩)
    · simp only [PageBuddy_set_free_area, PageBuddy_set_page_order, hq, if_false] at hqb
      simp only [page_order_set_free_area, page_order_set_page_order, hq, if_false]
      exact (sub _ q).mpr (Or.inr ⟨h.linked q hqv hqb, hq⟩)
  · intro o1 q hq
    rcases (sub o1 q).mp hq with ⟨rfl, rfl⟩ | ⟨hq1, _⟩
    · exact ⟨hin.1, hin.2.1⟩
    · exact h.free_in o1 q hq1
  · intro o1 p1 o2 p2 h1 h2 hne
    rcases (sub o1 p1).mp h1 with ⟨rfl, rfl⟩ | ⟨hq1, _⟩
    · rcases (sub o2 p2).mp h2 with ⟨rfl, rfl⟩ | ⟨hq2, _⟩
      · exact absurd rfl hne
      · exact hfree o2 p2 hq2
    · rcases (sub o2 p2).mp h2 with ⟨rfl, rfl⟩ | ⟨hq2, _⟩
      · exact disjoint_blocks_symm (hfree o1 p1 hq1)
      · exact h.free_disj o1 p1 o2 p2 hq1 hq2 hne
  · intro o1 q ho1 hq hqb
    rcases (sub o1 q).mp hq with ⟨rfl, rfl⟩ | ⟨hq1, _⟩
    · rcases (sub o1 _).mp hqb with ⟨e, _⟩ | ⟨hb1, _⟩
      · exact find_buddy_pfn_ne q o1 e
      · exact hco ho1 hb1
    · rcases (sub o1 _).mp hqb with ⟨e, rfl⟩ | ⟨hb1, _⟩
      · have e2 : q = __find_buddy_pfn p o1 := by
          rw [← e, find_buddy_pfn_invol]
        exact hco ho1 (e2 ▸ hq1)
      · exact h.coalesced o1 q ho1 hq1 hb1
  · intro x hx
    exact h.busy_in x (List.mem_cons_of_mem _ hx)
  · intro x hx o1 q hq
    rcases (sub o1 q).mp hq with ⟨rfl, rfl⟩ | ⟨hq1, _⟩
    · exact disjoint_blocks_symm (hdisj x hx)
    · exact h.busy_free x (List.mem_cons_of_mem _ hx) o1 q hq1
  · exact (List.pairwise_cons.mp h.busy_disj).2
  · intro q hq
    exact hpcp q hq

theorem free_one_page_place_perm (cfg : Config) (z : zone) (p o bp : Nat) :
    (if __free_one_page_tail cfg (set_page_order z p o) p o bp then
      (z.free_area o).free_list ++ [p] else p :: (z.free_area o).free_list).Perm
      (p :: (z.free_area o).free_list) := by
  split
  · exact List.perm_append_singleton _ _
  · exact List.Perm.refl _

/-- The code from `done_merging` on turns the busy block into a free block. -/
theorem zone_inv_place {cfg : Config} {z : zone} {busy : List (Nat × Nat)} {p o : Nat}
    (bp : Nat) (h : zone_inv cfg z ((p, o) :: busy)) (hpcp : ∀ q ∈ pcp_list z, (q, 0) ∈ busy)
    (hco : o < min cfg.MAX_ORDER (pageblock_order + 1) - 1 →
      __find_buddy_pfn p o ∉ (z.free_area o).free_list) :
    zone_inv cfg (__free_one_page_place cfg z p o bp) busy ∧
      (__free_one_page_place cfg z p o bp).pcp = z.pcp ∧
      free_units cfg (__free_one_page_place cfg z p o bp) = free_units cfg z + 2 ^ o ∧
      p ∈ ((__free_one_page_place cfg z p o bp).free_area o).free_list := by
  refine ⟨zone_inv_link _ (free_one_page_place_perm cfg z p o bp) h hpcp hco, rfl, ?_, ?_⟩
  · unfold __free_one_page_place
    have hlt := (h.busy_in (p, o) (List.mem_cons_self _ _)).2.2
    have e2 := free_units_set_free_area cfg (set_page_order z p o) o
      { free_list :=
          if __free_one_page_tail cfg (set_page_order z p o) p o bp then
            (z.free_area o).free_list ++ [p]
          else p :: (z.free_area o).free_list
        nr_free := (z.free_area o).nr_free + 1 } hlt
    rw [free_units_set_page_order] at e2
    simp only [set_page_order_free_area, Nat.add_mul, Nat.one_mul] at e2
    omega
  · unfold __free_one_page_place
    simp only [set_free_area_free_area, if_true]
    exact (free_one_page_place_perm cfg z p o bp).mem_iff.mpr (List.mem_cons_self _ _)

theorem pfn_valid_within_iff (cfg : Config) (p : Nat) :
    pfn_valid_within cfg p = true ↔ cfg.start_pfn ≤ p ∧ p < cfg.end_pfn := by
  simp [pfn_valid_within]

theorem pcp_list_congr {z1 z2 : zone} (h : z1.pcp = z2.pcp) : pcp_list z1 = pcp_list z2 := by
  unfold pcp_list; rw [h]

/-- The merge loop of `__free_one_page` on a busy block: the zone stays
well-formed with the merged block busy, the cache is untouched, the absorbed
buddies leave the free areas, and at exit no further merge is possible. -/
theorem free_one_page_merge_spec {cfg : Config} {busy : List (Nat × Nat)} :
    ∀ (fuel : Nat) (z : zone) (p o bp : Nat),
      zone_inv cfg z ((p, o) :: busy) → (∀ q ∈ pcp_list z, (q, 0) ∈ busy) →
      min cfg.MAX_ORDER (pageblock_order + 1) - 1 - o ≤ fuel →
      zone_inv cfg (__free_one_page_merge cfg (min cfg.MAX_ORDER (pageblock_order + 1))
          fuel z p o bp).1
        (((__free_one_page_merge cfg (min cfg.MAX_ORDER (pageblock_order + 1)) fuel z p o bp).2.1,
          (__free_one_page_merge cfg (min cfg.MAX_ORDER (pageblock_order + 1))
            fuel z p o bp).2.2.1) :: busy) ∧
      (__free_one_page_merge cfg (min cfg.MAX_ORDER (pageblock_order + 1)) fuel z p o bp).1.pcp
        = z.pcp ∧
      free_units cfg (__free_one_page_merge cfg (min cfg.MAX_ORDER (pageblock_order + 1))
          fuel z p o bp).1 +
        2 ^ (__free_one_page_merge cfg (min cfg.MAX_ORDER (pageblock_order + 1))
          fuel z p o bp).2.2.1 = free_units cfg z + 2 ^ o ∧
      ((__free_one_page_merge cfg (min cfg.MAX_ORDER (pageblock_order + 1)) fuel z p o bp).2.2.1
          < min cfg.MAX_ORDER (pageblock_order + 1) - 1 →
        __find_buddy_pfn
          (__free_one_page_merge cfg (min cfg.MAX_ORDER (pageblock_order + 1)) fuel z p o bp).2.1
          (__free_one_page_merge cfg (min cfg.MAX_ORDER (pageblock_order + 1)) fuel z p o bp).2.2.1
          ∉ ((__free_one_page_merge cfg (min cfg.MAX_ORDER (pageblock_order + 1))
              fuel z p o bp).1.free_area
            (__free_one_page_merge cfg (min cfg.MAX_ORDER (pageblock_order + 1))
              fuel z p o bp).2.2.1).free_list) ∧
      o ≤ (__free_one_page_merge cfg (min cfg.MAX_ORDER (pageblock_order + 1))
        fuel z p o bp).2.2.1 ∧
      (__free_one_page_merge cfg (min cfg.MAX_ORDER (pageblock_order + 1)) fuel z p o bp).2.1 ≤ p ∧
      p + 2 ^ o ≤
        (__free_one_page_merge cfg (min cfg.MAX_ORDER (pageblock_order + 1)) fuel z p o bp).2.1 +
        2 ^ (__free_one_page_merge cfg (min cfg.MAX_ORDER (pageblock_order + 1))
          fuel z p o bp).2.2.1 := by
  intro fuel
  generalize hM : min cfg.MAX_ORDER (pageblock_order + 1) = M
  induction fuel with
  | zero =>
    intro z p o bp h hpcp hf
    have e : __free_one_page_merge cfg M 0 z p o bp = (z, p, o, bp) := rfl
    rw [e]
    exact ⟨h, rfl, rfl, fun hlt => by simp only at hlt; omega, Nat.le_refl _, Nat.le_refl _,
      Nat.le_refl _⟩
  | succ n ih =>
    intro z p o bp h hpcp hf
    by_cases hc : o < M - 1
    · by_cases hv : pfn_valid_within cfg (__find_buddy_pfn p o) = true
      · by_cases hb : page_is_buddy z (__find_buddy_pfn p o) o = true
        · simp only [__free_one_page_merge, hc, if_true, hv, hb, Bool.not_true, Bool.false_eq_true,
            if_false]
          obtain ⟨h1, h2, h3⟩ := zone_inv_merge h hpcp (hM ▸ hc) hv hb
          have hpcp1 : ∀ q ∈ pcp_list (rmv_page_order
              (set_free_area (list_del z (__find_buddy_pfn p o)) o
                { free_list := ((list_del z (__find_buddy_pfn p o)).free_area o).free_list
                  nr_free := nr_free_dec (z.free_area o).nr_free })
              (__find_buddy_pfn p o)), (q, 0) ∈ busy := by
            intro q hq
            rw [pcp_list_congr h2] at hq
            exact hpcp q hq
          obtain ⟨i1, i2, i3, i4, i5, i6, i7⟩ := ih _ (__find_buddy_pfn p o &&& p) (o + 1)
            (__find_buddy_pfn p o) h1 hpcp1 (by omega)
          have hin := h.busy_in (p, o) (List.mem_cons_self _ _)
          obtain ⟨_, hcases⟩ := buddy_cases p o hin.2.1
          have hpow : 2 ^ (o + 1) = 2 * 2 ^ o := by rw [pow_succ]; ring
          refine ⟨i1, i2.trans h2, ?_, i4, by omega, by omega, by omega⟩
          omega
        · have e : __free_one_page_merge cfg M (n + 1) z p o bp
              = (z, p, o, __find_buddy_pfn p o) := by
            simp only [__free_one_page_merge, hc, if_true, hv, hb, Bool.not_true, Bool.not_false,
              Bool.false_eq_true, if_false]
          rw [e]
          refine ⟨h, rfl, rfl, ?_, Nat.le_refl _, Nat.le_refl _, Nat.le_refl _⟩
          intro _ hm
          have hbusy := h.busy_free (p, o) (List.mem_cons_self _ _)
          exact hb ((page_is_buddy_iff z _ o).mpr (h.marked o _ hm))
      · have e : __free_one_page_merge cfg M (n + 1) z p o bp
            = (z, p, o, __find_buddy_pfn p o) := by
          simp only [__free_one_page_merge, hc, if_true, hv, Bool.not_false]
        rw [e]
        refine ⟨h, rfl, rfl, ?_, Nat.le_refl _, Nat.le_refl _, Nat.le_refl _⟩
        intro _ hm
        apply hv
        rw [pfn_valid_within_iff]
        have := (h.free_in o _ hm).1
        have := Nat.two_pow_pos o
        simp only [block_in] at *
        omega
    · have e : __free_one_page_merge cfg M (n + 1) z p o bp = (z, p, o, bp) := by
        simp only [__free_one_page_merge, hc, if_false]
      rw [e]
      exact ⟨h, rfl, rfl, fun hlt => absurd hlt hc, Nat.le_refl _, Nat.le_refl _, Nat.le_refl _⟩

/-- `__free_one_page` on a busy block `(p, o)`: the zone stays well-formed with the
block no longer busy, the free areas gain `2^o` units, the cache is untouched, and
some free block covers the freed one. -/
theorem free_one_page_spec {cfg : Config} {z : zone} {busy : List (Nat × Nat)} {p o : Nat}
    (h : zone_inv cfg z ((p, o) :: busy)) (hpcp : ∀ q ∈ pcp_list z, (q, 0) ∈ busy) :
    zone_inv cfg (__free_one_page cfg z p o) busy ∧
      (__free_one_page cfg z p o).pcp = z.pcp ∧
      free_units cfg (__free_one_page cfg z p o) = free_units cfg z + 2 ^ o ∧
      ∃ p1 o1, o ≤ o1 ∧ p1 ≤ p ∧ p + 2 ^ o ≤ p1 + 2 ^ o1 ∧
        p1 ∈ ((__free_one_page cfg z p o).free_area o1).free_list := by
  have hm := free_one_page_merge_spec (min cfg.MAX_ORDER (pageblock_order + 1) - 1 - o)
    z p o 0 h hpcp (Nat.le_refl _)
  unfold __free_one_page
  generalize __free_one_page_merge cfg (min cfg.MAX_ORDER (pageblock_order + 1))
    (min cfg.MAX_ORDER (pageblock_order + 1) - 1 - o) z p o 0 = r at hm ⊢
  obtain ⟨m1, m2, m3, m4, m5, m6, m7⟩ := hm
  have hpcp1 : ∀ q ∈ pcp_list r.1, (q, 0) ∈ busy := by
    intro q hq
    rw [pcp_list_congr m2] at hq
    exact hpcp q hq
  obtain ⟨p1, p2, p3, p4⟩ := zone_inv_place r.2.2.2 m1 hpcp1 m4
  refine ⟨p1, p2.trans m2, by omega, r.2.1, r.2.2.1, m5, m6, m7, p4⟩

/-! ## Bulk refill and the cache on the allocation side -/

theorem zone_inv_perm {cfg : Config} {z : zone} {busy busy1 : List (Nat × Nat)}
    (hp : busy.Perm busy1) (h : zone_inv cfg z busy) : zone_inv cfg z busy1 :=
  { nr_free_eq := h.nr_free_eq
    nodup := h.nodup
    empty_above := h.empty_above
    marked := h.marked
    linked := h.linked
    free_in := h.free_in
    free_disj := h.free_disj
    coalesced := h.coalesced
    busy_in := fun b hb => h.busy_in b (hp.mem_iff.mpr hb)
    busy_free := fun b hb => h.busy_free b (hp.mem_iff.mpr hb)
    busy_disj := (hp.pairwise_iff (fun {_ _} hab => disjoint_blocks_symm hab)).mp h.busy_disj
    pcp_busy := fun q hq => hp.mem_iff.mp (h.pcp_busy q hq) }

theorem zone_inv_set_pcp {cfg : Config} {z : zone} {busy : List (Nat × Nat)}
    (h : zone_inv cfg z busy) (pcp : Option per_cpu_pages)
    (hq : ∀ q ∈ pcp_list { z with pcp := pcp }, (q, 0) ∈ busy) :
    zone_inv cfg { z with pcp := pcp } busy :=
  { nr_free_eq := h.nr_free_eq
    nodup := h.nodup
    empty_above := h.empty_above
    marked := h.marked
    linked := h.linked
    free_in := h.free_in
    free_disj := h.free_disj
    coalesced := h.coalesced
    busy_in := h.busy_in
    busy_free := h.busy_free
    busy_disj := h.busy_disj
    pcp_busy := hq }

theorem free_units_set_pcp (cfg : Config) (z : zone) (pcp : Option per_cpu_pages) :
    free_units cfg { z with pcp := pcp } = free_units cfg z :=
  free_units_upto_congr { z with pcp := pcp } z (fun _ => rfl) cfg.MAX_ORDER

/-- Dropping a busy block that is not a cached page keeps the zone well-formed. -/
theorem zone_inv_of_cons {cfg : Config} {z : zone} {busy : List (Nat × Nat)} {b : Nat × Nat}
    (h : zone_inv cfg z (b :: busy)) (hq : ∀ q ∈ pcp_list z, (q, 0) ∈ busy) :
    zone_inv cfg z busy :=
  { nr_free_eq := h.nr_free_eq
    nodup := h.nodup
    empty_above := h.empty_above
    marked := h.marked
    linked := h.linked
    free_in := h.free_in
    free_disj := h.free_disj
    coalesced := h.coalesced
    busy_in := fun x hx => h.busy_in x (List.mem_cons_of_mem _ hx)
    busy_free := fun x hx => h.busy_free x (List.mem_cons_of_mem _ hx)
    busy_disj := (List.pairwise_cons.mp h.busy_disj).2
    pcp_busy := hq }

/-- `rmqueue_bulk(zone, 0, count, list)`: the pages obtained are appended to the
list in the order obtained, each is a busy block of order 0 afterwards, and as many
units leave the free areas.  Fewer than `count` pages are obtained only when the
free areas have run empty. -/
theorem rmqueue_bulk_spec {cfg : Config} :
    ∀ (count : Nat) (z : zone) (list : List Nat) (busy : List (Nat × Nat)),
      zone_inv cfg z busy →
      ∃ new : List Nat,
        (rmqueue_bulk cfg count z list).2.1 = list ++ new ∧
        (rmqueue_bulk cfg count z list).2.2 = new.length ∧
        new.length ≤ count ∧
        zone_inv cfg (rmqueue_bulk cfg count z list).1 (new.map (fun q => (q, 0)) ++ busy) ∧
        free_units cfg (rmqueue_bulk cfg count z list).1 + new.length = free_units cfg z ∧
        (rmqueue_bulk cfg count z list).1.pcp = z.pcp ∧
        (new.length < count →
          ∀ o, o < cfg.MAX_ORDER →
            (((rmqueue_bulk cfg count z list).1).free_area o).free_list = []) ∧
        (new = [] → (rmqueue_bulk cfg count z list).1 = z) := by
  intro count
  induction count with
  | zero =>
    intro z list busy h
    exact ⟨[], by simp [rmqueue_bulk], rfl, Nat.le_refl _, by simpa [rmqueue_bulk] using h,
      by simp [rmqueue_bulk], rfl, fun hlt => by simp at hlt, fun _ => rfl⟩
  | succ n ih =>
    intro z list busy h
    rcases rmqueue_smallest_cases cfg z 0 with ⟨h1, h2⟩ | ⟨c, pg, rest, h1, h2, h3, h4, h5⟩
    · have e : rmqueue_bulk cfg (n + 1) z list = (z, list, 0) := by
        simp only [rmqueue_bulk, h2]
      rw [e]
      exact ⟨[], by simp, rfl, Nat.zero_le _, by simpa using h, by simp, rfl,
        fun _ o ho => h1 o (Nat.zero_le _) ho, fun _ => rfl⟩
    · generalize hz1 : (expand (set_free_area (rmv_page_order z pg) c
          { free_list := rest, nr_free := nr_free_dec (z.free_area c).nr_free })
          pg 0 c (1 <<< c)) = z1 at h5
      obtain ⟨s1, s2, s3⟩ := rmqueue_smallest_some h h5
      obtain ⟨new, i1, i2, i3, i4, i5, i6, i7, _⟩ := ih z1 (list ++ [pg]) ((pg, 0) :: busy) s1
      have e : rmqueue_bulk cfg (n + 1) z list =
          ((rmqueue_bulk cfg n z1 (list ++ [pg])).1, (rmqueue_bulk cfg n z1 (list ++ [pg])).2.1,
            (rmqueue_bulk cfg n z1 (list ++ [pg])).2.2 + 1) := by
        simp only [rmqueue_bulk, h5]
      rw [e]
      refine ⟨pg :: new, by simp [i1], by simp [i2], by simp; omega, ?_, ?_, i6.trans s3, ?_, ?_⟩
      · refine zone_inv_perm ?_ i4
        simp only [List.map_cons, List.cons_append]
        exact List.perm_middle
      · simp only [List.length_cons, pow_zero] at *
        omega
      · intro hlt o ho
        exact i7 (by simp only [List.length_cons] at hlt; omega) o ho
      · intro hnil
        simp at hnil

theorem zone_eta_pcp (z : zone) (pcp : per_cpu_pages) (h : z.pcp = some pcp) :
    { z with pcp := some pcp } = z := by
  cases z
  simp only at h
  subst h
  rfl

/-- `__rmqueue_pcplist` in a well-formed state: either it returns a page, which
becomes a held block of order 0 while free units plus cached pages drop by one, or
it returns `NULL`, the cache was empty and the state is unchanged. -/
theorem rmqueue_pcplist_spec {cfg : Config} {z : zone} {pcp : per_cpu_pages}
    {held : List (Nat × Nat)} (hp : z.pcp = some pcp) (hc : pcp.count = (pcp.lists.length : Int))
    (ht : pcp.high = 6 * cfg.BATCH_SIZE ∧ pcp.batch = max 1 cfg.BATCH_SIZE)
    (h : zone_inv cfg z (pcp.lists.map (fun q => (q, 0)) ++ held)) :
    (∃ pg z1, __rmqueue_pcplist cfg z pcp = (z1, some pg) ∧ alloc_inv cfg (z1, (pg, 0) :: held) ∧
        (free_units cfg z1 : Int) + pcp_count z1 + 1 = (free_units cfg z : Int) + pcp_count z) ∨
      (__rmqueue_pcplist cfg z pcp = (z, none) ∧ pcp.lists = [] ∧
        (1 ≤ pcp.batch → ∀ o, o < cfg.MAX_ORDER → (z.free_area o).free_list = [])) := by
  have hcnt : pcp_count z = pcp.count := by unfold pcp_count; rw [hp]
  cases hl : pcp.lists with
  | cons q rest =>
    left
    have e1 : __rmqueue_pcplist_refill cfg z pcp = (z, pcp) := by
      simp [__rmqueue_pcplist_refill, hl]
    have e2 : __rmqueue_pcplist cfg z pcp =
        ({ z with pcp := some { pcp with lists := rest, count := pcp.count - 1 } }, some q) := by
      simp only [__rmqueue_pcplist, e1, hl]
    refine ⟨q, _, e2, ⟨_, rfl, ?_, ht, ?_⟩, ?_⟩
    · simp only [hc, hl, List.length_cons]; omega
    · rw [hl] at h
      simp only
      refine zone_inv_set_pcp (zone_inv_perm ?_ h) _ ?_
      · simp only [List.map_cons, List.cons_append]
        exact List.perm_middle.symm
      · intro x hx
        simp only [pcp_list] at hx
        exact List.mem_append_left _ (List.mem_map.mpr ⟨x, hx, rfl⟩)
    · rw [free_units_set_pcp, hcnt]
      simp only [pcp_count]
      omega
  | nil =>
    rw [hl] at h
    simp only [List.map_nil, List.nil_append] at h
    obtain ⟨new, i1, i2, i3, i4, i5, i6, i7, i8⟩ := rmqueue_bulk_spec pcp.batch z [] held h
    have e1 : __rmqueue_pcplist_refill cfg z pcp =
        ((rmqueue_bulk cfg pcp.batch z []).1,
          { pcp with
            count := pcp.count + ((rmqueue_bulk cfg pcp.batch z []).2.2 : Int)
            lists := (rmqueue_bulk cfg pcp.batch z []).2.1 }) := by
      simp [__rmqueue_pcplist_refill, hl]
    simp only [List.nil_append] at i1
    cases hn : new with
    | nil =>
      right
      subst hn
      have hz := i8 rfl
      refine ⟨?_, rfl, ?_⟩
      · simp only [__rmqueue_pcplist, e1, i1, i2, hz]
        have : ({ pcp with count := pcp.count + ((([] : List Nat).length : Nat) : Int),
                           lists := [] } : per_cpu_pages) = pcp := by
          cases pcp
          simp only at hl
          subst hl
          simp
        rw [this, zone_eta_pcp z pcp hp]
      · intro hb o ho
        have := i7 (by simp only [List.length_nil]; omega) o ho
        rwa [hz] at this
    | cons q rest =>
      left
      subst hn
      have e2 : __rmqueue_pcplist cfg z pcp =
          ({ (rmqueue_bulk cfg pcp.batch z []).1 with
             pcp := some { pcp with
               lists := rest
               count := pcp.count + ((rmqueue_bulk cfg pcp.batch z []).2.2 : Int) - 1 } },
           some q) := by
        simp only [__rmqueue_pcplist, e1, i1]
      refine ⟨q, _, e2, ⟨_, rfl, ?_, ht, ?_⟩, ?_⟩
      · simp only [hc, hl, i2, List.length_cons, List.length_nil]
        push_cast
        omega
      · simp only
        refine zone_inv_set_pcp (zone_inv_perm ?_ i4) _ ?_
        · simp only [List.map_cons, List.cons_append]
          exact List.perm_middle.symm
        · intro x hx
          simp only [pcp_list] at hx
          exact List.mem_append_left _ (List.mem_map.mpr ⟨x, hx, rfl⟩)
      · rw [free_units_set_pcp, hcnt]
        simp only [pcp_count, i2, List.length_cons] at i5 ⊢
        push_cast
        omega

/-! ## Draining the cache and the facade calls -/

/-- The removal loop of `free_pcppages_bulk` on a non-empty list: the pages it
removes come off the tail of the list, last entry first, and are appended to the
local list in that order; `count` drops by their number. -/
theorem free_pcppages_bulk_loop_spec :
    ∀ (fuel : Nat) (count : Int) (pcp : per_cpu_pages) (head : List Nat),
      pcp.lists ≠ [] → pcp.lists.length ≤ fuel →
      ∃ removed : List Nat, removed ≠ [] ∧
        pcp.lists = (free_pcppages_bulk_loop fuel count pcp head).1.lists ++ removed.reverse ∧
        (free_pcppages_bulk_loop fuel count pcp head).2 = head ++ removed ∧
        (free_pcppages_bulk_loop fuel count pcp head).1.count = pcp.count - removed.length ∧
        (free_pcppages_bulk_loop fuel count pcp head).1.high = pcp.high ∧
        (free_pcppages_bulk_loop fuel count pcp head).1.batch = pcp.batch ∧
        (1 ≤ count → (removed.length : Int) = min count pcp.lists.length) := by
  intro fuel
  induction fuel with
  | zero =>
    intro count pcp head hne hlen
    exact absurd (List.length_eq_zero.mp (Nat.le_zero.mp hlen)) hne
  | succ n ih =>
    intro count pcp head hne hlen
    obtain ⟨x, hx⟩ : ∃ x, pcp.lists.getLast? = some x := by
      cases h : pcp.lists.getLast? with
      | none => exact absurd (List.getLast?_eq_none_iff.mp h) hne
      | some x => exact ⟨x, rfl⟩
    have hsplit : pcp.lists.dropLast ++ [x] = pcp.lists :=
      List.dropLast_append_getLast? x (by rw [hx]; rfl)
    have hlen1 : pcp.lists.length = pcp.lists.dropLast.length + 1 := by
      conv => lhs; rw [← hsplit]
      simp
    by_cases hc : count - 1 ≠ 0 ∧ pcp.lists.dropLast ≠ []
    · have e : free_pcppages_bulk_loop (n + 1) count pcp head =
          free_pcppages_bulk_loop n (count - 1)
            { pcp with lists := pcp.lists.dropLast, count := pcp.count - 1 } (head ++ [x]) := by
        simp only [free_pcppages_bulk_loop, hx]
        rw [if_pos hc]
      obtain ⟨removed, r1, r2, r3, r4, r5, r6, r7⟩ := ih (count - 1)
        { pcp with lists := pcp.lists.dropLast, count := pcp.count - 1 } (head ++ [x])
        hc.2 (by simp only; omega)
      rw [e]
      simp only at r2 r4 r5 r6 r7
      refine ⟨x :: removed, List.cons_ne_nil _ _, ?_, ?_, ?_, r5, r6, ?_⟩
      · rw [List.reverse_cons, ← List.append_assoc, ← r2, hsplit]
      · rw [r3]; simp
      · rw [r4]; simp only [List.length_cons]; push_cast; omega
      · intro h1
        have := r7 (by omega)
        simp only [List.length_cons]
        push_cast
        omega
    · have e : free_pcppages_bulk_loop (n + 1) count pcp head =
          ({ pcp with lists := pcp.lists.dropLast, count := pcp.count - 1 }, head ++ [x]) := by
        simp only [free_pcppages_bulk_loop, hx]
        rw [if_neg hc]
      rw [e]
      refine ⟨[x], List.cons_ne_nil _ _, ?_, rfl, by simp, rfl, rfl, ?_⟩
      · simp only [List.reverse_singleton]; exact hsplit.symm
      · intro h1
        simp only [List.length_singleton, Nat.cast_one]
        by_cases h2 : count - 1 = 0
        · omega
        · have h3 : pcp.lists.dropLast = [] := by
            by_contra h3; exact hc ⟨h2, h3⟩
          rw [hlen1, h3]
          simp only [List.length_nil, Nat.zero_add, Nat.cast_one]
          omega

/-- Giving a list of busy order-0 pages back with `__free_one_page`, one after the
other. -/
theorem free_fold_spec {cfg : Config} :
    ∀ (hs : List Nat) (z : zone) (busy : List (Nat × Nat)),
      zone_inv cfg z (hs.map (fun q => (q, 0)) ++ busy) →
      (∀ q ∈ pcp_list z, (q, 0) ∈ busy) →
      zone_inv cfg (hs.foldl (fun z pg => __free_one_page cfg z pg 0) z) busy ∧
      (hs.foldl (fun z pg => __free_one_page cfg z pg 0) z).pcp = z.pcp ∧
      free_units cfg (hs.foldl (fun z pg => __free_one_page cfg z pg 0) z)
        = free_units cfg z + hs.length := by
  intro hs
  induction hs with
  | nil =>
    intro z busy h _
    exact ⟨by simpa using h, rfl, rfl⟩
  | cons x t ih =>
    intro z busy h hpcp
    simp only [List.map_cons, List.cons_append] at h
    obtain ⟨f1, f2, f3, _⟩ := free_one_page_spec h
      (fun q hq => List.mem_append_right _ (hpcp q hq))
    obtain ⟨i1, i2, i3⟩ := ih (__free_one_page cfg z x 0) busy f1
      (fun q hq => hpcp q (by rwa [pcp_list_congr f2] at hq))
    simp only [List.foldl_cons, List.length_cons]
    refine ⟨i1, i2.trans f2, ?_⟩
    rw [i3, f3]
    simp only [pow_zero]
    omega

theorem held_units_perm {a b : List (Nat × Nat)} (h : a.Perm b) : held_units a = held_units b := by
  unfold held_units
  exact (h.map _).sum_eq

theorem held_units_cons (b : Nat × Nat) (l : List (Nat × Nat)) :
    held_units (b :: l) = 2 ^ b.2 + held_units l := by
  simp [held_units]

theorem perm_cons_erase_lawful {α : Type} [BEq α] [LawfulBEq α] {a : α} :
    ∀ {l : List α}, a ∈ l → l.Perm (a :: l.erase a) := by
  intro l
  induction l with
  | nil => intro h; exact absurd h (List.not_mem_nil _)
  | cons x t ih =>
    intro h
    by_cases hx : x = a
    · subst hx
      simp
    · have ht : a ∈ t := (List.mem_cons.mp h).resolve_left (fun e => hx e.symm)
      have hb : (x == a) = false := by simpa using hx
      rw [List.erase_cons, hb]
      simp only [Bool.false_eq_true, if_false]
      exact ((ih ht).cons x).trans (List.Perm.swap a x _)

theorem held_units_erase {l : List (Nat × Nat)} {b : Nat × Nat} (h : b ∈ l) :
    held_units l = 2 ^ b.2 + held_units (l.erase b) := by
  rw [held_units_perm (perm_cons_erase_lawful h), held_units_cons]

theorem pcp_count_eq {z : zone} {pcp : per_cpu_pages} (h : z.pcp = some pcp) :
    pcp_count z = pcp.count := by
  unfold pcp_count; rw [h]

/-- `free_unref_page_commit` of a held page of order 0, in detail: the page is
pushed on the cache; below `high` nothing else happens; from `high` on, pages leave
the tail of the cache (`batch` of them when the cache holds that many and `batch` is
positive) and as many units enter the free areas. -/
theorem free_unref_page_commit_detail {cfg : Config} {s : zone × List (Nat × Nat)} {p : Nat}
    {pcp : per_cpu_pages} (h : alloc_inv cfg s) (hpcp : s.1.pcp = some pcp)
    (hp : (p, 0) ∈ s.2) :
    ∃ z1 pcp1, free_unref_page_commit cfg s.1 p = some z1 ∧ z1.pcp = some pcp1 ∧
      alloc_inv cfg (z1, s.2.erase (p, 0)) ∧
      (pcp.count + 1 < (pcp.high : Int) →
        z1 = { s.1 with pcp := some { pcp with lists := p :: pcp.lists, count := pcp.count + 1 } }) ∧
      ((pcp.high : Int) ≤ pcp.count + 1 →
        ∃ removed : List Nat, removed ≠ [] ∧ p :: pcp.lists = pcp1.lists ++ removed.reverse ∧
          z1 = removed.foldl (fun z pg => __free_one_page cfg z pg 0)
            { s.1 with pcp := some pcp1 } ∧
          free_units cfg z1 = free_units cfg s.1 + removed.length ∧
          pcp1.count = pcp.count + 1 - removed.length ∧
          (1 ≤ pcp.batch → removed.length = min pcp.batch (pcp.lists.length + 1))) := by
  obtain ⟨pcp0, hpcp0, hc, ht, hz⟩ := h
  have e0 : pcp0 = pcp := by rw [hpcp] at hpcp0; exact (Option.some.inj hpcp0).symm
  subst e0
  have hperm := perm_cons_erase_lawful hp
  have hz1 : zone_inv cfg
      { s.1 with pcp := some { pcp0 with lists := p :: pcp0.lists, count := pcp0.count + 1 } }
      ((p :: pcp0.lists).map (fun q => (q, 0)) ++ s.2.erase (p, 0)) := by
    refine zone_inv_set_pcp (zone_inv_perm ?_ hz) _ ?_
    · simp only [List.map_cons, List.cons_append]
      exact (hperm.append_left _).trans List.perm_middle
    · intro x hx
      simp only [pcp_list] at hx
      exact List.mem_append_left _ (List.mem_map.mpr ⟨x, hx, rfl⟩)
  unfold free_unref_page_commit
  rw [hpcp]
  simp only
  by_cases hd : pcp0.count + 1 ≥ (pcp0.high : Int)
  · rw [if_pos hd]
    generalize hpcp1 : ({ pcp0 with lists := p :: pcp0.lists, count := pcp0.count + 1 } :
      per_cpu_pages) = pcp1 at hz1 ⊢
    have hl1 : pcp1.lists = p :: pcp0.lists := by rw [← hpcp1]
    have hc1 : pcp1.count = pcp0.count + 1 := by rw [← hpcp1]
    have hh1 : pcp1.high = pcp0.high := by rw [← hpcp1]
    have hb1 : pcp1.batch = pcp0.batch := by rw [← hpcp1]
    have hne : pcp1.lists ≠ [] := by rw [hl1]; exact List.cons_ne_nil _ _
    obtain ⟨removed, r1, r2, r3, r4, r5, r6, r7⟩ :=
      free_pcppages_bulk_loop_spec pcp1.lists.length (pcp0.batch : Int) pcp1 [] hne (Nat.le_refl _)
    unfold free_pcppages_bulk
    rw [if_neg hne]
    generalize free_pcppages_bulk_loop pcp1.lists.length (pcp0.batch : Int) pcp1 [] = r
      at r2 r3 r4 r5 r6 ⊢
    simp only [List.nil_append] at r3
    rw [r3]
    have hz2 : zone_inv cfg { ({ s.1 with pcp := some pcp1 } : zone) with pcp := some r.1 }
        (removed.map (fun q => (q, 0)) ++ (r.1.lists.map (fun q => (q, 0)) ++ s.2.erase (p, 0))) := by
      refine zone_inv_set_pcp (zone_inv_perm ?_ hz1) _ ?_
      · rw [hl1.symm, r2, List.map_append, ← List.append_assoc]
        refine List.Perm.append_right _ ?_
        exact List.perm_append_comm.trans
          (List.Perm.append_right _ ((List.reverse_perm removed).map _))
      · intro x hx
        simp only [pcp_list] at hx
        exact List.mem_append_right _
          (List.mem_append_left _ (List.mem_map.mpr ⟨x, hx, rfl⟩))
    obtain ⟨f1, f2, f3⟩ := free_fold_spec removed _ _ hz2
      (fun x hx => by
        simp only [pcp_list] at hx
        exact List.mem_append_left _ (List.mem_map.mpr ⟨x, hx, rfl⟩))
    have hlen : (pcp1.lists.length : Int) = r.1.lists.length + removed.length := by
      rw [r2]; simp
    rw [hl1] at hlen
    simp only [List.length_cons] at hlen
    refine ⟨_, r.1, rfl, f2, ⟨r.1, f2, ?_, ⟨r5.trans (hh1.trans ht.1), r6.trans (hb1.trans ht.2)⟩,
      f1⟩, fun hlt => by omega, fun _ => ⟨removed, r1, ?_, rfl, ?_, ?_, ?_⟩⟩
    · rw [r4, hc1, hc]
      push_cast at hlen
      omega
    · rw [← hl1]; exact r2
    · rw [f3, free_units_set_pcp, free_units_set_pcp]
    · rw [r4, hc1]
    · intro hb
      have := r7 (by exact_mod_cast hb)
      rw [hl1] at this
      simp only [List.length_cons] at this
      omega
  · rw [if_neg hd]
    refine ⟨_, _, rfl, rfl, ⟨_, rfl, ?_, ht, hz1⟩, fun _ => rfl, fun hge => by omega⟩
    simp only [hc, List.length_cons]; push_cast; omega

/-- `free_unref_page_commit` of a held page of order 0 keeps the allocator
well-formed and the total number of units. -/
theorem free_unref_page_commit_spec {cfg : Config} {s : zone × List (Nat × Nat)} {p : Nat}
    (h : alloc_inv cfg s) (hp : (p, 0) ∈ s.2) :
    ∃ z1, free_unref_page_commit cfg s.1 p = some z1 ∧ alloc_inv cfg (z1, s.2.erase (p, 0)) ∧
      total_units cfg (z1, s.2.erase (p, 0)) = total_units cfg s := by
  obtain ⟨pcp, hpcp, hc, _, _⟩ := id h
  obtain ⟨z1, pcp1, d1, d2, d3, d4, d5⟩ := free_unref_page_commit_detail h hpcp hp
  have hheld := held_units_erase hp
  simp only [pow_zero] at hheld
  refine ⟨z1, d1, d3, ?_⟩
  simp only [total_units, pcp_count_eq d2, pcp_count_eq hpcp]
  by_cases hd : pcp.count + 1 < (pcp.high : Int)
  · have e := d4 hd
    have e1 : pcp1 = { pcp with lists := p :: pcp.lists, count := pcp.count + 1 } := by
      rw [e] at d2
      exact (Option.some.inj d2).symm
    rw [e, free_units_set_pcp, e1]
    simp only
    omega
  · obtain ⟨removed, _, _, _, r4, r5, _⟩ := d5 (by omega)
    rw [r4, r5]
    push_cast
    omega

/-- `__free_pages` of a held block keeps the allocator well-formed and the total
number of units. -/
theorem free_pages_spec {cfg : Config} {s : zone × List (Nat × Nat)} {p o : Nat}
    (h : alloc_inv cfg s) (hp : (p, o) ∈ s.2) :
    ∃ z1, __free_pages cfg s.1 p o = some z1 ∧ alloc_inv cfg (z1, s.2.erase (p, o)) ∧
      total_units cfg (z1, s.2.erase (p, o)) = total_units cfg s := by
  by_cases ho : o = 0
  · subst ho
    simpa [__free_pages, free_the_page, free_unref_page] using free_unref_page_commit_spec h hp
  · obtain ⟨pcp, hpcp, hc, ht, hz⟩ := h
    have hperm := perm_cons_erase_lawful hp
    have hheld := held_units_erase hp
    have hz1 : zone_inv cfg s.1
        ((p, o) :: (pcp.lists.map (fun q => (q, 0)) ++ s.2.erase (p, o))) :=
      zone_inv_perm ((hperm.append_left _).trans List.perm_middle) hz
    obtain ⟨f1, f2, f3, _⟩ := free_one_page_spec hz1 (fun x hx => by
      simp only [pcp_list, hpcp] at hx
      exact List.mem_append_left _ (List.mem_map.mpr ⟨x, hx, rfl⟩))
    refine ⟨__free_one_page cfg s.1 p o, by simp [__free_pages, free_the_page, ho, __free_pages_ok],
      ⟨pcp, f2.trans hpcp, hc, ht, f1⟩, ?_⟩
    simp only [total_units, f3, pcp_count_eq (f2.trans hpcp), pcp_count_eq hpcp]
    simp only at hheld
    simp only [Nat.cast_add, hheld]
    omega

/-- `__alloc_pages` in a well-formed state never faults: it either returns a block,
which the caller then holds, or returns `NULL` and changes nothing. -/
theorem alloc_pages_spec {cfg : Config} {s : zone × List (Nat × Nat)} (order : Nat)
    (h : alloc_inv cfg s) :
    (∃ z1 pg, __alloc_pages cfg s.1 order = some (z1, some pg) ∧
        alloc_inv cfg (z1, (pg, order) :: s.2) ∧
        total_units cfg (z1, (pg, order) :: s.2) = total_units cfg s) ∨
      __alloc_pages cfg s.1 order = some (s.1, none) := by
  obtain ⟨pcp, hpcp, hc, ht, hz⟩ := h
  by_cases ho : order = 0
  · subst ho
    have e : __alloc_pages cfg s.1 0 = some (__rmqueue_pcplist cfg s.1 pcp) := by
      simp [__alloc_pages, get_page_from_freelist, rmqueue, rmqueue_pcplist, hpcp]
    rcases rmqueue_pcplist_spec hpcp hc ht hz with ⟨pg, z1, r1, r2, r3⟩ | ⟨r1, _, _⟩
    · left
      refine ⟨z1, pg, by rw [e, r1], r2, ?_⟩
      simp only [total_units, held_units_cons, pow_zero]
      push_cast
      omega
    · right
      rw [e, r1]
  · have e : __alloc_pages cfg s.1 order = some (__rmqueue_smallest cfg s.1 order) := by
      simp [__alloc_pages, get_page_from_freelist, rmqueue, ho]
    cases hr : __rmqueue_smallest cfg s.1 order with
    | mk z1 r =>
      cases r with
      | none =>
        right
        rcases rmqueue_smallest_cases cfg s.1 order with ⟨_, h2⟩ | ⟨c, pg, rest, _, _, _, _, h5⟩
        · rw [e, h2]
        · rw [h5] at hr; simp at hr
      | some pg =>
        left
        obtain ⟨s1, s2, s3⟩ := rmqueue_smallest_some hz hr
        refine ⟨z1, pg, by rw [e, hr], ⟨pcp, s3.trans hpcp, hc, ht, ?_⟩, ?_⟩
        · exact zone_inv_perm List.perm_middle.symm s1
        · simp only [total_units, held_units_cons, pcp_count_eq (s3.trans hpcp),
            pcp_count_eq hpcp, ← s2, Nat.cast_add]
          omega

/-- One call that respects the caller's side of the contract. -/
theorem call_spec {cfg : Config} {s : zone × List (Nat × Nat)} (c : Call)
    (h : alloc_inv cfg s) (hc : ∀ p o, c = Call.free p o → (p, o) ∈ s.2) :
    ∃ s1, call cfg s c = some s1 ∧ alloc_inv cfg s1 ∧ total_units cfg s1 = total_units cfg s := by
  cases c with
  | alloc order =>
    rcases alloc_pages_spec order h with ⟨z1, pg, r1, r2, r3⟩ | r1
    · exact ⟨_, by simp only [call, r1], r2, r3⟩
    · exact ⟨_, by simp only [call, r1], h, rfl⟩
  | free p o =>
    obtain ⟨z1, r1, r2, r3⟩ := free_pages_spec h (hc p o rfl)
    exact ⟨_, by simp only [call, r1, Option.map_some'], r2, r3⟩

/-- A sequence of calls that respects the caller's side of the contract runs without
a fault, keeps the allocator well-formed and keeps the total number of units. -/
theorem calls_spec {cfg : Config} :
    ∀ (cs : List Call) (s : zone × List (Nat × Nat)), alloc_inv cfg s →
      calls_ok cfg s cs = true →
      ∃ s1, calls cfg s cs = some s1 ∧ alloc_inv cfg s1 ∧
        total_units cfg s1 = total_units cfg s := by
  intro cs
  induction cs with
  | nil =>
    intro s h _
    exact ⟨s, rfl, h, rfl⟩
  | cons c cs ih =>
    intro s h hok
    cases c with
    | alloc order =>
      obtain ⟨s1, r1, r2, r3⟩ := call_spec (Call.alloc order) h (fun p o e => by simp at e)
      simp only [calls_ok, r1] at hok
      obtain ⟨s2, i1, i2, i3⟩ := ih s1 r2 hok
      exact ⟨s2, by simp only [calls, r1, i1], i2, i3.trans r3⟩
    | free p o =>
      simp only [calls_ok, Bool.and_eq_true, decide_eq_true_eq] at hok
      obtain ⟨s1, r1, r2, r3⟩ := call_spec (Call.free p o) h (fun p1 o1 e => by
        simp only [Call.free.injEq] at e
        rw [← e.1, ← e.2]; exact hok.1)
      rw [r1] at hok
      obtain ⟨s2, i1, i2, i3⟩ := ih s1 r2 hok.2
      exact ⟨s2, by simp only [calls, r1, i1], i2, i3.trans r3⟩

/-! ## Initialisation -/

theorem ffs_aux_dvd : ∀ (n word k : Nat), k ≤ __ffs_aux n word → 2 ^ k ∣ word := by
  intro n
  induction n with
  | zero =>
    intro word k hk
    simp only [__ffs_aux] at hk
    have : k = 0 := by omega
    subst this
    simp
  | succ n ih =>
    intro word k hk
    simp only [__ffs_aux] at hk
    by_cases hw : word % 2 = 1
    · rw [if_pos hw] at hk
      have : k = 0 := by omega
      subst this
      simp
    · rw [if_neg hw] at hk
      cases k with
      | zero => simp
      | succ k1 =>
        obtain ⟨m, hm⟩ := ih (word / 2) k1 (by omega)
        refine ⟨m, ?_⟩
        have e : 2 ^ (k1 + 1) * m = 2 * (2 ^ k1 * m) := by rw [pow_succ]; ring
        rw [e, ← hm]
        omega

/-- Every power of two up to `2 ^ __ffs word` divides `word`. -/
theorem ffs_dvd (word k : Nat) (hk : k ≤ __ffs word) : 2 ^ k ∣ word :=
  ffs_aux_dvd 64 word k hk

/-- The inner loop of `memory_init` finds the largest order not above its start
value whose block fits before `end_pfn`. -/
theorem memory_init_order_spec (end_pfn start_pfn : Nat) (h : start_pfn < end_pfn) :
    ∀ n, ∃ o, memory_init_order end_pfn start_pfn n = some o ∧ o ≤ n ∧
      start_pfn + 2 ^ o ≤ end_pfn ∧ ∀ o1, o < o1 → o1 ≤ n → end_pfn < start_pfn + 2 ^ o1 := by
  intro n
  induction n with
  | zero =>
    refine ⟨0, ?_, Nat.le_refl _, by simp; omega, fun o1 h1 h2 => by omega⟩
    simp only [memory_init_order, Nat.shiftLeft_zero]
    rw [if_neg (by omega)]
  | succ n ih =>
    by_cases hc : start_pfn + 1 <<< (n + 1) > end_pfn
    · obtain ⟨o, h1, h2, h3, h4⟩ := ih
      refine ⟨o, ?_, by omega, h3, ?_⟩
      · simp only [memory_init_order]; rw [if_pos hc]; exact h1
      · intro o1 ho1 ho2
        by_cases e : o1 = n + 1
        · subst e; rw [Nat.one_shiftLeft] at hc; exact hc
        · exact h4 o1 ho1 (by omega)
    · refine ⟨n + 1, ?_, Nat.le_refl _, ?_, fun o1 h1 h2 => by omega⟩
      · simp only [memory_init_order]; rw [if_neg hc]
      · rw [Nat.one_shiftLeft] at hc; omega

/-- The blocks of the bootstrap loop lie between the loop's start and the end of
the region, are aligned, have an order below `MAX_ORDER`, and follow each other. -/
theorem memory_init_blocks_spec (cfg : Config) (hM : 1 ≤ cfg.MAX_ORDER) :
    ∀ (fuel start : Nat),
      (∀ b ∈ memory_init_blocks cfg fuel start,
        start ≤ b.1 ∧ b.1 + 2 ^ b.2 ≤ cfg.end_pfn ∧ 2 ^ b.2 ∣ b.1 ∧ b.2 < cfg.MAX_ORDER) ∧
      (memory_init_blocks cfg fuel start).Pairwise disjoint_blocks ∧
      (cfg.end_pfn - start ≤ fuel →
        held_units (memory_init_blocks cfg fuel start) = cfg.end_pfn - start) := by
  intro fuel
  induction fuel with
  | zero =>
    intro start
    refine ⟨fun b hb => by simp [memory_init_blocks] at hb, by simp [memory_init_blocks], ?_⟩
    intro h
    simp only [memory_init_blocks, held_units, List.map_nil, List.sum_nil]
    omega
  | succ n ih =>
    intro start
    by_cases hc : start < cfg.end_pfn
    · obtain ⟨o, h1, h2, h3, _⟩ := memory_init_order_spec cfg.end_pfn start hc
        (min (cfg.MAX_ORDER - 1) (__ffs start))
      have e : memory_init_blocks cfg (n + 1) start =
          (start, o) :: memory_init_blocks cfg n (start + 2 ^ o) := by
        simp only [memory_init_blocks, if_pos hc, h1, Nat.one_shiftLeft]
      obtain ⟨i1, i2, i3⟩ := ih (start + 2 ^ o)
      have hpos := Nat.two_pow_pos o
      rw [e]
      refine ⟨?_, ?_, ?_⟩
      · intro b hb
        rcases List.mem_cons.mp hb with rfl | hb
        · refine ⟨Nat.le_refl _, h3, ffs_dvd _ _ ?_, ?_⟩
          · exact Nat.le_trans h2 (Nat.min_le_right _ _)
          · have := Nat.min_le_left (cfg.MAX_ORDER - 1) (__ffs start)
            simp only
            omega
        · obtain ⟨j1, j2, j3, j4⟩ := i1 b hb
          exact ⟨by omega, j2, j3, j4⟩
      · refine List.pairwise_cons.mpr ⟨?_, i2⟩
        intro b hb
        have := (i1 b hb).1
        left
        exact this
      · intro hf
        rw [held_units_cons, i3 (by omega)]
        simp only
        omega
    · have e : memory_init_blocks cfg (n + 1) start = [] := by
        simp only [memory_init_blocks, if_neg hc]
      rw [e]
      refine ⟨fun b hb => by simp at hb, List.Pairwise.nil, ?_⟩
      intro _
      simp only [held_units, List.map_nil, List.sum_nil]
      omega

/-- The zone before the bootstrap loop is well-formed relative to any list of
pairwise disjoint aligned blocks of the region. -/
theorem zone_inv_memory_init_zone (cfg : Config) (busy : List (Nat × Nat))
    (h1 : ∀ b ∈ busy, block_in cfg b ∧ 2 ^ b.2 ∣ b.1 ∧ b.2 < cfg.MAX_ORDER)
    (h2 : busy.Pairwise disjoint_blocks) : zone_inv cfg (memory_init_zone cfg) busy :=
  { nr_free_eq := fun _ => rfl
    nodup := fun _ => List.nodup_nil
    empty_above := fun _ _ => rfl
    marked := fun o p hp => by simp [memory_init_zone] at hp
    linked := fun p _ hb => by simp [memory_init_zone, PageBuddy, page_init] at hb
    free_in := fun o p hp => by simp [memory_init_zone] at hp
    free_disj := fun o1 p1 o2 p2 hp => by simp [memory_init_zone] at hp
    coalesced := fun o p _ hp => by simp [memory_init_zone] at hp
    busy_in := h1
    busy_free := fun b _ o p hp => by simp [memory_init_zone] at hp
    busy_disj := h2
    pcp_busy := fun q hq => by simp [memory_init_zone, pcp_list] at hq }

/-- The bootstrap loop of `memory_init`, started in a well-formed zone whose busy
blocks are the blocks still to be freed: unless it faults, it ends in a well-formed
zone without busy blocks that has gained the units of all those blocks. -/
theorem memory_init_loop_spec (cfg : Config) :
    ∀ (fuel : Nat) (z : zone) (start : Nat),
      zone_inv cfg z (memory_init_blocks cfg fuel start) → z.pcp = none →
      cfg.end_pfn - start ≤ fuel →
      ∀ z1, memory_init_loop cfg fuel z start = some z1 →
        zone_inv cfg z1 [] ∧ z1.pcp = none ∧
        free_units cfg z1 = free_units cfg z + (cfg.end_pfn - start) := by
  intro fuel
  induction fuel with
  | zero =>
    intro z start h hp hf z1 hz
    have hc : ¬ start < cfg.end_pfn := by omega
    simp only [memory_init_loop, if_neg hc, Option.some.injEq] at hz
    subst hz
    simp only [memory_init_blocks] at h
    exact ⟨h, hp, by omega⟩
  | succ n ih =>
    intro z start h hp hf z1 hz
    by_cases hc : start < cfg.end_pfn
    · obtain ⟨o, h1, h2, h3, _⟩ := memory_init_order_spec cfg.end_pfn start hc
        (min (cfg.MAX_ORDER - 1) (__ffs start))
      have e : memory_init_blocks cfg (n + 1) start =
          (start, o) :: memory_init_blocks cfg n (start + 2 ^ o) := by
        simp only [memory_init_blocks, if_pos hc, h1, Nat.one_shiftLeft]
      rw [e] at h
      simp only [memory_init_loop, if_pos hc, h1, Nat.one_shiftLeft] at hz
      by_cases ho : o = 0
      · subst ho
        simp [__free_pages, free_the_page, free_unref_page, free_unref_page_commit, hp] at hz
      · have e2 : __free_pages cfg z start o = some (__free_one_page cfg z start o) := by
          simp [__free_pages, free_the_page, ho, __free_pages_ok]
        rw [e2] at hz
        simp only at hz
        have hpl : pcp_list z = [] := by simp [pcp_list, hp]
        obtain ⟨f1, f2, f3, _⟩ := free_one_page_spec h (fun q hq => by simp [hpl] at hq)
        have hpos := Nat.two_pow_pos o
        obtain ⟨i1, i2, i3⟩ := ih (__free_one_page cfg z start o) (start + 2 ^ o) f1
          (f2.trans hp) (by omega) z1 hz
        exact ⟨i1, i2, by rw [i3, f3]; omega⟩
    · simp only [memory_init_loop, if_neg hc, Option.some.injEq] at hz
      subst hz
      have e : memory_init_blocks cfg (n + 1) start = [] := by
        simp only [memory_init_blocks, if_neg hc]
      rw [e] at h
      exact ⟨h, hp, by omega⟩

/-- With `MAX_ORDER = 0` the bootstrap loop faults on any non-empty region. -/
theorem memory_init_loop_max_order_zero (cfg : Config) (hM : cfg.MAX_ORDER = 0) (z : zone)
    (hp : z.pcp = none) (fuel start : Nat) (hc : start < cfg.end_pfn) :
    memory_init_loop cfg fuel z start = none := by
  cases fuel with
  | zero => simp [memory_init_loop, hc]
  | succ n =>
    have e : memory_init_order cfg.end_pfn start (min (cfg.MAX_ORDER - 1) (__ffs start))
        = some 0 := by
      rw [hM]
      simp only [Nat.zero_sub, Nat.zero_min, memory_init_order, Nat.shiftLeft_zero]
      rw [if_neg (by omega)]
    simp [memory_init_loop, hc, e, __free_pages, free_the_page, free_unref_page,
      free_unref_page_commit, hp]

/-- A zone that `memory_init` manages to set up is well-formed, holds every page of
the region in its free areas, and has an empty cache. -/
theorem memory_init_spec {cfg : Config} {z0 : zone} (h : memory_init cfg = some z0) :
    alloc_inv cfg (z0, []) ∧ free_units cfg z0 = nr_pages cfg ∧ pcp_list z0 = [] ∧
      total_units cfg (z0, []) = (nr_pages cfg : Int) := by
  unfold memory_init at h
  cases hl : memory_init_loop cfg (cfg.end_pfn - cfg.start_pfn) (memory_init_zone cfg)
      cfg.start_pfn with
  | none => rw [hl] at h; simp at h
  | some z1 =>
    rw [hl] at h
    simp only [Option.map_some', Option.some.injEq] at h
    subst h
    have key : zone_inv cfg z1 [] ∧ z1.pcp = none ∧
        free_units cfg z1 = free_units cfg (memory_init_zone cfg)
          + (cfg.end_pfn - cfg.start_pfn) := by
      by_cases hM : 1 ≤ cfg.MAX_ORDER
      · obtain ⟨b1, b2, _⟩ := memory_init_blocks_spec cfg hM (cfg.end_pfn - cfg.start_pfn)
          cfg.start_pfn
        exact memory_init_loop_spec cfg _ _ _
          (zone_inv_memory_init_zone cfg _
            (fun b hb => ⟨⟨(b1 b hb).1, (b1 b hb).2.1⟩, (b1 b hb).2.2⟩) b2) rfl (Nat.le_refl _) z1 hl
      · by_cases hc : cfg.start_pfn < cfg.end_pfn
        · rw [memory_init_loop_max_order_zero cfg (by omega) _ rfl _ _ hc] at hl
          simp at hl
        · have e0 : cfg.end_pfn - cfg.start_pfn = 0 := by omega
          rw [e0] at hl ⊢
          simp only [memory_init_loop, if_neg hc, Option.some.injEq] at hl
          subst hl
          exact ⟨zone_inv_memory_init_zone cfg [] (fun b hb => by simp at hb) List.Pairwise.nil,
            rfl, rfl⟩
    obtain ⟨k1, k2, k3⟩ := key
    have hfz : free_units cfg (memory_init_zone cfg) = 0 := by
      unfold free_units
      generalize cfg.MAX_ORDER = n
      induction n with
      | zero => rfl
      | succ n ih => simp only [free_units_upto, ih]; simp [memory_init_zone]
    have hfu : free_units cfg (pageset_init cfg z1) = nr_pages cfg := by
      unfold pageset_init
      rw [free_units_set_pcp, k3, hfz, nr_pages]
      omega
    refine ⟨⟨_, rfl, rfl, ⟨rfl, rfl⟩, ?_⟩, hfu, rfl, ?_⟩
    · simp only [pageset_update, List.map_nil, List.nil_append]
      exact zone_inv_set_pcp k1 _ (fun q hq => by simp [pcp_list, pageset_update] at hq)
    · simp only [total_units, hfu, held_units, List.map_nil, List.sum_nil]
      simp [pcp_count, pageset_init, pageset_update]

/-! ## Routing and failure of allocation (C2, C8, C9, C10) -/

theorem rmqueue_smallest_pcp (cfg : Config) (z : zone) (order : Nat) :
    (__rmqueue_smallest cfg z order).1.pcp = z.pcp := by
  rcases rmqueue_smallest_cases cfg z order with ⟨_, h2⟩ | ⟨c, pg, rest, _, _, _, _, h5⟩
  · rw [h2]
  · rw [h5, expand_pcp]; rfl

/-- `rmqueue_bulk` obtains nothing from a zone whose free areas are all empty. -/
theorem rmqueue_bulk_empty (cfg : Config) (z : zone) (list : List Nat) (count : Nat)
    (h : ∀ o, o < cfg.MAX_ORDER → (z.free_area o).free_list = []) :
    rmqueue_bulk cfg count z list = (z, list, 0) := by
  cases count with
  | zero => rfl
  | succ n =>
    rcases rmqueue_smallest_cases cfg z 0 with ⟨_, h2⟩ | ⟨c, pg, rest, _, h2, _, h4, _⟩
    · simp only [rmqueue_bulk, h2]
    · rw [h c h2] at h4; simp at h4

/-- `rmqueue_bulk` with a positive count obtains at least one page from a zone with
a non-empty free area. -/
theorem rmqueue_bulk_nonempty (cfg : Config) (z : zone) (list : List Nat) (count : Nat)
    (h : ¬ ∀ o, o < cfg.MAX_ORDER → (z.free_area o).free_list = []) :
    ∃ pg new, (rmqueue_bulk cfg (count + 1) z list).2.1 = list ++ pg :: new := by
  rcases rmqueue_smallest_cases cfg z 0 with ⟨h1, _⟩ | ⟨c, pg, rest, _, _, _, _, h5⟩
  · exact absurd (fun o ho => h1 o (Nat.zero_le _) ho) h
  · have e : (rmqueue_bulk cfg (count + 1) z list).2.1 =
        (rmqueue_bulk cfg count (__rmqueue_smallest cfg z 0).1 (list ++ [pg])).2.1 := by
      simp only [rmqueue_bulk, h5]
    have mono : ∀ (n : Nat) (z1 : zone) (l : List Nat),
        ∃ new, (rmqueue_bulk cfg n z1 l).2.1 = l ++ new := by
      intro n
      induction n with
      | zero => intro z1 l; exact ⟨[], by simp [rmqueue_bulk]⟩
      | succ n ih =>
        intro z1 l
        cases hr : (__rmqueue_smallest cfg z1 0).2 with
        | none => exact ⟨[], by simp [rmqueue_bulk, hr]⟩
        | some q =>
          obtain ⟨new, hn⟩ := ih (__rmqueue_smallest cfg z1 0).1 (l ++ [q])
          exact ⟨q :: new, by simp [rmqueue_bulk, hr, hn]⟩
    obtain ⟨new, hn⟩ := mono count (__rmqueue_smallest cfg z 0).1 (list ++ [pg])
    exact ⟨pg, new, by rw [e, hn]; simp⟩

/-- C2 (Buddy symmetry): for every unit index and every order,
`__find_buddy_pfn(__find_buddy_pfn(index, order), order) == index`, where
`__find_buddy_pfn(index, order) = index XOR (1 << order)`. -/
theorem buddy_symmetry (index order : Nat) :
    __find_buddy_pfn (__find_buddy_pfn index order) order = index ∧
      __find_buddy_pfn index order = index ^^^ (1 <<< order) := by
  refine ⟨?_, rfl⟩
  unfold __find_buddy_pfn
  exact Nat.xor_cancel_right _ _

/-- C8: `__rmqueue_smallest(zone, order)` returns `NULL` if and only if every
`free_area[o]` with `order <= o < MAX_ORDER` is empty, and when it returns `NULL` the
zone (free lists, `nr_free` counts, page records, cache) is unchanged. -/
theorem rmqueue_smallest_null_iff (cfg : Config) (z : zone) (order : Nat) :
    ((__rmqueue_smallest cfg z order).2 = none ↔
        ∀ o, order ≤ o → o < cfg.MAX_ORDER → (z.free_area o).free_list = []) ∧
      ((__rmqueue_smallest cfg z order).2 = none → (__rmqueue_smallest cfg z order).1 = z) := by
  rcases rmqueue_smallest_cases cfg z order with ⟨h1, h2⟩ | ⟨c, pg, rest, h1, h2, _, h4, h5⟩
  · rw [h2]
    exact ⟨⟨fun _ => h1, fun _ => rfl⟩, fun _ => rfl⟩
  · rw [h5]
    refine ⟨⟨fun h => by simp at h, fun h => ?_⟩, fun h => by simp at h⟩
    rw [h c h1 h2] at h4
    simp at h4

/-- C9: with an initialised cache whose `batch` is at least 1 (as `pageset_init`
sets it), `__alloc_pages(0)` returns `NULL` if and only if the cache list is empty
and every free area of the zone is empty; when it returns `NULL`, `pcp->count`, the
cache list and the zone are unchanged. -/
theorem alloc_pages_zero_null_iff (cfg : Config) (z : zone) (pcp : per_cpu_pages)
    (hp : z.pcp = some pcp) (hb : 1 ≤ pcp.batch) :
    (∃ r, __alloc_pages cfg z 0 = some r ∧
      (r.2 = none ↔
        pcp.lists = [] ∧ ∀ o, o < cfg.MAX_ORDER → (z.free_area o).free_list = []) ∧
      (r.2 = none → r.1 = z)) := by
  have e : __alloc_pages cfg z 0 = some (__rmqueue_pcplist cfg z pcp) := by
    simp [__alloc_pages, get_page_from_freelist, rmqueue, rmqueue_pcplist, hp]
  refine ⟨_, e, ?_⟩
  cases hl : pcp.lists with
  | cons q rest =>
    have e1 : __rmqueue_pcplist_refill cfg z pcp = (z, pcp) := by
      simp [__rmqueue_pcplist_refill, hl]
    have e2 : __rmqueue_pcplist cfg z pcp =
        ({ z with pcp := some { pcp with lists := rest, count := pcp.count - 1 } }, some q) := by
      simp only [__rmqueue_pcplist, e1, hl]
    rw [e2]
    exact ⟨⟨fun h => by simp at h, fun h => by simp at h⟩, fun h => by simp at h⟩
  | nil =>
    have e1 : __rmqueue_pcplist_refill cfg z pcp =
        ((rmqueue_bulk cfg pcp.batch z []).1,
          { pcp with
            count := pcp.count + ((rmqueue_bulk cfg pcp.batch z []).2.2 : Int)
            lists := (rmqueue_bulk cfg pcp.batch z []).2.1 }) := by
      simp [__rmqueue_pcplist_refill, hl]
    by_cases hz : ∀ o, o < cfg.MAX_ORDER → (z.free_area o).free_list = []
    · have e2 : __rmqueue_pcplist cfg z pcp = (z, none) := by
        simp only [__rmqueue_pcplist, e1, rmqueue_bulk_empty cfg z [] pcp.batch hz]
        have : ({ pcp with count := pcp.count + ((0 : Nat) : Int), lists := [] } : per_cpu_pages)
            = pcp := by
          cases pcp
          simp only at hl
          subst hl
          simp
        rw [this, zone_eta_pcp z pcp hp]
      rw [e2]
      exact ⟨⟨fun _ => ⟨rfl, hz⟩, fun _ => rfl⟩, fun _ => rfl⟩
    · obtain ⟨n, hn⟩ : ∃ n, pcp.batch = n + 1 := ⟨pcp.batch - 1, by omega⟩
      obtain ⟨pg, new, hnew⟩ := rmqueue_bulk_nonempty cfg z [] n hz
      rw [← hn] at hnew
      simp only [List.nil_append] at hnew
      have e2 : (__rmqueue_pcplist cfg z pcp).2 = some pg := by
        simp only [__rmqueue_pcplist, e1, hnew]
      refine ⟨⟨fun h => by rw [e2] at h; simp at h, fun h => absurd h.2 hz⟩,
        fun h => by rw [e2] at h; simp at h⟩

/-- C10 (Allocation routing): for every order > 0, `__alloc_pages(order)` returns
exactly what `__rmqueue_smallest(order)` returns on the same zone and leaves the
per-CPU cache (list and count) unchanged; for order 0 with a non-empty cache,
`__alloc_pages(0)` returns the first page of the cache and leaves every free area
(and every page record) of the zone unchanged. -/
theorem alloc_pages_routing (cfg : Config) (z : zone) :
    (∀ order, 0 < order →
      __alloc_pages cfg z order = some (__rmqueue_smallest cfg z order) ∧
      (__rmqueue_smallest cfg z order).1.pcp = z.pcp) ∧
    (∀ pcp q rest, z.pcp = some pcp → pcp.lists = q :: rest →
      ∃ z1, __alloc_pages cfg z 0 = some (z1, some q) ∧ z1.free_area = z.free_area ∧
        z1.mem_map = z.mem_map ∧
        z1.pcp = some { pcp with lists := rest, count := pcp.count - 1 }) := by
  refine ⟨fun order ho => ⟨?_, rmqueue_smallest_pcp cfg z order⟩, ?_⟩
  · have : order ≠ 0 := by omega
    simp [__alloc_pages, get_page_from_freelist, rmqueue, this]
  · intro pcp q rest hp hl
    have e : __alloc_pages cfg z 0 = some (__rmqueue_pcplist cfg z pcp) := by
      simp [__alloc_pages, get_page_from_freelist, rmqueue, rmqueue_pcplist, hp]
    have e1 : __rmqueue_pcplist_refill cfg z pcp = (z, pcp) := by
      simp [__rmqueue_pcplist_refill, hl]
    have e2 : __rmqueue_pcplist cfg z pcp =
        ({ z with pcp := some { pcp with lists := rest, count := pcp.count - 1 } }, some q) := by
      simp only [__rmqueue_pcplist, e1, hl]
    exact ⟨{ z with pcp := some { pcp with lists := rest, count := pcp.count - 1 } },
      by rw [e, e2], rfl, rfl, rfl⟩

/-! ## Conservation and the out-of-memory boundary with the missing value read as 0; bootstrap of one unit (C6) -/

/-- Witness of C9 on the zone of `cfg8` right after `memory_init`: the cache is
empty but a free area is not, so the allocation does not fail. -/
theorem alloc_pages_zero_null_iff_witness :
    zone8.pcp = some { count := 0, high := 6, batch := 1, lists := [] } ∧
    1 ≤ ({ count := 0, high := 6, batch := 1, lists := [] } : per_cpu_pages).batch ∧
    (∃ r, __alloc_pages cfg8 zone8 0 = some r ∧
      (r.2 = none ↔
        ({ count := 0, high := 6, batch := 1, lists := [] } : per_cpu_pages).lists = [] ∧
          ∀ o, o < cfg8.MAX_ORDER → (zone8.free_area o).free_list = []) ∧
      (r.2 = none → r.1 = zone8)) :=
  ⟨by decide, by decide,
    alloc_pages_zero_null_iff cfg8 zone8 { count := 0, high := 6, batch := 1, lists := [] }
      (by decide) (by decide)⟩

/-- Witness of C10: an order-1 request on the fresh zone of `cfg8`, and an order-0
request while page 8 is cached. -/
theorem alloc_pages_routing_witness :
    0 < 1 ∧ zone8_cached.pcp = some { count := 1, high := 6, batch := 1, lists := [8] } ∧
    (__alloc_pages cfg8 zone8 1 = some (__rmqueue_smallest cfg8 zone8 1) ∧
      (__rmqueue_smallest cfg8 zone8 1).1.pcp = zone8.pcp) ∧
    (∃ z1, __alloc_pages cfg8 zone8_cached 0 = some (z1, some 8) ∧
      z1.free_area = zone8_cached.free_area ∧ z1.mem_map = zone8_cached.mem_map ∧
      z1.pcp = some { count := 1 - 1, high := 6, batch := 1, lists := [] }) :=
  ⟨by decide, by decide, (alloc_pages_routing cfg8 zone8).1 1 (by decide),
    (alloc_pages_routing cfg8 zone8_cached).2
      { count := 1, high := 6, batch := 1, lists := [8] } 8 [] (by decide) rfl⟩

theorem calls_ok_take {cfg : Config} :
    ∀ (cs : List Call) (s : zone × List (Nat × Nat)) (n : Nat),
      calls_ok cfg s cs = true → calls_ok cfg s (cs.take n) = true := by
  intro cs
  induction cs with
  | nil => intro s n h; simpa using h
  | cons c cs ih =>
    intro s n h
    cases n with
    | zero => rfl
    | succ n =>
      cases c with
      | alloc order =>
        simp only [List.take_succ_cons, calls_ok] at h ⊢
        cases hc : call cfg s (Call.alloc order) with
        | none => rfl
        | some s1 => rw [hc] at h; exact ih s1 n h
      | free p o =>
        simp only [List.take_succ_cons, calls_ok, Bool.and_eq_true] at h ⊢
        refine ⟨h.1, ?_⟩
        cases hc : call cfg s (Call.free p o) with
        | none => rfl
        | some s1 => rw [hc] at h; exact ih s1 n h.2

/-- Runs on the freshly initialised zone that respect the caller's side of the
contract do not fault, stay well-formed and account for every page. -/
theorem run_spec {cfg : Config} {cs : List Call} (h : run_ok cfg cs = true) :
    ∃ s, run cfg cs = some s ∧ alloc_inv cfg s ∧ total_units cfg s = (nr_pages cfg : Int) := by
  unfold run_ok at h
  unfold run
  cases hm : memory_init cfg with
  | none => rw [hm] at h; simp at h
  | some z0 =>
    rw [hm] at h
    simp only at h
    obtain ⟨m1, _, _, m4⟩ := memory_init_spec hm
    obtain ⟨s, c1, c2, c3⟩ := calls_spec cs (z0, []) m1 h
    exact ⟨s, by simpa using c1, c2, c3.trans m4⟩

theorem run_ok_take {cfg : Config} {cs : List Call} (n : Nat) (h : run_ok cfg cs = true) :
    run_ok cfg (cs.take n) = true := by
  unfold run_ok at h ⊢
  cases hm : memory_init cfg with
  | none => rw [hm] at h; simp at h
  | some z0 =>
    rw [hm] at h
    exact calls_ok_take cs (z0, []) n h

/-- Once `__alloc_pages(order)` has returned `NULL`, repeating the call changes
nothing. -/
theorem calls_alloc_after_null {cfg : Config} {order : Nat} :
    ∀ (j : Nat) (s : zone × List (Nat × Nat)),
      __alloc_pages cfg s.1 order = some (s.1, none) →
      calls cfg s (List.replicate j (Call.alloc order)) = some s := by
  intro j
  induction j with
  | zero => intro s _; rfl
  | succ j ih =>
    intro s h
    have e : call cfg s (Call.alloc order) = some s := by
      simp only [call, h]
    simp only [List.replicate_succ, calls, e]
    exact ih s h

/-- After `j` requests of the same order in a row, either all of them succeeded or
the next one returns `NULL`. -/
theorem calls_alloc_replicate {cfg : Config} {order : Nat} :
    ∀ (j : Nat) (s : zone × List (Nat × Nat)), alloc_inv cfg s →
      ∃ s1, calls cfg s (List.replicate j (Call.alloc order)) = some s1 ∧ alloc_inv cfg s1 ∧
        total_units cfg s1 = total_units cfg s ∧
        (held_units s1.2 = held_units s.2 + j * 2 ^ order ∨
          __alloc_pages cfg s1.1 order = some (s1.1, none)) := by
  intro j
  induction j with
  | zero =>
    intro s h
    exact ⟨s, rfl, h, rfl, Or.inl (by simp)⟩
  | succ j ih =>
    intro s h
    rcases alloc_pages_spec order h with ⟨z1, pg, r1, r2, r3⟩ | r1
    · obtain ⟨s1, i1, i2, i3, i4⟩ := ih (z1, (pg, order) :: s.2) r2
      have e : call cfg s (Call.alloc order) = some (z1, (pg, order) :: s.2) := by
        simp only [call, r1]
      refine ⟨s1, by simp only [List.replicate_succ, calls, e, i1], i2, i3.trans r3, ?_⟩
      rcases i4 with i4 | i4
      · left
        rw [i4, held_units_cons]
        simp only
        ring
      · exact Or.inr i4
    · exact ⟨s, calls_alloc_after_null (j + 1) s r1, h, rfl, Or.inr r1⟩

/-- OOM boundary, with the missing return value of `page_is_buddy` read as 0: for every order
and every freshly initialised zone of `nr_pages` units, when `__alloc_pages(order)` is
called `nr_pages / 2^order + 1` times in a row, the first `nr_pages / 2^order` calls run
without a fault and the final call returns `NULL`, leaving the zone as it was. -/
theorem oom_boundary_r0 (cfg : Config) (order : Nat) (h : (memory_init cfg).isSome = true) :
    ∃ s, run cfg (List.replicate (nr_pages cfg / 2 ^ order) (Call.alloc order)) = some s ∧
      __alloc_pages cfg s.1 order = some (s.1, none) := by
  cases hm : memory_init cfg with
  | none => rw [hm] at h; simp at h
  | some z0 =>
    obtain ⟨m1, _, _, m4⟩ := memory_init_spec hm
    obtain ⟨s1, c1, c2, c3, c4⟩ :=
      calls_alloc_replicate (nr_pages cfg / 2 ^ order) (z0, []) m1
    refine ⟨s1, by simp only [run, hm, Option.some_bind]; exact c1, ?_⟩
    rcases c4 with c4 | c4
    · rcases alloc_pages_spec order c2 with ⟨z1, pg, r1, r2, r3⟩ | r1
      · exfalso
        obtain ⟨pcp, hp, hc, _, _⟩ := r2
        have hcnt : pcp_count z1 = (pcp.lists.length : Int) := by
          rw [pcp_count_eq hp, hc]
        have ht : total_units cfg (z1, (pg, order) :: s1.2) = (nr_pages cfg : Int) :=
          r3.trans (c3.trans m4)
        simp only [total_units, held_units_cons, hcnt, c4] at ht
        have hpos := Nat.two_pow_pos order
        have hlt := Nat.lt_div_mul_add (a := nr_pages cfg) hpos
        have h0 : held_units ([] : List (Nat × Nat)) = 0 := rfl
        rw [h0] at ht
        have ht2 : free_units cfg z1 + pcp.lists.length +
            (2 ^ order + (0 + nr_pages cfg / 2 ^ order * 2 ^ order)) = nr_pages cfg := by
          exact_mod_cast ht
        omega
      · exact r1
    · exact c4

/-- C6 fails for `k = 0`: on every region of exactly one unit, `memory_init`
faults.  Its loop hands the order-0 block to `__free_pages`, which goes to
`free_unref_page_commit` and dereferences `zone->pcp`, still `NULL` because
`pageset_init` only runs after the loop. -/
theorem memory_init_single_unit (cfg : Config) (h : cfg.end_pfn = cfg.start_pfn + 1) :
    memory_init cfg = none := by
  have hc : cfg.start_pfn < cfg.end_pfn := by omega
  obtain ⟨o, h1, _, h3, _⟩ := memory_init_order_spec cfg.end_pfn cfg.start_pfn hc
    (min (cfg.MAX_ORDER - 1) (__ffs cfg.start_pfn))
  have ho : o = 0 := by
    by_contra hne
    have := Nat.one_lt_two_pow hne
    omega
  subst ho
  have hf : cfg.end_pfn - cfg.start_pfn = 1 := by omega
  unfold memory_init
  rw [hf]
  simp [memory_init_loop, hc, h1, __free_pages, free_the_page, free_unref_page,
    free_unref_page_commit, memory_init_zone]

/-- Witness of the fault of `memory_init` on a one-unit region. -/
theorem memory_init_single_unit_witness :
    ({ MAX_ORDER := 11, BATCH_SIZE := 1, start_pfn := 8, end_pfn := 9 } : Config).end_pfn
      = ({ MAX_ORDER := 11, BATCH_SIZE := 1, start_pfn := 8, end_pfn := 9 } : Config).start_pfn + 1 ∧
    memory_init { MAX_ORDER := 11, BATCH_SIZE := 1, start_pfn := 8, end_pfn := 9 } = none :=
  ⟨by decide, memory_init_single_unit _ (by decide)⟩

/-! ## The drain threshold of the cache, the missing value read as 0 -/

theorem calls_append (cfg : Config) :
    ∀ (a b : List Call) (s : zone × List (Nat × Nat)),
      calls cfg s (a ++ b) = (calls cfg s a).bind (fun s1 => calls cfg s1 b) := by
  intro a
  induction a with
  | nil => intro b s; rfl
  | cons c a ih =>
    intro b s
    simp only [List.cons_append, calls]
    cases call cfg s c with
    | none => rfl
    | some s1 => exact ih b s1

theorem run_append (cfg : Config) (a b : List Call) :
    run cfg (a ++ b) = (run cfg a).bind (fun s1 => calls cfg s1 b) := by
  unfold run
  cases memory_init cfg with
  | none => rfl
  | some z0 => simp only [Option.some_bind, calls_append]

theorem calls_ok_append (cfg : Config) :
    ∀ (a b : List Call) (s : zone × List (Nat × Nat)), calls_ok cfg s (a ++ b) = true →
      calls_ok cfg s a = true ∧ ∀ s1, calls cfg s a = some s1 → calls_ok cfg s1 b = true := by
  intro a
  induction a with
  | nil =>
    intro b s h
    refine ⟨rfl, fun s1 hs => ?_⟩
    simp only [calls, Option.some.injEq] at hs
    subst hs
    simpa using h
  | cons c a ih =>
    intro b s h
    cases c with
    | alloc order =>
      simp only [List.cons_append, calls_ok, calls] at h ⊢
      cases hc : call cfg s (Call.alloc order) with
      | none => exact ⟨rfl, fun s1 hs => by simp at hs⟩
      | some s2 =>
        rw [hc] at h
        exact ih b s2 h
    | free p o =>
      simp only [List.cons_append, calls_ok, calls, Bool.and_eq_true] at h ⊢
      cases hc : call cfg s (Call.free p o) with
      | none => exact ⟨⟨h.1, rfl⟩, fun s1 hs => by simp at hs⟩
      | some s2 =>
        rw [hc] at h
        exact ⟨⟨h.1, (ih b s2 h.2).1⟩, (ih b s2 h.2).2⟩

/-- A row of order-0 frees, seen through `pcp->count` and the weighted free total:
every page freed ends up in the cache or in the free areas, and once the count has
been driven up to `high` at least `batch` units have reached the free areas. -/
theorem frees_threshold {cfg : Config} :
    ∀ (ps : List Nat) (s : zone × List (Nat × Nat)) (pcp : per_cpu_pages),
      alloc_inv cfg s → s.1.pcp = some pcp →
      calls_ok cfg s (ps.map (fun p => Call.free p 0)) = true →
      ∃ s1 pcp1, calls cfg s (ps.map (fun p => Call.free p 0)) = some s1 ∧ alloc_inv cfg s1 ∧
        s1.1.pcp = some pcp1 ∧ free_units cfg s.1 ≤ free_units cfg s1.1 ∧
        ((free_units cfg s1.1 : Int) - free_units cfg s.1) + pcp1.count
          = pcp.count + ps.length ∧
        (1 ≤ ps.length → (pcp.high : Int) ≤ pcp.count + ps.length →
          pcp.count < max (pcp.high : Int) 1 →
          free_units cfg s.1 + pcp.batch ≤ free_units cfg s1.1) := by
  intro ps
  induction ps with
  | nil =>
    intro s pcp h hp _
    exact ⟨s, pcp, rfl, h, hp, Nat.le_refl _, by simp, fun h1 => by simp at h1⟩
  | cons p t ih =>
    intro s pcp h hp hok
    simp only [List.map_cons, calls_ok, Bool.and_eq_true, decide_eq_true_eq] at hok
    obtain ⟨pcp0, hp0, hc, ht, _⟩ := id h
    have e0 : pcp0 = pcp := by rw [hp] at hp0; exact (Option.some.inj hp0).symm
    subst e0
    obtain ⟨z1, pcp1, d1, d2, d3, d4, d5⟩ := free_unref_page_commit_detail h hp hok.1
    have ec : call cfg s (Call.free p 0) = some (z1, s.2.erase (p, 0)) := by
      simp [call, __free_pages, free_the_page, free_unref_page, d1]
    rw [ec] at hok
    obtain ⟨s1, pcp2, i1, i2, i3, i4, i5, i6⟩ := ih (z1, s.2.erase (p, 0)) pcp1 d3 d2 hok.2
    obtain ⟨pcpa, hpa, _, hta, _⟩ := id d3
    have ea : pcpa = pcp1 := by
      simp only at hpa
      rw [d2] at hpa
      exact (Option.some.inj hpa).symm
    subst ea
    by_cases hd : pcp0.count + 1 < (pcp0.high : Int)
    · have e := d4 hd
      have e1 : pcpa = { pcp0 with lists := p :: pcp0.lists, count := pcp0.count + 1 } := by
        rw [e] at d2
        exact (Option.some.inj d2).symm
      have hfu : free_units cfg z1 = free_units cfg s.1 := by rw [e, free_units_set_pcp]
      have hcnt : pcpa.count = pcp0.count + 1 := by rw [e1]
      have hhigh : pcpa.high = pcp0.high := by rw [e1]
      have hbatch : pcpa.batch = pcp0.batch := by rw [e1]
      simp only [hfu] at i4 i5 i6
      refine ⟨s1, pcp2, by simp only [List.map_cons, calls, ec]; exact i1, i2, i3, i4, ?_, ?_⟩
      · simp only [List.length_cons]
        push_cast
        omega
      · intro _ h2 h3
        simp only [List.length_cons] at h2
        push_cast at h2
        rw [hbatch] at i6
        refine i6 ?_ ?_ ?_
        · have : (t.length : Int) ≥ 1 := by omega
          exact_mod_cast this
        · rw [hhigh, hcnt]; omega
        · rw [hhigh, hcnt]; omega
    · obtain ⟨removed, r1, r2, r3, r4, r5, r6⟩ := d5 (by omega)
      simp only at i4 i5
      refine ⟨s1, pcp2, by simp only [List.map_cons, calls, ec]; exact i1, i2, i3, by omega, ?_, ?_⟩
      · simp only [List.length_cons]
        push_cast
        omega
      · intro _ _ _
        have hb : 1 ≤ pcp0.batch := by rw [ht.2]; exact Nat.le_max_left _ _
        have hbh : (pcp0.batch : Int) ≤ max (pcp0.high : Int) 1 := by
          rw [ht.1, ht.2]
          rcases Nat.eq_zero_or_pos cfg.BATCH_SIZE with hz | hz
          · rw [hz]; simp
          · have : max 1 cfg.BATCH_SIZE = cfg.BATCH_SIZE := Nat.max_eq_right hz
            rw [this]
            push_cast
            omega
        have hr := r6 hb
        have hlen : (pcp0.lists.length : Int) = pcp0.count := hc.symm
        have : removed.length = pcp0.batch := by
          rw [hr]
          apply Nat.min_eq_left
          have : (pcp0.batch : Int) ≤ pcp0.lists.length + 1 := by omega
          exact_mod_cast this
        omega

/-- PCP threshold, with the missing return value of `page_is_buddy` read as 0: starting from an
empty per-CPU cache, after `N >= 1` consecutive `__free_pages` calls of held order-0 units
with `N >= high` (`high = 6 * BATCH_SIZE`), no call has faulted, at least `batch` units have
been returned to the zone (the weighted free total of the free areas has grown by at least
`batch`), and `pcp->count` is below `N`. -/
theorem pcp_threshold_r0 (cfg : Config) (cs : List Call) (ps : List Nat)
    (hok : run_ok cfg (cs ++ ps.map (fun p => Call.free p 0)) = true)
    (hempty : (run cfg cs).map (fun s => pcp_list s.1) = some [])
    (hN : 6 * cfg.BATCH_SIZE ≤ ps.length) (h1 : 1 ≤ ps.length) :
    ∃ s s1 pcp, run cfg cs = some s ∧ s.1.pcp = some pcp ∧ pcp.lists = [] ∧
      pcp.high ≤ ps.length ∧
      run cfg (cs ++ ps.map (fun p => Call.free p 0)) = some s1 ∧
      free_units cfg s.1 + pcp.batch ≤ free_units cfg s1.1 ∧
      pcp_count s1.1 < (ps.length : Int) := by
  unfold run_ok at hok
  cases hm : memory_init cfg with
  | none => rw [hm] at hok; simp at hok
  | some z0 =>
    rw [hm] at hok
    simp only at hok
    obtain ⟨k1, k2⟩ := calls_ok_append cfg cs _ (z0, []) hok
    have hrun : run_ok cfg cs = true := by unfold run_ok; rw [hm]; exact k1
    obtain ⟨s, r1, r2, _⟩ := run_spec hrun
    have hcs : calls cfg (z0, []) cs = some s := by
      simpa [run, hm] using r1
    obtain ⟨pcp, hp, hc, ht, _⟩ := id r2
    have hl : pcp.lists = [] := by
      rw [r1] at hempty
      simpa [pcp_list, hp] using hempty
    have hc0 : pcp.count = 0 := by rw [hc, hl]; rfl
    obtain ⟨s1, pcp1, f1, f2, f3, f4, f5, f6⟩ := frees_threshold ps s pcp r2 hp (k2 s hcs)
    have hb : 1 ≤ pcp.batch := by rw [ht.2]; exact Nat.le_max_left _ _
    have hge := f6 h1 (by rw [hc0, ht.1]; push_cast; omega) (by rw [hc0]; omega)
    refine ⟨s, s1, pcp, r1, hp, hl, by rw [ht.1]; exact hN, ?_, hge, ?_⟩
    · rw [run_append, r1]; exact f1
    · rw [pcp_count_eq f3]
      omega

/-! ## Steps of the merge loop -/

/-- The merge loop stops at once when the buddy cannot be absorbed. -/
theorem free_one_page_merge_exit (cfg : Config) (M fuel : Nat) (z : zone) (p o bp : Nat)
    (h : ¬ (o < M - 1 ∧ pfn_valid_within cfg (__find_buddy_pfn p o) = true ∧
      page_is_buddy z (__find_buddy_pfn p o) o = true)) :
    (__free_one_page_merge cfg M fuel z p o bp).1 = z ∧
      (__free_one_page_merge cfg M fuel z p o bp).2.1 = p ∧
      (__free_one_page_merge cfg M fuel z p o bp).2.2.1 = o := by
  cases fuel with
  | zero => exact ⟨rfl, rfl, rfl⟩
  | succ n =>
    by_cases hc : o < M - 1
    · by_cases hv : pfn_valid_within cfg (__find_buddy_pfn p o) = true
      · have hb : ¬ page_is_buddy z (__find_buddy_pfn p o) o = true := fun hb => h ⟨hc, hv, hb⟩
        have e : __free_one_page_merge cfg M (n + 1) z p o bp
            = (z, p, o, __find_buddy_pfn p o) := by
          simp only [__free_one_page_merge, hc, if_true, hv, hb, Bool.not_true, Bool.not_false,
            Bool.false_eq_true, if_false]
        rw [e]; exact ⟨rfl, rfl, rfl⟩
      · have e : __free_one_page_merge cfg M (n + 1) z p o bp
            = (z, p, o, __find_buddy_pfn p o) := by
          simp only [__free_one_page_merge, hc, if_true, hv, Bool.not_false]
        rw [e]; exact ⟨rfl, rfl, rfl⟩
    · have e : __free_one_page_merge cfg M (n + 1) z p o bp = (z, p, o, bp) := by
        simp only [__free_one_page_merge, hc, if_false]
      rw [e]; exact ⟨rfl, rfl, rfl⟩

/-- One iteration of the merge loop when the buddy is absorbed. -/
theorem free_one_page_merge_step (cfg : Config) (M n : Nat) (z : zone) (p o bp : Nat)
    (hc : o < M - 1) (hv : pfn_valid_within cfg (__find_buddy_pfn p o) = true)
    (hb : page_is_buddy z (__find_buddy_pfn p o) o = true) :
    __free_one_page_merge cfg M (n + 1) z p o bp =
      __free_one_page_merge cfg M n
        (rmv_page_order
          (set_free_area (list_del z (__find_buddy_pfn p o)) o
            { free_list := ((list_del z (__find_buddy_pfn p o)).free_area o).free_list
              nr_free := nr_free_dec (z.free_area o).nr_free })
          (__find_buddy_pfn p o))
        (__find_buddy_pfn p o &&& p) (o + 1) (__find_buddy_pfn p o) := by
  simp only [__free_one_page_merge, hc, if_true, hv, hb, Bool.not_true, Bool.false_eq_true,
    if_false]

theorem free_one_page_place_other (cfg : Config) (z : zone) (p o bp o1 : Nat) (h : o1 ≠ o) :
    (__free_one_page_place cfg z p o bp).free_area o1 = z.free_area o1 := by
  simp [__free_one_page_place, h]

/-! ## Windows that hold every free block -/

theorem expand_within (lo hi pg low : Nat) :
    ∀ (high : Nat) (z : zone), free_within lo hi z → lo ≤ pg → pg + 2 ^ high ≤ hi →
      free_within lo hi (expand z pg low high (2 ^ high)) := by
  intro high
  induction high with
  | zero => intro z h _ _; simpa [expand] using h
  | succ n ih =>
    intro z h h1 h2
    have hpow : 2 ^ (n + 1) = 2 * 2 ^ n := by rw [pow_succ]; ring
    by_cases hc : n + 1 > low
    · simp only [expand, hc, if_true, two_pow_succ_div_two]
      refine ih _ ?_ h1 (by omega)
      intro o p hp
      simp only [set_page_order_free_area, set_free_area_free_area] at hp
      by_cases hon : o = n
      · subst hon
        simp only [if_true] at hp
        rcases List.mem_cons.mp hp with rfl | hp
        · omega
        · exact h o p hp
      · simp only [hon, if_false] at hp
        exact h o p hp
    · simp only [expand, hc, if_false]
      exact h

/-- `__rmqueue_smallest` stays inside a window that holds every free block. -/
theorem rmqueue_smallest_within {cfg : Config} {z z1 : zone} {lo hi order pg : Nat}
    (h : free_within lo hi z) (hr : __rmqueue_smallest cfg z order = (z1, some pg)) :
    free_within lo hi z1 ∧ lo ≤ pg ∧ pg + 2 ^ order ≤ hi := by
  rcases rmqueue_smallest_cases cfg z order with ⟨_, h2⟩ | ⟨c, pg1, rest, h1, h2, _, h4, h5⟩
  · rw [h2] at hr; simp at hr
  · rw [h5] at hr
    simp only [Prod.mk.injEq, Option.some.injEq] at hr
    obtain ⟨hz, hp⟩ := hr
    subst hp
    subst hz
    have hin := h c pg1 (by rw [h4]; exact List.mem_cons_self _ _)
    have hle : 2 ^ order ≤ 2 ^ c := Nat.pow_le_pow_right (by decide) h1
    rw [Nat.one_shiftLeft]
    refine ⟨expand_within lo hi pg1 order c _ ?_ hin.1 hin.2, hin.1, by omega⟩
    intro o p hp
    simp only [set_free_area_free_area, rmv_page_order_free_area] at hp
    by_cases hoc : o = c
    · subst hoc
      simp only [if_true] at hp
      exact h o p (by rw [h4]; exact List.mem_cons_of_mem _ hp)
    · simp only [hoc, if_false] at hp
      exact h o p hp

theorem rmqueue_bulk_within {cfg : Config} {lo hi : Nat} :
    ∀ (count : Nat) (z : zone) (list : List Nat), free_within lo hi z →
      (∀ q ∈ list, lo ≤ q ∧ q < hi) →
      free_within lo hi (rmqueue_bulk cfg count z list).1 ∧
        ∀ q ∈ (rmqueue_bulk cfg count z list).2.1, lo ≤ q ∧ q < hi := by
  intro count
  induction count with
  | zero => intro z list h hl; exact ⟨h, hl⟩
  | succ n ih =>
    intro z list h hl
    cases hr : __rmqueue_smallest cfg z 0 with
    | mk z1 r =>
      cases r with
      | none =>
        have e : rmqueue_bulk cfg (n + 1) z list = (z1, list, 0) := by
          simp only [rmqueue_bulk, hr]
        rw [e]
        have hz : z1 = z := by
          rcases rmqueue_smallest_cases cfg z 0 with ⟨_, h2⟩ | ⟨c, pg, rest, _, _, _, _, h5⟩
          · rw [h2] at hr
            exact (Prod.mk.inj hr).1.symm
          · rw [h5] at hr; simp at hr
        subst hz
        exact ⟨h, hl⟩
      | some pg =>
        obtain ⟨w1, w2, w3⟩ := rmqueue_smallest_within h hr
        have e : rmqueue_bulk cfg (n + 1) z list =
            ((rmqueue_bulk cfg n z1 (list ++ [pg])).1, (rmqueue_bulk cfg n z1 (list ++ [pg])).2.1,
              (rmqueue_bulk cfg n z1 (list ++ [pg])).2.2 + 1) := by
          simp only [rmqueue_bulk, hr]
        rw [e]
        refine ih z1 (list ++ [pg]) w1 ?_
        intro q hq
        rcases List.mem_append.mp hq with hq | hq
        · exact hl q hq
        · simp only [List.mem_singleton] at hq
          subst hq
          simp only [pow_zero] at w3
          omega

/-- The merge loop of `__free_one_page` stays inside a window that holds every free
block and the block being freed. -/
theorem free_one_page_merge_within {cfg : Config} {busy : List (Nat × Nat)} {lo hi : Nat} :
    ∀ (fuel : Nat) (z : zone) (p o bp : Nat),
      zone_inv cfg z ((p, o) :: busy) → (∀ q ∈ pcp_list z, (q, 0) ∈ busy) →
      free_within lo hi z → lo ≤ p → p + 2 ^ o ≤ hi →
      free_within lo hi (__free_one_page_merge cfg (min cfg.MAX_ORDER (pageblock_order + 1))
          fuel z p o bp).1 ∧
        lo ≤ (__free_one_page_merge cfg (min cfg.MAX_ORDER (pageblock_order + 1))
          fuel z p o bp).2.1 ∧
        (__free_one_page_merge cfg (min cfg.MAX_ORDER (pageblock_order + 1)) fuel z p o bp).2.1 +
          2 ^ (__free_one_page_merge cfg (min cfg.MAX_ORDER (pageblock_order + 1))
            fuel z p o bp).2.2.1 ≤ hi := by
  intro fuel
  generalize hM : min cfg.MAX_ORDER (pageblock_order + 1) = M
  induction fuel with
  | zero =>
    intro z p o bp h hpcp hw h1 h2
    exact ⟨hw, h1, h2⟩
  | succ n ih =>
    intro z p o bp h hpcp hw h1 h2
    by_cases hc : o < M - 1 ∧ pfn_valid_within cfg (__find_buddy_pfn p o) = true ∧
        page_is_buddy z (__find_buddy_pfn p o) o = true
    · obtain ⟨c1, c2, c3⟩ := hc
      rw [free_one_page_merge_step cfg M n z p o bp c1 c2 c3]
      obtain ⟨m1, m2, _⟩ := zone_inv_merge h hpcp (hM ▸ c1) c2 c3
      have hin := h.busy_in (p, o) (List.mem_cons_self _ _)
      obtain ⟨_, hcases⟩ := buddy_cases p o hin.2.1
      obtain ⟨b1, b2⟩ := (page_is_buddy_iff z _ o).mp c3
      have hbm : __find_buddy_pfn p o ∈ (z.free_area o).free_list := by
        have := h.linked _ c2 b1
        rwa [b2] at this
      have hbw := hw o _ hbm
      have hpow : 2 ^ (o + 1) = 2 * 2 ^ o := by rw [pow_succ]; ring
      refine ih _ _ _ _ m1 ?_ ?_ (by omega) (by omega)
      · intro q hq
        rw [pcp_list_congr m2] at hq
        exact hpcp q hq
      · intro o1 q hq
        simp only [rmv_page_order_free_area, set_free_area_free_area, list_del_free_list] at hq
        by_cases ho1 : o1 = o
        · subst ho1
          simp only [if_true] at hq
          exact hw o1 q (List.mem_of_mem_erase hq)
        · simp only [ho1, if_false] at hq
          exact hw o1 q (List.mem_of_mem_erase hq)
    · obtain ⟨e1, e2, e3⟩ := free_one_page_merge_exit cfg M (n + 1) z p o bp hc
      rw [e1, e2, e3]
      exact ⟨hw, h1, h2⟩

/-- `__free_one_page` stays inside a window that holds every free block and the
block being freed. -/
theorem free_one_page_within {cfg : Config} {z : zone} {busy : List (Nat × Nat)}
    {p o lo hi : Nat} (h : zone_inv cfg z ((p, o) :: busy))
    (hpcp : ∀ q ∈ pcp_list z, (q, 0) ∈ busy) (hw : free_within lo hi z) (h1 : lo ≤ p)
    (h2 : p + 2 ^ o ≤ hi) : free_within lo hi (__free_one_page cfg z p o) := by
  obtain ⟨w1, w2, w3⟩ := free_one_page_merge_within
    (min cfg.MAX_ORDER (pageblock_order + 1) - 1 - o) z p o 0 h hpcp hw h1 h2
  unfold __free_one_page
  generalize __free_one_page_merge cfg (min cfg.MAX_ORDER (pageblock_order + 1))
    (min cfg.MAX_ORDER (pageblock_order + 1) - 1 - o) z p o 0 = r at w1 w2 w3 ⊢
  intro o1 q hq
  unfold __free_one_page_place at hq
  simp only [set_free_area_free_area, set_page_order_free_area] at hq
  by_cases ho1 : o1 = r.2.2.1
  · subst ho1
    simp only [if_true] at hq
    have hq2 := (free_one_page_place_perm cfg r.1 r.2.1 r.2.2.1 r.2.2.2).mem_iff.mp hq
    rcases List.mem_cons.mp hq2 with e | hq3
    · rw [e]; exact ⟨w2, w3⟩
    · exact w1 _ q hq3
  · simp only [ho1, if_false] at hq
    exact w1 o1 q hq

theorem free_fold_within {cfg : Config} {lo hi : Nat} :
    ∀ (hs : List Nat) (z : zone) (busy : List (Nat × Nat)),
      zone_inv cfg z (hs.map (fun q => (q, 0)) ++ busy) →
      (∀ q ∈ pcp_list z, (q, 0) ∈ busy) → free_within lo hi z →
      (∀ q ∈ hs, lo ≤ q ∧ q < hi) →
      free_within lo hi (hs.foldl (fun z pg => __free_one_page cfg z pg 0) z) := by
  intro hs
  induction hs with
  | nil => intro z busy _ _ hw _; exact hw
  | cons x t ih =>
    intro z busy h hpcp hw hl
    simp only [List.map_cons, List.cons_append] at h
    have hpcp1 : ∀ q ∈ pcp_list z, (q, 0) ∈ t.map (fun q => (q, 0)) ++ busy :=
      fun q hq => List.mem_append_right _ (hpcp q hq)
    obtain ⟨f1, f2, _, _⟩ := free_one_page_spec h hpcp1
    have hx := hl x (List.mem_cons_self _ _)
    have w := free_one_page_within h hpcp1 hw hx.1 (by simp only [pow_zero]; omega)
    simp only [List.foldl_cons]
    exact ih _ busy f1 (fun q hq => hpcp q (by rwa [pcp_list_congr f2] at hq)) w
      (fun q hq => hl q (List.mem_cons_of_mem _ hq))

/-! ## Free blocks inside an aligned window -/

theorem countP_split {α : Type} (p p1 p2 : α → Bool) :
    ∀ (l : List α),
      (∀ q ∈ l, (p q = true ↔ (p1 q = true ∨ p2 q = true)) ∧ ¬ (p1 q = true ∧ p2 q = true)) →
      l.countP p = l.countP p1 + l.countP p2 := by
  intro l
  induction l with
  | nil => intro _; rfl
  | cons x t ih =>
    intro h
    have hx := h x (List.mem_cons_self _ _)
    have ht := ih (fun q hq => h q (List.mem_cons_of_mem _ hq))
    simp only [List.countP_cons, ht]
    cases h1 : p1 x <;> cases h2 : p2 x <;> cases h0 : p x <;> simp_all <;> omega

theorem countP_unique {p : Nat → Bool} {a : Nat} :
    ∀ {l : List Nat}, l.Nodup → a ∈ l → (∀ q ∈ l, (p q = true ↔ q = a)) → l.countP p = 1 := by
  intro l
  induction l with
  | nil => intro _ h _; exact absurd h (List.not_mem_nil _)
  | cons x t ih =>
    intro hnd hm h
    obtain ⟨hx, ht⟩ := List.nodup_cons.mp hnd
    by_cases e : x = a
    · subst e
      have h1 : p x = true := (h x (List.mem_cons_self _ _)).mpr rfl
      have h2 : t.countP p = 0 := by
        rw [List.countP_eq_zero]
        intro q hq hp
        have := (h q (List.mem_cons_of_mem _ hq)).mp hp
        exact hx (this ▸ hq)
      simp [List.countP_cons, h1, h2]
    · have hmt : a ∈ t := (List.mem_cons.mp hm).resolve_left (fun e2 => e e2.symm)
      have h1 : p x = false := by
        cases hp : p x with
        | false => rfl
        | true => exact absurd ((h x (List.mem_cons_self _ _)).mp hp) e
      have := ih ht hmt (fun q hq => h q (List.mem_cons_of_mem _ hq))
      simp [List.countP_cons, h1, this]

theorem eq_singleton_of_nodup {a : Nat} {l : List Nat} (hnd : l.Nodup) (hm : a ∈ l)
    (h : ∀ q ∈ l, q = a) : l = [a] := by
  cases l with
  | nil => exact absurd hm (List.not_mem_nil _)
  | cons x t =>
    have hx : x = a := h x (List.mem_cons_self _ _)
    subst hx
    obtain ⟨h1, _⟩ := List.nodup_cons.mp hnd
    cases t with
    | nil => rfl
    | cons y t2 =>
      have hy : y = x := h y (List.mem_cons_of_mem _ (List.mem_cons_self _ _))
      exact absurd (hy ▸ List.mem_cons_self _ _) h1

theorem dvd_step {o x y : Nat} (hx : 2 ^ o ∣ x) (hy : 2 ^ o ∣ y) (h : x < y) : x + 2 ^ o ≤ y := by
  obtain ⟨m, rfl⟩ := hx
  obtain ⟨n, rfl⟩ := hy
  have hpos := Nat.two_pow_pos o
  have hmn : m < n := lt_of_mul_lt_mul_left h (Nat.zero_le _)
  calc 2 ^ o * m + 2 ^ o = 2 ^ o * (m + 1) := by ring
    _ ≤ 2 ^ o * n := Nat.mul_le_mul_left _ hmn

theorem window_units_split (z : zone) (a j a1 j1 a2 j2 : Nat) :
    ∀ n, (∀ o, o < n →
        (z.free_area o).free_list.countP (fun q => decide (a ≤ q ∧ q + 2 ^ o ≤ a + 2 ^ j)) =
        (z.free_area o).free_list.countP (fun q => decide (a1 ≤ q ∧ q + 2 ^ o ≤ a1 + 2 ^ j1)) +
        (z.free_area o).free_list.countP (fun q => decide (a2 ≤ q ∧ q + 2 ^ o ≤ a2 + 2 ^ j2))) →
      window_units_upto z a j n = window_units_upto z a1 j1 n + window_units_upto z a2 j2 n := by
  intro n
  induction n with
  | zero => intro _; rfl
  | succ n ih =>
    intro h
    simp only [window_units_upto, ih (fun o ho => h o (by omega)), h n (by omega)]
    ring

theorem window_units_single (z : zone) (a j t : Nat) :
    ∀ n, (∀ o, o < n →
        (z.free_area o).free_list.countP (fun q => decide (a ≤ q ∧ q + 2 ^ o ≤ a + 2 ^ j)) =
        if o = t then 1 else 0) →
      window_units_upto z a j n = if t < n then 2 ^ t else 0 := by
  intro n
  induction n with
  | zero => intro _; rfl
  | succ n ih =>
    intro h
    simp only [window_units_upto, ih (fun o ho => h o (by omega)), h n (by omega)]
    by_cases e : n = t
    · subst e; simp
    · by_cases e2 : t < n
      · have : t < n + 1 := by omega
        simp [e, e2, this]
      · have : ¬ t < n + 1 := by omega
        simp [e, e2, this]

theorem window_units_zero (z : zone) (a j : Nat) :
    ∀ n, (∀ o, o < n →
        (z.free_area o).free_list.countP (fun q => decide (a ≤ q ∧ q + 2 ^ o ≤ a + 2 ^ j)) = 0) →
      window_units_upto z a j n = 0 := by
  intro n
  induction n with
  | zero => intro _; rfl
  | succ n ih =>
    intro h
    simp only [window_units_upto, ih (fun o ho => h o (by omega)), h n (by omega)]
    omega

theorem window_units_all (z : zone) (a j : Nat)
    (hnr : ∀ o, (z.free_area o).nr_free = (z.free_area o).free_list.length)
    (hw : free_within a (a + 2 ^ j) z) :
    ∀ n, window_units_upto z a j n = free_units_upto z n := by
  intro n
  induction n with
  | zero => rfl
  | succ n ih =>
    have : (z.free_area n).free_list.countP (fun q => decide (a ≤ q ∧ q + 2 ^ n ≤ a + 2 ^ j))
        = (z.free_area n).free_list.length := by
      rw [List.countP_eq_length]
      intro q hq
      have := hw n q hq
      simpa using this
    simp only [window_units_upto, free_units_upto, ih, this, hnr]

/-- In a well-formed zone the free blocks inside an aligned window of order `j`
hold at most `2^j` units, and they hold exactly `2^j` units only when the window as
a whole is one free block (up to the largest order that merging reaches). -/
theorem window_units_le {cfg : Config} {z : zone} {busy : List (Nat × Nat)}
    (h : zone_inv cfg z busy) :
    ∀ (j a : Nat), 2 ^ j ∣ a →
      window_units_upto z a j cfg.MAX_ORDER ≤ 2 ^ j ∧
      (window_units_upto z a j cfg.MAX_ORDER = 2 ^ j →
        j ≤ min cfg.MAX_ORDER (pageblock_order + 1) - 1 → a ∈ (z.free_area j).free_list) := by
  intro j
  induction j with
  | zero =>
    intro a _
    by_cases hm : a ∈ (z.free_area 0).free_list
    · exact ⟨by
        rw [window_units_single z a 0 0 cfg.MAX_ORDER]
        · split <;> simp
        · intro o ho
          by_cases e : o = 0
          · subst e
            simp only [if_true]
            refine countP_unique (h.nodup 0) hm (fun q _ => ?_)
            simp only [pow_zero, decide_eq_true_eq]
            omega
          · simp only [e, if_false]
            rw [List.countP_eq_zero]
            intro q _ hq
            simp only [pow_zero, decide_eq_true_eq] at hq
            have := Nat.one_lt_two_pow e
            omega, fun _ _ => hm⟩
    · have hz : window_units_upto z a 0 cfg.MAX_ORDER = 0 := by
        apply window_units_zero
        intro o _
        rw [List.countP_eq_zero]
        intro q hq hp
        simp only [pow_zero, decide_eq_true_eq] at hp
        have hpos := Nat.two_pow_pos o
        by_cases e : o = 0
        · subst e
          have : q = a := by simp only [pow_zero] at hp; omega
          exact hm (this ▸ hq)
        · have := Nat.one_lt_two_pow e
          omega
      rw [hz]
      exact ⟨Nat.zero_le _, fun e => by simp at e⟩
  | succ j ih =>
    intro a ha
    have hpow : 2 ^ (j + 1) = 2 * 2 ^ j := by rw [pow_succ]; ring
    have hpos := Nat.two_pow_pos j
    by_cases hm : a ∈ (z.free_area (j + 1)).free_list
    · have hlt : j + 1 < cfg.MAX_ORDER := by
        by_contra hc
        have := h.empty_above (j + 1) (by omega)
        rw [this] at hm
        exact absurd hm (List.not_mem_nil _)
      have hw : window_units_upto z a (j + 1) cfg.MAX_ORDER = 2 ^ (j + 1) := by
        rw [window_units_single z a (j + 1) (j + 1) cfg.MAX_ORDER, if_pos hlt]
        intro o ho
        by_cases e : o = j + 1
        · subst e
          simp only [if_true]
          refine countP_unique (h.nodup _) hm (fun q _ => ?_)
          simp only [decide_eq_true_eq]
          omega
        · simp only [e, if_false]
          rw [List.countP_eq_zero]
          intro q hq hp
          simp only [decide_eq_true_eq] at hp
          have hpo := Nat.two_pow_pos o
          by_cases e2 : q = a
          · subst e2
            exact e ((h.marked o q hq).2.symm.trans (h.marked (j + 1) q hm).2)
          · have := h.free_disj o q (j + 1) a hq hm e2
            simp only [disjoint_blocks] at this
            omega
      rw [hw]
      exact ⟨Nat.le_refl _, fun _ _ => hm⟩
    · have hmid : 2 ^ j ∣ a + 2 ^ j :=
        Nat.dvd_add (Nat.dvd_trans ⟨2, by rw [hpow]; ring⟩ ha) (Nat.dvd_refl _)
      have ha1 : 2 ^ j ∣ a := Nat.dvd_trans ⟨2, by rw [hpow]; ring⟩ ha
      have hsplit : window_units_upto z a (j + 1) cfg.MAX_ORDER =
          window_units_upto z a j cfg.MAX_ORDER +
            window_units_upto z (a + 2 ^ j) j cfg.MAX_ORDER := by
        apply window_units_split
        intro o _
        apply countP_split
        intro q hq
        simp only [decide_eq_true_eq]
        have hpo := Nat.two_pow_pos o
        have hqa := (h.free_in o q hq).2
        by_cases hoj : o ≤ j
        · have hd1 : 2 ^ o ∣ a + 2 ^ j :=
            Nat.dvd_trans (Nat.pow_dvd_pow 2 hoj) hmid
          have hstep : q < a + 2 ^ j → q + 2 ^ o ≤ a + 2 ^ j := dvd_step hqa hd1
          constructor
          · constructor
            · intro hq1
              by_cases hlt : q < a + 2 ^ j
              · left; exact ⟨hq1.1, hstep hlt⟩
              · right; omega
            · rintro (hq1 | hq1) <;> omega
          · omega
        · have hlt : 2 ^ j < 2 ^ o := Nat.pow_lt_pow_right (by decide) (by omega)
          constructor
          · constructor
            · intro hq1
              exfalso
              have hoe : o = j + 1 := by
                by_contra hne
                have : 2 ^ (j + 1) < 2 ^ o := Nat.pow_lt_pow_right (by decide) (by omega)
                omega
              subst hoe
              have : q = a := by omega
              exact hm (this ▸ hq)
            · rintro (hq1 | hq1) <;> omega
          · omega
      obtain ⟨i1, i2⟩ := ih a ha1
      obtain ⟨i3, i4⟩ := ih (a + 2 ^ j) hmid
      rw [hsplit]
      refine ⟨by omega, fun he hj => ?_⟩
      exfalso
      have e1 : window_units_upto z a j cfg.MAX_ORDER = 2 ^ j := by omega
      have e2 : window_units_upto z (a + 2 ^ j) j cfg.MAX_ORDER = 2 ^ j := by omega
      have m1 := i2 e1 (by omega)
      have m2 := i4 e2 (by omega)
      have := h.coalesced j a (by omega) m1
      rw [find_buddy_pfn_low a j ha] at this
      exact this m2

/-- A well-formed zone whose free blocks all lie in one aligned window of order `k`
and hold `2^k` units consists of exactly one free block: the window itself. -/
theorem single_block_of_full_window {cfg : Config} {z : zone} {busy : List (Nat × Nat)}
    {p k : Nat} (h : zone_inv cfg z busy) (hw : free_within p (p + 2 ^ k) z)
    (hu : free_units cfg z = 2 ^ k) (hp : 2 ^ k ∣ p)
    (hk : k ≤ min cfg.MAX_ORDER (pageblock_order + 1) - 1) :
    ∀ o, (z.free_area o).free_list = if o = k then [p] else [] := by
  have hall := window_units_all z p k h.nr_free_eq hw cfg.MAX_ORDER
  have hm : p ∈ (z.free_area k).free_list := by
    refine (window_units_le h k p hp).2 ?_ hk
    rw [hall]
    exact hu
  have huniq : ∀ o q, q ∈ (z.free_area o).free_list → q = p ∧ o = k := by
    intro o q hq
    have hpo := Nat.two_pow_pos o
    have hin := hw o q hq
    by_cases e : q = p
    · subst e
      exact ⟨rfl, (h.marked o q hq).2.symm.trans (h.marked k q hm).2⟩
    · exfalso
      have := h.free_disj o q k p hq hm e
      simp only [disjoint_blocks] at this
      omega
  intro o
  by_cases e : o = k
  · subst e
    simp only [if_true]
    exact eq_singleton_of_nodup (h.nodup o) hm (fun q hq => (huniq o q hq).1)
  · simp only [e, if_false]
    rw [List.eq_nil_iff_forall_not_mem]
    intro q hq
    exact e (huniq o q hq).2

/-! ## Split/merge round trip, the missing value read as 0 -/

theorem free_units_upto_single (z : zone) (k : Nat)
    (h : ∀ o, (z.free_area o).nr_free = if o = k then 1 else 0) :
    ∀ n, free_units_upto z n = if k < n then 2 ^ k else 0 := by
  intro n
  induction n with
  | zero => rfl
  | succ n ih =>
    simp only [free_units_upto, ih, h]
    by_cases e : n = k
    · subst e; simp
    · by_cases e2 : k < n
      · have : k < n + 1 := by omega
        simp [e, e2, this]
      · have : ¬ k < n + 1 := by omega
        simp [e, e2, this]

theorem free_units_upto_zero (z : zone) :
    ∀ n, (∀ o, o < n → (z.free_area o).nr_free = 0) → free_units_upto z n = 0 := by
  intro n
  induction n with
  | zero => intro _; rfl
  | succ n ih =>
    intro h
    simp only [free_units_upto, ih (fun o ho => h o (by omega)), h n (by omega)]
    omega

theorem nr_free_zero_of_free_units_upto (z : zone) :
    ∀ n, free_units_upto z n = 0 → ∀ o, o < n → (z.free_area o).nr_free = 0 := by
  intro n
  induction n with
  | zero => intro _ o ho; omega
  | succ n ih =>
    intro h o ho
    simp only [free_units_upto] at h
    have hpos := Nat.two_pow_pos n
    have h1 : free_units_upto z n = 0 := by omega
    have h2 : (z.free_area n).nr_free * 2 ^ n = 0 := by omega
    by_cases e : o = n
    · subst e
      rcases Nat.mul_eq_zero.mp h2 with h3 | h3
      · exact h3
      · omega
    · exact ih h1 o (by omega)

/-- Zone-level split/merge round trip: from a well-formed zone whose only free block
is `(p, k)`, `2^k` calls of `__rmqueue_smallest(0)` (made by `rmqueue_bulk`) obtain
`2^k` pages and empty the free areas, and giving these pages back with
`__free_one_page(·, 0)` in any order rebuilds exactly the block `(p, k)`. -/
theorem round_trip_zone {cfg : Config} {z : zone} {busy : List (Nat × Nat)} {k p : Nat}
    (order_perm : List Nat) (h : zone_inv cfg z busy)
    (hk : k < min cfg.MAX_ORDER (pageblock_order + 1))
    (honly : ∀ o, (z.free_area o).free_list = if o = k then [p] else [])
    (hperm : order_perm.Perm (rmqueue_bulk cfg (2 ^ k) z []).2.1) :
    (rmqueue_bulk cfg (2 ^ k) z []).2.2 = 2 ^ k ∧
      (∀ o, (((rmqueue_bulk cfg (2 ^ k) z []).1).free_area o).free_list = []) ∧
      ∀ o, (order_perm.foldl (fun z pg => __free_one_page cfg z pg 0)
          (rmqueue_bulk cfg (2 ^ k) z []).1).free_area o =
        if o = k then { free_list := [p], nr_free := 1 } else { free_list := [], nr_free := 0 } := by
  have hkM : k < cfg.MAX_ORDER := by
    have := Nat.min_le_left cfg.MAX_ORDER (pageblock_order + 1)
    omega
  have hpm : p ∈ (z.free_area k).free_list := by rw [honly k]; simp
  have hpin := h.free_in k p hpm
  have hpos := Nat.two_pow_pos k
  have hfu : free_units cfg z = 2 ^ k := by
    unfold free_units
    rw [free_units_upto_single z k (fun o => by
      rw [h.nr_free_eq o, honly o]; split <;> rfl), if_pos hkM]
  have hw : free_within p (p + 2 ^ k) z := by
    intro o q hq
    rw [honly o] at hq
    by_cases e : o = k
    · subst e
      simp only [if_true, List.mem_singleton] at hq
      subst hq
      omega
    · simp only [e, if_false] at hq
      exact absurd hq (List.not_mem_nil _)
  obtain ⟨new, b1, b2, b3, b4, b5, b6, b7, _⟩ := rmqueue_bulk_spec (2 ^ k) z [] busy h
  obtain ⟨w1, w2⟩ := rmqueue_bulk_within (2 ^ k) z [] hw
    (fun q hq => absurd hq (List.not_mem_nil _))
  simp only [List.nil_append] at b1
  rw [b1] at hperm w2
  rw [b2]
  generalize (rmqueue_bulk cfg (2 ^ k) z []).1 = z1 at b4 b5 b6 b7 w1 ⊢
  have hlen : new.length = 2 ^ k := by
    by_contra hne
    have hlt : new.length < 2 ^ k := by omega
    have hz : free_units cfg z1 = 0 := by
      unfold free_units
      apply free_units_upto_zero
      intro o ho
      rw [b4.nr_free_eq o, b7 hlt o ho]
      rfl
    omega
  have hfu1 : free_units cfg z1 = 0 := by omega
  have hempty : ∀ o, (z1.free_area o).free_list = [] := by
    intro o
    by_cases ho : o < cfg.MAX_ORDER
    · have := nr_free_zero_of_free_units_upto z1 cfg.MAX_ORDER hfu1 o ho
      rw [b4.nr_free_eq o] at this
      exact List.length_eq_zero.mp this
    · exact b4.empty_above o (by omega)
  have hz1 : zone_inv cfg z1 (order_perm.map (fun q => (q, 0)) ++ busy) :=
    zone_inv_perm ((hperm.symm.map _).append_right _) b4
  have hpcp : ∀ q ∈ pcp_list z1, (q, 0) ∈ busy := by
    intro q hq
    rw [pcp_list_congr b6] at hq
    exact h.pcp_busy q hq
  obtain ⟨f1, _, f3⟩ := free_fold_spec order_perm z1 busy hz1 hpcp
  have fw := free_fold_within order_perm z1 busy hz1 hpcp w1
    (fun q hq => w2 q (hperm.mem_iff.mp hq))
  have hlen2 : order_perm.length = 2 ^ k := by rw [hperm.length_eq, hlen]
  have hsingle := single_block_of_full_window f1 fw (by rw [f3, hfu1, hlen2]; omega)
    hpin.2 (by omega)
  refine ⟨hlen, hempty, fun o => ?_⟩
  generalize order_perm.foldl (fun z pg => __free_one_page cfg z pg 0) z1 = z2 at f1 hsingle
  have e1 := hsingle o
  have e2 := f1.nr_free_eq o
  rw [e1] at e2
  cases hfa : z2.free_area o with
  | mk l n =>
    rw [hfa] at e1 e2
    simp only at e1 e2
    by_cases e : o = k
    · simp only [e, if_true] at e1 e2 ⊢
      rw [e1, e2]; rfl
    · simp only [e, if_false] at e1 e2 ⊢
      rw [e1, e2]; rfl

/-! ## Bootstrap of a power-of-two region -/

theorem ffs_aux_ge : ∀ (n word k : Nat), k ≤ n → 2 ^ k ∣ word → k ≤ __ffs_aux n word := by
  intro n
  induction n with
  | zero => intro word k hk _; omega
  | succ n ih =>
    intro word k hk hd
    cases k with
    | zero => exact Nat.zero_le _
    | succ k1 =>
      obtain ⟨m, hm⟩ := hd
      have e : word = 2 * (2 ^ k1 * m) := by rw [hm, pow_succ]; ring
      have hw : ¬ word % 2 = 1 := by omega
      have h2 : 2 ^ k1 ∣ word / 2 := ⟨m, by omega⟩
      have := ih (word / 2) k1 (by omega) h2
      simp only [__ffs_aux, if_neg hw]
      omega

/-- For a region of exactly `2^k` units with `1 <= k < MAX_ORDER <= 65` whose first
page frame number is a multiple of `2^k`, `memory_init` leaves one free block of
order `k`, headed at the first unit, and no other free block. -/
theorem memory_init_power_of_two (cfg : Config) (k : Nat) (hk1 : 1 ≤ k)
    (hk2 : k < cfg.MAX_ORDER) (hM : cfg.MAX_ORDER ≤ 65) (ha : 2 ^ k ∣ cfg.start_pfn)
    (he : cfg.end_pfn = cfg.start_pfn + 2 ^ k) :
    ∃ z, memory_init cfg = some z ∧ pcp_list z = [] ∧
      ∀ o, z.free_area o =
        if o = k then { free_list := [cfg.start_pfn], nr_free := 1 }
        else { free_list := [], nr_free := 0 } := by
  have hpos := Nat.two_pow_pos k
  have hc : cfg.start_pfn < cfg.end_pfn := by omega
  obtain ⟨o, h1, h2, h3, h4⟩ := memory_init_order_spec cfg.end_pfn cfg.start_pfn hc
    (min (cfg.MAX_ORDER - 1) (__ffs cfg.start_pfn))
  have hkm : k ≤ min (cfg.MAX_ORDER - 1) (__ffs cfg.start_pfn) :=
    Nat.le_min.mpr ⟨by omega, ffs_aux_ge 64 _ k (by omega) ha⟩
  have hok : o = k := by
    by_contra hne
    have hle : o ≤ k := by
      by_contra hgt
      have : 2 ^ k < 2 ^ o := Nat.pow_lt_pow_right (by decide) (by omega)
      omega
    have := h4 k (by omega) hkm
    omega
  subst hok
  have ho : o ≠ 0 := by omega
  obtain ⟨n, hn⟩ : ∃ n, cfg.end_pfn - cfg.start_pfn = n + 1 := ⟨2 ^ o - 1, by omega⟩
  have hex := free_one_page_merge_exit cfg (min cfg.MAX_ORDER (pageblock_order + 1))
    (min cfg.MAX_ORDER (pageblock_order + 1) - 1 - o) (memory_init_zone cfg) cfg.start_pfn o 0
    (by
      rintro ⟨_, _, c3⟩
      have := (page_is_buddy_iff _ _ _).mp c3
      simp [PageBuddy, memory_init_zone, page_init] at this)
  have e1 : __free_one_page cfg (memory_init_zone cfg) cfg.start_pfn o =
      __free_one_page_place cfg (memory_init_zone cfg) cfg.start_pfn o
        (__free_one_page_merge cfg (min cfg.MAX_ORDER (pageblock_order + 1))
          (min cfg.MAX_ORDER (pageblock_order + 1) - 1 - o) (memory_init_zone cfg)
          cfg.start_pfn o 0).2.2.2 := by
    unfold __free_one_page
    rw [hex.1, hex.2.1, hex.2.2]
  have hrest : ∀ (z : zone), memory_init_loop cfg n z (cfg.start_pfn + 2 ^ o) = some z := by
    intro z
    have hnc : ¬ cfg.start_pfn + 2 ^ o < cfg.end_pfn := by omega
    cases n with
    | zero => simp only [memory_init_loop, if_neg hnc]
    | succ m => simp only [memory_init_loop, if_neg hnc]
  have e2 : memory_init_loop cfg (n + 1) (memory_init_zone cfg) cfg.start_pfn =
      some (__free_one_page cfg (memory_init_zone cfg) cfg.start_pfn o) := by
    simp only [memory_init_loop, if_pos hc, h1, __free_pages, free_the_page, ho, if_false,
      __free_pages_ok, Nat.one_shiftLeft]
    exact hrest _
  refine ⟨pageset_init cfg (__free_one_page cfg (memory_init_zone cfg) cfg.start_pfn o),
    by unfold memory_init; rw [hn, e2]; rfl, rfl, ?_⟩
  intro o1
  rw [e1]
  simp only [pageset_init, __free_one_page_place, set_free_area_free_area,
    set_page_order_free_area]
  by_cases e : o1 = o
  · simp only [e, if_true]
    split <;> simp [memory_init_zone]
  · simp only [e, if_false]
    rfl

/-! ## Parent arithmetic (C20) -/

/-- The combined index `buddy_pfn & pfn` is `pfn` when bit `order` of `pfn` is clear and
the buddy otherwise. -/
theorem and_buddy_cases (p o : Nat) :
    (p.testBit o = false ∧ __find_buddy_pfn p o &&& p = p) ∨
      (p.testBit o = true ∧ __find_buddy_pfn p o &&& p = __find_buddy_pfn p o) := by
  cases hb : p.testBit o with
  | false =>
    refine Or.inl ⟨rfl, Nat.eq_of_testBit_eq fun i => ?_⟩
    simp only [__find_buddy_pfn, Nat.one_shiftLeft, Nat.testBit_and, Nat.testBit_xor,
      Nat.testBit_two_pow]
    by_cases h : o = i
    · subst h; simp [hb]
    · simp [h]
  | true =>
    refine Or.inr ⟨rfl, Nat.eq_of_testBit_eq fun i => ?_⟩
    simp only [__find_buddy_pfn, Nat.one_shiftLeft, Nat.testBit_and, Nat.testBit_xor,
      Nat.testBit_two_pow]
    by_cases h : o = i
    · subst h; simp [hb]
    · simp [h]

theorem and_buddy_eq_min (p o : Nat) :
    __find_buddy_pfn p o &&& p = min p (__find_buddy_pfn p o) := by
  have h1 : __find_buddy_pfn p o &&& p ≤ __find_buddy_pfn p o := Nat.and_le_left
  have h2 : __find_buddy_pfn p o &&& p ≤ p := Nat.and_le_right
  rcases and_buddy_cases p o with ⟨_, h⟩ | ⟨_, h⟩
  · rw [h] at h1 ⊢; exact (Nat.min_eq_left h1).symm
  · rw [h] at h2 ⊢; exact (Nat.min_eq_right h2).symm

/-- C20 (Parent arithmetic): for every 64-bit index and every order below 64, the
combined index used by the merge loop, `buddy_pfn & pfn`, equals
`parent_of(index, order) = index AND NOT(1 << order)`; it is the smaller of the index and
its buddy; and when the index is a multiple of `2^order` it is a multiple of
`2^(order+1)`. -/
theorem parent_arithmetic (index order : Nat) (hi : index < 2 ^ 64) (ho : order < 64) :
    __find_buddy_pfn index order &&& index = parent_of index order ∧
      __find_buddy_pfn index order &&& index = min index (__find_buddy_pfn index order) ∧
      (2 ^ order ∣ index → 2 ^ (order + 1) ∣ __find_buddy_pfn index order &&& index) := by
  refine ⟨Nat.eq_of_testBit_eq fun i => ?_, and_buddy_eq_min index order,
    fun h => (buddy_cases index order h).1⟩
  simp only [parent_of, __find_buddy_pfn, Nat.one_shiftLeft, Nat.testBit_and, Nat.testBit_xor,
    Nat.testBit_two_pow, Nat.testBit_two_pow_sub_one]
  by_cases h : i < 64
  · by_cases h1 : order = i <;> cases index.testBit i <;> simp [h, h1]
  · have h2 : index.testBit i = false :=
      Nat.testBit_lt_two_pow (lt_of_lt_of_le hi (Nat.pow_le_pow_right (by decide) (by omega)))
    have h3 : order ≠ i := by omega
    simp [h, h2, h3]

/-- Witness of C20: index 12 and order 2 (buddy 8, parent 8), with the worked values of
the doc comment of `__find_buddy_pfn`. -/
theorem parent_arithmetic_witness :
    12 < 2 ^ 64 ∧ 2 < 64 ∧ parent_of 12 2 = 8 ∧ __find_buddy_pfn 12 2 = 8 ∧
    (__find_buddy_pfn 12 2 &&& 12 = parent_of 12 2 ∧
      __find_buddy_pfn 12 2 &&& 12 = min 12 (__find_buddy_pfn 12 2) ∧
      (2 ^ 2 ∣ 12 → 2 ^ (2 + 1) ∣ __find_buddy_pfn 12 2 &&& 12)) :=
  ⟨by decide, by decide, by decide, by decide, parent_arithmetic 12 2 (by decide) (by decide)⟩

/-! ## Routing of frees, the missing value read as 0 -/

/-- The merge loop leaves `zone->pcp` alone when no page of the per-CPU list carries the
`PageBuddy` mark: only marked pages are unlinked. -/
theorem free_one_page_merge_pcp (cfg : Config) (M : Nat) :
    ∀ (fuel : Nat) (z : zone) (p o bp : Nat), (∀ q ∈ pcp_list z, PageBuddy z q = false) →
      (__free_one_page_merge cfg M fuel z p o bp).1.pcp = z.pcp := by
  intro fuel
  induction fuel with
  | zero => intro z p o bp _; rfl
  | succ n ih =>
    intro z p o bp hq
    by_cases hc : o < M - 1 ∧ pfn_valid_within cfg (__find_buddy_pfn p o) = true ∧
        page_is_buddy z (__find_buddy_pfn p o) o = true
    · obtain ⟨h1, h2, h3⟩ := hc
      rw [free_one_page_merge_step cfg M n z p o bp h1 h2 h3]
      have hb : __find_buddy_pfn p o ∉ pcp_list z := by
        intro hm
        have := hq _ hm
        rw [((page_is_buddy_iff z _ o).mp h3).1] at this
        exact Bool.noConfusion this
      have hp : (rmv_page_order
          (set_free_area (list_del z (__find_buddy_pfn p o)) o
            { free_list := ((list_del z (__find_buddy_pfn p o)).free_area o).free_list
              nr_free := nr_free_dec (z.free_area o).nr_free })
          (__find_buddy_pfn p o)).pcp = z.pcp := by
        rw [rmv_page_order_pcp, set_free_area_pcp]; exact list_del_pcp_eq z _ hb
      rw [ih _ _ _ _ ?_, hp]
      intro q hm
      rw [pcp_list_congr hp] at hm
      simp only [PageBuddy_rmv_page_order, PageBuddy_set_free_area, PageBuddy_list_del]
      split
      · rfl
      · exact hq q hm
    · rw [(free_one_page_merge_exit cfg M (n + 1) z p o bp hc).1]

theorem free_one_page_place_pcp (cfg : Config) (z : zone) (p o bp : Nat) :
    (__free_one_page_place cfg z p o bp).pcp = z.pcp := rfl

theorem free_one_page_pcp (cfg : Config) (z : zone) (p o : Nat)
    (hq : ∀ q ∈ pcp_list z, PageBuddy z q = false) : (__free_one_page cfg z p o).pcp = z.pcp := by
  unfold __free_one_page
  rw [free_one_page_place_pcp]
  exact free_one_page_merge_pcp cfg _ _ z p o 0 hq

/-- In a well-formed zone no page of the per-CPU list carries the `PageBuddy` mark. -/
theorem pcp_unmarked {cfg : Config} {z : zone} {busy : List (Nat × Nat)}
    (h : zone_inv cfg z busy) : ∀ q ∈ pcp_list z, PageBuddy z q = false := by
  intro q hq
  cases hb : PageBuddy z q with
  | false => rfl
  | true =>
    have hin := (h.busy_in _ (h.pcp_busy q hq)).1
    have hv : pfn_valid_within cfg q = true := by
      rw [pfn_valid_within_iff]
      have := Nat.two_pow_pos 0
      simp only [block_in] at hin
      omega
    exact absurd (h.linked q hv hb) (pcp_not_free h (h.pcp_busy q hq))

/-- Free routing, with the missing return value of `page_is_buddy` read as 0: for every order
above 0, `__free_pages(page, order)` is `__free_one_page(zone, page, pfn, order)`, and it
leaves the per-CPU cache (list and count) unchanged when no cached page carries the
`PageBuddy` mark, as in every well-formed zone; for order 0 with `count + 1 < high`,
`__free_pages(page, 0)` only pushes the page onto the cache and counts it: every free area
(list and `nr_free`) and every page record is unchanged. -/
theorem free_pages_routing_r0 (cfg : Config) (z : zone) (pfn : Nat) :
    (∀ order, 0 < order →
      __free_pages cfg z pfn order = some (__free_one_page cfg z pfn order) ∧
      ((∀ q ∈ pcp_list z, PageBuddy z q = false) →
        (__free_one_page cfg z pfn order).pcp = z.pcp)) ∧
    (∀ pcp, z.pcp = some pcp → pcp.count + 1 < (pcp.high : Int) →
      ∃ z1, __free_pages cfg z pfn 0 = some z1 ∧
        z1.pcp = some { pcp with lists := pfn :: pcp.lists, count := pcp.count + 1 } ∧
        z1.free_area = z.free_area ∧ z1.mem_map = z.mem_map) := by
  refine ⟨fun order ho => ⟨?_, free_one_page_pcp cfg z pfn order⟩, fun pcp hp hc => ?_⟩
  · have h0 : order ≠ 0 := by omega
    simp only [__free_pages, free_the_page, h0, if_false, __free_pages_ok]
  · refine ⟨{ z with pcp := some { pcp with lists := pfn :: pcp.lists, count := pcp.count + 1 } },
      ?_, rfl, rfl, rfl⟩
    have hn : ¬ pcp.count + 1 ≥ (pcp.high : Int) := by omega
    simp only [__free_pages, free_the_page, if_true, free_unref_page, free_unref_page_commit, hp,
      hn, if_false]

/-! ## Accounting of give_back, the missing value read as 0 -/

/-- Counters along the merge loop in a well-formed zone: `nr_free` goes down by one at
every order from `o` up to the order at which merging stops, and stays as it was at every
other order. -/
theorem free_one_page_merge_counts {cfg : Config} {busy : List (Nat × Nat)} :
    ∀ (fuel : Nat) (z : zone) (p o bp : Nat),
      zone_inv cfg z ((p, o) :: busy) → (∀ q ∈ pcp_list z, (q, 0) ∈ busy) →
      o ≤ (__free_one_page_merge cfg (min cfg.MAX_ORDER (pageblock_order + 1))
        fuel z p o bp).2.2.1 ∧
      (∀ k, o ≤ k →
        k < (__free_one_page_merge cfg (min cfg.MAX_ORDER (pageblock_order + 1))
          fuel z p o bp).2.2.1 →
        ((__free_one_page_merge cfg (min cfg.MAX_ORDER (pageblock_order + 1))
          fuel z p o bp).1.free_area k).nr_free + 1 = (z.free_area k).nr_free) ∧
      (∀ k, (k < o ∨
          (__free_one_page_merge cfg (min cfg.MAX_ORDER (pageblock_order + 1))
            fuel z p o bp).2.2.1 ≤ k) →
        ((__free_one_page_merge cfg (min cfg.MAX_ORDER (pageblock_order + 1))
          fuel z p o bp).1.free_area k).nr_free = (z.free_area k).nr_free) := by
  intro fuel
  induction fuel with
  | zero => intro z p o bp _ _; exact ⟨Nat.le_refl _, fun k h1 h2 => absurd h2 (by
      show ¬ k < o
      omega), fun k _ => rfl⟩
  | succ n ih =>
    intro z p o bp h hpcp
    by_cases hc : o < min cfg.MAX_ORDER (pageblock_order + 1) - 1 ∧
        pfn_valid_within cfg (__find_buddy_pfn p o) = true ∧
        page_is_buddy z (__find_buddy_pfn p o) o = true
    · obtain ⟨h1, h2, h3⟩ := hc
      rw [free_one_page_merge_step cfg _ n z p o bp h1 h2 h3]
      obtain ⟨m1, m2, _⟩ := zone_inv_merge h hpcp h1 h2 h3
      have hpcp1 : ∀ q ∈ pcp_list (rmv_page_order
          (set_free_area (list_del z (__find_buddy_pfn p o)) o
            { free_list := ((list_del z (__find_buddy_pfn p o)).free_area o).free_list
              nr_free := nr_free_dec (z.free_area o).nr_free })
          (__find_buddy_pfn p o)), (q, 0) ∈ busy := by
        intro q hq; rw [pcp_list_congr m2] at hq; exact hpcp q hq
      obtain ⟨i1, i2, i3⟩ := ih _ (__find_buddy_pfn p o &&& p) (o + 1) (__find_buddy_pfn p o)
        m1 hpcp1
      have hb := (page_is_buddy_iff z _ o).mp h3
      have hmem : __find_buddy_pfn p o ∈ (z.free_area o).free_list := by
        have := h.linked _ h2 hb.1
        rwa [hb.2] at this
      have hpos : 1 ≤ (z.free_area o).nr_free := by
        rw [h.nr_free_eq o]
        exact List.length_pos_of_mem hmem
      have hdec : nr_free_dec (z.free_area o).nr_free + 1 = (z.free_area o).nr_free := by
        simp only [nr_free_dec]; split <;> omega
      have hfa : ∀ k, ((rmv_page_order
          (set_free_area (list_del z (__find_buddy_pfn p o)) o
            { free_list := ((list_del z (__find_buddy_pfn p o)).free_area o).free_list
              nr_free := nr_free_dec (z.free_area o).nr_free })
          (__find_buddy_pfn p o)).free_area k).nr_free =
          if k = o then nr_free_dec (z.free_area o).nr_free else (z.free_area k).nr_free := by
        intro k
        simp only [rmv_page_order_free_area, set_free_area_free_area]
        split
        · rfl
        · rfl
      refine ⟨by omega, fun k k1 k2 => ?_, fun k k1 => ?_⟩
      · by_cases hk : k = o
        · subst hk
          rw [i3 k (Or.inl (Nat.lt_succ_self k)), hfa, if_pos rfl]; exact hdec
        · rw [i2 k (by omega) k2, hfa, if_neg hk]
      · have hk : k ≠ o := by omega
        rw [i3 k (by omega), hfa, if_neg hk]
    · obtain ⟨e1, _, e3⟩ := free_one_page_merge_exit cfg _ (n + 1) z p o bp hc
      rw [e1, e3]
      exact ⟨Nat.le_refl _, fun k k1 k2 => absurd k2 (by omega), fun k _ => rfl⟩

/-- The placement step counts the block once, at the head as at the tail of the list. -/
theorem free_one_page_place_counts (cfg : Config) (z : zone) (p o bp : Nat)
    (ho : o < cfg.MAX_ORDER) :
    ((__free_one_page_place cfg z p o bp).free_area o).free_list =
        (if __free_one_page_tail cfg (set_page_order z p o) p o bp = true then
          (z.free_area o).free_list ++ [p] else p :: (z.free_area o).free_list) ∧
      ((__free_one_page_place cfg z p o bp).free_area o).nr_free = (z.free_area o).nr_free + 1 ∧
      free_units cfg (__free_one_page_place cfg z p o bp) = free_units cfg z + 2 ^ o := by
  refine ⟨?_, ?_, ?_⟩
  · simp only [__free_one_page_place, set_free_area_free_area, if_true]
  · simp only [__free_one_page_place, set_free_area_free_area, if_true]
  · have h := free_units_set_free_area cfg (set_page_order z p o) o
      { free_list :=
          if __free_one_page_tail cfg (set_page_order z p o) p o bp then
            (z.free_area o).free_list ++ [p]
          else p :: (z.free_area o).free_list
        nr_free := (z.free_area o).nr_free + 1 } ho
    rw [free_units_set_page_order] at h
    simp only [set_page_order_free_area] at h
    have e : free_units cfg (__free_one_page_place cfg z p o bp) =
        free_units cfg (set_free_area (set_page_order z p o) o
          { free_list :=
              if __free_one_page_tail cfg (set_page_order z p o) p o bp then
                (z.free_area o).free_list ++ [p]
              else p :: (z.free_area o).free_list
            nr_free := (z.free_area o).nr_free + 1 }) := rfl
    rw [e]
    have e2 : ((z.free_area o).nr_free + 1) * 2 ^ o = (z.free_area o).nr_free * 2 ^ o + 2 ^ o := by
      ring
    omega

/-- A state reached by a run is well-formed with any held block singled out as the block
about to be given back. -/
theorem zone_inv_of_run {cfg : Config} {cs : List Call} {s : zone × List (Nat × Nat)}
    (hok : run_ok cfg cs = true) (hr : run cfg cs = some s) (b : Nat × Nat) (hb : b ∈ s.2) :
    zone_inv cfg s.1 (b :: ((pcp_list s.1).map (fun q => (q, 0)) ++ s.2.erase b)) ∧
      ∀ q ∈ pcp_list s.1, (q, 0) ∈ (pcp_list s.1).map (fun q => (q, 0)) ++ s.2.erase b := by
  obtain ⟨s1, r1, ⟨pcp, hp, _, _, hz⟩, _⟩ := run_spec hok
  rw [hr] at r1
  cases r1
  have hl : pcp_list s.1 = pcp.lists := by simp only [pcp_list, hp]
  rw [hl]
  refine ⟨zone_inv_perm ?_ hz, fun q hq => ?_⟩
  · exact (List.Perm.append_left _ (perm_cons_erase_lawful hb)).trans List.perm_middle
  · exact List.mem_append_left _ (List.mem_map.mpr ⟨q, hq, rfl⟩)

/-- give_back accounting, with the missing return value of `page_is_buddy` read as 0: in a
well-formed zone in which the block `(pfn, order)` is busy, `__free_one_page(zone, page,
pfn, order)` ends with the block in the free area of a destination order `o1 >= order`;
`nr_free` of that order goes up by exactly one, `nr_free` of every order from `order` up to
`o1 - 1` (where a buddy was absorbed) goes down by one, every other `nr_free` is unchanged,
and the weighted free total `sum_o nr_free(o) * 2^o` goes up by exactly `2^order`. The
placement step adds one to `nr_free` and `2^o` to the total whether it links the block at
the head or at the tail. -/
theorem free_one_page_counts_r0 {cfg : Config} {z : zone} {busy : List (Nat × Nat)} {pfn order : Nat}
    (h : zone_inv cfg z ((pfn, order) :: busy)) (hpcp : ∀ q ∈ pcp_list z, (q, 0) ∈ busy) :
    (∃ o1, order ≤ o1 ∧ o1 < cfg.MAX_ORDER ∧
      ((__free_one_page cfg z pfn order).free_area o1).nr_free = (z.free_area o1).nr_free + 1 ∧
      (∀ k, order ≤ k → k < o1 →
        ((__free_one_page cfg z pfn order).free_area k).nr_free + 1 = (z.free_area k).nr_free) ∧
      (∀ k, (k < order ∨ o1 < k) →
        ((__free_one_page cfg z pfn order).free_area k).nr_free = (z.free_area k).nr_free) ∧
      ∃ p1, p1 ≤ pfn ∧ pfn + 2 ^ order ≤ p1 + 2 ^ o1 ∧
        p1 ∈ ((__free_one_page cfg z pfn order).free_area o1).free_list) ∧
    free_units cfg (__free_one_page cfg z pfn order) = free_units cfg z + 2 ^ order ∧
    (∀ (z2 : zone) (p2 o2 bp : Nat), o2 < cfg.MAX_ORDER →
      ((__free_one_page_place cfg z2 p2 o2 bp).free_area o2).free_list =
        (if __free_one_page_tail cfg (set_page_order z2 p2 o2) p2 o2 bp = true then
          (z2.free_area o2).free_list ++ [p2] else p2 :: (z2.free_area o2).free_list) ∧
      ((__free_one_page_place cfg z2 p2 o2 bp).free_area o2).nr_free
        = (z2.free_area o2).nr_free + 1 ∧
      free_units cfg (__free_one_page_place cfg z2 p2 o2 bp) = free_units cfg z2 + 2 ^ o2) := by
  refine ⟨?_, (free_one_page_spec h hpcp).2.2.1, fun z2 p2 o2 bp ho =>
    free_one_page_place_counts cfg z2 p2 o2 bp ho⟩
  obtain ⟨c1, c2, c3⟩ := free_one_page_merge_counts
    (min cfg.MAX_ORDER (pageblock_order + 1) - 1 - order) z pfn order 0 h hpcp
  obtain ⟨m1, m2, _, m4, _, m6, m7⟩ := free_one_page_merge_spec
    (min cfg.MAX_ORDER (pageblock_order + 1) - 1 - order) z pfn order 0 h hpcp (Nat.le_refl _)
  have hlt := (m1.busy_in _ (List.mem_cons_self _ _)).2.2
  have hpcp1 : ∀ q ∈ pcp_list (__free_one_page_merge cfg (min cfg.MAX_ORDER (pageblock_order + 1))
      (min cfg.MAX_ORDER (pageblock_order + 1) - 1 - order) z pfn order 0).1, (q, 0) ∈ busy := by
    intro q hq; rw [pcp_list_congr m2] at hq; exact hpcp q hq
  have hpl := zone_inv_place (__free_one_page_merge cfg (min cfg.MAX_ORDER (pageblock_order + 1))
      (min cfg.MAX_ORDER (pageblock_order + 1) - 1 - order) z pfn order 0).2.2.2 m1 hpcp1 m4
  refine ⟨_, c1, hlt, ?_, fun k k1 k2 => ?_, fun k k1 => ?_, _, m6, m7, hpl.2.2.2⟩
  · show ((__free_one_page_place cfg _ _ _ _).free_area _).nr_free = _
    rw [(free_one_page_place_counts cfg _ _ _ _ hlt).2.1, c3 _ (Or.inr (Nat.le_refl _))]
  · show ((__free_one_page_place cfg _ _ _ _).free_area k).nr_free + 1 = _
    rw [free_one_page_place_other cfg _ _ _ _ k (by omega)]
    exact c2 k k1 k2
  · show ((__free_one_page_place cfg _ _ _ _).free_area k).nr_free = _
    rcases k1 with k1 | k1
    · rw [free_one_page_place_other cfg _ _ _ _ k (by omega)]
      exact c3 k (Or.inl k1)
    · rw [free_one_page_place_other cfg _ _ _ _ k (by omega)]
      exact c3 k (Or.inr (by omega))

/-! ## The drain of the cache, the missing value read as 0 -/

theorem alloc_inv_of_run {cfg : Config} {cs : List Call} {s : zone × List (Nat × Nat)}
    (hok : run_ok cfg cs = true) (hr : run cfg cs = some s) : alloc_inv cfg s := by
  obtain ⟨s1, r1, h, _⟩ := run_spec hok
  rw [hr] at r1
  cases r1
  exact h

theorem zone_inv_of_alloc_inv {cfg : Config} {s : zone × List (Nat × Nat)} (h : alloc_inv cfg s) :
    zone_inv cfg s.1 ((pcp_list s.1).map (fun q => (q, 0)) ++ s.2) := by
  obtain ⟨pcp, hp, _, _, hz⟩ := h
  have hl : pcp_list s.1 = pcp.lists := by simp only [pcp_list, hp]
  rw [hl]; exact hz

/-- free_to_pcp, with the missing return value of `page_is_buddy` read as 0: in a well-formed
allocator state, `free_unref_page_commit` of a held page pushes the page onto the cache and
adds one to `count`; if the new count is below `high` nothing else happens; if the new count
is at least `high` it drains: `batch` pages leave the tail of the cache, `count` goes down
by `batch`, and each of them is given back with `__free_one_page(zone, page, pfn, 0)`, first
the last of the list. -/
theorem free_unref_page_commit_drain_r0 {cfg : Config} {s : zone × List (Nat × Nat)} {p : Nat}
    {pcp : per_cpu_pages} (h : alloc_inv cfg s) (hpcp : s.1.pcp = some pcp)
    (hp : (p, 0) ∈ s.2) :
    ∃ z1 pcp1, free_unref_page_commit cfg s.1 p = some z1 ∧ z1.pcp = some pcp1 ∧
      (pcp.count + 1 < (pcp.high : Int) →
        z1 = { s.1 with pcp := some { pcp with lists := p :: pcp.lists, count := pcp.count + 1 } }) ∧
      ((pcp.high : Int) ≤ pcp.count + 1 →
        ∃ removed : List Nat, removed.length = pcp.batch ∧
          p :: pcp.lists = pcp1.lists ++ removed.reverse ∧
          pcp1.count = pcp.count + 1 - (pcp.batch : Int) ∧
          pcp1.high = pcp.high ∧ pcp1.batch = pcp.batch ∧
          z1 = removed.foldl (fun z pg => __free_one_page cfg z pg 0)
            { s.1 with pcp := some pcp1 } ∧
          free_units cfg z1 = free_units cfg s.1 + pcp.batch) := by
  obtain ⟨z1, pcp1, e1, e2, e3, e4, e5⟩ := free_unref_page_commit_detail h hpcp hp
  obtain ⟨pcp0, q1, q2, q3, _⟩ := h
  rw [hpcp] at q1
  cases q1
  obtain ⟨pcpa, a1, _, a3, _⟩ := e3
  have a1 : z1.pcp = some pcpa := a1
  rw [e2] at a1
  cases a1
  refine ⟨z1, pcp1, e1, e2, e4, fun hh => ?_⟩
  obtain ⟨removed, _, r2, r3, r4, r5, r6⟩ := e5 hh
  have hb : 1 ≤ pcp.batch := by rw [q3.2]; exact Nat.le_max_left _ _
  have hlen : removed.length = pcp.batch := by
    rw [r6 hb]
    apply Nat.min_eq_left
    rw [q3.1, q2] at hh
    rw [q3.2]
    have : (6 * cfg.BATCH_SIZE : Nat) ≤ pcp.lists.length + 1 := by exact_mod_cast hh
    rcases Nat.eq_zero_or_pos cfg.BATCH_SIZE with h0 | h0
    · rw [h0]; simp
    · rw [Nat.max_eq_right h0]; omega
  refine ⟨removed, hlen, r2, ?_, ?_, ?_, r3, ?_⟩
  · rw [r5, hlen]
  · rw [a3.1, q3.1]
  · rw [a3.2, q3.2]
  · rw [r4, hlen]

/-! ## The bulk refill of the cache (C14) -/

/-- The loop of `rmqueue_bulk` is the bulk refill of the specification: it appends the
blocks `take_smallest(0)` returns, in the order obtained, and counts them. -/
theorem rmqueue_bulk_eq_take_smallest_upto (cfg : Config) :
    ∀ (count : Nat) (z : zone) (list : List Nat),
      rmqueue_bulk cfg count z list =
        ((take_smallest_upto cfg count z).1, list ++ (take_smallest_upto cfg count z).2,
          (take_smallest_upto cfg count z).2.length) := by
  intro count
  induction count with
  | zero => intro z list; simp [rmqueue_bulk, take_smallest_upto]
  | succ n ih =>
    intro z list
    cases hr : (__rmqueue_smallest cfg z 0).2 with
    | none => simp only [rmqueue_bulk, take_smallest_upto, hr, List.append_nil, List.length_nil]
    | some pg =>
      simp only [rmqueue_bulk, take_smallest_upto, hr, ih, List.append_assoc,
        List.singleton_append, List.length_cons]

/-- In a well-formed zone the bulk refill obtains `min(n, weighted free total)` units. -/
theorem take_smallest_upto_length {cfg : Config} {z : zone} {busy : List (Nat × Nat)}
    (h : zone_inv cfg z busy) (n : Nat) :
    (take_smallest_upto cfg n z).2.length = min n (free_units cfg z) := by
  obtain ⟨new, e1, _, e3, e4, e5, _, e7, _⟩ := rmqueue_bulk_spec n z [] busy h
  rw [rmqueue_bulk_eq_take_smallest_upto] at e1 e4 e5 e7
  simp only [List.nil_append] at e1 e4 e5 e7
  rw [e1]
  by_cases hl : new.length < n
  · have hz : free_units cfg (take_smallest_upto cfg n z).1 = 0 := by
      apply free_units_upto_zero
      intro o ho
      rw [e4.nr_free_eq o, e7 hl o ho]; rfl
    omega
  · omega

/-- C14 (alloc_from_pcp): on an empty cache (`count = 0`) in a well-formed zone,
`__rmqueue_pcplist` performs one bulk refill, which calls `take_smallest(0)` until `batch`
blocks were obtained or the zone returned none and so obtains
`r = min(batch, weighted free total)` units, appended to the cache in the order obtained;
if `r = 0` it returns `NULL`, otherwise it returns the first of them and leaves the others
in the cache with `count = r - 1`.  On a non-empty cache it performs no refill, returns
the head page and decrements `count` by one. -/
theorem rmqueue_pcplist_refill {cfg : Config} {z : zone} {busy : List (Nat × Nat)}
    (pcp : per_cpu_pages) (h : zone_inv cfg z busy) :
    (pcp.lists = [] → pcp.count = 0 →
      rmqueue_bulk cfg pcp.batch z pcp.lists =
        ((take_smallest_upto cfg pcp.batch z).1, (take_smallest_upto cfg pcp.batch z).2,
          min pcp.batch (free_units cfg z)) ∧
      (take_smallest_upto cfg pcp.batch z).2.length = min pcp.batch (free_units cfg z) ∧
      (min pcp.batch (free_units cfg z) = 0 → (__rmqueue_pcplist cfg z pcp).2 = none) ∧
      (0 < min pcp.batch (free_units cfg z) →
        ∃ pg rest, (take_smallest_upto cfg pcp.batch z).2 = pg :: rest ∧
          __rmqueue_pcplist cfg z pcp =
            ({ (take_smallest_upto cfg pcp.batch z).1 with
               pcp := some { pcp with
                 lists := rest
                 count := ((min pcp.batch (free_units cfg z) : Nat) : Int) - 1 } }, some pg))) ∧
    (∀ q rest, pcp.lists = q :: rest →
      __rmqueue_pcplist cfg z pcp =
        ({ z with pcp := some { pcp with lists := rest, count := pcp.count - 1 } }, some q)) := by
  have hlen := take_smallest_upto_length h pcp.batch
  refine ⟨fun hl hc => ?_, fun q rest hl => ?_⟩
  · have hb : rmqueue_bulk cfg pcp.batch z pcp.lists =
        ((take_smallest_upto cfg pcp.batch z).1, (take_smallest_upto cfg pcp.batch z).2,
          min pcp.batch (free_units cfg z)) := by
      rw [rmqueue_bulk_eq_take_smallest_upto, hl, hlen]; rfl
    have hrf : __rmqueue_pcplist_refill cfg z pcp =
        ((take_smallest_upto cfg pcp.batch z).1,
          { pcp with
            count := pcp.count + ((min pcp.batch (free_units cfg z) : Nat) : Int)
            lists := (take_smallest_upto cfg pcp.batch z).2 }) := by
      simp only [__rmqueue_pcplist_refill, hl, if_true]
      rw [← hl, hb]
    refine ⟨hb, hlen, fun h0 => ?_, fun hpos => ?_⟩
    · have hnil : (take_smallest_upto cfg pcp.batch z).2 = [] :=
        List.length_eq_zero.mp (hlen.trans h0)
      simp only [__rmqueue_pcplist, hrf, hnil]
    · cases hx : (take_smallest_upto cfg pcp.batch z).2 with
      | nil => rw [hx] at hlen; simp only [List.length_nil] at hlen; omega
      | cons pg rest =>
        refine ⟨pg, rest, rfl, ?_⟩
        simp only [__rmqueue_pcplist, hrf, hx, hc, zero_add]
  · have hne : pcp.lists ≠ [] := by rw [hl]; exact List.cons_ne_nil _ _
    have hrf : __rmqueue_pcplist_refill cfg z pcp = (z, pcp) := by
      simp only [__rmqueue_pcplist_refill, hne, if_false]
    simp only [__rmqueue_pcplist, hrf, hl]

theorem zone8_cached_run :
    run cfg8 [Call.alloc 0, Call.free 8 0] = some (zone8_cached, []) := rfl

/-- Witness of C14: on the fresh zone of `cfg8` (8 free units) with an empty cache of
`batch = 1` the refill obtains `min(1, 8) = 1` unit, page 8, which is returned; on
`zone8_cached`, whose cache holds page 8, that page is returned without a refill. -/
theorem rmqueue_pcplist_refill_witness :
    zone_inv cfg8 zone8 [] ∧ zone_inv cfg8 zone8_cached [(8, 0)] ∧
    min (1 : Nat) (free_units cfg8 zone8) = 1 ∧
    (take_smallest_upto cfg8 1 zone8).2 = [8] ∧
    (rmqueue_bulk cfg8 1 zone8 [] =
        ((take_smallest_upto cfg8 1 zone8).1, (take_smallest_upto cfg8 1 zone8).2,
          min 1 (free_units cfg8 zone8)) ∧
      (take_smallest_upto cfg8 1 zone8).2.length = min 1 (free_units cfg8 zone8) ∧
      (min 1 (free_units cfg8 zone8) = 0 →
        (__rmqueue_pcplist cfg8 zone8 { count := 0, high := 6, batch := 1, lists := [] }).2
          = none) ∧
      (0 < min 1 (free_units cfg8 zone8) →
        ∃ pg rest, (take_smallest_upto cfg8 1 zone8).2 = pg :: rest ∧
          __rmqueue_pcplist cfg8 zone8 { count := 0, high := 6, batch := 1, lists := [] } =
            ({ (take_smallest_upto cfg8 1 zone8).1 with
               pcp := some { count := ((min 1 (free_units cfg8 zone8) : Nat) : Int) - 1,
                             high := 6, batch := 1, lists := rest } }, some pg))) ∧
    __rmqueue_pcplist cfg8 zone8_cached { count := 1, high := 6, batch := 1, lists := [8] } =
      ({ zone8_cached with pcp := some { count := 1 - 1, high := 6, batch := 1, lists := [] } },
        some 8) :=
  ⟨zone_inv_of_alloc_inv (alloc_inv_of_run (by decide) (show run cfg8 [] = some (zone8, []) from rfl)),
    zone_inv_of_alloc_inv (alloc_inv_of_run (by decide) zone8_cached_run),
    by decide, by decide,
    (rmqueue_pcplist_refill { count := 0, high := 6, batch := 1, lists := [] }
      (zone_inv_of_alloc_inv
        (alloc_inv_of_run (by decide) (show run cfg8 [] = some (zone8, []) from rfl)))).1 rfl rfl,
    (rmqueue_pcplist_refill { count := 1, high := 6, batch := 1, lists := [8] }
      (zone_inv_of_alloc_inv (alloc_inv_of_run (by decide) zone8_cached_run))).2 8 [] rfl⟩

/-! ## Free-area invariant under zone calls, the missing value read as 0 -/

/-- One zone call of a caller who respects the contract keeps the zone well-formed, with
the held blocks as the busy blocks and the per-CPU list empty. -/
theorem zone_call_spec {cfg : Config} {s : zone × List (Nat × Nat)} (c : ZoneCall)
    (h : zone_inv cfg s.1 s.2) (hl : pcp_list s.1 = [])
    (hc : ∀ p o, c = ZoneCall.give_back p o → (p, o) ∈ s.2) :
    zone_inv cfg (zone_call cfg s c).1 (zone_call cfg s c).2 ∧
      pcp_list (zone_call cfg s c).1 = [] := by
  cases c with
  | take_smallest order =>
    cases hr : (__rmqueue_smallest cfg s.1 order).2 with
    | none =>
      have e : __rmqueue_smallest cfg s.1 order = (s.1, none) := by
        rcases rmqueue_smallest_cases cfg s.1 order with ⟨_, e⟩ | ⟨c, pg, rest, _, _, _, _, e⟩
        · exact e
        · rw [e] at hr; cases hr
      simp only [zone_call, hr, e]
      exact ⟨h, hl⟩
    | some pg =>
      have e : __rmqueue_smallest cfg s.1 order = ((__rmqueue_smallest cfg s.1 order).1, some pg) := by
        rw [← hr]
      obtain ⟨m1, _, m3⟩ := rmqueue_smallest_some h e
      simp only [zone_call, hr]
      exact ⟨m1, by rw [pcp_list_congr m3]; exact hl⟩
  | give_back p o =>
    have hm := hc p o rfl
    have hz : zone_inv cfg s.1 ((p, o) :: s.2.erase (p, o)) :=
      zone_inv_perm (perm_cons_erase_lawful hm) h
    have hq : ∀ q ∈ pcp_list s.1, (q, 0) ∈ s.2.erase (p, o) := by
      intro q hq; rw [hl] at hq; cases hq
    obtain ⟨m1, m2, _⟩ := free_one_page_spec hz hq
    simp only [zone_call]
    exact ⟨m1, by rw [pcp_list_congr m2]; exact hl⟩

theorem zone_calls_spec {cfg : Config} :
    ∀ (cs : List ZoneCall) (s : zone × List (Nat × Nat)), zone_inv cfg s.1 s.2 →
      pcp_list s.1 = [] → zone_calls_ok cfg s cs = true →
      zone_inv cfg (zone_calls cfg s cs).1 (zone_calls cfg s cs).2 ∧
        pcp_list (zone_calls cfg s cs).1 = [] := by
  intro cs
  induction cs with
  | nil => intro s h hl _; exact ⟨h, hl⟩
  | cons c cs ih =>
    intro s h hl hok
    cases c with
    | take_smallest order =>
      simp only [zone_calls_ok] at hok
      obtain ⟨m1, m2⟩ := zone_call_spec (ZoneCall.take_smallest order) h hl
        (fun p o e => by cases e)
      exact ih _ m1 m2 hok
    | give_back p o =>
      simp only [zone_calls_ok, Bool.and_eq_true, decide_eq_true_eq] at hok
      obtain ⟨m1, m2⟩ := zone_call_spec (ZoneCall.give_back p o) h hl
        (fun p1 o1 e => by cases e; exact hok.1)
      exact ih _ m1 m2 hok.2

theorem zone_run_spec {cfg : Config} {cs : List ZoneCall} (h : zone_run_ok cfg cs = true) :
    ∃ s, zone_run cfg cs = some s ∧ zone_inv cfg s.1 s.2 ∧ pcp_list s.1 = [] := by
  unfold zone_run_ok at h
  cases hm : memory_init cfg with
  | none => rw [hm] at h; cases h
  | some z0 =>
    rw [hm] at h
    obtain ⟨i1, _, i3, _⟩ := memory_init_spec hm
    have hz : zone_inv cfg z0 [] := by
      have := zone_inv_of_alloc_inv i1
      rw [i3] at this
      exact this
    obtain ⟨m1, m2⟩ := zone_calls_spec cs (z0, []) hz i3 h
    exact ⟨zone_calls cfg (z0, []) cs, by simp only [zone_run, hm, Option.map_some'], m1, m2⟩

/-- Free Area invariant, with the missing return value of `page_is_buddy` read as 0: in every
state reached from `memory_init` by calls of `__rmqueue_smallest` (with its split) and of
`__free_one_page` on held blocks, every unit linked in `free_area[o]` has recorded order `o`
and `PageBuddy` set, `free_area[o].nr_free` equals the length of that list, and every unit
of the region with `PageBuddy` set is linked in a free list. -/
theorem free_area_invariant_r0 (cfg : Config) (cs : List ZoneCall)
    (h : zone_run_ok cfg cs = true) :
    ∃ s, zone_run cfg cs = some s ∧
      (∀ o p, p ∈ (s.1.free_area o).free_list → page_order s.1 p = o ∧ PageBuddy s.1 p = true) ∧
      (∀ o, (s.1.free_area o).nr_free = (s.1.free_area o).free_list.length) ∧
      (∀ p, cfg.start_pfn ≤ p → p < cfg.end_pfn → PageBuddy s.1 p = true →
        ∃ o, p ∈ (s.1.free_area o).free_list) := by
  obtain ⟨s, r, hz, _⟩ := zone_run_spec h
  refine ⟨s, r, fun o p hp => ⟨(hz.marked o p hp).2, (hz.marked o p hp).1⟩, hz.nr_free_eq,
    fun p h1 h2 hb => ⟨_, hz.linked p ((pfn_valid_within_iff cfg p).mpr ⟨h1, h2⟩) hb⟩⟩

/-! ## Ownership of units, the missing value read as 0 -/

theorem held_units_append (a b : List (Nat × Nat)) :
    held_units (a ++ b) = held_units a + held_units b := by
  simp [held_units, List.map_append, List.sum_append]

theorem held_units_map_order (l : List Nat) (o : Nat) :
    held_units (l.map fun p => (p, o)) = l.length * 2 ^ o := by
  induction l with
  | nil => simp [held_units]
  | cons a l ih =>
    rw [List.map_cons, held_units_cons, ih, List.length_cons]
    ring

/-- The free blocks weigh the weighted free total when every `nr_free` is the length of
its list. -/
theorem held_units_free_blocks (z : zone)
    (hnr : ∀ o, (z.free_area o).nr_free = (z.free_area o).free_list.length) :
    ∀ n, held_units ((List.range n).flatMap fun o => (z.free_area o).free_list.map fun p => (p, o))
      = free_units_upto z n := by
  intro n
  induction n with
  | zero => rfl
  | succ n ih =>
    rw [List.range_succ, List.flatMap_append, held_units_append, ih]
    simp only [List.flatMap_cons, List.flatMap_nil, List.append_nil, free_units_upto]
    rw [held_units_map_order, hnr n]

theorem mem_free_blocks {cfg : Config} {z : zone} {b : Nat × Nat} :
    b ∈ free_blocks cfg z ↔ b.2 < cfg.MAX_ORDER ∧ b.1 ∈ (z.free_area b.2).free_list := by
  simp only [free_blocks, List.mem_flatMap, List.mem_range, List.mem_map]
  constructor
  · rintro ⟨o, ho, p, hp, rfl⟩; exact ⟨ho, hp⟩
  · rintro ⟨h1, h2⟩; exact ⟨b.2, h1, b.1, h2, rfl⟩

/-- In a well-formed zone the free blocks and the busy blocks are pairwise disjoint. -/
theorem pairwise_owned {cfg : Config} {z : zone} {busy : List (Nat × Nat)}
    (h : zone_inv cfg z busy) : (free_blocks cfg z ++ busy).Pairwise disjoint_blocks := by
  rw [List.pairwise_append]
  refine ⟨?_, h.busy_disj, fun a ha b hb => ?_⟩
  · unfold free_blocks
    rw [List.pairwise_flatMap]
    refine ⟨fun o _ => ?_, ?_⟩
    · rw [List.pairwise_map]
      exact List.Pairwise.imp_of_mem (fun {p1 p2} h1 h2 hne => h.free_disj o p1 o p2 h1 h2 hne)
        (h.nodup o)
    · refine List.Pairwise.imp ?_ (List.pairwise_lt_range _)
      intro o1 o2 hlt x hx y hy
      obtain ⟨p1, h1, rfl⟩ := List.mem_map.mp hx
      obtain ⟨p2, h2, rfl⟩ := List.mem_map.mp hy
      refine h.free_disj o1 p1 o2 p2 h1 h2 ?_
      intro e
      have e1 := (h.marked o1 p1 h1).2
      have e2 := (h.marked o2 p2 h2).2
      rw [e] at e1
      omega
  · have hm := mem_free_blocks.mp ha
    exact disjoint_blocks_symm (h.busy_free b hb a.2 a.1 hm.2)

theorem countP_covers_le_one (u : Nat) :
    ∀ (l : List (Nat × Nat)), l.Pairwise disjoint_blocks → l.countP (block_covers u) ≤ 1 := by
  intro l
  induction l with
  | nil => intro _; simp
  | cons b l ih =>
    intro hp
    rw [List.pairwise_cons] at hp
    rw [List.countP_cons]
    by_cases hb : block_covers u b = true
    · have hz : l.countP (block_covers u) = 0 := by
        rw [List.countP_eq_zero]
        intro c hc hcov
        have hd := hp.1 c hc
        simp only [block_covers, decide_eq_true_eq] at hb hcov
        simp only [disjoint_blocks] at hd
        omega
      rw [hz, if_pos hb]
    · rw [if_neg hb]; exact ih hp.2

/-- Summed over the units of the region, the number of blocks that hold a unit is the
total size of the blocks, for blocks inside the region. -/
theorem sum_countP_covers (a e : Nat) :
    ∀ (l : List (Nat × Nat)), (∀ b ∈ l, a ≤ b.1 ∧ b.1 + 2 ^ b.2 ≤ e) →
      Finset.sum (Finset.Ico a e) (fun u => l.countP (block_covers u)) = held_units l := by
  intro l
  induction l with
  | nil => intro _; simp [held_units]
  | cons b l ih =>
    intro hin
    have hb := hin b (List.mem_cons_self _ _)
    simp only [List.countP_cons, Finset.sum_add_distrib]
    rw [ih (fun c hc => hin c (List.mem_cons_of_mem _ hc)), held_units_cons, Nat.add_comm]
    congr 1
    rw [← Finset.card_filter]
    have hf : Finset.filter (fun u => block_covers u b = true) (Finset.Ico a e)
        = Finset.Ico b.1 (b.1 + 2 ^ b.2) := by
      ext u
      simp only [Finset.mem_filter, Finset.mem_Ico, block_covers, decide_eq_true_eq]
      omega
    rw [hf, Nat.card_Ico, Nat.add_sub_cancel_left]

theorem eq_one_of_sum_eq_card (S : Finset Nat) (f : Nat → Nat) (hle : ∀ u ∈ S, f u ≤ 1)
    (hs : Finset.sum S f = S.card) : ∀ u ∈ S, f u = 1 := by
  have h1 : Finset.sum S (fun u => f u + (1 - f u)) = S.card := by
    rw [Finset.card_eq_sum_ones]
    apply Finset.sum_congr rfl
    intro u hu
    have := hle u hu
    omega
  rw [Finset.sum_add_distrib, hs] at h1
  have h2 : Finset.sum S (fun u => 1 - f u) = 0 := by omega
  intro u hu
  have := (Finset.sum_eq_zero_iff.mp h2) u hu
  have := hle u hu
  omega

/-- Pairwise disjoint blocks inside a region whose sizes add up to the size of the region
tile it: every unit of the region is in exactly one of them. -/
theorem covers_exactly_one (a e : Nat) (l : List (Nat × Nat))
    (hin : ∀ b ∈ l, a ≤ b.1 ∧ b.1 + 2 ^ b.2 ≤ e) (hp : l.Pairwise disjoint_blocks)
    (hu : held_units l = e - a) : ∀ u, a ≤ u → u < e → l.countP (block_covers u) = 1 := by
  intro u h1 h2
  refine eq_one_of_sum_eq_card (Finset.Ico a e) (fun u => l.countP (block_covers u))
    (fun u _ => countP_covers_le_one u l hp) ?_ u (Finset.mem_Ico.mpr ⟨h1, h2⟩)
  rw [sum_countP_covers a e l hin, hu, Nat.card_Ico]

theorem count_eq_countP_covers (u : Nat) (l : List Nat) :
    l.count u = (l.map fun q => (q, 0)).countP (block_covers u) := by
  induction l with
  | nil => rfl
  | cons q l ih =>
    rw [List.map_cons, List.countP_cons, List.count_cons, ih]
    congr 1
    simp only [block_covers, pow_zero, decide_eq_true_eq, beq_iff_eq]
    by_cases h : q = u
    · subst h; simp
    · rw [if_neg h, if_neg (by omega)]

/-- In a well-formed allocator state that accounts for every unit of the region, each
unit of the region has exactly one owner. -/
theorem owners_eq_one {cfg : Config} {s : zone × List (Nat × Nat)} (h : alloc_inv cfg s)
    (ht : total_units cfg s = (nr_pages cfg : Int)) :
    ∀ u, cfg.start_pfn ≤ u → u < cfg.end_pfn → owners cfg s u = 1 := by
  obtain ⟨pcp, hp, hc, _, hz⟩ := h
  have hl : pcp_list s.1 = pcp.lists := by simp only [pcp_list, hp]
  have hin : ∀ b ∈ free_blocks cfg s.1 ++ (pcp.lists.map (fun q => (q, 0)) ++ s.2),
      cfg.start_pfn ≤ b.1 ∧ b.1 + 2 ^ b.2 ≤ cfg.end_pfn := by
    intro b hb
    rcases List.mem_append.mp hb with hb | hb
    · exact (hz.free_in b.2 b.1 (mem_free_blocks.mp hb).2).1
    · exact (hz.busy_in b hb).1
  have hu : held_units (free_blocks cfg s.1 ++ (pcp.lists.map (fun q => (q, 0)) ++ s.2))
      = cfg.end_pfn - cfg.start_pfn := by
    rw [held_units_append, held_units_append, held_units_map_order]
    have e1 : held_units (free_blocks cfg s.1) = free_units cfg s.1 :=
      held_units_free_blocks s.1 hz.nr_free_eq cfg.MAX_ORDER
    rw [e1]
    simp only [total_units, pcp_count_eq hp, hc, nr_pages] at ht
    simp only [pow_zero, Nat.mul_one]
    omega
  intro u h1 h2
  have hone := covers_exactly_one cfg.start_pfn cfg.end_pfn _ hin (pairwise_owned hz) hu u h1 h2
  rw [List.countP_append, List.countP_append, ← count_eq_countP_covers] at hone
  simp only [owners, hl]
  omega

/-- Exclusive ownership, with the missing return value of `page_is_buddy` read as 0: in every
state reached from `memory_init` by `__alloc_pages` and `__free_pages` calls in which only
held blocks are freed, with their allocation order, every unit of the region has exactly one
owner among the free blocks, the entries of the per-CPU list and the held blocks; free
blocks never overlap, and no unit is linked twice: not in two free lists, not twice in a
list, not in a free list and in the per-CPU list. -/
theorem exclusive_ownership_r0 (cfg : Config) (cs : List Call) (h : run_ok cfg cs = true) :
    ∃ s, run cfg cs = some s ∧
      (∀ u, cfg.start_pfn ≤ u → u < cfg.end_pfn → owners cfg s u = 1) ∧
      (∀ o1 p1 o2 p2, p1 ∈ (s.1.free_area o1).free_list → p2 ∈ (s.1.free_area o2).free_list →
        (p1, o1) ≠ (p2, o2) → disjoint_blocks (p1, o1) (p2, o2)) ∧
      (∀ p o1 o2, p ∈ (s.1.free_area o1).free_list → p ∈ (s.1.free_area o2).free_list →
        o1 = o2) ∧
      (∀ o, (s.1.free_area o).free_list.Nodup) ∧ (pcp_list s.1).Nodup ∧
      (∀ o p, p ∈ (s.1.free_area o).free_list → p ∉ pcp_list s.1) := by
  obtain ⟨s, r, hi, ht⟩ := run_spec h
  have hz := zone_inv_of_alloc_inv hi
  have hsame : ∀ p o1 o2, p ∈ (s.1.free_area o1).free_list → p ∈ (s.1.free_area o2).free_list →
      o1 = o2 := by
    intro p o1 o2 h1 h2
    rw [← (hz.marked o1 p h1).2, ← (hz.marked o2 p h2).2]
  refine ⟨s, r, owners_eq_one hi ht, ?_, hsame, hz.nodup, ?_, ?_⟩
  · intro o1 p1 o2 p2 h1 h2 hne
    refine hz.free_disj o1 p1 o2 p2 h1 h2 ?_
    intro e
    subst e
    exact hne (by rw [hsame p1 o1 o2 h1 h2])
  · have hp := (List.pairwise_append.mp hz.busy_disj).1
    rw [List.pairwise_map] at hp
    refine List.Pairwise.imp ?_ hp
    intro a b hd e
    subst e
    simp only [disjoint_blocks, pow_zero] at hd
    omega
  · intro o p hp hq
    exact pcp_not_free hz (List.mem_append_left _ (List.mem_map.mpr ⟨p, hq, rfl⟩)) hp

/-! ## Bootstrap through the free path (C18) -/

theorem free_pages_pcp_none (cfg : Config) (z : zone) (p o : Nat) (hp : z.pcp = none) :
    (o = 0 → __free_pages cfg z p o = none) ∧
      (o ≠ 0 → ∃ z1, __free_pages cfg z p o = some z1 ∧ z1.pcp = none) := by
  refine ⟨fun h0 => ?_, fun h0 => ⟨__free_one_page cfg z p o, ?_, ?_⟩⟩
  · subst h0
    simp only [__free_pages, free_the_page, if_true, free_unref_page, free_unref_page_commit, hp]
  · simp only [__free_pages, free_the_page, h0, if_false, __free_pages_ok]
  · rw [free_one_page_pcp cfg z p o ?_, hp]
    intro q hq
    simp only [pcp_list, hp] at hq
    cases hq

/-- The bootstrap loop faults exactly when it chooses a block of order 0: that block is
routed to the per-CPU cache while `zone->pcp` is still `NULL`. -/
theorem memory_init_loop_none_iff (cfg : Config) (hM : 1 ≤ cfg.MAX_ORDER) :
    ∀ (fuel : Nat) (z : zone) (start : Nat), z.pcp = none → cfg.end_pfn - start ≤ fuel →
      (memory_init_loop cfg fuel z start = none ↔
        ∃ b ∈ memory_init_blocks cfg fuel start, b.2 = 0) := by
  intro fuel
  induction fuel with
  | zero =>
    intro z start _ hf
    have hn : ¬ start < cfg.end_pfn := by omega
    simp [memory_init_loop, memory_init_blocks, hn]
  | succ n ih =>
    intro z start hp hf
    by_cases hs : start < cfg.end_pfn
    · obtain ⟨o, e1, _, e3, _⟩ := memory_init_order_spec cfg.end_pfn start hs
        (min (cfg.MAX_ORDER - 1) (__ffs start))
      have hpos := Nat.two_pow_pos o
      by_cases h0 : o = 0
      · have ef := (free_pages_pcp_none cfg z start o hp).1 h0
        simp only [memory_init_loop, memory_init_blocks, hs, if_true, e1, ef]
        constructor
        · intro _; exact ⟨(start, o), List.mem_cons_self _ _, h0⟩
        · intro _; trivial
      · obtain ⟨z1, ef, hp1⟩ := (free_pages_pcp_none cfg z start o hp).2 h0
        simp only [memory_init_loop, memory_init_blocks, hs, if_true, e1, ef]
        rw [ih z1 _ hp1 (by rw [Nat.one_shiftLeft]; omega)]
        constructor
        · rintro ⟨b, hb, hb0⟩; exact ⟨b, List.mem_cons_of_mem _ hb, hb0⟩
        · rintro ⟨b, hb, hb0⟩
          rcases List.mem_cons.mp hb with rfl | hb
          · exact absurd hb0 h0
          · exact ⟨b, hb, hb0⟩
    · simp [memory_init_loop, memory_init_blocks, hs]

/-- C18 (Initialisation populates the Free Areas), what the code does: `memory_init`
hands every block the bootstrap loop chooses to `__free_pages`.  When a chosen block has
order 0 the call faults, because order 0 is routed to the per-CPU cache and `zone->pcp` is
still `NULL`; `memory_init` completes exactly when no chosen block has order 0, and then
the weighted free total is the number of pages of the region and the cache is empty with
`count = 0`. -/
theorem memory_init_populates (cfg : Config) (hM : 1 ≤ cfg.MAX_ORDER) :
    (memory_init cfg = none ↔
      ∃ b ∈ memory_init_blocks cfg (nr_pages cfg) cfg.start_pfn, b.2 = 0) ∧
    (∀ z0, memory_init cfg = some z0 →
      free_units cfg z0 = nr_pages cfg ∧ pcp_count z0 = 0 ∧ pcp_list z0 = []) := by
  refine ⟨?_, fun z0 h0 => ?_⟩
  · rw [← memory_init_loop_none_iff cfg hM (nr_pages cfg) (memory_init_zone cfg) cfg.start_pfn rfl
      (Nat.le_refl _)]
    simp only [memory_init, nr_pages, Option.map_eq_none']
  · obtain ⟨_, i2, i3, _⟩ := memory_init_spec h0
    refine ⟨i2, ?_, i3⟩
    simp only [memory_init, Option.map_eq_some'] at h0
    obtain ⟨z1, _, rfl⟩ := h0
    rfl

/-- Witness of C18: a region of three pages (page frames 8 to 10) is cut into a block of
order 1 at page 8 and a block of order 0 at page 10, and `memory_init` faults; the region
of `cfg8` is one block of order 3, and `memory_init` completes. -/
theorem memory_init_populates_witness :
    1 ≤ cfg3.MAX_ORDER ∧ nr_pages cfg3 = 3 ∧
    memory_init_blocks cfg3 (nr_pages cfg3) cfg3.start_pfn = [(8, 1), (10, 0)] ∧
    memory_init cfg3 = none ∧
    memory_init_blocks cfg8 (nr_pages cfg8) cfg8.start_pfn = [(8, 3)] ∧
    (memory_init cfg8).isSome = true ∧
    ((memory_init cfg3 = none ↔
      ∃ b ∈ memory_init_blocks cfg3 (nr_pages cfg3) cfg3.start_pfn, b.2 = 0) ∧
    (∀ z0, memory_init cfg3 = some z0 →
      free_units cfg3 z0 = nr_pages cfg3 ∧ pcp_count z0 = 0 ∧ pcp_list z0 = [])) :=
  ⟨by decide, by decide, by decide, rfl, by decide, by decide,
    memory_init_populates cfg3 (by decide)⟩

/-! ## Merging inside the region (C19) -/

theorem lookup_page_of_valid (cfg : Config) (z : zone) (p : Nat)
    (h : pfn_valid_within cfg p = true) : lookup_page cfg z p = some (z.mem_map p) := by
  rw [pfn_valid_within_iff] at h
  simp only [lookup_page, h, and_self, if_true]

theorem page_is_buddy_checked_of_valid (cfg : Config) (z : zone) (b o : Nat)
    (h : pfn_valid_within cfg b = true) :
    page_is_buddy_checked cfg z b o = some (page_is_buddy z b o) := by
  simp only [page_is_buddy_checked, lookup_page_of_valid cfg z b h, Option.map_some']

/-- The merge loop with checked accesses never reads a record outside the region: it
runs as the unchecked loop, and the block it builds starts inside the region. -/
theorem free_one_page_merge_checked_eq (cfg : Config) (M : Nat) :
    ∀ (fuel : Nat) (z : zone) (p o bp : Nat), cfg.start_pfn ≤ p → p < cfg.end_pfn →
      __free_one_page_merge_checked cfg M fuel z p o bp
        = some (__free_one_page_merge cfg M fuel z p o bp) ∧
      cfg.start_pfn ≤ (__free_one_page_merge cfg M fuel z p o bp).2.1 ∧
      (__free_one_page_merge cfg M fuel z p o bp).2.1 < cfg.end_pfn := by
  intro fuel
  induction fuel with
  | zero => intro z p o bp h1 h2; exact ⟨rfl, h1, h2⟩
  | succ n ih =>
    intro z p o bp h1 h2
    by_cases hc : o < M - 1
    · by_cases hv : pfn_valid_within cfg (__find_buddy_pfn p o) = true
      · have hl := page_is_buddy_checked_of_valid cfg z (__find_buddy_pfn p o) o hv
        cases hb : page_is_buddy z (__find_buddy_pfn p o) o with
        | false =>
          have hx := free_one_page_merge_exit cfg M (n + 1) z p o bp
            (fun hh => by rw [hb] at hh; exact Bool.noConfusion hh.2.2)
          have e : __free_one_page_merge cfg M (n + 1) z p o bp
              = (z, p, o, __find_buddy_pfn p o) := by
            simp only [__free_one_page_merge, hc, if_true, hv, hb, Bool.not_true, Bool.not_false,
              Bool.false_eq_true, if_false]
          rw [e]
          refine ⟨?_, h1, h2⟩
          simp only [__free_one_page_merge_checked, hc, if_true, hv, Bool.not_true,
            Bool.false_eq_true, if_false, hl, hb]
        | true =>
          have hv2 := (pfn_valid_within_iff cfg _).mp hv
          have hm := and_buddy_eq_min p o
          have h3 : cfg.start_pfn ≤ __find_buddy_pfn p o &&& p := by rw [hm]; omega
          have h4 : __find_buddy_pfn p o &&& p < cfg.end_pfn := by rw [hm]; omega
          rw [free_one_page_merge_step cfg M n z p o bp hc hv hb]
          obtain ⟨i1, i2, i3⟩ := ih (rmv_page_order
              (set_free_area (list_del z (__find_buddy_pfn p o)) o
                { free_list := ((list_del z (__find_buddy_pfn p o)).free_area o).free_list
                  nr_free := nr_free_dec (z.free_area o).nr_free })
              (__find_buddy_pfn p o)) (__find_buddy_pfn p o &&& p) (o + 1)
            (__find_buddy_pfn p o) h3 h4
          refine ⟨?_, i2, i3⟩
          rw [← i1]
          simp only [__free_one_page_merge_checked, hc, if_true, hv, Bool.not_true,
            Bool.false_eq_true, if_false, hl, hb]
      · have e : __free_one_page_merge cfg M (n + 1) z p o bp
            = (z, p, o, __find_buddy_pfn p o) := by
          simp only [__free_one_page_merge, hc, if_true, hv, Bool.not_false]
        rw [e]
        refine ⟨?_, h1, h2⟩
        simp only [__free_one_page_merge_checked, hc, if_true, hv, Bool.not_false]
    · have e : __free_one_page_merge cfg M (n + 1) z p o bp = (z, p, o, bp) := by
        simp only [__free_one_page_merge, hc, if_false]
      rw [e]
      refine ⟨?_, h1, h2⟩
      simp only [__free_one_page_merge_checked, hc, if_false]

theorem free_one_page_tail_checked_eq (cfg : Config) (z : zone) (p o bp : Nat) :
    __free_one_page_tail_checked cfg z p o bp = some (__free_one_page_tail cfg z p o bp) := by
  unfold __free_one_page_tail_checked __free_one_page_tail
  by_cases h0 : o = 0
  · simp only [h0, if_true]
  · simp only [h0, if_false]
    by_cases h1 : (decide (o < cfg.MAX_ORDER - 2) && pfn_valid_within cfg bp) = true
    · simp only [h1, if_true]
      by_cases h2 : pfn_valid_within cfg (__find_buddy_pfn (bp &&& p) (o + 1)) = true
      · simp only [h2, if_true, Bool.true_and]
        exact page_is_buddy_checked_of_valid cfg z _ _ h2
      · simp only [h2, Bool.false_eq_true, if_false, Bool.false_and]
    · simp only [h1, Bool.false_eq_true, if_false]

theorem free_one_page_place_checked_eq (cfg : Config) (z : zone) (p o bp : Nat)
    (h1 : cfg.start_pfn ≤ p) (h2 : p < cfg.end_pfn) :
    __free_one_page_place_checked cfg z p o bp = some (__free_one_page_place cfg z p o bp) := by
  have hl : lookup_page cfg z p = some (z.mem_map p) :=
    lookup_page_of_valid cfg z p ((pfn_valid_within_iff cfg p).mpr ⟨h1, h2⟩)
  simp only [__free_one_page_place_checked, hl, free_one_page_tail_checked_eq,
    __free_one_page_place]

/-- C19 (Merge stays inside the region): for every `__free_one_page(zone, page, pfn,
order)` whose block lies inside the region, the run with every access to a page record
checked against the bounds of `mem_map` never takes a `none` branch and ends in the state
of the unchecked run; and the merge loop stops, leaving zone, page frame and order as they
are, as soon as the computed buddy index is out of range. -/
theorem merge_stays_inside (cfg : Config) (z : zone) (pfn order : Nat)
    (h1 : cfg.start_pfn ≤ pfn) (h2 : pfn + 2 ^ order ≤ cfg.end_pfn) :
    __free_one_page_checked cfg z pfn order = some (__free_one_page cfg z pfn order) ∧
    (∀ (fuel : Nat) (z1 : zone) (p1 o1 bp : Nat),
      pfn_valid_within cfg (__find_buddy_pfn p1 o1) = false →
      (__free_one_page_merge cfg (min cfg.MAX_ORDER (pageblock_order + 1)) fuel z1 p1 o1 bp).1 = z1 ∧
      (__free_one_page_merge cfg (min cfg.MAX_ORDER (pageblock_order + 1)) fuel z1 p1 o1 bp).2.1
        = p1 ∧
      (__free_one_page_merge cfg (min cfg.MAX_ORDER (pageblock_order + 1)) fuel z1 p1 o1 bp).2.2.1
        = o1) := by
  have hpos := Nat.two_pow_pos order
  obtain ⟨m1, m2, m3⟩ := free_one_page_merge_checked_eq cfg (min cfg.MAX_ORDER (pageblock_order + 1))
    (min cfg.MAX_ORDER (pageblock_order + 1) - 1 - order) z pfn order 0 h1 (by omega)
  refine ⟨?_, fun fuel z1 p1 o1 bp hv =>
    free_one_page_merge_exit cfg _ fuel z1 p1 o1 bp (fun hh => by
      rw [hv] at hh; exact Bool.noConfusion hh.2.1)⟩
  simp only [__free_one_page_checked, m1, free_one_page_place_checked_eq cfg _ _ _ _ m2 m3,
    __free_one_page]

/-- Witness of C19 on `cfg8`: with the whole region taken as one block of order 3, that
block is given back; its buddy of order 3 would start at page frame 0, outside the
region. -/
theorem merge_stays_inside_witness :
    cfg8.start_pfn ≤ 8 ∧ 8 + 2 ^ 3 ≤ cfg8.end_pfn ∧
    pfn_valid_within cfg8 (__find_buddy_pfn 8 3) = false ∧
    (__free_one_page_checked cfg8 (__rmqueue_smallest cfg8 zone8 3).1 8 3
        = some (__free_one_page cfg8 (__rmqueue_smallest cfg8 zone8 3).1 8 3) ∧
    (∀ (fuel : Nat) (z1 : zone) (p1 o1 bp : Nat),
      pfn_valid_within cfg8 (__find_buddy_pfn p1 o1) = false →
      (__free_one_page_merge cfg8 (min cfg8.MAX_ORDER (pageblock_order + 1)) fuel z1 p1 o1 bp).1
        = z1 ∧
      (__free_one_page_merge cfg8 (min cfg8.MAX_ORDER (pageblock_order + 1)) fuel z1 p1 o1 bp).2.1
        = p1 ∧
      (__free_one_page_merge cfg8 (min cfg8.MAX_ORDER (pageblock_order + 1))
        fuel z1 p1 o1 bp).2.2.1 = o1)) :=
  ⟨by decide, by decide, by decide,
    merge_stays_inside cfg8 (__rmqueue_smallest cfg8 zone8 3).1 8 3 (by decide) (by decide)⟩

/-! ## The return value of page_is_buddy (C28) -/

/-- C28 (page_is_buddy), what the code does: `page_is_buddy(page, buddy, order)` reaches
`return 1` exactly when the buddy carries the `PageBuddy` mark and its recorded order is
`order`; in every other case control runs off the end of the function without a `return`,
so no value 0 is returned.  On the zone set up for `cfg8`, page 9 is not marked and
`page_is_buddy(.., page 9, 0)` has no return value. -/
theorem page_is_buddy_return (z : zone) (buddy order : Nat) :
    (page_is_buddy_ret z buddy order = some 1 ↔
      PageBuddy z buddy = true ∧ page_order z buddy = order) ∧
    (page_is_buddy_ret z buddy order = none ↔
      ¬ (PageBuddy z buddy = true ∧ page_order z buddy = order)) ∧
    PageBuddy zone8 9 = false ∧ page_is_buddy_ret zone8 9 0 = none ∧
    page_is_buddy_ret zone8 8 3 = some 1 := by
  have key : (PageBuddy z buddy && page_order z buddy == order) = true ↔
      (PageBuddy z buddy = true ∧ page_order z buddy = order) := by
    simp only [Bool.and_eq_true, beq_iff_eq]
  refine ⟨?_, ?_, by decide, by decide, by decide⟩
  · unfold page_is_buddy_ret
    by_cases h : (PageBuddy z buddy && page_order z buddy == order) = true
    · rw [if_pos h]
      exact Iff.intro (fun _ => key.mp h) (fun _ => rfl)
    · rw [if_neg h]
      exact Iff.intro (fun e => by cases e) (fun hh => absurd (key.mpr hh) h)
  · unfold page_is_buddy_ret
    by_cases h : (PageBuddy z buddy && page_order z buddy == order) = true
    · rw [if_pos h]
      exact Iff.intro (fun e => by cases e) (fun hh => absurd (key.mp h) hh)
    · rw [if_neg h]
      exact Iff.intro (fun _ hh => h (key.mpr hh)) (fun _ => rfl)

/-! ## Maximal coalescing, the missing value read as 0 -/

/-- Maximal coalescing invariant, with the missing return value of `page_is_buddy` read as 0: in
every state reached from `memory_init` by calls of `__rmqueue_smallest` and of
`__free_one_page` on held (hence aligned) blocks, for every order `o < max_order - 1` no
free block of `free_area[o]` has its buddy of order `o` in `free_area[o]`; a unit of the
region carries the `PageBuddy` mark if and only if it heads a free block, linked in the free
area of its recorded order; and such a block cannot be merged further: the test of the merge
loop fails on its buddy. -/
theorem maximal_coalescing_r0 (cfg : Config) (cs : List ZoneCall)
    (h : zone_run_ok cfg cs = true) :
    ∃ s, zone_run cfg cs = some s ∧
      (∀ o p, o < min cfg.MAX_ORDER (pageblock_order + 1) - 1 →
        p ∈ (s.1.free_area o).free_list →
        __find_buddy_pfn p o ∉ (s.1.free_area o).free_list) ∧
      (∀ p, cfg.start_pfn ≤ p → p < cfg.end_pfn →
        (PageBuddy s.1 p = true ↔ p ∈ (s.1.free_area (page_order s.1 p)).free_list)) ∧
      (∀ o p, o < min cfg.MAX_ORDER (pageblock_order + 1) - 1 →
        p ∈ (s.1.free_area o).free_list →
        ¬ (pfn_valid_within cfg (__find_buddy_pfn p o) = true ∧
          page_is_buddy s.1 (__find_buddy_pfn p o) o = true)) := by
  obtain ⟨s, r, hz, _⟩ := zone_run_spec h
  refine ⟨s, r, hz.coalesced, fun p h1 h2 => ⟨fun hb => ?_, fun hm => ?_⟩, fun o p ho hp hh => ?_⟩
  · exact hz.linked p ((pfn_valid_within_iff cfg p).mpr ⟨h1, h2⟩) hb
  · exact (hz.marked _ p hm).1
  · have hb := (page_is_buddy_iff s.1 _ o).mp hh.2
    have hl := hz.linked _ hh.1 hb.1
    rw [hb.2] at hl
    exact hz.coalesced o p ho hp hl

/-! ## The split of expand (C25) -/

/-- Free areas after `expand`: every order from `low` to `high - 1` gets the upper half
`pg + 2^j` at the head of its list and is counted once more. -/
theorem expand_free_area (pg low : Nat) :
    ∀ (high : Nat) (z : zone) (j : Nat),
      (expand z pg low high (2 ^ high)).free_area j =
        if low ≤ j ∧ j < high then
          { free_list := (pg + 2 ^ j) :: (z.free_area j).free_list
            nr_free := (z.free_area j).nr_free + 1 }
        else z.free_area j := by
  intro high
  induction high with
  | zero =>
    intro z j
    have hn : ¬ (low ≤ j ∧ j < 0) := by omega
    rw [if_neg hn]; rfl
  | succ h ih =>
    intro z j
    by_cases hl : h + 1 > low
    · have e : expand z pg low (h + 1) (2 ^ (h + 1)) =
          expand (set_page_order (set_free_area z h
            { free_list := (pg + 2 ^ h) :: (z.free_area h).free_list
              nr_free := (z.free_area h).nr_free + 1 }) (pg + 2 ^ h) h) pg low h (2 ^ h) := by
        simp only [expand, hl, if_true, two_pow_succ_div_two]
      rw [e, ih]
      simp only [set_page_order_free_area, set_free_area_free_area]
      by_cases h1 : j = h
      · subst h1
        have hn : ¬ (low ≤ j ∧ j < j) := by omega
        have hy : low ≤ j ∧ j < j + 1 := by omega
        rw [if_neg hn, if_pos rfl, if_pos hy]
      · by_cases h2 : low ≤ j ∧ j < h
        · have hy : low ≤ j ∧ j < h + 1 := by omega
          rw [if_pos h2, if_neg h1, if_pos hy]
        · have hn : ¬ (low ≤ j ∧ j < h + 1) := by omega
          rw [if_neg h2, if_neg h1, if_neg hn]
    · have e : expand z pg low (h + 1) (2 ^ (h + 1)) = z := by
        simp only [expand, hl, if_false]
      have hn : ¬ (low ≤ j ∧ j < h + 1) := by omega
      rw [e, if_neg hn]

theorem two_pow_inj_add {pg i j : Nat} (h : pg + 2 ^ i = pg + 2 ^ j) : i = j :=
  Nat.pow_right_injective (Nat.le_refl 2) (Nat.add_left_cancel h)

/-- Page records after `expand`: the upper halves are marked free with their order, every
other record is as before. -/
theorem expand_mem_map (pg low : Nat) :
    ∀ (high : Nat) (z : zone),
      (∀ j, low ≤ j → j < high →
        (expand z pg low high (2 ^ high)).mem_map (pg + 2 ^ j) = ⟨true, j⟩) ∧
      (∀ x, (∀ j, low ≤ j → j < high → x ≠ pg + 2 ^ j) →
        (expand z pg low high (2 ^ high)).mem_map x = z.mem_map x) := by
  intro high
  induction high with
  | zero => intro z; exact ⟨fun j _ h => absurd h (Nat.not_lt_zero _), fun x _ => rfl⟩
  | succ h ih =>
    intro z
    by_cases hl : h + 1 > low
    · have e : expand z pg low (h + 1) (2 ^ (h + 1)) =
          expand (set_page_order (set_free_area z h
            { free_list := (pg + 2 ^ h) :: (z.free_area h).free_list
              nr_free := (z.free_area h).nr_free + 1 }) (pg + 2 ^ h) h) pg low h (2 ^ h) := by
        simp only [expand, hl, if_true, two_pow_succ_div_two]
      rw [e]
      obtain ⟨i1, i2⟩ := ih (set_page_order (set_free_area z h
            { free_list := (pg + 2 ^ h) :: (z.free_area h).free_list
              nr_free := (z.free_area h).nr_free + 1 }) (pg + 2 ^ h) h)
      refine ⟨fun j j1 j2 => ?_, fun x hx => ?_⟩
      · by_cases hj : j = h
        · subst hj
          rw [i2 _ (fun i _ i2 hh => by have := two_pow_inj_add hh; omega)]
          simp [set_page_order, set_free_area]
        · exact i1 j j1 (by omega)
      · rw [i2 x (fun j j1 j2 => hx j j1 (by omega))]
        have hne : x ≠ pg + 2 ^ h := hx h (by omega) (by omega)
        simp [set_page_order, set_free_area, Function.update_apply, hne]
    · have e : expand z pg low (h + 1) (2 ^ (h + 1)) = z := by
        simp only [expand, hl, if_false]
      rw [e]
      exact ⟨fun j j1 j2 => absurd j2 (by omega), fun x _ => rfl⟩

theorem expand_blocks_succ (pg low high : Nat) (h : low ≤ high) :
    expand_blocks pg low (high + 1) = expand_blocks pg low high ++ [(pg + 2 ^ high, high)] := by
  have e : high + 1 - low = (high - low) + 1 := by omega
  simp only [expand_blocks, e, List.range'_concat, List.map_append, List.map_cons, List.map_nil,
    List.cons_append, Nat.mul_one]
  have e2 : low + 1 * (high - low) = high := by omega
  rw [e2]

/-- The pieces of `expand` lie inside the block, are pairwise disjoint and add up to it. -/
theorem expand_blocks_spec (pg low : Nat) :
    ∀ (d : Nat),
      (∀ b ∈ expand_blocks pg low (low + d), pg ≤ b.1 ∧ b.1 + 2 ^ b.2 ≤ pg + 2 ^ (low + d)) ∧
      (expand_blocks pg low (low + d)).Pairwise disjoint_blocks ∧
      held_units (expand_blocks pg low (low + d)) = 2 ^ (low + d) := by
  intro d
  induction d with
  | zero =>
    refine ⟨?_, ?_, ?_⟩
    · intro b hb
      simp only [expand_blocks, Nat.add_zero, Nat.sub_self, List.range'_zero, List.map_nil,
        List.mem_singleton] at hb
      subst hb
      exact ⟨Nat.le_refl _, Nat.le_refl _⟩
    · simp [expand_blocks]
    · simp [expand_blocks, held_units]
  | succ d ih =>
    obtain ⟨i1, i2, i3⟩ := ih
    have hs : expand_blocks pg low (low + (d + 1)) =
        expand_blocks pg low (low + d) ++ [(pg + 2 ^ (low + d), low + d)] :=
      expand_blocks_succ pg low (low + d) (by omega)
    have hp : (2 : Nat) ^ (low + (d + 1)) = 2 ^ (low + d) + 2 ^ (low + d) := by
      rw [← Nat.add_assoc, Nat.pow_succ]; omega
    rw [hs]
    refine ⟨?_, ?_, ?_⟩
    · intro b hb
      rcases List.mem_append.mp hb with hb | hb
      · have := i1 b hb
        omega
      · simp only [List.mem_singleton] at hb
        subst hb
        simp only
        omega
    · rw [List.pairwise_append]
      refine ⟨i2, List.pairwise_singleton _ _, fun a ha b hb => ?_⟩
      simp only [List.mem_singleton] at hb
      subst hb
      have := i1 a ha
      exact Or.inl this.2
    · rw [held_units_append, i3]
      simp only [held_units, List.map_cons, List.map_nil, List.sum_cons, List.sum_nil]
      omega

/-- C25 (split): `expand` of the block at `pg` from order `high` down to order `low`
(`low <= high`, `size = 1 << high`) links, for every order `j` from `low` to `high - 1`,
the upper half `pg + 2^j` at the head of `free_area[j]`, marks it free with order `j` and
adds one to `free_area[j].nr_free`; every other free area and page record, that of `pg`
included, and the per-CPU cache are unchanged; the block of order `low` at `pg`, which
stays with the caller, and the linked blocks lie inside `[pg, pg + 2^high)`, are pairwise
disjoint, and every unit of that range is in exactly one of them; for `low = high`
nothing changes. -/
theorem expand_split (z : zone) (pg low high : Nat) (h : low ≤ high) :
    (∀ j, low ≤ j → j < high →
      ((expand z pg low high (1 <<< high)).free_area j).free_list
        = (pg + 2 ^ j) :: (z.free_area j).free_list ∧
      ((expand z pg low high (1 <<< high)).free_area j).nr_free = (z.free_area j).nr_free + 1 ∧
      PageBuddy (expand z pg low high (1 <<< high)) (pg + 2 ^ j) = true ∧
      page_order (expand z pg low high (1 <<< high)) (pg + 2 ^ j) = j) ∧
    (∀ j, j < low ∨ high ≤ j →
      (expand z pg low high (1 <<< high)).free_area j = z.free_area j) ∧
    (∀ x, (∀ j, low ≤ j → j < high → x ≠ pg + 2 ^ j) →
      (expand z pg low high (1 <<< high)).mem_map x = z.mem_map x) ∧
    (expand z pg low high (1 <<< high)).mem_map pg = z.mem_map pg ∧
    (expand z pg low high (1 <<< high)).pcp = z.pcp ∧
    (∀ b ∈ expand_blocks pg low high, pg ≤ b.1 ∧ b.1 + 2 ^ b.2 ≤ pg + 2 ^ high) ∧
    (expand_blocks pg low high).Pairwise disjoint_blocks ∧
    (∀ u, pg ≤ u → u < pg + 2 ^ high → (expand_blocks pg low high).countP (block_covers u) = 1) ∧
    (low = high → expand z pg low high (1 <<< high) = z) := by
  rw [Nat.one_shiftLeft]
  obtain ⟨m1, m2⟩ := expand_mem_map pg low high z
  obtain ⟨d, rfl⟩ : ∃ d, high = low + d := ⟨high - low, by omega⟩
  obtain ⟨b1, b2, b3⟩ := expand_blocks_spec pg low d
  refine ⟨fun j j1 j2 => ?_, fun j hj => ?_, m2, ?_, expand_pcp pg low _ _ z, b1, b2, ?_, ?_⟩
  · rw [expand_free_area, if_pos ⟨j1, j2⟩]
    refine ⟨rfl, rfl, ?_, ?_⟩
    · simp only [PageBuddy, m1 j j1 j2]
    · simp only [page_order, m1 j j1 j2]
  · rw [expand_free_area, if_neg (by omega)]
  · refine m2 pg (fun j _ _ hh => ?_)
    have := Nat.two_pow_pos j
    omega
  · intro u u1 u2
    refine covers_exactly_one pg (pg + 2 ^ (low + d)) _ b1 b2 ?_ u u1 u2
    rw [b3, Nat.add_sub_cancel_left]
  · intro hh
    have hd : d = 0 := by omega
    subst hd
    cases low with
    | zero => rfl
    | succ l =>
      have hn : ¬ l + 1 > l + 1 := by omega
      simp only [Nat.add_zero, expand, hn, if_false]

/-- Witness of C25: on the fresh zone of `cfg8` the block of order 3 at page 8 is cut down
to order 0: the pieces are the unit at page 8 and the upper halves at pages 9, 10, 12. -/
theorem expand_split_witness :
    0 ≤ 3 ∧ expand_blocks 8 0 3 = [(8, 0), (9, 0), (10, 1), (12, 2)] ∧
    (List.range 4).map (fun j => ((expand zone8 8 0 3 (1 <<< 3)).free_area j).free_list)
      = [[9], [10], [12], [8]] ∧
    ((∀ j, 0 ≤ j → j < 3 →
      ((expand zone8 8 0 3 (1 <<< 3)).free_area j).free_list
        = (8 + 2 ^ j) :: (zone8.free_area j).free_list ∧
      ((expand zone8 8 0 3 (1 <<< 3)).free_area j).nr_free = (zone8.free_area j).nr_free + 1 ∧
      PageBuddy (expand zone8 8 0 3 (1 <<< 3)) (8 + 2 ^ j) = true ∧
      page_order (expand zone8 8 0 3 (1 <<< 3)) (8 + 2 ^ j) = j) ∧
    (∀ j, j < 0 ∨ 3 ≤ j →
      (expand zone8 8 0 3 (1 <<< 3)).free_area j = zone8.free_area j) ∧
    (∀ x, (∀ j, 0 ≤ j → j < 3 → x ≠ 8 + 2 ^ j) →
      (expand zone8 8 0 3 (1 <<< 3)).mem_map x = zone8.mem_map x) ∧
    (expand zone8 8 0 3 (1 <<< 3)).mem_map 8 = zone8.mem_map 8 ∧
    (expand zone8 8 0 3 (1 <<< 3)).pcp = zone8.pcp ∧
    (∀ b ∈ expand_blocks 8 0 3, 8 ≤ b.1 ∧ b.1 + 2 ^ b.2 ≤ 8 + 2 ^ 3) ∧
    (expand_blocks 8 0 3).Pairwise disjoint_blocks ∧
    (∀ u, 8 ≤ u → u < 8 + 2 ^ 3 → (expand_blocks 8 0 3).countP (block_covers u) = 1) ∧
    (0 = 3 → expand zone8 8 0 3 (1 <<< 3) = zone8)) :=
  ⟨by decide, by decide, by decide, expand_split zone8 8 0 3 (by decide)⟩

/-! ## The effect of __rmqueue_smallest (C24) -/

/-- C24 (take_smallest): when some `free_area[o]` with `order <= o < MAX_ORDER` is
non-empty, in a zone whose `nr_free` counts are the lengths of the lists,
`__rmqueue_smallest(zone, order)` picks the smallest such order `c`, returns the head
block of `free_area[c]` with its `PageBuddy` mark and recorded order cleared, and
afterwards `free_area[c]` has lost its head and `free_area[c].nr_free` is one less, every
`free_area[j]` with `order <= j < c` has got the upper half `pg + 2^j` and its `nr_free`
is one more, and `free_area[j]` is unchanged for every `j < order` and every `j > c`. -/
theorem rmqueue_smallest_effect (cfg : Config) (z : zone) (order : Nat)
    (hnr : ∀ o, (z.free_area o).nr_free = (z.free_area o).free_list.length)
    (hne : ∃ o, order ≤ o ∧ o < cfg.MAX_ORDER ∧ (z.free_area o).free_list ≠ []) :
    ∃ c pg rest, order ≤ c ∧ c < cfg.MAX_ORDER ∧
      (∀ o, order ≤ o → o < c → (z.free_area o).free_list = []) ∧
      (z.free_area c).free_list = pg :: rest ∧
      (__rmqueue_smallest cfg z order).2 = some pg ∧
      PageBuddy (__rmqueue_smallest cfg z order).1 pg = false ∧
      page_order (__rmqueue_smallest cfg z order).1 pg = 0 ∧
      (((__rmqueue_smallest cfg z order).1).free_area c).free_list = rest ∧
      (((__rmqueue_smallest cfg z order).1).free_area c).nr_free + 1 = (z.free_area c).nr_free ∧
      (∀ j, order ≤ j → j < c →
        ((__rmqueue_smallest cfg z order).1).free_area j =
          { free_list := (pg + 2 ^ j) :: (z.free_area j).free_list
            nr_free := (z.free_area j).nr_free + 1 }) ∧
      (∀ j, j < order ∨ c < j →
        ((__rmqueue_smallest cfg z order).1).free_area j = z.free_area j) := by
  rcases rmqueue_smallest_cases cfg z order with ⟨hall, _⟩ | ⟨c, pg, rest, c1, c2, c3, c4, e⟩
  · obtain ⟨o, o1, o2, o3⟩ := hne
    exact absurd (hall o o1 o2) o3
  · refine ⟨c, pg, rest, c1, c2, c3, c4, ?_⟩
    rw [e, Nat.one_shiftLeft]
    have hpos : 1 ≤ (z.free_area c).nr_free := by
      rw [hnr c, c4]; simp
    have hdec : nr_free_dec (z.free_area c).nr_free + 1 = (z.free_area c).nr_free := by
      simp only [nr_free_dec]; split <;> omega
    have hmm := (expand_mem_map pg order c (set_free_area (rmv_page_order z pg) c
      { free_list := rest, nr_free := nr_free_dec (z.free_area c).nr_free })).2 pg
      (fun j _ _ hh => by have := Nat.two_pow_pos j; omega)
    refine ⟨rfl, ?_, ?_, ?_, ?_, fun j j1 j2 => ?_, fun j hj => ?_⟩
    · simp only [PageBuddy, hmm]
      simp [set_free_area, rmv_page_order]
    · simp only [page_order, hmm]
      simp [set_free_area, rmv_page_order]
    · rw [expand_free_area, if_neg (by omega)]
      simp only [set_free_area_free_area, if_true]
    · rw [expand_free_area, if_neg (by omega)]
      simp only [set_free_area_free_area, if_true]
      exact hdec
    · rw [expand_free_area, if_pos ⟨j1, j2⟩]
      have hj : j ≠ c := by omega
      simp only [set_free_area_free_area, hj, if_false, rmv_page_order_free_area]
    · rw [expand_free_area, if_neg (by omega)]
      have hj2 : j ≠ c := by omega
      simp only [set_free_area_free_area, hj2, if_false, rmv_page_order_free_area]

/-- Witness of C24 on the fresh zone of `cfg8`: a request of order 1 finds the block of
order 3 at page 8, returns page 8 and leaves the upper halves at pages 10 and 12. -/
theorem rmqueue_smallest_effect_witness :
    (∀ o, (zone8.free_area o).nr_free = (zone8.free_area o).free_list.length) ∧
    (∃ o, 1 ≤ o ∧ o < cfg8.MAX_ORDER ∧ (zone8.free_area o).free_list ≠ []) ∧
    (__rmqueue_smallest cfg8 zone8 1).2 = some 8 ∧
    (List.range 4).map (fun j => ((__rmqueue_smallest cfg8 zone8 1).1.free_area j).free_list)
      = [[], [10], [12], []] ∧
    ∃ c pg rest, 1 ≤ c ∧ c < cfg8.MAX_ORDER ∧
      (∀ o, 1 ≤ o → o < c → (zone8.free_area o).free_list = []) ∧
      (zone8.free_area c).free_list = pg :: rest ∧
      (__rmqueue_smallest cfg8 zone8 1).2 = some pg ∧
      PageBuddy (__rmqueue_smallest cfg8 zone8 1).1 pg = false ∧
      page_order (__rmqueue_smallest cfg8 zone8 1).1 pg = 0 ∧
      (((__rmqueue_smallest cfg8 zone8 1).1).free_area c).free_list = rest ∧
      (((__rmqueue_smallest cfg8 zone8 1).1).free_area c).nr_free + 1
        = (zone8.free_area c).nr_free ∧
      (∀ j, 1 ≤ j → j < c →
        ((__rmqueue_smallest cfg8 zone8 1).1).free_area j =
          { free_list := (pg + 2 ^ j) :: (zone8.free_area j).free_list
            nr_free := (zone8.free_area j).nr_free + 1 }) ∧
      (∀ j, j < 1 ∨ c < j →
        ((__rmqueue_smallest cfg8 zone8 1).1).free_area j = zone8.free_area j) :=
  ⟨(zone_inv_of_alloc_inv
      (alloc_inv_of_run (by decide) (show run cfg8 [] = some (zone8, []) from rfl))).nr_free_eq,
    ⟨3, by decide, by decide, by decide⟩, by decide, by decide,
    rmqueue_smallest_effect cfg8 zone8 1
      (zone_inv_of_alloc_inv
        (alloc_inv_of_run (by decide) (show run cfg8 [] = some (zone8, []) from rfl))).nr_free_eq
      ⟨3, by decide, by decide, by decide⟩⟩

/-! ## The bound of the cache, the missing value read as 0 -/

theorem take_smallest_upto_length_le (cfg : Config) :
    ∀ (n : Nat) (z : zone), (take_smallest_upto cfg n z).2.length ≤ n := by
  intro n
  induction n with
  | zero => intro z; simp [take_smallest_upto]
  | succ n ih =>
    intro z
    cases hr : (__rmqueue_smallest cfg z 0).2 with
    | none => simp [take_smallest_upto, hr]
    | some pg =>
      simp only [take_smallest_upto, hr, List.length_cons]
      exact Nat.succ_le_succ (ih _)

/-- The counter of the cache after `__rmqueue_pcplist`: one less on a non-empty cache; on
an empty cache unchanged when the refill obtained nothing, and otherwise the number of
pages obtained, at most `batch`, less the one returned. -/
theorem rmqueue_pcplist_count (cfg : Config) (z : zone) (pcp : per_cpu_pages) :
    (pcp.lists ≠ [] → pcp_count (__rmqueue_pcplist cfg z pcp).1 = pcp.count - 1) ∧
    (pcp.lists = [] →
      pcp_count (__rmqueue_pcplist cfg z pcp).1 = pcp.count ∨
      pcp_count (__rmqueue_pcplist cfg z pcp).1 + 1 ≤ pcp.count + (pcp.batch : Int)) := by
  refine ⟨fun hne => ?_, fun hl => ?_⟩
  · have hrf : __rmqueue_pcplist_refill cfg z pcp = (z, pcp) := by
      simp only [__rmqueue_pcplist_refill, hne, if_false]
    cases hx : pcp.lists with
    | nil => exact absurd hx hne
    | cons q rest => simp only [__rmqueue_pcplist, hrf, hx, pcp_count]
  · have hle := take_smallest_upto_length_le cfg pcp.batch z
    have hrf : __rmqueue_pcplist_refill cfg z pcp =
        ((take_smallest_upto cfg pcp.batch z).1,
          { pcp with
            count := pcp.count + (((take_smallest_upto cfg pcp.batch z).2.length : Nat) : Int)
            lists := (take_smallest_upto cfg pcp.batch z).2 }) := by
      simp only [__rmqueue_pcplist_refill, hl, if_true]
      rw [← hl, rmqueue_bulk_eq_take_smallest_upto, hl]
      rfl
    cases hx : (take_smallest_upto cfg pcp.batch z).2 with
    | nil =>
      left
      simp only [__rmqueue_pcplist, hrf, hx, pcp_count, List.length_nil, Nat.cast_zero, add_zero]
    | cons pg rest =>
      right
      rw [hx] at hle
      simp only [List.length_cons] at hle
      simp only [__rmqueue_pcplist, hrf, hx, pcp_count, List.length_cons]
      push_cast
      omega

/-- One call in a well-formed state whose cache is below `high`, with `BATCH_SIZE >= 1`:
the cache is below `high` after the call, and after a refill-and-pop it holds at most
`batch - 1` pages. -/
theorem call_count_bound {cfg : Config} {s s1 : zone × List (Nat × Nat)} {c : Call}
    (h : alloc_inv cfg s) (hB : 1 ≤ cfg.BATCH_SIZE)
    (hc : ∀ p o, c = Call.free p o → (p, o) ∈ s.2)
    (hlt : pcp_count s.1 < ((6 * cfg.BATCH_SIZE : Nat) : Int)) (hs : call cfg s c = some s1) :
    pcp_count s1.1 < ((6 * cfg.BATCH_SIZE : Nat) : Int) ∧
      (c = Call.alloc 0 → pcp_list s.1 = [] →
        pcp_count s1.1 ≤ ((cfg.BATCH_SIZE : Nat) : Int) - 1) := by
  have h0 := h
  obtain ⟨pcp, hp, hcnt, ht, hz⟩ := h
  have hpc : pcp_count s.1 = pcp.count := pcp_count_eq hp
  have hbatch : pcp.batch = cfg.BATCH_SIZE := by rw [ht.2]; exact Nat.max_eq_right hB
  have hpl : pcp_list s.1 = pcp.lists := by simp only [pcp_list, hp]
  cases c with
  | alloc order =>
    by_cases ho : order = 0
    · subst ho
      have e : __alloc_pages cfg s.1 0 = some (__rmqueue_pcplist cfg s.1 pcp) := by
        simp [__alloc_pages, get_page_from_freelist, rmqueue, rmqueue_pcplist, hp]
      have hs1 : s1.1 = (__rmqueue_pcplist cfg s.1 pcp).1 := by
        simp only [call, e] at hs
        cases hr : (__rmqueue_pcplist cfg s.1 pcp) with
        | mk z1 r =>
          rw [hr] at hs
          cases r with
          | none => simp only [Option.some.injEq] at hs; rw [← hs]
          | some pg => simp only [Option.some.injEq] at hs; rw [← hs]
      obtain ⟨c1, c2⟩ := rmqueue_pcplist_count cfg s.1 pcp
      rw [hs1]
      by_cases hl : pcp.lists = []
      · have hz0 : pcp.count = 0 := by rw [hcnt, hl]; rfl
        have hb : (1 : Int) ≤ (cfg.BATCH_SIZE : Int) := by exact_mod_cast hB
        rcases c2 hl with e1 | e1
        · rw [e1, hz0]
          refine ⟨by push_cast; omega, fun _ _ => by omega⟩
        · rw [hz0, hbatch] at e1
          refine ⟨by push_cast; omega, fun _ _ => by omega⟩
      · have e1 := c1 hl
        rw [e1]
        refine ⟨by omega, fun _ hh => absurd (hpl.symm.trans hh) hl⟩
    · have e : __alloc_pages cfg s.1 order = some (__rmqueue_smallest cfg s.1 order) := by
        simp [__alloc_pages, get_page_from_freelist, rmqueue, ho]
      have hs1 : s1.1 = (__rmqueue_smallest cfg s.1 order).1 := by
        simp only [call, e] at hs
        cases hr : (__rmqueue_smallest cfg s.1 order) with
        | mk z1 r =>
          rw [hr] at hs
          cases r with
          | none => simp only [Option.some.injEq] at hs; rw [← hs]
          | some pg => simp only [Option.some.injEq] at hs; rw [← hs]
      have hpp : s1.1.pcp = some pcp := by rw [hs1, rmqueue_smallest_pcp]; exact hp
      rw [pcp_count_eq hpp, ← hpc]
      exact ⟨hlt, fun hh => by cases hh; exact absurd rfl ho⟩
  | free p o =>
    have hm := hc p o rfl
    by_cases ho : o = 0
    · subst ho
      obtain ⟨z1, pcp1, e1, e2, _, e4, e5⟩ := free_unref_page_commit_detail h0 hp hm
      have hs1 : s1.1 = z1 := by
        simp only [call, __free_pages, free_the_page, if_true, free_unref_page, e1,
          Option.map_some', Option.some.injEq] at hs
        rw [← hs]
      rw [hs1, pcp_count_eq e2]
      refine ⟨?_, fun hh => by cases hh⟩
      by_cases hd : pcp.count + 1 < (pcp.high : Int)
      · have hz1 := e4 hd
        rw [hz1] at e2
        simp only [Option.some.injEq] at e2
        rw [← e2]
        simp only
        rw [ht.1] at hd
        exact hd
      · obtain ⟨removed, r1, _, _, _, r5, _⟩ := e5 (by omega)
        have hpos : 1 ≤ removed.length := List.length_pos.mpr r1
        rw [r5]
        omega
    · have e : __free_pages cfg s.1 p o = some (__free_one_page cfg s.1 p o) := by
        simp only [__free_pages, free_the_page, ho, if_false, __free_pages_ok]
      have hs1 : s1.1 = __free_one_page cfg s.1 p o := by
        simp only [call, e, Option.map_some', Option.some.injEq] at hs
        rw [← hs]
      have hz1 : zone_inv cfg s.1 ((p, o) :: (pcp.lists.map (fun q => (q, 0)) ++ s.2.erase (p, o))) :=
        zone_inv_perm
          ((List.Perm.append_left _ (perm_cons_erase_lawful hm)).trans List.perm_middle) hz
      have hq : ∀ q ∈ pcp_list s.1, (q, 0) ∈ pcp.lists.map (fun q => (q, 0)) ++ s.2.erase (p, o) := by
        intro q hq
        rw [hpl] at hq
        exact List.mem_append_left _ (List.mem_map.mpr ⟨q, hq, rfl⟩)
      have hpp : s1.1.pcp = some pcp := by
        rw [hs1, (free_one_page_spec hz1 hq).2.1]; exact hp
      rw [pcp_count_eq hpp, ← hpc]
      exact ⟨hlt, fun hh => by cases hh⟩

theorem calls_count_bound {cfg : Config} (hB : 1 ≤ cfg.BATCH_SIZE) :
    ∀ (cs : List Call) (s : zone × List (Nat × Nat)), alloc_inv cfg s →
      calls_ok cfg s cs = true → pcp_count s.1 < ((6 * cfg.BATCH_SIZE : Nat) : Int) →
      ∃ s1, calls cfg s cs = some s1 ∧ alloc_inv cfg s1 ∧
        pcp_count s1.1 < ((6 * cfg.BATCH_SIZE : Nat) : Int) := by
  intro cs
  induction cs with
  | nil => intro s h _ hlt; exact ⟨s, rfl, h, hlt⟩
  | cons c cs ih =>
    intro s h hok hlt
    cases c with
    | alloc order =>
      obtain ⟨s1, r1, r2, _⟩ := call_spec (Call.alloc order) h (fun p o e => by simp at e)
      have hb := (call_count_bound h hB (fun p o e => by simp at e) hlt r1).1
      simp only [calls_ok, r1] at hok
      obtain ⟨s2, i1, i2, i3⟩ := ih s1 r2 hok hb
      exact ⟨s2, by simp only [calls, r1, i1], i2, i3⟩
    | free p o =>
      simp only [calls_ok, Bool.and_eq_true, decide_eq_true_eq] at hok
      have hcn : ∀ p1 o1, Call.free p o = Call.free p1 o1 → (p1, o1) ∈ s.2 := by
        intro p1 o1 e
        simp only [Call.free.injEq] at e
        rw [← e.1, ← e.2]; exact hok.1
      obtain ⟨s1, r1, r2, _⟩ := call_spec (Call.free p o) h hcn
      have hb := (call_count_bound h hB hcn hlt r1).1
      rw [r1] at hok
      obtain ⟨s2, i1, i2, i3⟩ := ih s1 r2 hok.2 hb
      exact ⟨s2, by simp only [calls, r1, i1], i2, i3⟩

/-- Cache bound, with the missing return value of `page_is_buddy` read as 0: with `BATCH_SIZE >=
1`, so that `pageset_init` sets `batch >= 1` and `high = 6 * batch`, after every call of a
sequence of `__alloc_pages` and `__free_pages` calls on the initialised zone (frees of held
blocks) the cache holds at most `high - 1` pages; and from such a state every further call
leaves `count < high`, and an `__alloc_pages(0)` on an empty cache (refill and pop) leaves
at most `batch - 1` pages. -/
theorem cache_bound_r0 (cfg : Config) (cs : List Call) (n : Nat) (hB : 1 ≤ cfg.BATCH_SIZE)
    (h : run_ok cfg cs = true) :
    ∃ s pcp, run cfg (cs.take n) = some s ∧ s.1.pcp = some pcp ∧
      1 ≤ pcp.batch ∧ pcp.high = 6 * pcp.batch ∧
      pcp.count < (pcp.high : Int) ∧ pcp.lists.length ≤ pcp.high - 1 ∧
      ∀ c, (∀ p o, c = Call.free p o → (p, o) ∈ s.2) →
        ∃ s1 pcp1, call cfg s c = some s1 ∧ s1.1.pcp = some pcp1 ∧
          pcp1.count < (pcp1.high : Int) ∧
          (c = Call.alloc 0 → pcp.lists = [] → pcp1.count ≤ (pcp1.batch : Int) - 1) := by
  have hok := run_ok_take n h
  unfold run_ok at hok
  cases hm : memory_init cfg with
  | none => rw [hm] at hok; cases hok
  | some z0 =>
    rw [hm] at hok
    obtain ⟨m1, _, m3, _⟩ := memory_init_spec hm
    have h0 : pcp_count z0 < ((6 * cfg.BATCH_SIZE : Nat) : Int) := by
      obtain ⟨pcp0, p1, p2, _⟩ := m1
      have p1 : z0.pcp = some pcp0 := p1
      have hl : pcp0.lists = [] := by
        have : pcp_list z0 = pcp0.lists := by simp only [pcp_list, p1]
        rw [← this]; exact m3
      rw [pcp_count_eq p1, p2, hl]
      have : (1 : Int) ≤ (cfg.BATCH_SIZE : Int) := by exact_mod_cast hB
      simp only [List.length_nil]
      push_cast
      omega
    obtain ⟨s, c1, c2, c3⟩ := calls_count_bound hB (cs.take n) (z0, []) m1 hok h0
    have c2' := c2
    obtain ⟨pcp, hp, hcnt, ht, _⟩ := c2
    have hbatch : pcp.batch = cfg.BATCH_SIZE := by rw [ht.2]; exact Nat.max_eq_right hB
    rw [pcp_count_eq hp] at c3
    have hlt : pcp.count < (pcp.high : Int) := by rw [ht.1]; exact c3
    refine ⟨s, pcp, by simp only [run, hm, Option.some_bind, c1], hp, by omega,
      by rw [ht.1, hbatch], hlt, ?_, fun c hc => ?_⟩
    · rw [hcnt] at hlt
      have : pcp.lists.length < pcp.high := by exact_mod_cast hlt
      omega
    · obtain ⟨s1, r1, r2, _⟩ := call_spec c c2' hc
      have hb := call_count_bound c2' hB hc (by rw [pcp_count_eq hp]; exact c3) r1
      obtain ⟨pcp1, q1, _, qt, _⟩ := r2
      rw [pcp_count_eq q1] at hb
      have hbatch1 : pcp1.batch = cfg.BATCH_SIZE := by rw [qt.2]; exact Nat.max_eq_right hB
      refine ⟨s1, pcp1, r1, q1, by rw [qt.1]; exact hb.1, fun e1 e2 => ?_⟩
      rw [hbatch1]
      refine hb.2 e1 ?_
      simp only [pcp_list, hp]
      exact e2

/-! ## The greedy bootstrap (C29) -/

/-- The bootstrap loop is the sequence of `__free_pages` calls on the blocks it selects;
with `end_pfn - start_pfn` iterations allowed it never runs short of iterations. -/
theorem memory_init_loop_eq_fold (cfg : Config) :
    ∀ (fuel : Nat) (z : zone) (start : Nat), cfg.end_pfn - start ≤ fuel →
      memory_init_loop cfg fuel z start =
        (memory_init_blocks cfg fuel start).foldlM (fun z b => __free_pages cfg z b.1 b.2) z := by
  intro fuel
  induction fuel with
  | zero =>
    intro z start hf
    have hn : ¬ start < cfg.end_pfn := by omega
    simp only [memory_init_loop, memory_init_blocks, hn, if_false, List.foldlM_nil]
    rfl
  | succ n ih =>
    intro z start hf
    by_cases hc : start < cfg.end_pfn
    · obtain ⟨o, h1, _, _, _⟩ := memory_init_order_spec cfg.end_pfn start hc
        (min (cfg.MAX_ORDER - 1) (__ffs start))
      have hpos := Nat.two_pow_pos o
      simp only [memory_init_loop, memory_init_blocks, if_pos hc, h1, List.foldlM_cons]
      cases hfp : __free_pages cfg z start o with
      | none => rfl
      | some z1 =>
        simp only [Option.bind_eq_bind, Option.some_bind]
        exact ih z1 _ (by rw [Nat.one_shiftLeft]; omega)
    · simp only [memory_init_loop, memory_init_blocks, hc, if_false, List.foldlM_nil]
      rfl

/-- Every block the bootstrap loop selects has the greedy order, and consecutive blocks
are adjacent. -/
theorem memory_init_blocks_greedy (cfg : Config) :
    ∀ (fuel start : Nat),
      (∀ b ∈ memory_init_blocks cfg fuel start,
        memory_init_order cfg.end_pfn b.1 (min (cfg.MAX_ORDER - 1) (__ffs b.1)) = some b.2 ∧
        b.2 ≤ min (cfg.MAX_ORDER - 1) (__ffs b.1) ∧
        ∀ o1, b.2 < o1 → o1 ≤ min (cfg.MAX_ORDER - 1) (__ffs b.1) →
          cfg.end_pfn < b.1 + 2 ^ o1) ∧
      (memory_init_blocks cfg fuel start).Chain' (fun a b => b.1 = a.1 + 2 ^ a.2) ∧
      (∀ b ∈ (memory_init_blocks cfg fuel start).head?, b.1 = start) := by
  intro fuel
  induction fuel with
  | zero =>
    intro start
    exact ⟨fun b hb => by simp [memory_init_blocks] at hb, List.chain'_nil,
      fun b hb => by simp [memory_init_blocks] at hb⟩
  | succ n ih =>
    intro start
    by_cases hc : start < cfg.end_pfn
    · obtain ⟨o, h1, h2, _, h4⟩ := memory_init_order_spec cfg.end_pfn start hc
        (min (cfg.MAX_ORDER - 1) (__ffs start))
      have e : memory_init_blocks cfg (n + 1) start =
          (start, o) :: memory_init_blocks cfg n (start + 2 ^ o) := by
        simp only [memory_init_blocks, if_pos hc, h1, Nat.one_shiftLeft]
      obtain ⟨i1, i2, i3⟩ := ih (start + 2 ^ o)
      rw [e]
      refine ⟨?_, ?_, ?_⟩
      · intro b hb
        rcases List.mem_cons.mp hb with rfl | hb
        · exact ⟨h1, h2, h4⟩
        · exact i1 b hb
      · rw [List.chain'_cons']
        exact ⟨fun b hb => i3 b hb, i2⟩
      · intro b hb
        simp only [List.head?_cons, Option.mem_def, Option.some.injEq] at hb
        rw [← hb]
    · have e : memory_init_blocks cfg (n + 1) start = [] := by
        simp only [memory_init_blocks, if_neg hc]
      rw [e]
      exact ⟨fun b hb => by simp at hb, List.chain'_nil, fun b hb => by simp at hb⟩

/-- C29 (Bootstrap greedy selection): for every region with `start_pfn < end_pfn` (and
`MAX_ORDER >= 1`), the loop of `memory_init` needs at most `end_pfn - start_pfn`
iterations and is the sequence of `__free_pages` calls on the blocks it selects; the inner
loop stops at an order that is not below 0, the largest `o` with
`o <= min(MAX_ORDER - 1, __ffs(start_pfn))` and `start_pfn + 2^o <= end_pfn`; every
selected block is aligned to its size and inside the region; the first block starts at
`start_pfn`, consecutive blocks are adjacent, and the sizes add up to
`end_pfn - start_pfn`. -/
theorem bootstrap_greedy (cfg : Config) (hM : 1 ≤ cfg.MAX_ORDER)
    (hse : cfg.start_pfn < cfg.end_pfn) (fuel : Nat) (hf : nr_pages cfg ≤ fuel) :
    (∀ z, memory_init_loop cfg fuel z cfg.start_pfn =
      (memory_init_blocks cfg fuel cfg.start_pfn).foldlM
        (fun z b => __free_pages cfg z b.1 b.2) z) ∧
    (∀ b ∈ memory_init_blocks cfg fuel cfg.start_pfn,
      memory_init_order cfg.end_pfn b.1 (min (cfg.MAX_ORDER - 1) (__ffs b.1)) = some b.2 ∧
      b.2 ≤ min (cfg.MAX_ORDER - 1) (__ffs b.1) ∧ b.1 + 2 ^ b.2 ≤ cfg.end_pfn ∧
      (∀ o1, b.2 < o1 → o1 ≤ min (cfg.MAX_ORDER - 1) (__ffs b.1) →
        cfg.end_pfn < b.1 + 2 ^ o1) ∧
      b.1 % 2 ^ b.2 = 0 ∧ cfg.start_pfn ≤ b.1) ∧
    (∃ o rest, memory_init_blocks cfg fuel cfg.start_pfn = (cfg.start_pfn, o) :: rest) ∧
    (memory_init_blocks cfg fuel cfg.start_pfn).Chain' (fun a b => b.1 = a.1 + 2 ^ a.2) ∧
    held_units (memory_init_blocks cfg fuel cfg.start_pfn) = cfg.end_pfn - cfg.start_pfn := by
  obtain ⟨g1, g2, g3⟩ := memory_init_blocks_greedy cfg fuel cfg.start_pfn
  obtain ⟨s1, _, s3⟩ := memory_init_blocks_spec cfg hM fuel cfg.start_pfn
  have hs := s3 hf
  refine ⟨fun z => memory_init_loop_eq_fold cfg fuel z cfg.start_pfn hf, fun b hb => ?_, ?_, g2, hs⟩
  · obtain ⟨a1, a2, a3⟩ := g1 b hb
    obtain ⟨b1, b2, b3, _⟩ := s1 b hb
    exact ⟨a1, a2, b2, a3, Nat.mod_eq_zero_of_dvd b3, b1⟩
  · cases hL : memory_init_blocks cfg fuel cfg.start_pfn with
    | nil =>
      rw [hL] at hs
      simp only [held_units, List.map_nil, List.sum_nil] at hs
      omega
    | cons b rest =>
      rw [hL] at g3
      have := g3 b (by simp)
      exact ⟨b.2, rest, by rw [← this]⟩

/-- Witness of C29: the region of `cfg3` (page frames 8 to 10) is cut into the block of
order 1 at page 8 and the block of order 0 at page 10. -/
theorem bootstrap_greedy_witness :
    1 ≤ cfg3.MAX_ORDER ∧ cfg3.start_pfn < cfg3.end_pfn ∧ nr_pages cfg3 ≤ 3 ∧
    memory_init_blocks cfg3 3 cfg3.start_pfn = [(8, 1), (10, 0)] ∧
    ((∀ z, memory_init_loop cfg3 3 z cfg3.start_pfn =
      (memory_init_blocks cfg3 3 cfg3.start_pfn).foldlM
        (fun z b => __free_pages cfg3 z b.1 b.2) z) ∧
    (∀ b ∈ memory_init_blocks cfg3 3 cfg3.start_pfn,
      memory_init_order cfg3.end_pfn b.1 (min (cfg3.MAX_ORDER - 1) (__ffs b.1)) = some b.2 ∧
      b.2 ≤ min (cfg3.MAX_ORDER - 1) (__ffs b.1) ∧ b.1 + 2 ^ b.2 ≤ cfg3.end_pfn ∧
      (∀ o1, b.2 < o1 → o1 ≤ min (cfg3.MAX_ORDER - 1) (__ffs b.1) →
        cfg3.end_pfn < b.1 + 2 ^ o1) ∧
      b.1 % 2 ^ b.2 = 0 ∧ cfg3.start_pfn ≤ b.1) ∧
    (∃ o rest, memory_init_blocks cfg3 3 cfg3.start_pfn = (cfg3.start_pfn, o) :: rest) ∧
    (memory_init_blocks cfg3 3 cfg3.start_pfn).Chain' (fun a b => b.1 = a.1 + 2 ^ a.2) ∧
    held_units (memory_init_blocks cfg3 3 cfg3.start_pfn) = cfg3.end_pfn - cfg3.start_pfn) :=
  ⟨by decide, by decide, by decide, by decide,
    bootstrap_greedy cfg3 (by decide) (by decide) 3 (by decide)⟩

/-! ## The trace of the merge loop -/

/-- Rounding down to a multiple of `2^k` sees only the block of size `2^j`, `j <= k`, that
holds the number. -/
theorem round_down_eq {j k p p1 : Nat} (hjk : j ≤ k) (hd : 2 ^ j ∣ p1) (h1 : p1 ≤ p)
    (h2 : p < p1 + 2 ^ j) : p / 2 ^ k = p1 / 2 ^ k := by
  obtain ⟨a, rfl⟩ := hd
  obtain ⟨d, rfl⟩ : ∃ d, k = j + d := ⟨k - j, by omega⟩
  have hpos := Nat.two_pow_pos j
  have e1 : p / 2 ^ j = a := by
    apply Nat.div_eq_of_lt_le
    · rw [Nat.mul_comm]; exact h1
    · rw [Nat.succ_mul, Nat.mul_comm]; exact h2
  rw [pow_add, ← Nat.div_div_eq_div_mul, ← Nat.div_div_eq_div_mul, e1,
    Nat.mul_div_cancel_left a hpos]

theorem free_area_eta (a : free_area) :
    ({ free_list := a.free_list, nr_free := a.nr_free } : free_area) = a := by
  cases a; rfl

/-- Trace of the merge loop in a well-formed zone, from the busy block `(p, o)` to the
block `(p1, o1)` at which it stops: the block found is `p` rounded down to a multiple of
`2^o1` and holds the freed block; the free areas of the orders outside `[o, o1)` are
untouched; at every order `k` in `[o, o1)` the buddy of the block of that order was free,
is erased from `free_area[k]`, which counts one block less, and lies inside the block
found. -/
theorem free_one_page_merge_trace {cfg : Config} {busy : List (Nat × Nat)} :
    ∀ (fuel : Nat) (z : zone) (p o bp : Nat),
      zone_inv cfg z ((p, o) :: busy) → (∀ q ∈ pcp_list z, (q, 0) ∈ busy) →
      o ≤ (__free_one_page_merge cfg (min cfg.MAX_ORDER (pageblock_order + 1))
        fuel z p o bp).2.2.1 ∧
      (__free_one_page_merge cfg (min cfg.MAX_ORDER (pageblock_order + 1)) fuel z p o bp).2.1 =
        p / 2 ^ (__free_one_page_merge cfg (min cfg.MAX_ORDER (pageblock_order + 1))
            fuel z p o bp).2.2.1 *
          2 ^ (__free_one_page_merge cfg (min cfg.MAX_ORDER (pageblock_order + 1))
            fuel z p o bp).2.2.1 ∧
      (__free_one_page_merge cfg (min cfg.MAX_ORDER (pageblock_order + 1)) fuel z p o bp).2.1 ≤ p ∧
      p + 2 ^ o ≤
        (__free_one_page_merge cfg (min cfg.MAX_ORDER (pageblock_order + 1)) fuel z p o bp).2.1 +
        2 ^ (__free_one_page_merge cfg (min cfg.MAX_ORDER (pageblock_order + 1))
          fuel z p o bp).2.2.1 ∧
      (∀ k, (k < o ∨
          (__free_one_page_merge cfg (min cfg.MAX_ORDER (pageblock_order + 1))
            fuel z p o bp).2.2.1 ≤ k) →
        (__free_one_page_merge cfg (min cfg.MAX_ORDER (pageblock_order + 1))
          fuel z p o bp).1.free_area k = z.free_area k) ∧
      (∀ k, o ≤ k →
        k < (__free_one_page_merge cfg (min cfg.MAX_ORDER (pageblock_order + 1))
          fuel z p o bp).2.2.1 →
        __find_buddy_pfn (p / 2 ^ k * 2 ^ k) k ∈ (z.free_area k).free_list ∧
        ((__free_one_page_merge cfg (min cfg.MAX_ORDER (pageblock_order + 1))
          fuel z p o bp).1.free_area k).free_list =
            (z.free_area k).free_list.erase (__find_buddy_pfn (p / 2 ^ k * 2 ^ k) k) ∧
        ((__free_one_page_merge cfg (min cfg.MAX_ORDER (pageblock_order + 1))
          fuel z p o bp).1.free_area k).nr_free + 1 = (z.free_area k).nr_free ∧
        (__free_one_page_merge cfg (min cfg.MAX_ORDER (pageblock_order + 1))
          fuel z p o bp).2.1 ≤ __find_buddy_pfn (p / 2 ^ k * 2 ^ k) k ∧
        __find_buddy_pfn (p / 2 ^ k * 2 ^ k) k + 2 ^ k ≤
          (__free_one_page_merge cfg (min cfg.MAX_ORDER (pageblock_order + 1))
            fuel z p o bp).2.1 +
          2 ^ (__free_one_page_merge cfg (min cfg.MAX_ORDER (pageblock_order + 1))
            fuel z p o bp).2.2.1) := by
  intro fuel
  induction fuel with
  | zero =>
    intro z p o bp h _
    have hal := (h.busy_in (p, o) (List.mem_cons_self _ _)).2.1
    exact ⟨Nat.le_refl _, (Nat.div_mul_cancel hal).symm, Nat.le_refl _, Nat.le_refl _,
      fun k _ => rfl, fun k k1 k2 => absurd k2 (by
        show ¬ k < o
        omega)⟩
  | succ n ih =>
    intro z p o bp h hpcp
    have hal : 2 ^ o ∣ p := (h.busy_in (p, o) (List.mem_cons_self _ _)).2.1
    by_cases hc : o < min cfg.MAX_ORDER (pageblock_order + 1) - 1 ∧
        pfn_valid_within cfg (__find_buddy_pfn p o) = true ∧
        page_is_buddy z (__find_buddy_pfn p o) o = true
    · obtain ⟨h1, h2, h3⟩ := hc
      rw [free_one_page_merge_step cfg _ n z p o bp h1 h2 h3]
      obtain ⟨m1, m2, _⟩ := zone_inv_merge h hpcp h1 h2 h3
      have hpcp1 : ∀ q ∈ pcp_list (rmv_page_order
          (set_free_area (list_del z (__find_buddy_pfn p o)) o
            { free_list := ((list_del z (__find_buddy_pfn p o)).free_area o).free_list
              nr_free := nr_free_dec (z.free_area o).nr_free })
          (__find_buddy_pfn p o)), (q, 0) ∈ busy := by
        intro q hq; rw [pcp_list_congr m2] at hq; exact hpcp q hq
      obtain ⟨i1, i2, i3, i4, i5, i6⟩ := ih _ (__find_buddy_pfn p o &&& p) (o + 1)
        (__find_buddy_pfn p o) m1 hpcp1
      have hb := (page_is_buddy_iff z _ o).mp h3
      have hmem : __find_buddy_pfn p o ∈ (z.free_area o).free_list := by
        have := h.linked _ h2 hb.1
        rwa [hb.2] at this
      have hpos : 1 ≤ (z.free_area o).nr_free := by
        rw [h.nr_free_eq o]; exact List.length_pos_of_mem hmem
      have hdec : nr_free_dec (z.free_area o).nr_free + 1 = (z.free_area o).nr_free := by
        simp only [nr_free_dec]; split <;> omega
      have hnot : ∀ k, k ≠ o → __find_buddy_pfn p o ∉ (z.free_area k).free_list := by
        intro k hk hm
        have := (h.marked k _ hm).2
        rw [hb.2] at this
        exact hk this.symm
      have hfa : ∀ k, (rmv_page_order
          (set_free_area (list_del z (__find_buddy_pfn p o)) o
            { free_list := ((list_del z (__find_buddy_pfn p o)).free_area o).free_list
              nr_free := nr_free_dec (z.free_area o).nr_free })
          (__find_buddy_pfn p o)).free_area k =
          if k = o then
            { free_list := (z.free_area o).free_list.erase (__find_buddy_pfn p o)
              nr_free := nr_free_dec (z.free_area o).nr_free }
          else z.free_area k := by
        intro k
        simp only [rmv_page_order_free_area, set_free_area_free_area]
        split
        · rfl
        · rename_i hk
          have e : (list_del z (__find_buddy_pfn p o)).free_area k =
              { free_list := (z.free_area k).free_list.erase (__find_buddy_pfn p o)
                nr_free := (z.free_area k).nr_free } := rfl
          rw [e, List.erase_of_not_mem (hnot k hk)]
      obtain ⟨hd1, hcases⟩ := buddy_cases p o hal
      have hpow : 2 ^ (o + 1) = 2 * 2 ^ o := by rw [pow_succ]; ring
      have hpo := Nat.two_pow_pos o
      have hp1le : __find_buddy_pfn p o &&& p ≤ p := by omega
      have hp1gt : p < (__find_buddy_pfn p o &&& p) + 2 ^ (o + 1) := by omega
      have hround : ∀ k, o + 1 ≤ k → p / 2 ^ k = (__find_buddy_pfn p o &&& p) / 2 ^ k :=
        fun k hk => round_down_eq hk hd1 hp1le hp1gt
      have hself : p / 2 ^ o * 2 ^ o = p := Nat.div_mul_cancel hal
      refine ⟨by omega, ?_, by omega, by omega, fun k hk => ?_, fun k k1 k2 => ?_⟩
      · rw [i2, hround _ i1]
      · have hko : k ≠ o := by omega
        rw [i5 k (by omega), hfa, if_neg hko]
      · by_cases hko : k = o
        · subst hko
          rw [hself, i5 k (Or.inl (Nat.lt_succ_self k)), hfa, if_pos rfl]
          refine ⟨hmem, rfl, hdec, by omega, by omega⟩
        · obtain ⟨j1, j2, j3, j4, j5⟩ := i6 k (by omega) k2
          rw [hfa, if_neg hko] at j1 j2 j3
          rw [hround k (by omega)]
          exact ⟨j1, j2, j3, j4, j5⟩
    · obtain ⟨e1, e2, e3⟩ := free_one_page_merge_exit cfg _ (n + 1) z p o bp hc
      rw [e1, e2, e3]
      exact ⟨Nat.le_refl _, (Nat.div_mul_cancel hal).symm, Nat.le_refl _, Nat.le_refl _,
        fun k _ => rfl, fun k k1 k2 => absurd k2 (by omega)⟩

/-- The merge loop never raises the order above `max_order - 1`. -/
theorem free_one_page_merge_order_le (cfg : Config) (M : Nat) :
    ∀ (fuel : Nat) (z : zone) (p o bp : Nat), o ≤ M - 1 →
      (__free_one_page_merge cfg M fuel z p o bp).2.2.1 ≤ M - 1 := by
  intro fuel
  induction fuel with
  | zero => intro z p o bp h; exact h
  | succ n ih =>
    intro z p o bp h
    by_cases hc : o < M - 1 ∧ pfn_valid_within cfg (__find_buddy_pfn p o) = true ∧
        page_is_buddy z (__find_buddy_pfn p o) o = true
    · rw [free_one_page_merge_step cfg M n z p o bp hc.1 hc.2.1 hc.2.2]
      exact ih _ _ _ _ (by omega)
    · rw [(free_one_page_merge_exit cfg M (n + 1) z p o bp hc).2.2]; exact h

/-- With enough iterations allowed, a merge loop that stops below `max_order - 1` has
left through `goto done_merging`: `buddy_pfn` is the buddy of the block found, and that
buddy is out of range or not a free block of the order found. -/
theorem free_one_page_merge_bp (cfg : Config) (M : Nat) :
    ∀ (fuel : Nat) (z : zone) (p o bp : Nat), M - 1 - o ≤ fuel →
      (__free_one_page_merge cfg M fuel z p o bp).2.2.1 < M - 1 →
      (__free_one_page_merge cfg M fuel z p o bp).2.2.2 =
        __find_buddy_pfn (__free_one_page_merge cfg M fuel z p o bp).2.1
          (__free_one_page_merge cfg M fuel z p o bp).2.2.1 ∧
      ¬ (pfn_valid_within cfg (__find_buddy_pfn (__free_one_page_merge cfg M fuel z p o bp).2.1
            (__free_one_page_merge cfg M fuel z p o bp).2.2.1) = true ∧
          page_is_buddy (__free_one_page_merge cfg M fuel z p o bp).1
            (__find_buddy_pfn (__free_one_page_merge cfg M fuel z p o bp).2.1
              (__free_one_page_merge cfg M fuel z p o bp).2.2.1)
            (__free_one_page_merge cfg M fuel z p o bp).2.2.1 = true) := by
  intro fuel
  induction fuel with
  | zero =>
    intro z p o bp hf hlt
    have e : (__free_one_page_merge cfg M 0 z p o bp).2.2.1 = o := rfl
    rw [e] at hlt
    omega
  | succ n ih =>
    intro z p o bp hf hlt
    by_cases hc : o < M - 1
    · by_cases hv : pfn_valid_within cfg (__find_buddy_pfn p o) = true
      · by_cases hb : page_is_buddy z (__find_buddy_pfn p o) o = true
        · rw [free_one_page_merge_step cfg M n z p o bp hc hv hb] at hlt ⊢
          exact ih _ _ _ _ (by omega) hlt
        · have e : __free_one_page_merge cfg M (n + 1) z p o bp
              = (z, p, o, __find_buddy_pfn p o) := by
            simp only [__free_one_page_merge, hc, if_true, hv, hb, Bool.not_true, Bool.not_false,
              Bool.false_eq_true, if_false]
          rw [e]
          exact ⟨rfl, fun hh => hb hh.2⟩
      · have e : __free_one_page_merge cfg M (n + 1) z p o bp
            = (z, p, o, __find_buddy_pfn p o) := by
          simp only [__free_one_page_merge, hc, if_true, hv, Bool.not_false]
        rw [e]
        exact ⟨rfl, fun hh => hv hh.1⟩
    · have e : (__free_one_page_merge cfg M (n + 1) z p o bp).2.2.1 = o :=
        (free_one_page_merge_exit cfg M (n + 1) z p o bp (fun hh => hc hh.1)).2.2
      rw [e] at hlt
      exact absurd hlt hc

/-! ## The result of the merge, the missing value read as 0 -/

theorem free_one_page_eq_place (cfg : Config) (z : zone) (p o : Nat) {zm : zone}
    {p1 o1 bp : Nat}
    (hm : __free_one_page_merge cfg (min cfg.MAX_ORDER (pageblock_order + 1))
      (min cfg.MAX_ORDER (pageblock_order + 1) - 1 - o) z p o 0 = (zm, p1, o1, bp)) :
    __free_one_page cfg z p o = __free_one_page_place cfg zm p1 o1 bp := by
  unfold __free_one_page
  rw [hm]

/-- Merge result, with the missing return value of `page_is_buddy` read as 0: for every
`__free_one_page(zone, page, pfn, order)` in a well-formed zone in which the block `(pfn,
order)` is busy (so `pfn` is aligned to `2^order`), with `order <= max_order - 1`, the merge
loop stops at a block `(p1, o1)` with `order <= o1 <= max_order - 1`, where `p1` is `pfn`
with the bits below `o1` cleared, and the block holds the freed block; at every order `k`
from `order` to `o1 - 1` the buddy of the block of that order was free, and at the end of
the loop it is linked in no free area and carries no `PageBuddy` mark, and
`free_area[k].nr_free` is one less; either `o1 = max_order - 1` or the buddy of order `o1`
of `(p1, o1)` is not a free block of order `o1`; and `__free_one_page` ends with `(p1, o1)`
as the one free block that holds the freed block. -/
theorem merge_result_r0 {cfg : Config} {z : zone} {busy : List (Nat × Nat)} {pfn order : Nat}
    (h : zone_inv cfg z ((pfn, order) :: busy)) (hpcp : ∀ q ∈ pcp_list z, (q, 0) ∈ busy)
    (ho : order ≤ min cfg.MAX_ORDER (pageblock_order + 1) - 1) :
    ∃ zm p1 o1 bp,
      __free_one_page_merge cfg (min cfg.MAX_ORDER (pageblock_order + 1))
        (min cfg.MAX_ORDER (pageblock_order + 1) - 1 - order) z pfn order 0 = (zm, p1, o1, bp) ∧
      order ≤ o1 ∧ o1 ≤ min cfg.MAX_ORDER (pageblock_order + 1) - 1 ∧
      p1 = pfn / 2 ^ o1 * 2 ^ o1 ∧ p1 ≤ pfn ∧ pfn + 2 ^ order ≤ p1 + 2 ^ o1 ∧
      (∀ k, order ≤ k → k < o1 →
        __find_buddy_pfn (pfn / 2 ^ k * 2 ^ k) k ∈ (z.free_area k).free_list ∧
        (∀ j, __find_buddy_pfn (pfn / 2 ^ k * 2 ^ k) k ∉ (zm.free_area j).free_list) ∧
        PageBuddy zm (__find_buddy_pfn (pfn / 2 ^ k * 2 ^ k) k) = false ∧
        (zm.free_area k).nr_free + 1 = (z.free_area k).nr_free) ∧
      (o1 = min cfg.MAX_ORDER (pageblock_order + 1) - 1 ∨
        (__find_buddy_pfn p1 o1 ∉ (z.free_area o1).free_list ∧
          ¬ (pfn_valid_within cfg (__find_buddy_pfn p1 o1) = true ∧
            page_is_buddy zm (__find_buddy_pfn p1 o1) o1 = true))) ∧
      p1 ∈ ((__free_one_page cfg z pfn order).free_area o1).free_list ∧
      ((__free_one_page cfg z pfn order).free_area o1).free_list.count p1 = 1 ∧
      (∀ o2 p2, p2 ∈ ((__free_one_page cfg z pfn order).free_area o2).free_list →
        ¬ disjoint_blocks (p2, o2) (pfn, order) → p2 = p1 ∧ o2 = o1) := by
  obtain ⟨t1, t2, t3, t4, t5, t6⟩ := free_one_page_merge_trace
    (min cfg.MAX_ORDER (pageblock_order + 1) - 1 - order) z pfn order 0 h hpcp
  obtain ⟨m1, m2, _, m4, _⟩ := free_one_page_merge_spec
    (min cfg.MAX_ORDER (pageblock_order + 1) - 1 - order) z pfn order 0 h hpcp (Nat.le_refl _)
  have hle := free_one_page_merge_order_le cfg (min cfg.MAX_ORDER (pageblock_order + 1))
    (min cfg.MAX_ORDER (pageblock_order + 1) - 1 - order) z pfn order 0 ho
  have hbp := free_one_page_merge_bp cfg (min cfg.MAX_ORDER (pageblock_order + 1))
    (min cfg.MAX_ORDER (pageblock_order + 1) - 1 - order) z pfn order 0 (Nat.le_refl _)
  cases hm : __free_one_page_merge cfg (min cfg.MAX_ORDER (pageblock_order + 1))
      (min cfg.MAX_ORDER (pageblock_order + 1) - 1 - order) z pfn order 0 with
  | mk zm r =>
    obtain ⟨p1, o1, bp⟩ := r
    rw [hm] at t1 t2 t3 t4 t5 t6 m1 m2 m4 hle hbp
    simp only at t1 t2 t3 t4 t5 t6 m1 m2 m4 hle hbp
    have hpcp1 : ∀ q ∈ pcp_list zm, (q, 0) ∈ busy := by
      intro q hq; rw [pcp_list_congr m2] at hq; exact hpcp q hq
    have hfin := free_one_page_spec h hpcp
    have hpl := zone_inv_place bp m1 hpcp1 m4
    rw [← free_one_page_eq_place cfg z pfn order hm] at hpl
    have hbin := (m1.busy_in (p1, o1) (List.mem_cons_self _ _)).1
    simp only [block_in] at hbin
    refine ⟨zm, p1, o1, bp, rfl, t1, hle, t2, t3, t4, fun k k1 k2 => ?_, ?_, hpl.2.2.2, ?_, ?_⟩
    · obtain ⟨a1, _, a3, a4, a5⟩ := t6 k k1 k2
      have hpk := Nat.two_pow_pos k
      have hnot : ∀ j, __find_buddy_pfn (pfn / 2 ^ k * 2 ^ k) k ∉ (zm.free_area j).free_list := by
        intro j hj
        have hd := m1.busy_free (p1, o1) (List.mem_cons_self _ _) j _ hj
        have hpj := Nat.two_pow_pos j
        simp only [disjoint_blocks] at hd
        omega
      refine ⟨a1, hnot, ?_, a3⟩
      cases hb : PageBuddy zm (__find_buddy_pfn (pfn / 2 ^ k * 2 ^ k) k) with
      | false => rfl
      | true =>
        have hv : pfn_valid_within cfg (__find_buddy_pfn (pfn / 2 ^ k * 2 ^ k) k) = true := by
          rw [pfn_valid_within_iff]; omega
        exact absurd (m1.linked _ hv hb) (hnot _)
    · by_cases hlt : o1 < min cfg.MAX_ORDER (pageblock_order + 1) - 1
      · right
        refine ⟨?_, (hbp hlt).2⟩
        rw [← t5 o1 (Or.inr (Nat.le_refl _))]
        exact m4 hlt
      · left; omega
    · exact List.count_eq_one_of_mem (hfin.1.nodup o1) hpl.2.2.2
    · intro o2 p2 h2 hnd
      have hp2 : p2 = p1 := by
        by_contra hne
        have hd := hfin.1.free_disj o2 p2 o1 p1 h2 hpl.2.2.2 hne
        simp only [disjoint_blocks] at hd hnd
        omega
      subst hp2
      refine ⟨rfl, ?_⟩
      rw [← (hfin.1.marked o2 p2 h2).2, ← (hfin.1.marked o1 p2 hpl.2.2.2).2]

/-! ## Well-formedness along zone calls -/

theorem zone_inv_of_zone_run {cfg : Config} {cs : List ZoneCall} {s : zone × List (Nat × Nat)}
    (hok : zone_run_ok cfg cs = true) (hr : zone_run cfg cs = some s) (b : Nat × Nat)
    (hb : b ∈ s.2) :
    zone_inv cfg s.1 (b :: s.2.erase b) ∧ ∀ q ∈ pcp_list s.1, (q, 0) ∈ s.2.erase b := by
  obtain ⟨s1, r1, hz, hl⟩ := zone_run_spec hok
  rw [hr] at r1
  cases r1
  refine ⟨zone_inv_perm (perm_cons_erase_lawful hb) hz, fun q hq => ?_⟩
  rw [hl] at hq
  cases hq

/-! ## Allocate-then-free round trip, the missing value read as 0 -/

theorem expand_self (z : zone) (pg low size : Nat) : expand z pg low low size = z := by
  cases low with
  | zero => rfl
  | succ l =>
    have hn : ¬ l + 1 > l + 1 := by omega
    simp only [expand, hn, if_false]

/-- The merge loop undoes `expand`: started on the block of order `o` at `q` right after
the block of order `o + d` at `q` was cut down to order `o`, it absorbs the upper halves
one by one and arrives at the block of order `o + d` at `q` in a zone with the free areas
and the cache as before the cut. -/
theorem merge_expand {cfg : Config} {busy : List (Nat × Nat)} {q o : Nat} :
    ∀ (d : Nat) (z0 : zone) (n bp : Nat),
      zone_inv cfg z0 ((q, o + d) :: busy) → (∀ x ∈ pcp_list z0, (x, 0) ∈ busy) →
      o + d ≤ min cfg.MAX_ORDER (pageblock_order + 1) - 1 →
      ∃ Z bp1,
        __free_one_page_merge cfg (min cfg.MAX_ORDER (pageblock_order + 1)) (n + d)
          (expand z0 q o (o + d) (2 ^ (o + d))) q o bp =
        __free_one_page_merge cfg (min cfg.MAX_ORDER (pageblock_order + 1)) n Z q (o + d) bp1 ∧
        (∀ j, Z.free_area j = z0.free_area j) ∧ Z.pcp = z0.pcp ∧
        (∀ x, (x < q ∨ q + 2 ^ (o + d) ≤ x) → Z.mem_map x = z0.mem_map x) := by
  intro d
  induction d with
  | zero =>
    intro z0 n bp _ _ _
    exact ⟨z0, bp, by simp only [Nat.add_zero, expand_self], fun j => rfl, rfl,
      fun x _ => rfl⟩
  | succ d ih =>
    intro z0 n bp h hpcp hle
    have hin := h.busy_in (q, o + (d + 1)) (List.mem_cons_self _ _)
    have hal : 2 ^ (o + d + 1) ∣ q := hin.2.1
    have hgt : o + d + 1 > o := by omega
    have hpc := Nat.two_pow_pos (o + d)
    have hpow : 2 ^ (o + d + 1) = 2 * 2 ^ (o + d) := by rw [pow_succ]; ring
    have e : expand z0 q o (o + (d + 1)) (2 ^ (o + (d + 1))) =
        expand (set_page_order (set_free_area z0 (o + d)
          { free_list := (q + 2 ^ (o + d)) :: (z0.free_area (o + d)).free_list
            nr_free := (z0.free_area (o + d)).nr_free + 1 }) (q + 2 ^ (o + d)) (o + d))
          q o (o + d) (2 ^ (o + d)) := by
      rw [← Nat.add_assoc]
      simp only [expand, hgt, if_true, two_pow_succ_div_two]
    have hz1 := @zone_inv_split cfg z0 busy q (o + d) h
    obtain ⟨Z1, bp1, i1, i2, i3, i4⟩ := ih _ (n + 1) bp hz1 hpcp (by omega)
    have hfuel : n + (d + 1) = n + 1 + d := by omega
    rw [e, hfuel, i1]
    -- one step of the loop on `Z1`
    have hb : __find_buddy_pfn q (o + d) = q + 2 ^ (o + d) := find_buddy_pfn_low q (o + d) hal
    have hand : __find_buddy_pfn q (o + d) &&& q = q := buddy_and_low q (o + d) hal
    have hbin : block_in cfg (q, o + d + 1) := hin.1
    simp only [block_in] at hbin
    have hv : pfn_valid_within cfg (__find_buddy_pfn q (o + d)) = true := by
      rw [hb, pfn_valid_within_iff]; omega
    have hmm : Z1.mem_map (q + 2 ^ (o + d)) = ⟨true, o + d⟩ := by
      rw [i4 _ (Or.inr (Nat.le_refl _))]
      simp [set_page_order, set_free_area]
    have hpb : page_is_buddy Z1 (__find_buddy_pfn q (o + d)) (o + d) = true := by
      rw [page_is_buddy_iff, hb]
      simp only [PageBuddy, page_order, hmm, and_self]
    rw [free_one_page_merge_step cfg _ n Z1 q (o + d) bp1 (by omega) hv hpb, hand, hb]
    have hnot : ∀ j, q + 2 ^ (o + d) ∉ (z0.free_area j).free_list := by
      intro j hj
      have hd := h.busy_free (q, o + (d + 1)) (List.mem_cons_self _ _) j _ hj
      have hpj := Nat.two_pow_pos j
      simp only [disjoint_blocks] at hd
      have : o + (d + 1) = o + d + 1 := rfl
      rw [this] at hd
      omega
    have hnotp : q + 2 ^ (o + d) ∉ pcp_list Z1 := by
      intro hm
      rw [pcp_list_congr i3] at hm
      have hm1 : q + 2 ^ (o + d) ∈ pcp_list z0 := hm
      have hbz := hpcp _ hm1
      have hd := (List.pairwise_cons.mp h.busy_disj).1 _ hbz
      simp only [disjoint_blocks, pow_zero] at hd
      have : o + (d + 1) = o + d + 1 := rfl
      rw [this] at hd
      omega
    refine ⟨_, _, rfl, fun j => ?_, ?_, fun x hx => ?_⟩
    · simp only [rmv_page_order_free_area, set_free_area_free_area]
      by_cases hj : j = o + d
      · subst hj
        rw [if_pos rfl]
        have e1 : ((list_del Z1 (q + 2 ^ (o + d))).free_area (o + d)).free_list
            = (Z1.free_area (o + d)).free_list.erase (q + 2 ^ (o + d)) := rfl
        rw [e1, i2]
        simp only [set_page_order_free_area, set_free_area_free_area, if_true,
          List.erase_cons_head, nr_free_dec_succ]
      · rw [if_neg hj]
        have e1 : (list_del Z1 (q + 2 ^ (o + d))).free_area j =
            { free_list := (Z1.free_area j).free_list.erase (q + 2 ^ (o + d))
              nr_free := (Z1.free_area j).nr_free } := rfl
        rw [e1, i2]
        simp only [set_page_order_free_area, set_free_area_free_area, hj, if_false]
        rw [List.erase_of_not_mem (hnot j)]
    · rw [rmv_page_order_pcp, set_free_area_pcp, list_del_pcp_eq Z1 _ hnotp, i3]
      rfl
    · have hx1 : x ≠ q + 2 ^ (o + d) := by
        have : o + (d + 1) = o + d + 1 := rfl
        rw [this] at hx
        omega
      have e1 : (rmv_page_order
          (set_free_area (list_del Z1 (q + 2 ^ (o + d))) (o + d)
            { free_list := ((list_del Z1 (q + 2 ^ (o + d))).free_area (o + d)).free_list
              nr_free := nr_free_dec (Z1.free_area (o + d)).nr_free })
          (q + 2 ^ (o + d))).mem_map x = Z1.mem_map x := by
        simp [rmv_page_order, set_free_area, list_del, Function.update_apply, hx1]
      rw [e1, i4 x (by
        have : o + (d + 1) = o + d + 1 := rfl
        rw [this] at hx
        omega)]
      simp [set_page_order, set_free_area, Function.update_apply, hx1]

/-- Allocate-then-free round trip, with the missing return value of `page_is_buddy` read as 0:
in a well-formed zone with no free block of order `max_order` or above (none can exist when
`MAX_ORDER <= pageblock_order + 1`), for every order `o > 0` for which `__alloc_pages(o)`
returns a block `p`, `__free_pages(p, o)` called right afterwards brings every
`free_area[j].nr_free` back to its value before the allocation and every free list back to
the same blocks, up to their position in the list; the per-CPU cache is not touched. -/
theorem alloc_free_round_trip_r0 {cfg : Config} {z z1 : zone} {busy : List (Nat × Nat)}
    {o p : Nat} (h : zone_inv cfg z busy)
    (hM : ∀ j, min cfg.MAX_ORDER (pageblock_order + 1) ≤ j → (z.free_area j).free_list = [])
    (ho : 0 < o) (ha : __alloc_pages cfg z o = some (z1, some p)) :
    ∃ z2, __free_pages cfg z1 p o = some z2 ∧ z2.pcp = z.pcp ∧
      ∀ j, (z2.free_area j).nr_free = (z.free_area j).nr_free ∧
        (z2.free_area j).free_list.Perm (z.free_area j).free_list := by
  have ho0 : o ≠ 0 := by omega
  have e : __alloc_pages cfg z o = some (__rmqueue_smallest cfg z o) := by
    simp [__alloc_pages, get_page_from_freelist, rmqueue, ho0]
  rw [e] at ha
  simp only [Option.some.injEq] at ha
  rcases rmqueue_smallest_cases cfg z o with ⟨_, e1⟩ | ⟨c, pg, rest, c1, c2, _, c4, e1⟩
  · rw [e1] at ha; cases ha
  · rw [e1, Nat.one_shiftLeft] at ha
    simp only [Prod.mk.injEq, Option.some.injEq] at ha
    obtain ⟨hz1, hp⟩ := ha
    subst hp
    have hcM : c < min cfg.MAX_ORDER (pageblock_order + 1) := by
      by_contra hn
      have := hM c (by omega)
      rw [c4] at this
      cases this
    have hz0 := zone_inv_take h c4
    have hpcp0 : ∀ x ∈ pcp_list (set_free_area (rmv_page_order z pg) c
        { free_list := rest, nr_free := nr_free_dec (z.free_area c).nr_free }),
        (x, 0) ∈ busy := fun x hx => h.pcp_busy x hx
    obtain ⟨d, rfl⟩ : ∃ d, c = o + d := ⟨c - o, by omega⟩
    obtain ⟨Z, bp1, k1, k2, k3, k4⟩ := merge_expand d _
      (min cfg.MAX_ORDER (pageblock_order + 1) - 1 - (o + d)) 0 hz0 hpcp0 (by omega)
    have hfuel : min cfg.MAX_ORDER (pageblock_order + 1) - 1 - o =
        min cfg.MAX_ORDER (pageblock_order + 1) - 1 - (o + d) + d := by omega
    have hmem : pg ∈ (z.free_area (o + d)).free_list := by rw [c4]; exact List.mem_cons_self _ _
    have hal := (h.free_in (o + d) pg hmem).2
    have hexit : ¬ (o + d < min cfg.MAX_ORDER (pageblock_order + 1) - 1 ∧
        pfn_valid_within cfg (__find_buddy_pfn pg (o + d)) = true ∧
        page_is_buddy Z (__find_buddy_pfn pg (o + d)) (o + d) = true) := by
      rintro ⟨x1, x2, x3⟩
      have hout : __find_buddy_pfn pg (o + d) < pg ∨ pg + 2 ^ (o + d) ≤ __find_buddy_pfn pg (o + d) := by
        have hpc := Nat.two_pow_pos (o + d)
        rcases (buddy_cases pg (o + d) hal).2 with ⟨_, hb⟩ | ⟨_, hb⟩
        · right; omega
        · left; omega
      have hne : __find_buddy_pfn pg (o + d) ≠ pg := find_buddy_pfn_ne pg (o + d)
      have hmm : Z.mem_map (__find_buddy_pfn pg (o + d)) = z.mem_map (__find_buddy_pfn pg (o + d)) := by
        rw [k4 _ hout]
        simp [set_free_area, rmv_page_order, Function.update_apply, hne]
      have hb := (page_is_buddy_iff Z _ (o + d)).mp x3
      simp only [PageBuddy, page_order, hmm] at hb
      have hl := h.linked _ x2 hb.1
      have hl2 : __find_buddy_pfn pg (o + d) ∈ (z.free_area (o + d)).free_list := by
        have e2 : page_order z (__find_buddy_pfn pg (o + d)) = o + d := hb.2
        rwa [e2] at hl
      exact h.coalesced (o + d) pg x1 hmem hl2
    obtain ⟨x1, x2, x3⟩ := free_one_page_merge_exit cfg _
      (min cfg.MAX_ORDER (pageblock_order + 1) - 1 - (o + d)) Z pg (o + d) bp1 hexit
    have hfin : __free_one_page cfg z1 pg o =
        __free_one_page_place cfg Z pg (o + d)
          (__free_one_page_merge cfg (min cfg.MAX_ORDER (pageblock_order + 1))
            (min cfg.MAX_ORDER (pageblock_order + 1) - 1 - (o + d)) Z pg (o + d) bp1).2.2.2 := by
      unfold __free_one_page
      rw [← hz1, hfuel, k1, x1, x2, x3]
    refine ⟨__free_one_page cfg z1 pg o, ?_, ?_, fun j => ?_⟩
    · simp only [__free_pages, free_the_page, ho0, if_false, __free_pages_ok]
    · rw [hfin]
      show Z.pcp = z.pcp
      rw [k3]; rfl
    · rw [hfin]
      have hpos : 1 ≤ (z.free_area (o + d)).nr_free := by
        rw [h.nr_free_eq, c4]; simp
      have hdec : nr_free_dec (z.free_area (o + d)).nr_free + 1 = (z.free_area (o + d)).nr_free := by
        simp only [nr_free_dec]; split <;> omega
      by_cases hj : j = o + d
      · subst hj
        have hfa : Z.free_area (o + d) =
            { free_list := rest, nr_free := nr_free_dec (z.free_area (o + d)).nr_free } := by
          rw [k2]; simp only [set_free_area_free_area, if_true]
        refine ⟨?_, ?_⟩
        · simp only [__free_one_page_place, set_free_area_free_area, if_true, hfa]
          exact hdec
        · have hp := free_one_page_place_perm cfg Z pg (o + d)
            (__free_one_page_merge cfg (min cfg.MAX_ORDER (pageblock_order + 1))
              (min cfg.MAX_ORDER (pageblock_order + 1) - 1 - (o + d)) Z pg (o + d) bp1).2.2.2
          rw [hfa] at hp
          rw [c4]
          simp only [__free_one_page_place, set_free_area_free_area, if_true, hfa]
          exact hp
      · rw [free_one_page_place_other cfg Z pg (o + d) _ j hj, k2]
        simp [set_free_area_free_area, hj, rmv_page_order_free_area]

/-! ## Reuse of the unit freed last, the missing value read as 0 -/

theorem alloc_pages_zero_pop {cfg : Config} {z : zone} {pcp : per_cpu_pages} {u : Nat}
    {rest : List Nat} (hp : z.pcp = some pcp) (hl : pcp.lists = u :: rest) :
    __alloc_pages cfg z 0 =
      some ({ z with pcp := some { pcp with lists := rest, count := pcp.count - 1 } }, some u) := by
  have hne : pcp.lists ≠ [] := by rw [hl]; exact List.cons_ne_nil _ _
  have hr : __rmqueue_pcplist_refill cfg z pcp = (z, pcp) := by
    simp only [__rmqueue_pcplist_refill, hne, if_false]
  simp only [__alloc_pages, get_page_from_freelist, rmqueue, if_true, rmqueue_pcplist, hp,
    __rmqueue_pcplist, hr, hl]

/-- Hot-unit reuse, with the missing return value of `page_is_buddy` read as 0: with `BATCH_SIZE
>= 1`, in every state reached from `memory_init` by `__alloc_pages` and `__free_pages` calls
(frees of held blocks) the tunables satisfy `batch >= 1` and `high > batch`, and for every
order-0 unit `u` held by the caller `__free_pages(u, 0)` followed at once by
`__alloc_pages(0)` returns `u`: the free leaves `u` at the head of the per-CPU list, the
other entries being the old list, or, when the drain ran, the old list without its last
`batch` entries; and the allocation pops the head and leaves the other entries. -/
theorem hot_unit_reuse_r0 (cfg : Config) (cs : List Call) (hB : 1 ≤ cfg.BATCH_SIZE)
    (h : run_ok cfg cs = true) :
    ∃ s pcp, run cfg cs = some s ∧ s.1.pcp = some pcp ∧ 1 ≤ pcp.batch ∧ pcp.batch < pcp.high ∧
      ∀ u, (u, 0) ∈ s.2 →
        ∃ z1 z2 rest, __free_pages cfg s.1 u 0 = some z1 ∧ pcp_list z1 = u :: rest ∧
          (pcp.count + 1 < (pcp.high : Int) → rest = pcp.lists) ∧
          ((pcp.high : Int) ≤ pcp.count + 1 →
            ∃ removed : List Nat, removed.length = pcp.batch ∧
              pcp.lists = rest ++ removed.reverse) ∧
          __alloc_pages cfg z1 0 = some (z2, some u) ∧ pcp_list z2 = rest := by
  obtain ⟨s, hr, hinv, _⟩ := run_spec h
  obtain ⟨pcp, hp, hc, ⟨hhigh, hbatch⟩, hz⟩ := hinv
  have hb1 : 1 ≤ pcp.batch := by rw [hbatch]; omega
  have hbh : pcp.batch < pcp.high := by rw [hbatch, hhigh]; omega
  refine ⟨s, pcp, hr, hp, hb1, hbh, fun u hu => ?_⟩
  obtain ⟨z1, pcp1, hf, hp1, _, hnd, hd⟩ :=
    free_unref_page_commit_detail (⟨pcp, hp, hc, ⟨hhigh, hbatch⟩, hz⟩ : alloc_inv cfg s) hp hu
  have hfree : __free_pages cfg s.1 u 0 = some z1 := by
    simp only [__free_pages, free_the_page, if_true, free_unref_page]
    exact hf
  have hl1 : pcp_list z1 = pcp1.lists := by simp only [pcp_list, hp1]
  by_cases hcase : pcp.count + 1 < (pcp.high : Int)
  · have e := hnd hcase
    have e1 : pcp1.lists = u :: pcp.lists := by
      rw [e] at hp1
      simp only [Option.some.injEq] at hp1
      rw [← hp1]
    refine ⟨z1, _, pcp.lists, hfree, by rw [hl1, e1], fun _ => rfl,
      fun hge => absurd hcase (by omega), alloc_pages_zero_pop hp1 e1, rfl⟩
  · have hge : (pcp.high : Int) ≤ pcp.count + 1 := by omega
    obtain ⟨removed, _, hsplit, _, _, _, hlen⟩ := hd hge
    have hlen1 := hlen hb1
    have hlt : removed.length = pcp.batch := by
      rw [hlen1]
      have : (pcp.high : Int) ≤ (pcp.lists.length : Int) + 1 := by rw [← hc]; exact hge
      omega
    have hlen2 : (u :: pcp.lists).length = pcp1.lists.length + removed.reverse.length := by
      rw [hsplit, List.length_append]
    have hne : pcp1.lists ≠ [] := by
      intro e0
      rw [e0] at hlen2
      simp only [List.length_cons, List.length_nil, List.length_reverse, zero_add] at hlen2
      have : (pcp.high : Int) ≤ (pcp.lists.length : Int) + 1 := by rw [← hc]; exact hge
      omega
    obtain ⟨v, rest, e1⟩ := List.exists_cons_of_ne_nil hne
    rw [e1, List.cons_append] at hsplit
    have hv : u = v := (List.cons.inj hsplit).1
    have hrest : pcp.lists = rest ++ removed.reverse := (List.cons.inj hsplit).2
    subst hv
    refine ⟨z1, _, rest, hfree, by rw [hl1, e1], fun hlt2 => absurd hlt2 hcase,
      fun _ => ⟨removed, hlt, hrest⟩, alloc_pages_zero_pop hp1 e1, rfl⟩

/-! ## The removal loop of the drain -/

theorem free_pcppages_bulk_loop_closed (fuel : Nat) (count : Nat) (pcp : per_cpu_pages)
    (hne : pcp.lists ≠ []) (hf : pcp.lists.length ≤ fuel) (hc : 1 ≤ count) :
    (free_pcppages_bulk_loop fuel (count : Int) pcp []).2 =
        pcp.lists.reverse.take (min count pcp.lists.length) ∧
      (free_pcppages_bulk_loop fuel (count : Int) pcp []).1.lists =
        pcp.lists.take (pcp.lists.length - min count pcp.lists.length) ∧
      (free_pcppages_bulk_loop fuel (count : Int) pcp []).1.count =
        pcp.count - (min count pcp.lists.length : Nat) ∧
      (free_pcppages_bulk_loop fuel (count : Int) pcp []).1.high = pcp.high ∧
      (free_pcppages_bulk_loop fuel (count : Int) pcp []).1.batch = pcp.batch := by
  obtain ⟨removed, _, h1, h2, h3, h4, h5, h6⟩ :=
    free_pcppages_bulk_loop_spec fuel (count : Int) pcp [] hne hf
  have hlen : removed.length = min count pcp.lists.length := by
    have := h6 (by omega)
    omega
  have hl : pcp.lists.length =
      (free_pcppages_bulk_loop fuel (count : Int) pcp []).1.lists.length + removed.length := by
    conv_lhs => rw [h1]
    rw [List.length_append, List.length_reverse]
  refine ⟨?_, ?_, ?_, h4, h5⟩
  · rw [h2, List.nil_append, ← hlen]
    conv_rhs => rw [h1]
    rw [List.reverse_append, List.reverse_reverse, List.take_left]
  · have e : pcp.lists.length - min count pcp.lists.length =
        (free_pcppages_bulk_loop fuel (count : Int) pcp []).1.lists.length := by omega
    rw [e]
    conv_rhs => rw [h1]
    rw [List.take_left]
  · rw [h3, hlen]

theorem nodup_of_pairwise_disjoint {l : List Nat}
    (h : (l.map (fun q => (q, 0))).Pairwise disjoint_blocks) : l.Nodup := by
  induction l with
  | nil => exact List.nodup_nil
  | cons a l ih =>
    rw [List.map_cons, List.pairwise_cons] at h
    refine List.nodup_cons.mpr ⟨fun ha => ?_, ih h.2⟩
    have := h.1 (a, 0) (List.mem_map.mpr ⟨a, ha, rfl⟩)
    simp only [disjoint_blocks, pow_zero] at this
    omega

theorem free_pcppages_bulk_loop_eq (fuel : Nat) (count : Nat) (pcp : per_cpu_pages)
    (hne : pcp.lists ≠ []) (hf : pcp.lists.length ≤ fuel) (hc : 1 ≤ count) :
    free_pcppages_bulk_loop fuel (count : Int) pcp [] =
      ({ count := pcp.count - (min count pcp.lists.length : Nat)
         high := pcp.high
         batch := pcp.batch
         lists := pcp.lists.take (pcp.lists.length - min count pcp.lists.length) },
       pcp.lists.reverse.take (min count pcp.lists.length)) := by
  obtain ⟨h1, h2, h3, h4, h5⟩ := free_pcppages_bulk_loop_closed fuel count pcp hne hf hc
  rcases hx : free_pcppages_bulk_loop fuel (count : Int) pcp [] with ⟨⟨c, hi, b, l⟩, r⟩
  rw [hx] at h1 h2 h3 h4 h5
  simp only at h1 h2 h3 h4 h5
  rw [h1, h2, h3, h4, h5]

/-! ## Delivery in physical order (C33) -/

theorem take_smallest_upto_succ_some (cfg : Config) (n : Nat) (z : zone) (pg : Nat)
    (h : (__rmqueue_smallest cfg z 0).2 = some pg) :
    take_smallest_upto cfg (n + 1) z =
      ((take_smallest_upto cfg n (__rmqueue_smallest cfg z 0).1).1,
       pg :: (take_smallest_upto cfg n (__rmqueue_smallest cfg z 0).1).2) := by
  simp only [take_smallest_upto, h]

theorem take_smallest_upto_none (cfg : Config) (n : Nat) (z : zone)
    (h : (__rmqueue_smallest cfg z 0).2 = none) : (take_smallest_upto cfg n z).2 = [] := by
  cases n with
  | zero => rfl
  | succ n => simp only [take_smallest_upto, h]

theorem take_smallest_upto_add (cfg : Config) :
    ∀ (a b : Nat) (z : zone), (take_smallest_upto cfg a z).2.length = a →
      take_smallest_upto cfg (a + b) z =
        ((take_smallest_upto cfg b (take_smallest_upto cfg a z).1).1,
         (take_smallest_upto cfg a z).2 ++ (take_smallest_upto cfg b (take_smallest_upto cfg a z).1).2) := by
  intro a
  induction a with
  | zero =>
    intro b z _
    simp only [Nat.zero_add, take_smallest_upto, List.nil_append]
  | succ a ih =>
    intro b z hl
    rcases hr : (__rmqueue_smallest cfg z 0).2 with _ | pg
    · rw [take_smallest_upto_none cfg (a + 1) z hr] at hl
      simp at hl
    · rw [take_smallest_upto_succ_some cfg a z pg hr] at hl ⊢
      simp only [List.length_cons, Nat.add_right_cancel_iff] at hl
      have e : a + 1 + b = (a + b) + 1 := by omega
      rw [e, take_smallest_upto_succ_some cfg (a + b) z pg hr, ih b _ hl]
      simp only [List.cons_append]

theorem take_smallest_upto_take (cfg : Config) :
    ∀ (n N : Nat) (z : zone), n ≤ N →
      (take_smallest_upto cfg n z).2 = (take_smallest_upto cfg N z).2.take n := by
  intro n
  induction n with
  | zero => intro N z _; simp [take_smallest_upto]
  | succ n ih =>
    intro N z hN
    obtain ⟨N1, rfl⟩ : ∃ N1, N = N1 + 1 := ⟨N - 1, by omega⟩
    rcases hr : (__rmqueue_smallest cfg z 0).2 with _ | pg
    · rw [take_smallest_upto_none cfg _ z hr, take_smallest_upto_none cfg _ z hr]
      rfl
    · rw [take_smallest_upto_succ_some cfg n z pg hr,
        take_smallest_upto_succ_some cfg N1 z pg hr]
      simp only [List.take_succ_cons]
      rw [ih N1 _ (by omega)]

theorem zone_calls_take_smallest (cfg : Config) :
    ∀ (n : Nat) (z : zone) (held : List (Nat × Nat)),
      (take_smallest_upto cfg n z).2.length = n →
      zone_calls cfg (z, held) (List.replicate n (ZoneCall.take_smallest 0)) =
        ((take_smallest_upto cfg n z).1,
         ((take_smallest_upto cfg n z).2.map (fun u => (u, 0))).reverse ++ held) := by
  intro n
  induction n with
  | zero => intro z held _; simp [zone_calls, take_smallest_upto]
  | succ n ih =>
    intro z held hl
    rcases hr : (__rmqueue_smallest cfg z 0).2 with _ | pg
    · rw [take_smallest_upto_none cfg (n + 1) z hr] at hl
      simp at hl
    · rw [take_smallest_upto_succ_some cfg n z pg hr] at hl ⊢
      simp only [List.length_cons, Nat.add_right_cancel_iff] at hl
      rw [List.replicate_succ]
      simp only [zone_calls, zone_call, hr]
      rw [ih _ _ hl]
      simp only [List.map_cons, List.reverse_cons, List.append_assoc, List.singleton_append]

theorem rmqueue_smallest_block {cfg : Config} {z : zone} {k p : Nat} {rest : List Nat}
    (hk : k < cfg.MAX_ORDER) (hlow : ∀ j, j < k → (z.free_area j).free_list = [])
    (hfl : (z.free_area k).free_list = p :: rest) :
    (__rmqueue_smallest cfg z 0).2 = some p ∧
      (∀ j, j < k → ((__rmqueue_smallest cfg z 0).1.free_area j).free_list = [p + 2 ^ j]) ∧
      ((__rmqueue_smallest cfg z 0).1.free_area k).free_list = rest ∧
      (∀ j, k < j →
        ((__rmqueue_smallest cfg z 0).1.free_area j).free_list = (z.free_area j).free_list) := by
  rcases rmqueue_smallest_cases cfg z 0 with ⟨hall, _⟩ | ⟨c, pg, rest1, _, _, c3, c4, e⟩
  · have := hall k (Nat.zero_le _) hk
    rw [hfl] at this
    cases this
  · have hck : c = k := by
      rcases Nat.lt_trichotomy c k with hlt | heq | hgt
      · have := hlow c hlt
        rw [c4] at this
        cases this
      · exact heq
      · have := c3 k (Nat.zero_le _) hgt
        rw [hfl] at this
        cases this
    subst hck
    rw [hfl] at c4
    obtain ⟨rfl, rfl⟩ := List.cons.inj c4
    rw [e, Nat.one_shiftLeft]
    refine ⟨rfl, fun j hj => ?_, ?_, fun j hj => ?_⟩
    · show ((expand _ p 0 c (2 ^ c)).free_area j).free_list = _
      rw [expand_free_area, if_pos ⟨Nat.zero_le _, hj⟩]
      have hne : j ≠ c := by omega
      simp only [set_free_area_free_area, hne, if_false, rmv_page_order_free_area, hlow j hj]
    · show ((expand _ p 0 c (2 ^ c)).free_area c).free_list = _
      rw [expand_free_area, if_neg (by omega)]
      simp only [set_free_area_free_area, if_true]
    · show ((expand _ p 0 c (2 ^ c)).free_area j).free_list = _
      rw [expand_free_area, if_neg (by omega)]
      have hne : j ≠ c := by omega
      simp only [set_free_area_free_area, hne, if_false, rmv_page_order_free_area]

theorem take_smallest_upto_block (cfg : Config) :
    ∀ (k : Nat), k < cfg.MAX_ORDER → ∀ (z : zone) (p : Nat) (rest : List Nat),
      (∀ j, j < k → (z.free_area j).free_list = []) →
      (z.free_area k).free_list = p :: rest →
      (take_smallest_upto cfg (2 ^ k) z).2 = List.range' p (2 ^ k) ∧
      (∀ j, j < k → ((take_smallest_upto cfg (2 ^ k) z).1.free_area j).free_list = []) ∧
      ((take_smallest_upto cfg (2 ^ k) z).1.free_area k).free_list = rest ∧
      (∀ j, k < j → ((take_smallest_upto cfg (2 ^ k) z).1.free_area j).free_list
        = (z.free_area j).free_list) := by
  intro k
  induction k using Nat.strong_induction_on with
  | _ k IH =>
    intro hk z p rest hlow hfl
    obtain ⟨r1, r2, r3, r4⟩ := rmqueue_smallest_block hk hlow hfl
    have stair : ∀ m, m ≤ k →
        (take_smallest_upto cfg (2 ^ m - 1) (__rmqueue_smallest cfg z 0).1).2
          = List.range' (p + 1) (2 ^ m - 1) ∧
        (∀ j, j < m → ((take_smallest_upto cfg (2 ^ m - 1)
          (__rmqueue_smallest cfg z 0).1).1.free_area j).free_list = []) ∧
        (∀ j, m ≤ j → j < k → ((take_smallest_upto cfg (2 ^ m - 1)
          (__rmqueue_smallest cfg z 0).1).1.free_area j).free_list = [p + 2 ^ j]) ∧
        ((take_smallest_upto cfg (2 ^ m - 1)
          (__rmqueue_smallest cfg z 0).1).1.free_area k).free_list = rest ∧
        (∀ j, k < j → ((take_smallest_upto cfg (2 ^ m - 1)
          (__rmqueue_smallest cfg z 0).1).1.free_area j).free_list = (z.free_area j).free_list) := by
      intro m
      induction m with
      | zero =>
        intro _
        refine ⟨rfl, fun j hj => absurd hj (Nat.not_lt_zero _), fun j _ hj => r2 j hj, r3, r4⟩
      | succ m ih =>
        intro hm
        obtain ⟨q1, q2, q3, q4, q5⟩ := ih (by omega)
        have hpos := Nat.two_pow_pos m
        have e : 2 ^ (m + 1) - 1 = (2 ^ m - 1) + 2 ^ m := by rw [pow_succ]; omega
        have hlen : (take_smallest_upto cfg (2 ^ m - 1) (__rmqueue_smallest cfg z 0).1).2.length
            = 2 ^ m - 1 := by rw [q1, List.length_range']
        obtain ⟨s1, s2, s3, s4⟩ := IH m (by omega) (by omega)
          (take_smallest_upto cfg (2 ^ m - 1) (__rmqueue_smallest cfg z 0).1).1 (p + 2 ^ m) []
          q2 (q3 m (le_refl _) (by omega))
        rw [e, take_smallest_upto_add cfg _ _ _ hlen]
        refine ⟨?_, fun j hj => ?_, fun j hj1 hj2 => ?_, ?_, fun j hj => ?_⟩
        · show (take_smallest_upto cfg (2 ^ m - 1) (__rmqueue_smallest cfg z 0).1).2 ++
            (take_smallest_upto cfg (2 ^ m)
              (take_smallest_upto cfg (2 ^ m - 1) (__rmqueue_smallest cfg z 0).1).1).2 = _
          rw [q1, s1]
          have e2 : p + 2 ^ m = p + 1 + (2 ^ m - 1) := by omega
          rw [e2, List.range'_append_1]
          congr 1
          omega
        · show ((take_smallest_upto cfg (2 ^ m)
            (take_smallest_upto cfg (2 ^ m - 1) (__rmqueue_smallest cfg z 0).1).1).1.free_area j).free_list = _
          rcases Nat.lt_or_ge j m with hlt | hge
          · exact s2 j hlt
          · have : j = m := by omega
            subst this
            exact s3
        · show ((take_smallest_upto cfg (2 ^ m)
            (take_smallest_upto cfg (2 ^ m - 1) (__rmqueue_smallest cfg z 0).1).1).1.free_area j).free_list = _
          rw [s4 j (by omega)]
          exact q3 j (by omega) hj2
        · show ((take_smallest_upto cfg (2 ^ m)
            (take_smallest_upto cfg (2 ^ m - 1) (__rmqueue_smallest cfg z 0).1).1).1.free_area k).free_list = _
          rw [s4 k (by omega)]
          exact q4
        · show ((take_smallest_upto cfg (2 ^ m)
            (take_smallest_upto cfg (2 ^ m - 1) (__rmqueue_smallest cfg z 0).1).1).1.free_area j).free_list = _
          rw [s4 j (by omega)]
          exact q5 j hj
    obtain ⟨q1, q2, _, q4, q5⟩ := stair k (le_refl _)
    have hpos := Nat.two_pow_pos k
    have e : 2 ^ k = (2 ^ k - 1) + 1 := by omega
    rw [e, take_smallest_upto_succ_some cfg _ z p r1]
    refine ⟨?_, q2, q4, q5⟩
    show p :: (take_smallest_upto cfg (2 ^ k - 1) (__rmqueue_smallest cfg z 0).1).2 = _
    rw [q1, List.range'_succ]

/-- C33 (Physical-order delivery): in a zone whose free areas hold exactly one free
block, of order `k < MAX_ORDER` at page `i`, the first `2^k` successive calls of
`__rmqueue_smallest(zone, 0)` return the pages `i, i + 1, ..., i + 2^k - 1` in this order
(call number `n + 1` returns `i + n`), after which every free area is empty; and
`rmqueue_bulk(zone, 0, n, list)` leaves the caller's list followed by the pages it
obtained, `i, i + 1, ...` in ascending order, `min(n, 2^k)` of them, which is the number
it returns. -/
theorem physical_order_delivery (cfg : Config) (z : zone) (k i : Nat) (hk : k < cfg.MAX_ORDER)
    (honly : ∀ o, (z.free_area o).free_list = if o = k then [i] else []) :
    (∀ n, n < 2 ^ k →
      (__rmqueue_smallest cfg
        (zone_calls cfg (z, []) (List.replicate n (ZoneCall.take_smallest 0))).1 0).2
        = some (i + n)) ∧
    (∀ n, n ≤ 2 ^ k →
      (zone_calls cfg (z, []) (List.replicate n (ZoneCall.take_smallest 0))).2
        = ((List.range' i n).map (fun u => (u, 0))).reverse) ∧
    (∀ o, ((zone_calls cfg (z, []) (List.replicate (2 ^ k) (ZoneCall.take_smallest 0))).1.free_area
      o).free_list = []) ∧
    (∀ n list, (rmqueue_bulk cfg n z list).2.1 = list ++ List.range' i (min n (2 ^ k)) ∧
      (rmqueue_bulk cfg n z list).2.2 = min n (2 ^ k)) := by
  have hlow : ∀ j, j < k → (z.free_area j).free_list = [] := by
    intro j hj
    rw [honly j, if_neg (by omega)]
  have hfl : (z.free_area k).free_list = i :: [] := by rw [honly k, if_pos rfl]
  obtain ⟨b1, b2, b3, b4⟩ := take_smallest_upto_block cfg k hk z i [] hlow hfl
  have hpre : ∀ n, n ≤ 2 ^ k → (take_smallest_upto cfg n z).2 = List.range' i n := by
    intro n hn
    rw [take_smallest_upto_take cfg n (2 ^ k) z hn, b1]
    have e : List.range' i (2 ^ k) = List.range' i n ++ List.range' (i + n) (2 ^ k - n) := by
      rw [List.range'_append_1]
      congr 1
      omega
    rw [e, List.take_left' (List.length_range' _ _ _)]
  have hlen : ∀ n, n ≤ 2 ^ k → (take_smallest_upto cfg n z).2.length = n := by
    intro n hn
    rw [hpre n hn, List.length_range']
  have hempty : ∀ o, ((take_smallest_upto cfg (2 ^ k) z).1.free_area o).free_list = [] := by
    intro o
    rcases Nat.lt_trichotomy o k with hlt | heq | hgt
    · exact b2 o hlt
    · subst heq; exact b3
    · rw [b4 o hgt, honly o, if_neg (by omega)]
  have hbeyond : ∀ n, (take_smallest_upto cfg n z).2 = List.range' i (min n (2 ^ k)) := by
    intro n
    rcases Nat.le_total n (2 ^ k) with hn | hn
    · rw [hpre n hn, Nat.min_eq_left hn]
    · obtain ⟨b, rfl⟩ : ∃ b, n = 2 ^ k + b := ⟨n - 2 ^ k, by omega⟩
      rw [take_smallest_upto_add cfg _ _ _ (hlen _ (le_refl _)), Nat.min_eq_right hn]
      have hnone : (__rmqueue_smallest cfg (take_smallest_upto cfg (2 ^ k) z).1 0).2 = none := by
        rcases rmqueue_smallest_cases cfg (take_smallest_upto cfg (2 ^ k) z).1 0 with
          ⟨_, e⟩ | ⟨c, pg, rest1, _, _, _, c4, _⟩
        · rw [e]
        · rw [hempty c] at c4
          cases c4
      show (take_smallest_upto cfg (2 ^ k) z).2 ++
        (take_smallest_upto cfg b (take_smallest_upto cfg (2 ^ k) z).1).2 = _
      rw [take_smallest_upto_none cfg b _ hnone, List.append_nil, b1]
  refine ⟨fun n hn => ?_, fun n hn => ?_, fun o => ?_, fun n list => ?_⟩
  · rw [zone_calls_take_smallest cfg n z [] (hlen n (by omega))]
    show (__rmqueue_smallest cfg (take_smallest_upto cfg n z).1 0).2 = some (i + n)
    have h1 := hpre (n + 1) (by omega)
    rw [take_smallest_upto_add cfg n 1 z (hlen n (by omega)), hpre n (by omega),
      List.range'_1_concat] at h1
    have h2 : (take_smallest_upto cfg 1 (take_smallest_upto cfg n z).1).2 = [i + n] :=
      List.append_cancel_left h1
    rcases hr : (__rmqueue_smallest cfg (take_smallest_upto cfg n z).1 0).2 with _ | pg
    · rw [take_smallest_upto_none cfg 1 _ hr] at h2
      cases h2
    · rw [take_smallest_upto_succ_some cfg 0 _ pg hr] at h2
      simp only [take_smallest_upto, List.cons.injEq, and_true] at h2
      rw [h2]
  · rw [zone_calls_take_smallest cfg n z [] (hlen n hn), hpre n hn, List.append_nil]
  · rw [zone_calls_take_smallest cfg (2 ^ k) z [] (hlen _ (le_refl _))]
    exact hempty o
  · rw [rmqueue_bulk_eq_take_smallest_upto, hbeyond n]
    exact ⟨rfl, List.length_range' _ _ _⟩

theorem zone8_only_block (o : Nat) :
    (zone8.free_area o).free_list = if o = 3 then [8] else [] := by
  obtain ⟨z, hz, _, hfa⟩ := memory_init_power_of_two cfg8 3 (by decide) (by decide) (by decide)
    (by decide) (by decide)
  have e : zone8 = z := by
    show (memory_init cfg8).getD (memory_init_zone cfg8) = z
    rw [hz]; rfl
  rw [e, hfa o]
  split <;> rfl

/-- Witness of C33 on the fresh zone of `cfg8`, whose only free block is the block of
order 3 at page 8: eight calls of `__rmqueue_smallest(zone, 0)` return the pages 8 to 15
in ascending order, and `rmqueue_bulk` of 5 pages on the list `[100]` gives
`[100, 8, 9, 10, 11, 12]`. -/
theorem physical_order_delivery_witness :
    3 < cfg8.MAX_ORDER ∧
    (∀ o, (zone8.free_area o).free_list = if o = 3 then [8] else []) ∧
    (zone_calls cfg8 (zone8, []) (List.replicate 8 (ZoneCall.take_smallest 0))).2
      = [(15, 0), (14, 0), (13, 0), (12, 0), (11, 0), (10, 0), (9, 0), (8, 0)] ∧
    (rmqueue_bulk cfg8 5 zone8 [100]).2 = ([100, 8, 9, 10, 11, 12], 5) ∧
    (∀ n, n < 2 ^ 3 →
      (__rmqueue_smallest cfg8
        (zone_calls cfg8 (zone8, []) (List.replicate n (ZoneCall.take_smallest 0))).1 0).2
        = some (8 + n)) ∧
    (∀ n, n ≤ 2 ^ 3 →
      (zone_calls cfg8 (zone8, []) (List.replicate n (ZoneCall.take_smallest 0))).2
        = ((List.range' 8 n).map (fun u => (u, 0))).reverse) ∧
    (∀ o, ((zone_calls cfg8 (zone8, [])
      (List.replicate (2 ^ 3) (ZoneCall.take_smallest 0))).1.free_area o).free_list = []) ∧
    (∀ n list, (rmqueue_bulk cfg8 n zone8 list).2.1 = list ++ List.range' 8 (min n (2 ^ 3)) ∧
      (rmqueue_bulk cfg8 n zone8 list).2.2 = min n (2 ^ 3)) :=
  ⟨by decide, zone8_only_block, by decide, by decide,
    physical_order_delivery cfg8 zone8 3 8 (by decide) zone8_only_block⟩

/-! ## The tunables set by pageset_init (C34) -/

/-- C34 (Default tunables): with `BATCH_SIZE >= 1`, after `pageset_init` the per-CPU
cache exists, its list is empty, `count == 0`, `batch >= 1` and `high == 6 * batch`; the
call is `pageset_update(pcp, 6 * BATCH_SIZE, max(1, BATCH_SIZE))`, so `batch` is
`BATCH_SIZE` and `high` is `6 * BATCH_SIZE`; the free areas and the page records are not
touched, and the zone that `memory_init` returns carries these tunables. -/
theorem pageset_init_tunables (cfg : Config) (z : zone) (hB : 1 ≤ cfg.BATCH_SIZE) :
    ∃ pcp, (pageset_init cfg z).pcp = some pcp ∧
      pcp.lists = [] ∧ pcp.count = 0 ∧ 1 ≤ pcp.batch ∧ pcp.high = 6 * pcp.batch ∧
      pcp.batch = cfg.BATCH_SIZE ∧ pcp.high = 6 * cfg.BATCH_SIZE ∧
      (pageset_init cfg z).free_area = z.free_area ∧
      (pageset_init cfg z).mem_map = z.mem_map ∧
      ∀ z1, memory_init cfg = some z1 → z1.pcp = some pcp := by
  refine ⟨pageset_update { count := 0, high := 0, batch := 0, lists := [] }
    (6 * cfg.BATCH_SIZE) (max 1 cfg.BATCH_SIZE), rfl, rfl, rfl, ?_, ?_, ?_, rfl, rfl, rfl, ?_⟩
  · show 1 ≤ max 1 cfg.BATCH_SIZE
    omega
  · show 6 * cfg.BATCH_SIZE = 6 * max 1 cfg.BATCH_SIZE
    omega
  · show max 1 cfg.BATCH_SIZE = cfg.BATCH_SIZE
    omega
  · intro z1 h1
    unfold memory_init at h1
    rcases hl : memory_init_loop cfg (cfg.end_pfn - cfg.start_pfn) (memory_init_zone cfg)
      cfg.start_pfn with _ | z0
    · rw [hl] at h1; cases h1
    · rw [hl] at h1
      simp only [Option.map_some', Option.some.injEq] at h1
      rw [← h1]; rfl

/-- Witness of C34 on `cfg8` (`BATCH_SIZE = 1`): the zone `memory_init` returns has an
empty cache with `count = 0`, `batch = 1`, `high = 6`. -/
theorem pageset_init_tunables_witness :
    1 ≤ cfg8.BATCH_SIZE ∧
    zone8.pcp = some { count := 0, high := 6, batch := 1, lists := [] } ∧
    ∃ pcp, (pageset_init cfg8 zone8).pcp = some pcp ∧
      pcp.lists = [] ∧ pcp.count = 0 ∧ 1 ≤ pcp.batch ∧ pcp.high = 6 * pcp.batch ∧
      pcp.batch = cfg8.BATCH_SIZE ∧ pcp.high = 6 * cfg8.BATCH_SIZE ∧
      (pageset_init cfg8 zone8).free_area = zone8.free_area ∧
      (pageset_init cfg8 zone8).mem_map = zone8.mem_map ∧
      ∀ z1, memory_init cfg8 = some z1 → z1.pcp = some pcp :=
  ⟨by decide, by decide, pageset_init_tunables cfg8 zone8 (by decide)⟩

/-! ## The free path as written against the reading of the missing value as 0 -/

theorem page_is_buddy_ret_some {z : zone} {buddy order v : Nat}
    (h : page_is_buddy_ret z buddy order = some v) :
    v = 1 ∧ PageBuddy z buddy = true ∧ page_order z buddy = order ∧
      page_is_buddy z buddy order = true := by
  unfold page_is_buddy_ret at h
  by_cases hc : (PageBuddy z buddy && page_order z buddy == order) = true
  · rw [if_pos hc] at h
    have hv : v = 1 := (Option.some.inj h).symm
    have hc2 := hc
    simp only [Bool.and_eq_true, beq_iff_eq] at hc2
    refine ⟨hv, hc2.1, hc2.2, ?_⟩
    simp only [page_is_buddy, page_is_buddy_ret, hc, if_true, Option.getD_some]
    decide
  · rw [if_neg hc] at h
    cases h

theorem page_is_buddy_ret_none_iff (z : zone) (buddy order : Nat) :
    page_is_buddy_ret z buddy order = none ↔
      ¬ (PageBuddy z buddy = true ∧ page_order z buddy = order) := by
  unfold page_is_buddy_ret
  by_cases hc : (PageBuddy z buddy && page_order z buddy == order) = true
  · rw [if_pos hc]
    simp only [Bool.and_eq_true, beq_iff_eq] at hc
    exact Iff.intro (fun e => Option.noConfusion e) (fun hn => absurd hc hn)
  · rw [if_neg hc]
    simp only [Bool.and_eq_true, beq_iff_eq] at hc
    exact ⟨fun _ => hc, fun _ => rfl⟩

theorem free_one_page_merge_ret_eq (cfg : Config) (max_order : Nat) :
    ∀ (fuel : Nat) (z : zone) (pfn order buddy_pfn : Nat) (r : zone × Nat × Nat × Nat),
      __free_one_page_merge_ret cfg max_order fuel z pfn order buddy_pfn = some r →
      __free_one_page_merge cfg max_order fuel z pfn order buddy_pfn = r := by
  intro fuel
  induction fuel with
  | zero =>
    intro z pfn order bp r h
    simp only [__free_one_page_merge_ret, Option.some.injEq] at h
    simp only [__free_one_page_merge, h]
  | succ fuel ih =>
    intro z pfn order bp r h
    simp only [__free_one_page_merge_ret] at h
    simp only [__free_one_page_merge]
    by_cases h1 : order < max_order - 1
    · rw [if_pos h1] at h ⊢
      by_cases h2 : (!pfn_valid_within cfg (__find_buddy_pfn pfn order)) = true
      · rw [if_pos h2] at h ⊢
        exact Option.some.inj h
      · rw [if_neg h2] at h ⊢
        rcases hr : page_is_buddy_ret z (__find_buddy_pfn pfn order) order with _ | v
        · rw [hr] at h
          cases h
        · rw [hr] at h
          obtain ⟨hv, _, _, hb⟩ := page_is_buddy_ret_some hr
          have hv0 : ¬ v = 0 := by omega
          simp only [hv0, if_false] at h
          have hnb : ¬ (!page_is_buddy z (__find_buddy_pfn pfn order) order) = true := by
            rw [hb]; decide
          rw [if_neg hnb]
          exact ih _ _ _ _ _ h
    · rw [if_neg h1] at h ⊢
      exact Option.some.inj h

theorem free_one_page_tail_ret_eq {cfg : Config} {z : zone} {pfn order buddy_pfn : Nat}
    {v : Bool} (h : __free_one_page_tail_ret cfg z pfn order buddy_pfn = some v) :
    __free_one_page_tail cfg z pfn order buddy_pfn = v := by
  unfold __free_one_page_tail_ret at h
  unfold __free_one_page_tail
  by_cases h0 : order = 0
  · rw [if_pos h0] at h ⊢
    exact Option.some.inj h
  · rw [if_neg h0] at h ⊢
    by_cases h1 : (decide (order < cfg.MAX_ORDER - 2) && pfn_valid_within cfg buddy_pfn) = true
    · rw [if_pos h1] at h ⊢
      by_cases h2 : pfn_valid_within cfg (__find_buddy_pfn (buddy_pfn &&& pfn) (order + 1)) = true
      · rw [if_pos h2] at h
        rcases hr : page_is_buddy_ret z (__find_buddy_pfn (buddy_pfn &&& pfn) (order + 1))
          (order + 1) with _ | w
        · rw [hr] at h
          cases h
        · rw [hr] at h
          obtain ⟨hw, _, _, hb⟩ := page_is_buddy_ret_some hr
          simp only [Option.map_some', Option.some.injEq] at h
          rw [h2, hb, ← h, hw]
          decide
      · rw [if_neg h2] at h
        have h2f : pfn_valid_within cfg (__find_buddy_pfn (buddy_pfn &&& pfn) (order + 1)) = false := by
          simpa using h2
        rw [h2f, Bool.false_and]
        exact Option.some.inj h
    · rw [if_neg h1] at h ⊢
      exact Option.some.inj h

theorem free_one_page_place_ret_eq {cfg : Config} {z z1 : zone} {pfn order buddy_pfn : Nat}
    (h : __free_one_page_place_ret cfg z pfn order buddy_pfn = some z1) :
    __free_one_page_place cfg z pfn order buddy_pfn = z1 := by
  unfold __free_one_page_place_ret at h
  rcases ht : __free_one_page_tail_ret cfg (set_page_order z pfn order) pfn order buddy_pfn
    with _ | v
  · rw [ht] at h
    cases h
  · rw [ht] at h
    simp only [Option.map_some', Option.some.injEq] at h
    unfold __free_one_page_place
    rw [free_one_page_tail_ret_eq ht]
    exact h

theorem free_one_page_ret_eq {cfg : Config} {z z1 : zone} {pfn order : Nat}
    (h : __free_one_page_ret cfg z pfn order = some z1) :
    __free_one_page cfg z pfn order = z1 := by
  unfold __free_one_page_ret at h
  by_cases hc : order < min cfg.MAX_ORDER (pageblock_order + 1) - 1 ∨ order = 0 ∨
      cfg.MAX_ORDER - 2 ≤ order
  · rw [if_pos hc] at h
    rcases hm : __free_one_page_merge_ret cfg (min cfg.MAX_ORDER (pageblock_order + 1))
      (min cfg.MAX_ORDER (pageblock_order + 1) - 1 - order) z pfn order 0 with _ | m
    · rw [hm] at h
      cases h
    · rw [hm] at h
      simp only [Option.some_bind] at h
      have e := free_one_page_merge_ret_eq cfg _ _ _ _ _ _ _ hm
      unfold __free_one_page
      rw [e]
      exact free_one_page_place_ret_eq h
  · rw [if_neg hc] at h
    cases h

theorem free_fold_ret_eq (cfg : Config) :
    ∀ (hs : List Nat) (z z1 : zone),
      hs.foldlM (fun z pg => __free_one_page_ret cfg z pg 0) z = some z1 →
      hs.foldl (fun z pg => __free_one_page cfg z pg 0) z = z1 := by
  intro hs
  induction hs with
  | nil =>
    intro z z1 h
    simp only [List.foldlM, pure, Option.some.injEq] at h
    simpa using h
  | cons a hs ih =>
    intro z z1 h
    rw [List.foldlM_cons] at h
    rcases ha : __free_one_page_ret cfg z a 0 with _ | za
    · rw [ha] at h
      cases h
    · rw [ha] at h
      simp only [Option.bind_eq_bind, Option.some_bind] at h
      rw [List.foldl_cons, free_one_page_ret_eq ha]
      exact ih _ _ h

theorem free_pcppages_bulk_ret_eq {cfg : Config} {z z1 : zone} {count : Int}
    {pcp : per_cpu_pages} (h : free_pcppages_bulk_ret cfg z count pcp = some z1) :
    free_pcppages_bulk cfg z count pcp = some z1 := by
  unfold free_pcppages_bulk_ret at h
  unfold free_pcppages_bulk
  by_cases hl : pcp.lists = []
  · rw [if_pos hl] at h
    cases h
  · rw [if_neg hl] at h ⊢
    rw [free_fold_ret_eq cfg _ _ _ h]

theorem free_unref_page_commit_ret_eq {cfg : Config} {z z1 : zone} {pfn : Nat}
    (h : free_unref_page_commit_ret cfg z pfn = some z1) :
    free_unref_page_commit cfg z pfn = some z1 := by
  unfold free_unref_page_commit_ret at h
  unfold free_unref_page_commit
  rcases hp : z.pcp with _ | pcp
  · rw [hp] at h
    cases h
  · rw [hp] at h
    simp only at h ⊢
    by_cases hc : pcp.count + 1 ≥ (pcp.high : Int)
    · rw [if_pos hc] at h ⊢
      exact free_pcppages_bulk_ret_eq h
    · rw [if_neg hc] at h ⊢
      exact h

theorem free_pages_ret_eq {cfg : Config} {z z1 : zone} {pfn order : Nat}
    (h : __free_pages_ret cfg z pfn order = some z1) :
    __free_pages cfg z pfn order = some z1 := by
  unfold __free_pages_ret free_the_page_ret at h
  unfold __free_pages free_the_page
  by_cases h0 : order = 0
  · rw [if_pos h0] at h ⊢
    exact free_unref_page_commit_ret_eq h
  · rw [if_neg h0] at h ⊢
    unfold __free_pages_ok_ret at h
    unfold __free_pages_ok
    rw [free_one_page_ret_eq h]

theorem memory_init_loop_ret_eq (cfg : Config) :
    ∀ (fuel : Nat) (z : zone) (start_pfn : Nat) (z1 : zone),
      memory_init_loop_ret cfg fuel z start_pfn = some z1 →
      memory_init_loop cfg fuel z start_pfn = some z1 := by
  intro fuel
  induction fuel with
  | zero =>
    intro z s z1 h
    simpa only [memory_init_loop_ret, memory_init_loop] using h
  | succ fuel ih =>
    intro z s z1 h
    simp only [memory_init_loop_ret] at h
    simp only [memory_init_loop]
    by_cases hs : s < cfg.end_pfn
    · rw [if_pos hs] at h ⊢
      rcases ho : memory_init_order cfg.end_pfn s (min (cfg.MAX_ORDER - 1) (__ffs s)) with _ | o
      · rw [ho] at h
        cases h
      · rw [ho] at h
        simp only at h ⊢
        rcases hf : __free_pages_ret cfg z s o with _ | z2
        · rw [hf] at h
          cases h
        · rw [hf] at h
          simp only at h
          rw [free_pages_ret_eq hf]
          exact ih _ _ _ h
    · rw [if_neg hs] at h ⊢
      exact h

theorem memory_init_ret_eq {cfg : Config} {z : zone} (h : memory_init_ret cfg = some z) :
    memory_init cfg = some z := by
  unfold memory_init_ret at h
  unfold memory_init
  rcases hl : memory_init_loop_ret cfg (cfg.end_pfn - cfg.start_pfn) (memory_init_zone cfg)
    cfg.start_pfn with _ | z0
  · rw [hl] at h
    cases h
  · rw [hl] at h
    rw [memory_init_loop_ret_eq cfg _ _ _ _ hl]
    exact h

theorem call_ret_eq {cfg : Config} {s s1 : zone × List (Nat × Nat)} {c : Call}
    (h : call_ret cfg s c = some s1) : call cfg s c = some s1 := by
  cases c with
  | alloc order => exact h
  | free pfn order =>
    simp only [call_ret] at h
    simp only [call]
    rcases hf : __free_pages_ret cfg s.1 pfn order with _ | z
    · rw [hf] at h
      cases h
    · rw [hf] at h
      rw [free_pages_ret_eq hf]
      exact h

theorem call_ret_alloc (cfg : Config) (s : zone × List (Nat × Nat)) (order : Nat) :
    call_ret cfg s (Call.alloc order) = call cfg s (Call.alloc order) := rfl

theorem calls_ret_eq (cfg : Config) :
    ∀ (cs : List Call) (s s1 : zone × List (Nat × Nat)),
      calls_ret cfg s cs = some s1 →
      calls cfg s cs = some s1 ∧ calls_ok cfg s cs = calls_ok_ret cfg s cs := by
  intro cs
  induction cs with
  | nil =>
    intro s s1 h
    exact ⟨h, rfl⟩
  | cons c cs ih =>
    intro s s1 h
    simp only [calls_ret] at h
    rcases hc : call_ret cfg s c with _ | s2
    · rw [hc] at h
      cases h
    · rw [hc] at h
      simp only at h
      obtain ⟨i1, i2⟩ := ih _ _ h
      have hc2 := call_ret_eq hc
      refine ⟨?_, ?_⟩
      · simp only [calls, hc2]
        exact i1
      · cases c with
        | alloc order => simp only [calls_ok, calls_ok_ret, hc, hc2, i2]
        | free pfn order => simp only [calls_ok, calls_ok_ret, hc, hc2, i2]

theorem run_ret_eq {cfg : Config} {cs : List Call} {s : zone × List (Nat × Nat)}
    (h : run_ret cfg cs = some s) :
    run cfg cs = some s ∧ run_ok cfg cs = run_ok_ret cfg cs := by
  unfold run_ret at h
  rcases hm : memory_init_ret cfg with _ | z0
  · rw [hm] at h
    cases h
  · rw [hm] at h
    simp only [Option.some_bind] at h
    obtain ⟨i1, i2⟩ := calls_ret_eq cfg _ _ _ h
    have hm2 := memory_init_ret_eq hm
    refine ⟨?_, ?_⟩
    · simp only [run, hm2, Option.some_bind]
      exact i1
    · simp only [run_ok, run_ok_ret, hm, hm2, i2]

theorem zone_call_ret_eq {cfg : Config} {s s1 : zone × List (Nat × Nat)} {c : ZoneCall}
    (h : zone_call_ret cfg s c = some s1) : zone_call cfg s c = s1 := by
  cases c with
  | take_smallest order =>
    simp only [zone_call_ret] at h
    simp only [zone_call]
    rcases hr : (__rmqueue_smallest cfg s.1 order).2 with _ | pg
    · rw [hr] at h
      exact Option.some.inj h
    · rw [hr] at h
      exact Option.some.inj h
  | give_back pfn order =>
    simp only [zone_call_ret] at h
    simp only [zone_call]
    rcases hf : __free_one_page_ret cfg s.1 pfn order with _ | z
    · rw [hf] at h
      cases h
    · rw [hf] at h
      rw [free_one_page_ret_eq hf]
      exact Option.some.inj h

theorem zone_calls_ret_eq (cfg : Config) :
    ∀ (cs : List ZoneCall) (s s1 : zone × List (Nat × Nat)),
      zone_calls_ret cfg s cs = some s1 →
      zone_calls cfg s cs = s1 ∧ zone_calls_ok cfg s cs = zone_calls_ok_ret cfg s cs := by
  intro cs
  induction cs with
  | nil =>
    intro s s1 h
    exact ⟨Option.some.inj h, rfl⟩
  | cons c cs ih =>
    intro s s1 h
    simp only [zone_calls_ret] at h
    rcases hc : zone_call_ret cfg s c with _ | s2
    · rw [hc] at h
      cases h
    · rw [hc] at h
      simp only at h
      obtain ⟨i1, i2⟩ := ih _ _ h
      have hc2 := zone_call_ret_eq hc
      refine ⟨?_, ?_⟩
      · simp only [zone_calls, hc2]
        exact i1
      · cases c with
        | take_smallest order => simp only [zone_calls_ok, zone_calls_ok_ret, hc, hc2, i2]
        | give_back pfn order => simp only [zone_calls_ok, zone_calls_ok_ret, hc, hc2, i2]

theorem zone_run_ret_eq {cfg : Config} {cs : List ZoneCall} {s : zone × List (Nat × Nat)}
    (h : zone_run_ret cfg cs = some s) :
    zone_run cfg cs = some s ∧ zone_run_ok cfg cs = zone_run_ok_ret cfg cs := by
  unfold zone_run_ret at h
  rcases hm : memory_init_ret cfg with _ | z0
  · rw [hm] at h
    cases h
  · rw [hm] at h
    simp only [Option.some_bind] at h
    obtain ⟨i1, i2⟩ := zone_calls_ret_eq cfg _ _ _ h
    have hm2 := memory_init_ret_eq hm
    refine ⟨?_, ?_⟩
    · simp only [zone_run, hm2, Option.map_some', i1]
    · simp only [zone_run_ok, zone_run_ok_ret, hm, hm2, i2]

/-! ## Runs in which every call returns -/

theorem run_ret_spec {cfg : Config} {cs : List Call} {s : zone × List (Nat × Nat)}
    (hok : run_ok_ret cfg cs = true) (hr : run_ret cfg cs = some s) :
    alloc_inv cfg s ∧ total_units cfg s = (nr_pages cfg : Int) := by
  obtain ⟨h1, h2⟩ := run_ret_eq hr
  obtain ⟨s1, r1, h3, h4⟩ := run_spec (h2.trans hok)
  rw [h1] at r1
  cases r1
  exact ⟨h3, h4⟩

theorem zone_inv_of_run_ret {cfg : Config} {cs : List Call} {s : zone × List (Nat × Nat)}
    (hok : run_ok_ret cfg cs = true) (hr : run_ret cfg cs = some s) (b : Nat × Nat)
    (hb : b ∈ s.2) :
    zone_inv cfg s.1 (b :: ((pcp_list s.1).map (fun q => (q, 0)) ++ s.2.erase b)) ∧
      ∀ q ∈ pcp_list s.1, (q, 0) ∈ (pcp_list s.1).map (fun q => (q, 0)) ++ s.2.erase b := by
  obtain ⟨h1, h2⟩ := run_ret_eq hr
  exact zone_inv_of_run (h2.trans hok) h1 b hb

theorem zone_inv_of_zone_run_ret {cfg : Config} {cs : List ZoneCall}
    {s : zone × List (Nat × Nat)} (hok : zone_run_ok_ret cfg cs = true)
    (hr : zone_run_ret cfg cs = some s) (b : Nat × Nat) (hb : b ∈ s.2) :
    zone_inv cfg s.1 (b :: s.2.erase b) ∧ ∀ q ∈ pcp_list s.1, (q, 0) ∈ s.2.erase b := by
  obtain ⟨h1, h2⟩ := zone_run_ret_eq hr
  exact zone_inv_of_zone_run (h2.trans hok) h1 b hb

theorem calls_ret_append (cfg : Config) :
    ∀ (a b : List Call) (s : zone × List (Nat × Nat)),
      calls_ret cfg s (a ++ b) = (calls_ret cfg s a).bind (fun s1 => calls_ret cfg s1 b) := by
  intro a
  induction a with
  | nil => intro b s; rfl
  | cons c a ih =>
    intro b s
    simp only [List.cons_append, calls_ret]
    rcases call_ret cfg s c with _ | s1
    · rfl
    · exact ih b s1

theorem run_ret_append (cfg : Config) (a b : List Call) :
    run_ret cfg (a ++ b) = (run_ret cfg a).bind (fun s1 => calls_ret cfg s1 b) := by
  unfold run_ret
  rcases memory_init_ret cfg with _ | z0
  · rfl
  · simp only [Option.some_bind]
    exact calls_ret_append cfg a b _

theorem calls_ok_ret_append (cfg : Config) :
    ∀ (a b : List Call) (s : zone × List (Nat × Nat)), calls_ok_ret cfg s (a ++ b) = true →
      calls_ok_ret cfg s a = true ∧
        ∀ s1, calls_ret cfg s a = some s1 → calls_ok_ret cfg s1 b = true := by
  intro a
  induction a with
  | nil =>
    intro b s h
    refine ⟨rfl, fun s1 h1 => ?_⟩
    simp only [calls_ret, Option.some.injEq] at h1
    subst h1
    exact h
  | cons c a ih =>
    intro b s h
    cases c with
    | alloc order =>
      simp only [List.cons_append, calls_ok_ret] at h ⊢
      simp only [calls_ret]
      rcases hc : call_ret cfg s (Call.alloc order) with _ | s2
      · rw [hc] at h
        exact ⟨rfl, fun s1 h1 => by cases h1⟩
      · rw [hc] at h
        exact ih b s2 h
    | free pfn order =>
      simp only [List.cons_append, calls_ok_ret, Bool.and_eq_true] at h ⊢
      simp only [calls_ret]
      rcases hc : call_ret cfg s (Call.free pfn order) with _ | s2
      · rw [hc] at h
        exact ⟨⟨h.1, rfl⟩, fun s1 h1 => by cases h1⟩
      · rw [hc] at h
        obtain ⟨i1, i2⟩ := ih b s2 h.2
        exact ⟨⟨h.1, i1⟩, i2⟩

theorem run_ok_ret_append {cfg : Config} {a b : List Call}
    (h : run_ok_ret cfg (a ++ b) = true) :
    run_ok_ret cfg a = true ∧ ∀ s1, run_ret cfg a = some s1 → calls_ok_ret cfg s1 b = true := by
  unfold run_ok_ret at h ⊢
  unfold run_ret
  rcases hm : memory_init_ret cfg with _ | z0
  · rw [hm] at h
    cases h
  · rw [hm] at h
    simp only [Option.some_bind] at h ⊢
    exact calls_ok_ret_append cfg a b _ h

theorem run_ok_ret_take {cfg : Config} {cs : List Call} (n : Nat)
    (h : run_ok_ret cfg cs = true) : run_ok_ret cfg (cs.take n) = true := by
  have e : cs = cs.take n ++ cs.drop n := (List.take_append_drop n cs).symm
  rw [e] at h
  exact (run_ok_ret_append h).1

theorem calls_ret_allocs (cfg : Config) :
    ∀ (os : List Nat) (s : zone × List (Nat × Nat)),
      calls_ret cfg s (os.map Call.alloc) = calls cfg s (os.map Call.alloc) := by
  intro os
  induction os with
  | nil => intro s; rfl
  | cons o os ih =>
    intro s
    simp only [List.map_cons, calls_ret, calls, call_ret_alloc]
    rcases call cfg s (Call.alloc o) with _ | s1
    · rfl
    · exact ih s1

theorem run_of_run_ret {cfg : Config} {cs : List Call} {n : Nat} {s : zone × List (Nat × Nat)}
    (hok : run_ok_ret cfg cs = true) (hr : run_ret cfg (cs.take n) = some s) :
    run_ok cfg (cs.take n) = true ∧ run cfg (cs.take n) = some s := by
  obtain ⟨h1, h2⟩ := run_ret_eq hr
  exact ⟨h2.trans (run_ok_ret_take n hok), h1⟩

theorem zone_run_of_zone_run_ret {cfg : Config} {cs : List ZoneCall}
    {s : zone × List (Nat × Nat)} (hok : zone_run_ok_ret cfg cs = true)
    (hr : zone_run_ret cfg cs = some s) :
    zone_run_ok cfg cs = true ∧ zone_run cfg cs = some s := by
  obtain ⟨h1, h2⟩ := zone_run_ret_eq hr
  exact ⟨h2.trans hok, h1⟩

/-- A busy block is not marked as the head of a free block. -/
theorem busy_unmarked {cfg : Config} {z : zone} {busy : List (Nat × Nat)}
    (hz : zone_inv cfg z busy) (b : Nat × Nat) (hb : b ∈ busy) : PageBuddy z b.1 = false := by
  rcases hm : PageBuddy z b.1 with _ | _
  · rfl
  · exfalso
    have hin := (hz.busy_in b hb).1
    have hv : pfn_valid_within cfg b.1 = true := by
      have h2 : 0 < 2 ^ b.2 := Nat.two_pow_pos _
      exact (pfn_valid_within_iff cfg b.1).mpr ⟨hin.1, by have := hin.2; omega⟩
    have hl := hz.linked b.1 hv hm
    have hd := hz.busy_free b hb _ _ hl
    have h2 : 0 < 2 ^ b.2 := Nat.two_pow_pos _
    have h3 : 0 < 2 ^ page_order z b.1 := Nat.two_pow_pos _
    simp only [disjoint_blocks] at hd
    omega

theorem page_is_buddy_ret_unmarked {z : zone} {buddy : Nat} (order : Nat)
    (h : PageBuddy z buddy = false) : page_is_buddy_ret z buddy order = none := by
  simp only [page_is_buddy_ret, h, Bool.false_and, Bool.false_eq_true, if_false]

/-- The merge loop has no value where its first test of a buddy has none. -/
theorem free_one_page_ret_none {cfg : Config} {z : zone} {pfn order : Nat}
    (ho : order < min cfg.MAX_ORDER (pageblock_order + 1) - 1)
    (hv : pfn_valid_within cfg (__find_buddy_pfn pfn order) = true)
    (hn : page_is_buddy_ret z (__find_buddy_pfn pfn order) order = none) :
    __free_one_page_ret cfg z pfn order = none := by
  unfold __free_one_page_ret
  rw [if_pos (Or.inl ho)]
  obtain ⟨k, hk⟩ : ∃ k, min cfg.MAX_ORDER (pageblock_order + 1) - 1 - order = k + 1 :=
    ⟨min cfg.MAX_ORDER (pageblock_order + 1) - 1 - order - 1, by omega⟩
  rw [hk]
  simp only [__free_one_page_merge_ret, ho, if_true, hv, Bool.not_true, Bool.false_eq_true,
    if_false, hn, Option.none_bind]

theorem free_pages_ret_pos (cfg : Config) (z : zone) (pfn : Nat) {order : Nat}
    (ho : 0 < order) : __free_pages_ret cfg z pfn order = __free_one_page_ret cfg z pfn order := by
  have h0 : order ≠ 0 := by omega
  simp only [__free_pages_ret, free_the_page_ret, h0, if_false, __free_pages_ok_ret]

theorem run_ret_snoc (cfg : Config) (cs : List Call) (c : Call) :
    run_ret cfg (cs ++ [c]) = (run_ret cfg cs).bind (fun s => call_ret cfg s c) := by
  rw [run_ret_append]
  congr 1
  funext s
  simp only [calls_ret]
  rcases call_ret cfg s c with _ | s1 <;> rfl

/-- Where the merge loop returns, it has stopped at the last order or at a buddy outside
the region: every other exit takes a value `page_is_buddy` did not return. -/
theorem free_one_page_merge_ret_exit (cfg : Config) (max_order : Nat) :
    ∀ (fuel : Nat) (z : zone) (pfn order bp : Nat) (zm : zone) (p1 o1 bp1 : Nat),
      max_order - 1 - order ≤ fuel →
      __free_one_page_merge_ret cfg max_order fuel z pfn order bp = some (zm, p1, o1, bp1) →
      ¬ o1 < max_order - 1 ∨ pfn_valid_within cfg (__find_buddy_pfn p1 o1) = false := by
  intro fuel
  induction fuel with
  | zero =>
    intro z pfn order bp zm p1 o1 bp1 hf h
    simp only [__free_one_page_merge_ret, Option.some.injEq, Prod.mk.injEq] at h
    obtain ⟨_, _, e, _⟩ := h
    left
    omega
  | succ n ih =>
    intro z pfn order bp zm p1 o1 bp1 hf h
    unfold __free_one_page_merge_ret at h
    by_cases ho : order < max_order - 1
    · rw [if_pos ho] at h
      by_cases hv : (!pfn_valid_within cfg (__find_buddy_pfn pfn order)) = true
      · rw [if_pos hv] at h
        simp only [Option.some.injEq, Prod.mk.injEq] at h
        obtain ⟨_, e1, e2, _⟩ := h
        right
        rw [← e1, ← e2]
        simpa using hv
      · rw [if_neg hv] at h
        rcases hb : page_is_buddy_ret z (__find_buddy_pfn pfn order) order with _ | v
        · rw [hb] at h
          cases h
        · rw [hb] at h
          have hv1 := (page_is_buddy_ret_some hb).1
          have hv0 : ¬ v = 0 := by omega
          simp only [hv0, if_false] at h
          exact ih _ _ _ _ _ _ _ _ (by omega) h
    · rw [if_neg ho] at h
      simp only [Option.some.injEq, Prod.mk.injEq] at h
      obtain ⟨_, _, e, _⟩ := h
      left
      omega

/-! ## Conservation (C1) -/

/-- C1 as amended (Conservation): for every sequence of `__alloc_pages` and `__free_pages`
calls on the zone set up by `memory_init`, each free returning a block held by the caller
with its allocation order, after every call up to which every call has returned (no call
of `page_is_buddy` on the way ended without a value), the weighted free total
`sum_o free_area[o].nr_free * 2^o`, plus `pcp->count`, plus the total size of the blocks
held by the caller is the number of units of the region. -/
theorem conservation_with_cache (cfg : Config) (cs : List Call) (n : Nat)
    (s : zone × List (Nat × Nat)) (h : run_ok_ret cfg cs = true)
    (hr : run_ret cfg (cs.take n) = some s) :
    (free_units cfg s.1 : Int) + pcp_count s.1 + (held_units s.2 : Int)
      = (nr_pages cfg : Int) :=
  (run_ret_spec (run_ok_ret_take n h) hr).2

/-- Witness of C1 as amended on `cfg8` (8 units): after `__alloc_pages(0)` and
`__free_pages` of the page obtained, 7 units are free, 1 is in the cache and none is
held. -/
theorem conservation_with_cache_witness :
    run_ok_ret cfg8 [Call.alloc 0, Call.free 8 0, Call.alloc 2] = true ∧
    run_ret cfg8 ([Call.alloc 0, Call.free 8 0, Call.alloc 2].take 2)
      = some (run_state cfg8 [Call.alloc 0, Call.free 8 0]) ∧
    (free_units cfg8 (run_state cfg8 [Call.alloc 0, Call.free 8 0]).1,
      pcp_count (run_state cfg8 [Call.alloc 0, Call.free 8 0]).1,
      held_units (run_state cfg8 [Call.alloc 0, Call.free 8 0]).2) = (7, 1, 0) ∧
    (free_units cfg8 (run_state cfg8 [Call.alloc 0, Call.free 8 0]).1 : Int)
      + pcp_count (run_state cfg8 [Call.alloc 0, Call.free 8 0]).1
      + (held_units (run_state cfg8 [Call.alloc 0, Call.free 8 0]).2 : Int)
      = (nr_pages cfg8 : Int) :=
  ⟨by decide, rfl, by decide,
    conservation_with_cache cfg8 [Call.alloc 0, Call.free 8 0, Call.alloc 2] 2
      (run_state cfg8 [Call.alloc 0, Call.free 8 0]) (by decide) rfl⟩

/-- C1 as stated fails: on `cfg8` (8 units), after `__alloc_pages(0)` and `__free_pages`
of the page obtained, both of which return, 7 units are free and none is held: the freed
page sits in the per-CPU cache, which the sum of the claim does not count. -/
theorem conservation_without_cache_counterexample :
    run_ok_ret cfg8 [Call.alloc 0, Call.free 8 0] = true ∧
    (run_ret cfg8 [Call.alloc 0, Call.free 8 0]).map
      (fun s => (free_units cfg8 s.1, held_units s.2, pcp_count s.1)) = some (7, 0, 1) ∧
    nr_pages cfg8 = 8 ∧
    ¬ ∀ s, run_ret cfg8 [Call.alloc 0, Call.free 8 0] = some s →
      free_units cfg8 s.1 + held_units s.2 = nr_pages cfg8 := by
  refine ⟨by decide, by decide, by decide, ?_⟩
  intro h
  have h1 : (run_ret cfg8 [Call.alloc 0, Call.free 8 0]).map
      (fun s => (free_units cfg8 s.1, held_units s.2, pcp_count s.1)) = some (7, 0, 1) := by
    decide
  cases hr : run_ret cfg8 [Call.alloc 0, Call.free 8 0] with
  | none => rw [hr] at h1; simp at h1
  | some s =>
    rw [hr] at h1
    simp only [Option.map_some', Option.some.injEq, Prod.mk.injEq] at h1
    have h2 := h s hr
    rw [h1.1, h1.2.1] at h2
    revert h2
    decide

/-! ## Conservation including the cache (C21) -/

/-- C21 (Conservation including the cache), what the code does: for every sequence of
`__alloc_pages` and `__free_pages` calls on the zone set up by `memory_init` (frees of
held blocks), after every call up to which every call has returned, the weighted free
total plus `pcp->count` plus the held units is the number of units of the region, and
`pcp->count` is the length of the per-CPU list.  But a call need not return a value from
`page_is_buddy`: on `cfg8`, after `__alloc_pages(2)`, `__alloc_pages(1)`,
`__alloc_pages(1)` (blocks at pages 8, 12, 14), `__free_pages(12, 1)` tests the buddy at
page 14, which is held and not marked free, and `page_is_buddy` ends without a `return`;
from there on the code is not bound to the identity. -/
theorem conservation_including_cache (cfg : Config) (cs : List Call) (n : Nat)
    (s : zone × List (Nat × Nat)) (h : run_ok_ret cfg cs = true)
    (hr : run_ret cfg (cs.take n) = some s) :
    ((free_units_upto s.1 cfg.MAX_ORDER : Int) + pcp_count s.1 + (held_units s.2 : Int)
        = (nr_pages cfg : Int) ∧
      free_units_upto s.1 cfg.MAX_ORDER + (pcp_list s.1).length + held_units s.2
        = cfg.end_pfn - cfg.start_pfn) ∧
    (run_ok_ret cfg8 [Call.alloc 2, Call.alloc 1, Call.alloc 1, Call.free 12 1,
        Call.free 8 2] = true ∧
      (run_ret cfg8 [Call.alloc 2, Call.alloc 1, Call.alloc 1]).map
        (fun s => (s.2, PageBuddy s.1 14, page_is_buddy_ret s.1 (__find_buddy_pfn 12 1) 1))
        = some ([(14, 1), (12, 1), (8, 2)], false, none) ∧
      (run_ret cfg8 [Call.alloc 2, Call.alloc 1, Call.alloc 1, Call.free 12 1]).isSome
        = false ∧
      (run_ret cfg8 [Call.alloc 2, Call.alloc 1, Call.alloc 1, Call.free 12 1,
        Call.free 8 2]).isSome = false) := by
  refine ⟨?_, by decide, by decide, by decide, by decide⟩
  obtain ⟨hinv, htot⟩ := run_ret_spec (run_ok_ret_take n h) hr
  have h1 : (free_units_upto s.1 cfg.MAX_ORDER : Int) + pcp_count s.1 + (held_units s.2 : Int)
      = (nr_pages cfg : Int) := htot
  obtain ⟨pcp, hp, hc, _, hz⟩ := hinv
  have hl : pcp_list s.1 = pcp.lists := by simp only [pcp_list, hp]
  have hcount : pcp_count s.1 = (pcp.lists.length : Int) := by
    rw [pcp_count_eq hp, hc]
  refine ⟨h1, ?_⟩
  rw [hcount] at h1
  rw [hl]
  have h2 : nr_pages cfg = cfg.end_pfn - cfg.start_pfn := rfl
  rw [← h2]
  omega

/-- Witness of C21 on `cfg8` (8 units): `__alloc_pages(1)` and `__free_pages` of the
block obtained, at page 8; the free merges the block with its buddies at pages 10 and 12,
every call returns, and all 8 units are free again. -/
theorem conservation_including_cache_witness :
    run_ok_ret cfg8 [Call.alloc 1, Call.free 8 1] = true ∧
    run_ret cfg8 ([Call.alloc 1, Call.free 8 1].take 2)
      = some (run_state cfg8 [Call.alloc 1, Call.free 8 1]) ∧
    (List.range 4).map (fun o => ((run_state cfg8 [Call.alloc 1, Call.free 8 1]).1.free_area
      o).free_list) = [[], [], [], [8]] ∧
    (((free_units_upto (run_state cfg8 [Call.alloc 1, Call.free 8 1]).1 cfg8.MAX_ORDER : Int)
        + pcp_count (run_state cfg8 [Call.alloc 1, Call.free 8 1]).1
        + (held_units (run_state cfg8 [Call.alloc 1, Call.free 8 1]).2 : Int)
        = (nr_pages cfg8 : Int) ∧
      free_units_upto (run_state cfg8 [Call.alloc 1, Call.free 8 1]).1 cfg8.MAX_ORDER
        + (pcp_list (run_state cfg8 [Call.alloc 1, Call.free 8 1]).1).length
        + held_units (run_state cfg8 [Call.alloc 1, Call.free 8 1]).2
        = cfg8.end_pfn - cfg8.start_pfn) ∧
    (run_ok_ret cfg8 [Call.alloc 2, Call.alloc 1, Call.alloc 1, Call.free 12 1,
        Call.free 8 2] = true ∧
      (run_ret cfg8 [Call.alloc 2, Call.alloc 1, Call.alloc 1]).map
        (fun s => (s.2, PageBuddy s.1 14, page_is_buddy_ret s.1 (__find_buddy_pfn 12 1) 1))
        = some ([(14, 1), (12, 1), (8, 2)], false, none) ∧
      (run_ret cfg8 [Call.alloc 2, Call.alloc 1, Call.alloc 1, Call.free 12 1]).isSome
        = false ∧
      (run_ret cfg8 [Call.alloc 2, Call.alloc 1, Call.alloc 1, Call.free 12 1,
        Call.free 8 2]).isSome = false)) :=
  ⟨by decide, rfl, by decide,
    conservation_including_cache cfg8 [Call.alloc 1, Call.free 8 1] 2
      (run_state cfg8 [Call.alloc 1, Call.free 8 1]) (by decide) rfl⟩

/-! ## The count of the cache (C15) -/

/-- C15 (PCP count invariant), what the code does: `pcp->count` is the length of the
per-CPU list right after `pageset_init`, and after every `__alloc_pages` or
`__free_pages` call (frees of held blocks) up to which every call has returned.  But a
call need not return a value from `page_is_buddy`: on `cfg8`, with page 8 in the cache
and the block of order 1 at page 10 held, `__free_pages(10, 1)` tests the buddy of order
1, page 8, which is not marked free, and `page_is_buddy` ends without a `return`; a merge
there would unlink the cached page with `list_del` and leave `pcp->count` as it is. -/
theorem pcp_count_invariant (cfg : Config) (cs : List Call) (n : Nat)
    (s : zone × List (Nat × Nat)) (h : run_ok_ret cfg cs = true)
    (hr : run_ret cfg (cs.take n) = some s) :
    (∀ z, pcp_count (pageset_init cfg z) = ((pcp_list (pageset_init cfg z)).length : Int)) ∧
    pcp_count s.1 = ((pcp_list s.1).length : Int) ∧
    (run_ok_ret cfg8 [Call.alloc 0, Call.alloc 0, Call.free 8 0, Call.alloc 1,
        Call.free 10 1] = true ∧
      (run_ret cfg8 [Call.alloc 0, Call.alloc 0, Call.free 8 0, Call.alloc 1]).map
        (fun s => (pcp_list s.1, pcp_count s.1, s.2, __find_buddy_pfn 10 1,
          PageBuddy s.1 8, page_is_buddy_ret s.1 (__find_buddy_pfn 10 1) 1))
        = some ([8], 1, [(10, 1), (9, 0)], 8, false, none) ∧
      (run_ret cfg8 [Call.alloc 0, Call.alloc 0, Call.free 8 0, Call.alloc 1,
        Call.free 10 1]).isSome = false) := by
  refine ⟨fun z => rfl, ?_, by decide, rfl, by decide⟩
  obtain ⟨⟨pcp, hp, hc, _⟩, _⟩ := run_ret_spec (run_ok_ret_take n h) hr
  rw [pcp_count_eq hp, hc]
  simp only [pcp_list, hp]

/-- Witness of C15 on `cfg2`, where the largest block has order 1: seven pages are
allocated (14, 15, 12, 13, 10, 11, 8) and six of them freed, page 8 first; the sixth free
drains page 8, whose buddy, page 9, is a free block of order 0, so every call returns; the
cache then holds five pages and `count = 5`. -/
theorem pcp_count_invariant_witness :
    run_ok_ret cfg2 (List.replicate 7 (Call.alloc 0) ++
      [8, 10, 11, 12, 13, 14].map (fun p => Call.free p 0)) = true ∧
    run_ret cfg2 ((List.replicate 7 (Call.alloc 0) ++
        [8, 10, 11, 12, 13, 14].map (fun p => Call.free p 0)).take 13)
      = some (run_state cfg2 (List.replicate 7 (Call.alloc 0) ++
        [8, 10, 11, 12, 13, 14].map (fun p => Call.free p 0))) ∧
    (pcp_list (run_state cfg2 (List.replicate 7 (Call.alloc 0) ++
        [8, 10, 11, 12, 13, 14].map (fun p => Call.free p 0))).1,
      pcp_count (run_state cfg2 (List.replicate 7 (Call.alloc 0) ++
        [8, 10, 11, 12, 13, 14].map (fun p => Call.free p 0))).1,
      ((run_state cfg2 (List.replicate 7 (Call.alloc 0) ++
        [8, 10, 11, 12, 13, 14].map (fun p => Call.free p 0))).1.free_area 1).free_list)
      = ([14, 13, 12, 11, 10], 5, [8]) ∧
    ((∀ z, pcp_count (pageset_init cfg2 z) = ((pcp_list (pageset_init cfg2 z)).length : Int)) ∧
    pcp_count (run_state cfg2 (List.replicate 7 (Call.alloc 0) ++
        [8, 10, 11, 12, 13, 14].map (fun p => Call.free p 0))).1
      = ((pcp_list (run_state cfg2 (List.replicate 7 (Call.alloc 0) ++
        [8, 10, 11, 12, 13, 14].map (fun p => Call.free p 0))).1).length : Int) ∧
    (run_ok_ret cfg8 [Call.alloc 0, Call.alloc 0, Call.free 8 0, Call.alloc 1,
        Call.free 10 1] = true ∧
      (run_ret cfg8 [Call.alloc 0, Call.alloc 0, Call.free 8 0, Call.alloc 1]).map
        (fun s => (pcp_list s.1, pcp_count s.1, s.2, __find_buddy_pfn 10 1,
          PageBuddy s.1 8, page_is_buddy_ret s.1 (__find_buddy_pfn 10 1) 1))
        = some ([8], 1, [(10, 1), (9, 0)], 8, false, none) ∧
      (run_ret cfg8 [Call.alloc 0, Call.alloc 0, Call.free 8 0, Call.alloc 1,
        Call.free 10 1]).isSome = false)) :=
  ⟨by decide, rfl, by decide,
    pcp_count_invariant cfg2 (List.replicate 7 (Call.alloc 0) ++
      [8, 10, 11, 12, 13, 14].map (fun p => Call.free p 0)) 13
      (run_state cfg2 (List.replicate 7 (Call.alloc 0) ++
        [8, 10, 11, 12, 13, 14].map (fun p => Call.free p 0))) (by decide) rfl⟩

/-! ## Exclusive ownership of units (C17) -/

/-- C17 (Exclusive ownership), what the code does: in every state reached from
`memory_init` by `__alloc_pages` and `__free_pages` calls (frees of held blocks) all of
which have returned, every unit of the region has exactly one owner among the free blocks,
the per-CPU list and the held blocks; free blocks do not overlap and no unit is linked
twice.  But a call need not return a value from `page_is_buddy`: on `cfg8`, after
`__alloc_pages(2)`, `__alloc_pages(1)`, `__alloc_pages(1)` (blocks at pages 8, 12, 14),
`__free_pages(12, 1)` tests the buddy at page 14, which is held and not marked free, and
`page_is_buddy` ends without a `return`; a merge there would put the held block inside a
free block. -/
theorem exclusive_ownership (cfg : Config) (cs : List Call) (s : zone × List (Nat × Nat))
    (h : run_ok_ret cfg cs = true) (hr : run_ret cfg cs = some s) :
    ((∀ u, cfg.start_pfn ≤ u → u < cfg.end_pfn → owners cfg s u = 1) ∧
      (∀ o1 p1 o2 p2, p1 ∈ (s.1.free_area o1).free_list → p2 ∈ (s.1.free_area o2).free_list →
        (p1, o1) ≠ (p2, o2) → disjoint_blocks (p1, o1) (p2, o2)) ∧
      (∀ p o1 o2, p ∈ (s.1.free_area o1).free_list → p ∈ (s.1.free_area o2).free_list →
        o1 = o2) ∧
      (∀ o, (s.1.free_area o).free_list.Nodup) ∧ (pcp_list s.1).Nodup ∧
      (∀ o p, p ∈ (s.1.free_area o).free_list → p ∉ pcp_list s.1)) ∧
    (run_ok_ret cfg8 [Call.alloc 2, Call.alloc 1, Call.alloc 1, Call.free 12 1] = true ∧
      (run_ret cfg8 [Call.alloc 2, Call.alloc 1, Call.alloc 1]).map
        (fun s => (s.2, __find_buddy_pfn 12 1, PageBuddy s.1 14,
          page_is_buddy_ret s.1 (__find_buddy_pfn 12 1) 1))
        = some ([(14, 1), (12, 1), (8, 2)], 14, false, none) ∧
      (run_ret cfg8 [Call.alloc 2, Call.alloc 1, Call.alloc 1, Call.free 12 1]).isSome
        = false) := by
  refine ⟨?_, by decide, rfl, by decide⟩
  obtain ⟨h1, h2⟩ := run_ret_eq hr
  obtain ⟨s1, r1, c⟩ := exclusive_ownership_r0 cfg cs (h2.trans h)
  rw [h1] at r1
  cases r1
  exact c

/-- Witness of C17 on `cfg8`: pages 8 and 9 are allocated, page 8 is freed into the
cache, and the block of order 1 at page 10 is allocated; free are the block of order 2 at
page 12, cached is page 8, held are page 9 and the block at page 10. -/
theorem exclusive_ownership_witness :
    run_ok_ret cfg8 [Call.alloc 0, Call.alloc 0, Call.free 8 0, Call.alloc 1] = true ∧
    run_ret cfg8 [Call.alloc 0, Call.alloc 0, Call.free 8 0, Call.alloc 1]
      = some (run_state cfg8 [Call.alloc 0, Call.alloc 0, Call.free 8 0, Call.alloc 1]) ∧
    ((List.range 4).map (fun o => ((run_state cfg8 [Call.alloc 0, Call.alloc 0,
        Call.free 8 0, Call.alloc 1]).1.free_area o).free_list),
      pcp_list (run_state cfg8 [Call.alloc 0, Call.alloc 0, Call.free 8 0, Call.alloc 1]).1,
      (run_state cfg8 [Call.alloc 0, Call.alloc 0, Call.free 8 0, Call.alloc 1]).2)
      = ([[], [], [12], []], [8], [(10, 1), (9, 0)]) ∧
    (List.range' 8 8).map (owners cfg8
      (run_state cfg8 [Call.alloc 0, Call.alloc 0, Call.free 8 0, Call.alloc 1]))
      = [1, 1, 1, 1, 1, 1, 1, 1] ∧
    (((∀ u, cfg8.start_pfn ≤ u → u < cfg8.end_pfn →
        owners cfg8 (run_state cfg8 [Call.alloc 0, Call.alloc 0, Call.free 8 0,
          Call.alloc 1]) u = 1) ∧
      (∀ o1 p1 o2 p2,
        p1 ∈ ((run_state cfg8 [Call.alloc 0, Call.alloc 0, Call.free 8 0,
          Call.alloc 1]).1.free_area o1).free_list →
        p2 ∈ ((run_state cfg8 [Call.alloc 0, Call.alloc 0, Call.free 8 0,
          Call.alloc 1]).1.free_area o2).free_list →
        (p1, o1) ≠ (p2, o2) → disjoint_blocks (p1, o1) (p2, o2)) ∧
      (∀ p o1 o2,
        p ∈ ((run_state cfg8 [Call.alloc 0, Call.alloc 0, Call.free 8 0,
          Call.alloc 1]).1.free_area o1).free_list →
        p ∈ ((run_state cfg8 [Call.alloc 0, Call.alloc 0, Call.free 8 0,
          Call.alloc 1]).1.free_area o2).free_list → o1 = o2) ∧
      (∀ o, ((run_state cfg8 [Call.alloc 0, Call.alloc 0, Call.free 8 0,
        Call.alloc 1]).1.free_area o).free_list.Nodup) ∧
      (pcp_list (run_state cfg8 [Call.alloc 0, Call.alloc 0, Call.free 8 0,
        Call.alloc 1]).1).Nodup ∧
      (∀ o p, p ∈ ((run_state cfg8 [Call.alloc 0, Call.alloc 0, Call.free 8 0,
          Call.alloc 1]).1.free_area o).free_list →
        p ∉ pcp_list (run_state cfg8 [Call.alloc 0, Call.alloc 0, Call.free 8 0,
          Call.alloc 1]).1)) ∧
    (run_ok_ret cfg8 [Call.alloc 2, Call.alloc 1, Call.alloc 1, Call.free 12 1] = true ∧
      (run_ret cfg8 [Call.alloc 2, Call.alloc 1, Call.alloc 1]).map
        (fun s => (s.2, __find_buddy_pfn 12 1, PageBuddy s.1 14,
          page_is_buddy_ret s.1 (__find_buddy_pfn 12 1) 1))
        = some ([(14, 1), (12, 1), (8, 2)], 14, false, none) ∧
      (run_ret cfg8 [Call.alloc 2, Call.alloc 1, Call.alloc 1, Call.free 12 1]).isSome
        = false)) :=
  ⟨by decide, rfl, by decide, by decide,
    exclusive_ownership cfg8 [Call.alloc 0, Call.alloc 0, Call.free 8 0, Call.alloc 1]
      (run_state cfg8 [Call.alloc 0, Call.alloc 0, Call.free 8 0, Call.alloc 1])
      (by decide) rfl⟩

/-! ## The bound of the cache (C30) -/

/-- C30 (Cache bound), what the code does: with `BATCH_SIZE >= 1`, so that `pageset_init`
sets `batch >= 1` and `high = 6 * batch`, after every call of a sequence of
`__alloc_pages` and `__free_pages` calls (frees of held blocks) up to which every call has
returned, `count < high` and the cache holds at most `high - 1` pages; and from such a
state every further call that returns leaves `count < high`, and an `__alloc_pages(0)` on
an empty cache (refill and pop) leaves at most `batch - 1` pages.  But a call need not
return a value from `page_is_buddy`: on `cfg8`, with page 8 in the cache (`count = 1`)
and the block of order 1 at page 10 held, `__free_pages(10, 1)` tests page 8, which is not
marked free, and `page_is_buddy` ends without a `return`; a merge there would unlink the
cached page and leave `count = 1` over an empty list, so that the next refill and pop
would end with `count = 1`, above `batch - 1 = 0`. -/
theorem cache_bound (cfg : Config) (cs : List Call) (n : Nat) (s : zone × List (Nat × Nat))
    (hB : 1 ≤ cfg.BATCH_SIZE) (h : run_ok_ret cfg cs = true)
    (hr : run_ret cfg (cs.take n) = some s) :
    (∃ pcp, s.1.pcp = some pcp ∧
      1 ≤ pcp.batch ∧ pcp.high = 6 * pcp.batch ∧
      pcp.count < (pcp.high : Int) ∧ pcp.lists.length ≤ pcp.high - 1 ∧
      ∀ c s1, (∀ p o, c = Call.free p o → (p, o) ∈ s.2) → call_ret cfg s c = some s1 →
        ∃ pcp1, s1.1.pcp = some pcp1 ∧
          pcp1.count < (pcp1.high : Int) ∧
          (c = Call.alloc 0 → pcp.lists = [] → pcp1.count ≤ (pcp1.batch : Int) - 1)) ∧
    (run_ok_ret cfg8 [Call.alloc 0, Call.alloc 0, Call.free 8 0, Call.alloc 1,
        Call.free 10 1, Call.alloc 0] = true ∧
      (run_ret cfg8 [Call.alloc 0, Call.alloc 0, Call.free 8 0, Call.alloc 1]).map
        (fun s => (pcp_list s.1, pcp_count s.1, s.2, __find_buddy_pfn 10 1,
          PageBuddy s.1 8, page_is_buddy_ret s.1 (__find_buddy_pfn 10 1) 1))
        = some ([8], 1, [(10, 1), (9, 0)], 8, false, none) ∧
      (run_ret cfg8 [Call.alloc 0, Call.alloc 0, Call.free 8 0, Call.alloc 1,
        Call.free 10 1]).isSome = false) := by
  refine ⟨?_, by decide, rfl, by decide⟩
  obtain ⟨hok, hrun⟩ := run_of_run_ret h hr
  obtain ⟨s0, pcp, r0, hp, c1, c2, c3, c4, c5⟩ :=
    cache_bound_r0 cfg (cs.take n) (cs.take n).length hB hok
  rw [List.take_length, hrun] at r0
  cases r0
  refine ⟨pcp, hp, c1, c2, c3, c4, fun c s1 hc hcall => ?_⟩
  obtain ⟨s2, pcp1, d1, d2, d3, d4⟩ := c5 c hc
  rw [call_ret_eq hcall] at d1
  cases d1
  exact ⟨pcp1, d2, d3, d4⟩

/-- Witness of C30 on `cfg2`, where the largest block has order 1: seven pages are
allocated and six of them freed, page 8 first; the sixth free reaches `count = 6 = high`
and drains page 8, whose buddy, page 9, is a free block of order 0, so every call returns;
the cache then holds five pages. -/
theorem cache_bound_witness :
    1 ≤ cfg2.BATCH_SIZE ∧
    run_ok_ret cfg2 (List.replicate 7 (Call.alloc 0) ++
      [8, 10, 11, 12, 13, 14].map (fun p => Call.free p 0)) = true ∧
    run_ret cfg2 ((List.replicate 7 (Call.alloc 0) ++
        [8, 10, 11, 12, 13, 14].map (fun p => Call.free p 0)).take 13)
      = some (run_state cfg2 (List.replicate 7 (Call.alloc 0) ++
        [8, 10, 11, 12, 13, 14].map (fun p => Call.free p 0))) ∧
    (pcp_list (run_state cfg2 (List.replicate 7 (Call.alloc 0) ++
        [8, 10, 11, 12, 13, 14].map (fun p => Call.free p 0))).1,
      pcp_count (run_state cfg2 (List.replicate 7 (Call.alloc 0) ++
        [8, 10, 11, 12, 13, 14].map (fun p => Call.free p 0))).1)
      = ([14, 13, 12, 11, 10], 5) ∧
    ((∃ pcp, (run_state cfg2 (List.replicate 7 (Call.alloc 0) ++
        [8, 10, 11, 12, 13, 14].map (fun p => Call.free p 0))).1.pcp = some pcp ∧
      1 ≤ pcp.batch ∧ pcp.high = 6 * pcp.batch ∧
      pcp.count < (pcp.high : Int) ∧ pcp.lists.length ≤ pcp.high - 1 ∧
      ∀ c s1, (∀ p o, c = Call.free p o →
          (p, o) ∈ (run_state cfg2 (List.replicate 7 (Call.alloc 0) ++
            [8, 10, 11, 12, 13, 14].map (fun p => Call.free p 0))).2) →
        call_ret cfg2 (run_state cfg2 (List.replicate 7 (Call.alloc 0) ++
          [8, 10, 11, 12, 13, 14].map (fun p => Call.free p 0))) c = some s1 →
        ∃ pcp1, s1.1.pcp = some pcp1 ∧
          pcp1.count < (pcp1.high : Int) ∧
          (c = Call.alloc 0 → pcp.lists = [] → pcp1.count ≤ (pcp1.batch : Int) - 1)) ∧
    (run_ok_ret cfg8 [Call.alloc 0, Call.alloc 0, Call.free 8 0, Call.alloc 1,
        Call.free 10 1, Call.alloc 0] = true ∧
      (run_ret cfg8 [Call.alloc 0, Call.alloc 0, Call.free 8 0, Call.alloc 1]).map
        (fun s => (pcp_list s.1, pcp_count s.1, s.2, __find_buddy_pfn 10 1,
          PageBuddy s.1 8, page_is_buddy_ret s.1 (__find_buddy_pfn 10 1) 1))
        = some ([8], 1, [(10, 1), (9, 0)], 8, false, none) ∧
      (run_ret cfg8 [Call.alloc 0, Call.alloc 0, Call.free 8 0, Call.alloc 1,
        Call.free 10 1]).isSome = false)) :=
  ⟨by decide, by decide, rfl, by decide,
    cache_bound cfg2 (List.replicate 7 (Call.alloc 0) ++
      [8, 10, 11, 12, 13, 14].map (fun p => Call.free p 0)) 13
      (run_state cfg2 (List.replicate 7 (Call.alloc 0) ++
        [8, 10, 11, 12, 13, 14].map (fun p => Call.free p 0))) (by decide) (by decide) rfl⟩

/-! ## Free-area invariant (C16) -/

/-- C16 (Free Area invariant), what the code does: in every state reached from
`memory_init` by calls of `__rmqueue_smallest` (with its split) and of `__free_one_page`
on held blocks, all of which have returned, every unit linked in `free_area[o]` has
recorded order `o` and `PageBuddy` set, `free_area[o].nr_free` equals the length of that
list, and every unit of the region with `PageBuddy` set is linked in a free list.  But
`__free_one_page` need not get a value from `page_is_buddy`: on `cfg8`, after
`__rmqueue_smallest` of orders 2, 1, 1 (blocks at pages 8, 12, 14, nothing left free),
`__free_one_page(12, 1)` tests the buddy at page 14, which is held and not marked free,
and `page_is_buddy` ends without a `return`; a merge there would unlink a page that is in
no list and decrement `free_area[1].nr_free` from 0. -/
theorem free_area_invariant (cfg : Config) (cs : List ZoneCall) (s : zone × List (Nat × Nat))
    (h : zone_run_ok_ret cfg cs = true) (hr : zone_run_ret cfg cs = some s) :
    ((∀ o p, p ∈ (s.1.free_area o).free_list → page_order s.1 p = o ∧ PageBuddy s.1 p = true) ∧
      (∀ o, (s.1.free_area o).nr_free = (s.1.free_area o).free_list.length) ∧
      (∀ p, cfg.start_pfn ≤ p → p < cfg.end_pfn → PageBuddy s.1 p = true →
        ∃ o, p ∈ (s.1.free_area o).free_list)) ∧
    (zone_run_ok_ret cfg8 [ZoneCall.take_smallest 2, ZoneCall.take_smallest 1,
        ZoneCall.take_smallest 1, ZoneCall.give_back 12 1] = true ∧
      (zone_run_ret cfg8 [ZoneCall.take_smallest 2, ZoneCall.take_smallest 1,
        ZoneCall.take_smallest 1]).map
        (fun s => ((List.range 4).map (fun o => ((s.1.free_area o).free_list,
            (s.1.free_area o).nr_free)), s.2, __find_buddy_pfn 12 1, PageBuddy s.1 14,
          page_is_buddy_ret s.1 (__find_buddy_pfn 12 1) 1))
        = some ([([], 0), ([], 0), ([], 0), ([], 0)], [(14, 1), (12, 1), (8, 2)], 14,
          false, none) ∧
      (zone_run_ret cfg8 [ZoneCall.take_smallest 2, ZoneCall.take_smallest 1,
        ZoneCall.take_smallest 1, ZoneCall.give_back 12 1]).isSome = false) := by
  refine ⟨?_, by decide, rfl, by decide⟩
  obtain ⟨h1, h2⟩ := zone_run_of_zone_run_ret h hr
  obtain ⟨s1, r1, c⟩ := free_area_invariant_r0 cfg cs h1
  rw [h2] at r1
  cases r1
  exact c

/-- Witness of C16 on `cfg8`: page 8 is taken and given back, which merges it with the
free blocks at pages 9, 10 and 12 in turn, and a block of order 1 is taken; free are then
the block of order 1 at page 10 and the block of order 2 at page 12. -/
theorem free_area_invariant_witness :
    zone_run_ok_ret cfg8 [ZoneCall.take_smallest 0, ZoneCall.give_back 8 0,
      ZoneCall.take_smallest 1] = true ∧
    zone_run_ret cfg8 [ZoneCall.take_smallest 0, ZoneCall.give_back 8 0,
        ZoneCall.take_smallest 1]
      = some (zone_run_state cfg8 [ZoneCall.take_smallest 0, ZoneCall.give_back 8 0,
        ZoneCall.take_smallest 1]) ∧
    ((zone_run_ret cfg8 [ZoneCall.take_smallest 0, ZoneCall.give_back 8 0]).map
        (fun s => ((List.range 4).map (fun o => (s.1.free_area o).free_list), s.2)),
      (List.range 4).map (fun o => ((zone_run_state cfg8 [ZoneCall.take_smallest 0,
        ZoneCall.give_back 8 0, ZoneCall.take_smallest 1]).1.free_area o).free_list),
      (zone_run_state cfg8 [ZoneCall.take_smallest 0, ZoneCall.give_back 8 0,
        ZoneCall.take_smallest 1]).2)
      = (some ([[], [], [], [8]], []), [[], [10], [12], []], [(8, 1)]) ∧
    (((∀ o p, p ∈ ((zone_run_state cfg8 [ZoneCall.take_smallest 0, ZoneCall.give_back 8 0,
          ZoneCall.take_smallest 1]).1.free_area o).free_list →
        page_order (zone_run_state cfg8 [ZoneCall.take_smallest 0, ZoneCall.give_back 8 0,
          ZoneCall.take_smallest 1]).1 p = o ∧
        PageBuddy (zone_run_state cfg8 [ZoneCall.take_smallest 0, ZoneCall.give_back 8 0,
          ZoneCall.take_smallest 1]).1 p = true) ∧
      (∀ o, ((zone_run_state cfg8 [ZoneCall.take_smallest 0, ZoneCall.give_back 8 0,
          ZoneCall.take_smallest 1]).1.free_area o).nr_free
        = ((zone_run_state cfg8 [ZoneCall.take_smallest 0, ZoneCall.give_back 8 0,
          ZoneCall.take_smallest 1]).1.free_area o).free_list.length) ∧
      (∀ p, cfg8.start_pfn ≤ p → p < cfg8.end_pfn →
        PageBuddy (zone_run_state cfg8 [ZoneCall.take_smallest 0, ZoneCall.give_back 8 0,
          ZoneCall.take_smallest 1]).1 p = true →
        ∃ o, p ∈ ((zone_run_state cfg8 [ZoneCall.take_smallest 0, ZoneCall.give_back 8 0,
          ZoneCall.take_smallest 1]).1.free_area o).free_list)) ∧
    (zone_run_ok_ret cfg8 [ZoneCall.take_smallest 2, ZoneCall.take_smallest 1,
        ZoneCall.take_smallest 1, ZoneCall.give_back 12 1] = true ∧
      (zone_run_ret cfg8 [ZoneCall.take_smallest 2, ZoneCall.take_smallest 1,
        ZoneCall.take_smallest 1]).map
        (fun s => ((List.range 4).map (fun o => ((s.1.free_area o).free_list,
            (s.1.free_area o).nr_free)), s.2, __find_buddy_pfn 12 1, PageBuddy s.1 14,
          page_is_buddy_ret s.1 (__find_buddy_pfn 12 1) 1))
        = some ([([], 0), ([], 0), ([], 0), ([], 0)], [(14, 1), (12, 1), (8, 2)], 14,
          false, none) ∧
      (zone_run_ret cfg8 [ZoneCall.take_smallest 2, ZoneCall.take_smallest 1,
        ZoneCall.take_smallest 1, ZoneCall.give_back 12 1]).isSome = false)) :=
  ⟨by decide, rfl, rfl,
    free_area_invariant cfg8 [ZoneCall.take_smallest 0, ZoneCall.give_back 8 0,
      ZoneCall.take_smallest 1]
      (zone_run_state cfg8 [ZoneCall.take_smallest 0, ZoneCall.give_back 8 0,
        ZoneCall.take_smallest 1]) (by decide) rfl⟩

/-! ## Maximal coalescing (C22) -/

/-- C22 (Maximal coalescing invariant), what the code does: in every state reached from
`memory_init` by calls of `__rmqueue_smallest` and of `__free_one_page` on held (hence
aligned) blocks, all of which have returned, for every order `o < max_order - 1` no free
block of `free_area[o]` has its buddy of order `o` in `free_area[o]`; a unit of the region
carries the `PageBuddy` mark if and only if it heads a free block, linked in the free area
of its recorded order; and the buddy of such a block, if it lies in the region, is not a
free block of order `o`, so that `page_is_buddy` called on it ends without a value.  But
`__free_one_page` need not get a value from `page_is_buddy`: on `cfg8`, after
`__rmqueue_smallest` of orders 2, 1, 1 (blocks at pages 8, 12, 14), `__free_one_page(12, 1)`
tests the buddy at page 14, which is held and not marked free, and `page_is_buddy` ends
without a `return`; a merge there would build a free block over a held one. -/
theorem maximal_coalescing (cfg : Config) (cs : List ZoneCall) (s : zone × List (Nat × Nat))
    (h : zone_run_ok_ret cfg cs = true) (hr : zone_run_ret cfg cs = some s) :
    ((∀ o p, o < min cfg.MAX_ORDER (pageblock_order + 1) - 1 →
        p ∈ (s.1.free_area o).free_list →
        __find_buddy_pfn p o ∉ (s.1.free_area o).free_list) ∧
      (∀ p, cfg.start_pfn ≤ p → p < cfg.end_pfn →
        (PageBuddy s.1 p = true ↔ p ∈ (s.1.free_area (page_order s.1 p)).free_list)) ∧
      (∀ o p, o < min cfg.MAX_ORDER (pageblock_order + 1) - 1 →
        p ∈ (s.1.free_area o).free_list →
        pfn_valid_within cfg (__find_buddy_pfn p o) = true →
        page_is_buddy_ret s.1 (__find_buddy_pfn p o) o = none)) ∧
    (zone_run_ok_ret cfg8 [ZoneCall.take_smallest 2, ZoneCall.take_smallest 1,
        ZoneCall.take_smallest 1, ZoneCall.give_back 12 1, ZoneCall.give_back 8 2] = true ∧
      (zone_run_ret cfg8 [ZoneCall.take_smallest 2, ZoneCall.take_smallest 1,
        ZoneCall.take_smallest 1]).map
        (fun s => (s.2, __find_buddy_pfn 12 1, PageBuddy s.1 14, page_order s.1 14,
          page_is_buddy_ret s.1 (__find_buddy_pfn 12 1) 1))
        = some ([(14, 1), (12, 1), (8, 2)], 14, false, 0, none) ∧
      (zone_run_ret cfg8 [ZoneCall.take_smallest 2, ZoneCall.take_smallest 1,
        ZoneCall.take_smallest 1, ZoneCall.give_back 12 1]).isSome = false) := by
  refine ⟨?_, by decide, rfl, by decide⟩
  obtain ⟨h1, h2⟩ := zone_run_of_zone_run_ret h hr
  obtain ⟨s1, r1, c1, c2, c3⟩ := maximal_coalescing_r0 cfg cs h1
  rw [h2] at r1
  cases r1
  refine ⟨c1, c2, fun o p ho hp hv => ?_⟩
  rcases hq : page_is_buddy_ret s.1 (__find_buddy_pfn p o) o with _ | v
  · rfl
  · exact absurd ⟨hv, (page_is_buddy_ret_some hq).2.2.2⟩ (c3 o p ho hp)

/-- Witness of C22 on `cfg8`: page 8 is taken and given back, which merges it with the
free blocks at pages 9, 10 and 12 in turn, and a block of order 1 is taken; free are then
the block of order 1 at page 10 and the block of order 2 at page 12, whose buddies, the
held block at page 8 and its first half, are not free. -/
theorem maximal_coalescing_witness :
    zone_run_ok_ret cfg8 [ZoneCall.take_smallest 0, ZoneCall.give_back 8 0,
      ZoneCall.take_smallest 1] = true ∧
    zone_run_ret cfg8 [ZoneCall.take_smallest 0, ZoneCall.give_back 8 0,
        ZoneCall.take_smallest 1]
      = some (zone_run_state cfg8 [ZoneCall.take_smallest 0, ZoneCall.give_back 8 0,
        ZoneCall.take_smallest 1]) ∧
    ((List.range 4).map (fun o => ((zone_run_state cfg8 [ZoneCall.take_smallest 0,
        ZoneCall.give_back 8 0, ZoneCall.take_smallest 1]).1.free_area o).free_list),
      (zone_run_state cfg8 [ZoneCall.take_smallest 0, ZoneCall.give_back 8 0,
        ZoneCall.take_smallest 1]).2,
      page_is_buddy_ret (zone_run_state cfg8 [ZoneCall.take_smallest 0,
        ZoneCall.give_back 8 0, ZoneCall.take_smallest 1]).1 (__find_buddy_pfn 10 1) 1,
      page_is_buddy_ret (zone_run_state cfg8 [ZoneCall.take_smallest 0,
        ZoneCall.give_back 8 0, ZoneCall.take_smallest 1]).1 (__find_buddy_pfn 12 2) 2)
      = ([[], [10], [12], []], [(8, 1)], none, none) ∧
    (((∀ o p, o < min cfg8.MAX_ORDER (pageblock_order + 1) - 1 →
        p ∈ ((zone_run_state cfg8 [ZoneCall.take_smallest 0, ZoneCall.give_back 8 0,
          ZoneCall.take_smallest 1]).1.free_area o).free_list →
        __find_buddy_pfn p o ∉ ((zone_run_state cfg8 [ZoneCall.take_smallest 0,
          ZoneCall.give_back 8 0, ZoneCall.take_smallest 1]).1.free_area o).free_list) ∧
      (∀ p, cfg8.start_pfn ≤ p → p < cfg8.end_pfn →
        (PageBuddy (zone_run_state cfg8 [ZoneCall.take_smallest 0, ZoneCall.give_back 8 0,
            ZoneCall.take_smallest 1]).1 p = true ↔
          p ∈ ((zone_run_state cfg8 [ZoneCall.take_smallest 0, ZoneCall.give_back 8 0,
            ZoneCall.take_smallest 1]).1.free_area
              (page_order (zone_run_state cfg8 [ZoneCall.take_smallest 0,
                ZoneCall.give_back 8 0, ZoneCall.take_smallest 1]).1 p)).free_list)) ∧
      (∀ o p, o < min cfg8.MAX_ORDER (pageblock_order + 1) - 1 →
        p ∈ ((zone_run_state cfg8 [ZoneCall.take_smallest 0, ZoneCall.give_back 8 0,
          ZoneCall.take_smallest 1]).1.free_area o).free_list →
        pfn_valid_within cfg8 (__find_buddy_pfn p o) = true →
        page_is_buddy_ret (zone_run_state cfg8 [ZoneCall.take_smallest 0,
          ZoneCall.give_back 8 0, ZoneCall.take_smallest 1]).1 (__find_buddy_pfn p o) o
          = none)) ∧
    (zone_run_ok_ret cfg8 [ZoneCall.take_smallest 2, ZoneCall.take_smallest 1,
        ZoneCall.take_smallest 1, ZoneCall.give_back 12 1, ZoneCall.give_back 8 2] = true ∧
      (zone_run_ret cfg8 [ZoneCall.take_smallest 2, ZoneCall.take_smallest 1,
        ZoneCall.take_smallest 1]).map
        (fun s => (s.2, __find_buddy_pfn 12 1, PageBuddy s.1 14, page_order s.1 14,
          page_is_buddy_ret s.1 (__find_buddy_pfn 12 1) 1))
        = some ([(14, 1), (12, 1), (8, 2)], 14, false, 0, none) ∧
      (zone_run_ret cfg8 [ZoneCall.take_smallest 2, ZoneCall.take_smallest 1,
        ZoneCall.take_smallest 1, ZoneCall.give_back 12 1]).isSome = false)) :=
  ⟨by decide, rfl, rfl,
    maximal_coalescing cfg8 [ZoneCall.take_smallest 0, ZoneCall.give_back 8 0,
      ZoneCall.take_smallest 1]
      (zone_run_state cfg8 [ZoneCall.take_smallest 0, ZoneCall.give_back 8 0,
        ZoneCall.take_smallest 1]) (by decide) rfl⟩

/-! ## Merge completeness (C3) -/

/-- C3 (Merge completeness), what the code does: in every state reached from
`memory_init` by `__alloc_pages` and `__free_pages` calls (frees of held blocks) all of
which have returned, for every order `o` with `0 < o < max_order - 1` and every index `i`
aligned to `2^(o+1)` such that the blocks `(i, o)` and `(i + 2^o, o)` are both held, the
first of the two frees, of either block, does not get as far as a merge: `__free_pages`
goes to `__free_one_page`, whose loop tests the other block with `page_is_buddy`; that
block is held, so its first page is not marked `PageBuddy`, and `page_is_buddy` ends
without a `return`.  At order 0 the two frees only push the pages onto the per-CPU list:
on `cfg8`, after pages 8 and 9 are allocated and freed, both are in the cache and no
free block of order 1 has appeared. -/
theorem merge_completeness (cfg : Config) (cs : List Call) (s : zone × List (Nat × Nat))
    (i o a : Nat) (hok : run_ok_ret cfg cs = true) (hr : run_ret cfg cs = some s)
    (ho1 : 0 < o) (ho2 : o < min cfg.MAX_ORDER (pageblock_order + 1) - 1)
    (hi : 2 ^ (o + 1) ∣ i) (h1 : (i, o) ∈ s.2) (h2 : (i + 2 ^ o, o) ∈ s.2)
    (ha : a = i ∨ a = i + 2 ^ o) :
    (__find_buddy_pfn a o = (if a = i then i + 2 ^ o else i) ∧
      pfn_valid_within cfg (__find_buddy_pfn a o) = true ∧
      PageBuddy s.1 (__find_buddy_pfn a o) = false ∧
      page_is_buddy_ret s.1 (__find_buddy_pfn a o) o = none ∧
      __free_pages_ret cfg s.1 a o = none ∧
      run_ret cfg (cs ++ [Call.free a o]) = none) ∧
    (run_ret cfg8 [Call.alloc 0, Call.alloc 0, Call.free 8 0, Call.free 9 0]).map
      (fun s => (pcp_list s.1, (List.range 4).map (fun o => (s.1.free_area o).free_list)))
      = some ([9, 8], [[], [10], [12], []]) := by
  refine ⟨?_, by decide⟩
  obtain ⟨pcp, _, _, _, hz⟩ := (run_ret_spec hok hr).1
  have hp : 0 < 2 ^ o := Nat.two_pow_pos _
  have key : ∀ b, (b, o) ∈ s.2 → __find_buddy_pfn a o = b →
      pfn_valid_within cfg (__find_buddy_pfn a o) = true ∧
      PageBuddy s.1 (__find_buddy_pfn a o) = false ∧
      page_is_buddy_ret s.1 (__find_buddy_pfn a o) o = none ∧
      __free_pages_ret cfg s.1 a o = none ∧
      run_ret cfg (cs ++ [Call.free a o]) = none := by
    intro b hb e
    have hm : (b, o) ∈ pcp.lists.map (fun q => (q, 0)) ++ s.2 := List.mem_append_right _ hb
    have hu : PageBuddy s.1 b = false := busy_unmarked hz (b, o) hm
    have hin := (hz.busy_in (b, o) hm).1
    have hv : pfn_valid_within cfg b = true :=
      (pfn_valid_within_iff cfg b).mpr ⟨hin.1, by have := hin.2; simp only at this; omega⟩
    have hn : page_is_buddy_ret s.1 b o = none := page_is_buddy_ret_unmarked o hu
    have hf : __free_pages_ret cfg s.1 a o = none := by
      rw [free_pages_ret_pos cfg s.1 a ho1]
      exact free_one_page_ret_none ho2 (by rw [e]; exact hv) (by rw [e]; exact hn)
    rw [e]
    refine ⟨hv, hu, hn, hf, ?_⟩
    rw [run_ret_snoc, hr]
    simp only [Option.some_bind, call_ret, hf, Option.map_none']
  rcases ha with rfl | rfl
  · have e := find_buddy_pfn_low a o hi
    exact ⟨by rw [if_pos rfl]; exact e, key _ h2 e⟩
  · have e := find_buddy_pfn_high i o hi
    have hne : ¬ (i + 2 ^ o = i) := by omega
    exact ⟨by rw [if_neg hne]; exact e, key _ h1 e⟩

/-- Witness of C3 on `cfg8`: four blocks of order 1 are allocated, at pages 8, 10, 12 and
14; freeing the block at page 10 tests the held block at page 8. -/
theorem merge_completeness_witness :
    run_ok_ret cfg8 (List.replicate 4 (Call.alloc 1)) = true ∧
    run_ret cfg8 (List.replicate 4 (Call.alloc 1))
      = some (run_state cfg8 (List.replicate 4 (Call.alloc 1))) ∧
    (run_state cfg8 (List.replicate 4 (Call.alloc 1))).2 = [(14, 1), (12, 1), (10, 1), (8, 1)] ∧
    0 < 1 ∧ 1 < min cfg8.MAX_ORDER (pageblock_order + 1) - 1 ∧ 2 ^ (1 + 1) ∣ 8 ∧
    ((__find_buddy_pfn 10 1 = (if 10 = 8 then 8 + 2 ^ 1 else 8) ∧
      pfn_valid_within cfg8 (__find_buddy_pfn 10 1) = true ∧
      PageBuddy (run_state cfg8 (List.replicate 4 (Call.alloc 1))).1 (__find_buddy_pfn 10 1)
        = false ∧
      page_is_buddy_ret (run_state cfg8 (List.replicate 4 (Call.alloc 1))).1
        (__find_buddy_pfn 10 1) 1 = none ∧
      __free_pages_ret cfg8 (run_state cfg8 (List.replicate 4 (Call.alloc 1))).1 10 1 = none ∧
      run_ret cfg8 (List.replicate 4 (Call.alloc 1) ++ [Call.free 10 1]) = none) ∧
    (run_ret cfg8 [Call.alloc 0, Call.alloc 0, Call.free 8 0, Call.free 9 0]).map
      (fun s => (pcp_list s.1, (List.range 4).map (fun o => (s.1.free_area o).free_list)))
      = some ([9, 8], [[], [10], [12], []])) :=
  ⟨by decide, rfl, by decide, by decide, by decide, by decide,
    merge_completeness cfg8 (List.replicate 4 (Call.alloc 1))
      (run_state cfg8 (List.replicate 4 (Call.alloc 1))) 8 1 10 (by decide) rfl (by decide)
      (by decide) (by decide) (by decide) (by decide) (Or.inr rfl)⟩

/-! ## Split/merge round trip (C4) -/

/-- C4 (Split/merge round-trip), what the code does: for every `k` with
`0 < k < max_order` (`max_order = min(MAX_ORDER, pageblock_order + 1)`), in a state reached
from `memory_init` by calls all of which have returned and in which the only free block is
one block of order `k` headed at `p`, taking all `2^k` units with
`__rmqueue_smallest(zone, 0)` (the `2^k` calls made by `rmqueue_bulk`) obtains the units
`p, p + 1, ..., p + 2^k - 1` and leaves every free area empty; but then giving back any
one of them with `__free_one_page(zone, page, pfn, 0)` tests its buddy of order 0, which
is another of the taken units and not marked `PageBuddy`, and `page_is_buddy` ends without
a `return`: no permutation of the give-backs gets past its first call.  Through
`__alloc_pages` and `__free_pages` the pages pass through the per-CPU list, and the first
drain meets the same test: on `cfg8`, after eight allocations of order 0, the frees of
pages 8 to 12 return and the free of page 13 does not. -/
theorem split_merge_round_trip (cfg : Config) (cs : List Call) (s : zone × List (Nat × Nat))
    (k p : Nat) (order_perm : List Nat) (hok : run_ok_ret cfg cs = true)
    (hr : run_ret cfg cs = some s) (hk1 : 0 < k)
    (hk : k < min cfg.MAX_ORDER (pageblock_order + 1))
    (honly : (List.range cfg.MAX_ORDER).all (fun o =>
      decide ((s.1.free_area o).free_list = if o = k then [p] else [])) = true)
    (hperm : order_perm.Perm (rmqueue_bulk cfg (2 ^ k) s.1 []).2.1) :
    ((rmqueue_bulk cfg (2 ^ k) s.1 []).2.1 = List.range' p (2 ^ k) ∧
      (rmqueue_bulk cfg (2 ^ k) s.1 []).2.2 = 2 ^ k ∧
      (∀ o, (((rmqueue_bulk cfg (2 ^ k) s.1 []).1).free_area o).free_list = []) ∧
      (∀ u ∈ order_perm,
        pfn_valid_within cfg (__find_buddy_pfn u 0) = true ∧
        __find_buddy_pfn u 0 ∈ order_perm ∧
        PageBuddy (rmqueue_bulk cfg (2 ^ k) s.1 []).1 (__find_buddy_pfn u 0) = false ∧
        page_is_buddy_ret (rmqueue_bulk cfg (2 ^ k) s.1 []).1 (__find_buddy_pfn u 0) 0 = none ∧
        __free_one_page_ret cfg (rmqueue_bulk cfg (2 ^ k) s.1 []).1 u 0 = none) ∧
      order_perm.foldlM (fun z pg => __free_one_page_ret cfg z pg 0)
        (rmqueue_bulk cfg (2 ^ k) s.1 []).1 = none) ∧
    (run_ok_ret cfg8 (List.replicate 8 (Call.alloc 0) ++
        [8, 9, 10, 11, 12, 13, 14, 15].map (fun q => Call.free q 0)) = true ∧
      (run_ret cfg8 (List.replicate 8 (Call.alloc 0) ++
        [8, 9, 10, 11, 12].map (fun q => Call.free q 0))).map
        (fun s => (pcp_list s.1, s.2, __find_buddy_pfn 8 0, PageBuddy s.1 9,
          page_is_buddy_ret s.1 (__find_buddy_pfn 8 0) 0))
        = some ([12, 11, 10, 9, 8], [(15, 0), (14, 0), (13, 0)], 9, false, none) ∧
      (run_ret cfg8 (List.replicate 8 (Call.alloc 0) ++
        [8, 9, 10, 11, 12, 13].map (fun q => Call.free q 0))).isSome = false) := by
  refine ⟨?_, by decide, rfl, by decide⟩
  obtain ⟨pcp, _, _, _, hz⟩ := (run_ret_spec hok hr).1
  simp only [List.all_eq_true, List.mem_range, decide_eq_true_eq] at honly
  have hkM : k < cfg.MAX_ORDER := by
    have := Nat.min_le_left cfg.MAX_ORDER (pageblock_order + 1)
    omega
  have honly2 : ∀ o, (s.1.free_area o).free_list = if o = k then [p] else [] := by
    intro o
    by_cases ho : o < cfg.MAX_ORDER
    · exact honly o ho
    · rw [hz.empty_above o (by omega), if_neg (by omega)]
  obtain ⟨c1, c2, _⟩ := round_trip_zone order_perm hz hk honly2 hperm
  have hlow : ∀ j, j < k → (s.1.free_area j).free_list = [] := by
    intro j hj
    rw [honly2 j, if_neg (by omega)]
  have hfl : (s.1.free_area k).free_list = p :: [] := by rw [honly2 k, if_pos rfl]
  have htk := (take_smallest_upto_block cfg k hkM s.1 p [] hlow hfl).1
  have hlist : (rmqueue_bulk cfg (2 ^ k) s.1 []).2.1 = List.range' p (2 ^ k) := by
    rw [rmqueue_bulk_eq_take_smallest_upto]
    simp only [List.nil_append]
    exact htk
  obtain ⟨new, _, _, _, hz1, _⟩ := rmqueue_bulk_spec (2 ^ k) s.1 []
    (pcp.lists.map (fun q => (q, 0)) ++ s.2) hz
  have hpin := hz.free_in k p (by rw [hfl]; exact List.mem_cons_self _ _)
  simp only [block_in] at hpin
  obtain ⟨⟨hp1, hp2⟩, hp3⟩ := hpin
  have h2p : 2 ∣ p := by
    have e : (2 : Nat) ∣ 2 ^ k := dvd_pow_self 2 (by omega)
    exact Dvd.dvd.trans e hp3
  have h2k : 2 ∣ 2 ^ k := dvd_pow_self 2 (by omega)
  have hunm : ∀ q, pfn_valid_within cfg q = true →
      PageBuddy (rmqueue_bulk cfg (2 ^ k) s.1 []).1 q = false := by
    intro q hq
    rcases hm : PageBuddy (rmqueue_bulk cfg (2 ^ k) s.1 []).1 q with _ | _
    · rfl
    · have := hz1.linked q hq hm
      rw [c2] at this
      cases this
  have h0 : 0 < min cfg.MAX_ORDER (pageblock_order + 1) - 1 := by omega
  have hall : ∀ u ∈ order_perm,
      pfn_valid_within cfg (__find_buddy_pfn u 0) = true ∧
      __find_buddy_pfn u 0 ∈ order_perm ∧
      PageBuddy (rmqueue_bulk cfg (2 ^ k) s.1 []).1 (__find_buddy_pfn u 0) = false ∧
      page_is_buddy_ret (rmqueue_bulk cfg (2 ^ k) s.1 []).1 (__find_buddy_pfn u 0) 0 = none ∧
      __free_one_page_ret cfg (rmqueue_bulk cfg (2 ^ k) s.1 []).1 u 0 = none := by
    intro u hu
    have hu2 : u ∈ List.range' p (2 ^ k) := by
      rw [← hlist]
      exact hperm.subset hu
    rw [List.mem_range'_1] at hu2
    have hb : p ≤ __find_buddy_pfn u 0 ∧ __find_buddy_pfn u 0 < p + 2 ^ k := by
      rcases aligned_cases u 0 (by simp) with hd | ⟨q, hd, rfl⟩
      · rw [find_buddy_pfn_low u 0 hd]
        simp only [zero_add, pow_one, pow_zero] at hd ⊢
        omega
      · rw [find_buddy_pfn_high q 0 hd]
        simp only [zero_add, pow_one, pow_zero] at hd hu2 ⊢
        omega
    have hv : pfn_valid_within cfg (__find_buddy_pfn u 0) = true :=
      (pfn_valid_within_iff cfg _).mpr ⟨by omega, by omega⟩
    have hmem : __find_buddy_pfn u 0 ∈ order_perm := by
      apply hperm.symm.subset
      rw [hlist, List.mem_range'_1]
      exact hb
    have hu3 := hunm _ hv
    have hn := page_is_buddy_ret_unmarked 0 hu3
    exact ⟨hv, hmem, hu3, hn, free_one_page_ret_none h0 hv hn⟩
  refine ⟨hlist, c1, c2, hall, ?_⟩
  rcases order_perm with _ | ⟨u, rest⟩
  · have hl := hperm.length_eq
    rw [hlist, List.length_range'] at hl
    have := Nat.two_pow_pos k
    simp only [List.length_nil] at hl
    omega
  · simp only [List.foldlM_cons, (hall u (List.mem_cons_self _ _)).2.2.2.2, Option.none_bind,
      Option.bind_eq_bind]

/-- Witness of C4 on the zone set up by `memory_init` on `cfg8`, whose only free block is
the block of order 3 at page 8, with the give-backs in the order 11, 9, 12, 8, 13, 15, 10,
14: the first, of page 11, tests page 10. -/
theorem split_merge_round_trip_witness :
    run_ok_ret cfg8 [] = true ∧ run_ret cfg8 [] = some (run_state cfg8 []) ∧
    0 < 3 ∧ 3 < min cfg8.MAX_ORDER (pageblock_order + 1) ∧
    (List.range cfg8.MAX_ORDER).all (fun o =>
      decide (((run_state cfg8 []).1.free_area o).free_list = if o = 3 then [8] else []))
      = true ∧
    [11, 9, 12, 8, 13, 15, 10, 14].Perm (rmqueue_bulk cfg8 (2 ^ 3) (run_state cfg8 []).1 []).2.1 ∧
    (((rmqueue_bulk cfg8 (2 ^ 3) (run_state cfg8 []).1 []).2.1 = List.range' 8 (2 ^ 3) ∧
      (rmqueue_bulk cfg8 (2 ^ 3) (run_state cfg8 []).1 []).2.2 = 2 ^ 3 ∧
      (∀ o, (((rmqueue_bulk cfg8 (2 ^ 3) (run_state cfg8 []).1 []).1).free_area o).free_list
        = []) ∧
      (∀ u ∈ [11, 9, 12, 8, 13, 15, 10, 14],
        pfn_valid_within cfg8 (__find_buddy_pfn u 0) = true ∧
        __find_buddy_pfn u 0 ∈ [11, 9, 12, 8, 13, 15, 10, 14] ∧
        PageBuddy (rmqueue_bulk cfg8 (2 ^ 3) (run_state cfg8 []).1 []).1
          (__find_buddy_pfn u 0) = false ∧
        page_is_buddy_ret (rmqueue_bulk cfg8 (2 ^ 3) (run_state cfg8 []).1 []).1
          (__find_buddy_pfn u 0) 0 = none ∧
        __free_one_page_ret cfg8 (rmqueue_bulk cfg8 (2 ^ 3) (run_state cfg8 []).1 []).1 u 0
          = none) ∧
      [11, 9, 12, 8, 13, 15, 10, 14].foldlM (fun z pg => __free_one_page_ret cfg8 z pg 0)
        (rmqueue_bulk cfg8 (2 ^ 3) (run_state cfg8 []).1 []).1 = none) ∧
    (run_ok_ret cfg8 (List.replicate 8 (Call.alloc 0) ++
        [8, 9, 10, 11, 12, 13, 14, 15].map (fun q => Call.free q 0)) = true ∧
      (run_ret cfg8 (List.replicate 8 (Call.alloc 0) ++
        [8, 9, 10, 11, 12].map (fun q => Call.free q 0))).map
        (fun s => (pcp_list s.1, s.2, __find_buddy_pfn 8 0, PageBuddy s.1 9,
          page_is_buddy_ret s.1 (__find_buddy_pfn 8 0) 0))
        = some ([12, 11, 10, 9, 8], [(15, 0), (14, 0), (13, 0)], 9, false, none) ∧
      (run_ret cfg8 (List.replicate 8 (Call.alloc 0) ++
        [8, 9, 10, 11, 12, 13].map (fun q => Call.free q 0))).isSome = false)) :=
  ⟨by decide, rfl, by decide, by decide, by decide, by decide,
    split_merge_round_trip cfg8 [] (run_state cfg8 []) 3 8 [11, 9, 12, 8, 13, 15, 10, 14]
      (by decide) rfl (by decide) (by decide) (by decide) (by decide)⟩

/-! ## Out-of-memory boundary (C5) -/

/-- C5 (OOM boundary), what the code does: for every order and every region on which
`memory_init` returns, when `__alloc_pages(order)` is called `nr_pages / 2^order + 1`
times in a row, the first `nr_pages / 2^order` calls return and the final call returns
`NULL`, leaving the zone as it was.  But `memory_init` need not get that far: it frees the
region block by block with `__free_pages`, and on `cfg6`, the region of the six pages 8 to
13, the first block, of order 2 at page 8, has its buddy at page 12 inside the region and
not yet marked free, so `page_is_buddy` ends without a `return` before any allocation is
made. -/
theorem oom_boundary (cfg : Config) (order : Nat) (h : (memory_init_ret cfg).isSome = true) :
    (∃ s, run_ret cfg (List.replicate (nr_pages cfg / 2 ^ order) (Call.alloc order)) = some s ∧
      __alloc_pages cfg s.1 order = some (s.1, none)) ∧
    (memory_init_blocks cfg6 (cfg6.end_pfn - cfg6.start_pfn) cfg6.start_pfn = [(8, 2), (12, 1)] ∧
      (pfn_valid_within cfg6 (__find_buddy_pfn 8 2),
        PageBuddy (memory_init_zone cfg6) (__find_buddy_pfn 8 2),
        page_is_buddy_ret (memory_init_zone cfg6) (__find_buddy_pfn 8 2) 2) = (true, false, none) ∧
      __free_pages_ret cfg6 (memory_init_zone cfg6) 8 2 = none ∧
      memory_init_ret cfg6 = none ∧
      (run_ret cfg6 (List.replicate (nr_pages cfg6 / 2 ^ 0 + 1) (Call.alloc 0))).isSome = false) := by
  refine ⟨?_, by decide, by decide, rfl, rfl, by decide⟩
  rcases hm : memory_init_ret cfg with _ | z0
  · rw [hm] at h
    cases h
  · have hm0 := memory_init_ret_eq hm
    obtain ⟨s, r1, r2⟩ := oom_boundary_r0 cfg order (by rw [hm0]; rfl)
    refine ⟨s, ?_, r2⟩
    have e : List.replicate (nr_pages cfg / 2 ^ order) (Call.alloc order)
        = (List.replicate (nr_pages cfg / 2 ^ order) order).map Call.alloc := by
      rw [List.map_replicate]
    rw [e] at r1 ⊢
    simp only [run, hm0, Option.some_bind] at r1
    simp only [run_ret, hm, Option.some_bind]
    rw [calls_ret_allocs]
    exact r1

/-- Witness of C5 on `cfg8`: four blocks of order 1 are allocated from the region of
eight pages and the fifth call returns `NULL`. -/
theorem oom_boundary_witness :
    (memory_init_ret cfg8).isSome = true ∧
    (run_ret cfg8 (List.replicate (nr_pages cfg8 / 2 ^ 1) (Call.alloc 1))).map (fun s => s.2)
      = some [(14, 1), (12, 1), (10, 1), (8, 1)] ∧
    ((∃ s, run_ret cfg8 (List.replicate (nr_pages cfg8 / 2 ^ 1) (Call.alloc 1)) = some s ∧
      __alloc_pages cfg8 s.1 1 = some (s.1, none)) ∧
    (memory_init_blocks cfg6 (cfg6.end_pfn - cfg6.start_pfn) cfg6.start_pfn = [(8, 2), (12, 1)] ∧
      (pfn_valid_within cfg6 (__find_buddy_pfn 8 2),
        PageBuddy (memory_init_zone cfg6) (__find_buddy_pfn 8 2),
        page_is_buddy_ret (memory_init_zone cfg6) (__find_buddy_pfn 8 2) 2) = (true, false, none) ∧
      __free_pages_ret cfg6 (memory_init_zone cfg6) 8 2 = none ∧
      memory_init_ret cfg6 = none ∧
      (run_ret cfg6 (List.replicate (nr_pages cfg6 / 2 ^ 0 + 1) (Call.alloc 0))).isSome
        = false)) :=
  ⟨by decide, by decide, oom_boundary cfg8 1 (by decide)⟩

/-! ## The drain threshold of the cache (C7) -/

/-- C7 (PCP threshold), what the code does: starting from an empty per-CPU cache, after
`N >= 1` consecutive `__free_pages` calls of held order-0 units with `N >= high`
(`high = 6 * BATCH_SIZE`), all of which have returned, at least `batch` units have been
returned to the zone (the weighted free total of the free areas has grown by at least
`batch`), and `pcp->count` is below `N`.  But the call that drains need not return: the
drain gives pages back with `__free_one_page`, which tests the buddy of each with
`page_is_buddy`.  On `cfg8`, after six allocations of order 0 (pages 8 to 13), the frees
of pages 8 to 12 fill the cache and the free of page 13 drains page 8, whose buddy, page 9,
is in the cache and not marked free: `page_is_buddy` ends without a `return`. -/
theorem pcp_threshold (cfg : Config) (cs : List Call) (ps : List Nat)
    (s s1 : zone × List (Nat × Nat))
    (hok : run_ok_ret cfg (cs ++ ps.map (fun p => Call.free p 0)) = true)
    (hr : run_ret cfg cs = some s)
    (hr1 : run_ret cfg (cs ++ ps.map (fun p => Call.free p 0)) = some s1)
    (hempty : pcp_list s.1 = [])
    (hN : 6 * cfg.BATCH_SIZE ≤ ps.length) (h1 : 1 ≤ ps.length) :
    (∃ pcp, s.1.pcp = some pcp ∧ pcp.lists = [] ∧ pcp.high ≤ ps.length ∧
      free_units cfg s.1 + pcp.batch ≤ free_units cfg s1.1 ∧
      pcp_count s1.1 < (ps.length : Int)) ∧
    (run_ok_ret cfg8 (List.replicate 6 (Call.alloc 0) ++
        [8, 9, 10, 11, 12, 13].map (fun p => Call.free p 0)) = true ∧
      (run_ret cfg8 (List.replicate 6 (Call.alloc 0) ++
        [8, 9, 10, 11, 12].map (fun p => Call.free p 0))).map
        (fun s => (pcp_list s.1, pcp_count s.1, free_units cfg8 s.1, s.2, __find_buddy_pfn 8 0,
          PageBuddy s.1 9, page_is_buddy_ret s.1 (__find_buddy_pfn 8 0) 0))
        = some ([12, 11, 10, 9, 8], 5, 2, [(13, 0)], 9, false, none) ∧
      (run_ret cfg8 (List.replicate 6 (Call.alloc 0) ++
        [8, 9, 10, 11, 12, 13].map (fun p => Call.free p 0))).isSome = false) := by
  refine ⟨?_, by decide, rfl, by decide⟩
  obtain ⟨e1, e2⟩ := run_ret_eq hr1
  obtain ⟨e3, _⟩ := run_ret_eq hr
  obtain ⟨t, t1, pcp, c1, c2, c3, c4, c5, c6, c7⟩ :=
    pcp_threshold_r0 cfg cs ps (e2.trans hok) (by rw [e3]; simp only [Option.map_some', hempty])
      hN h1
  rw [e3] at c1
  rw [e1] at c5
  cases c1
  cases c5
  exact ⟨pcp, c2, c3, c4, c6, c7⟩

/-- Witness of C7 on `cfg2`, where the largest block has order 1: seven pages are
allocated and six of them freed, page 8 first; the sixth free reaches `count = 6 = high`
and drains page 8, whose buddy, page 9, is a free block of order 0, so the two merge into
the block of order 1 at page 8. -/
theorem pcp_threshold_witness :
    run_ok_ret cfg2 (List.replicate 7 (Call.alloc 0) ++
      [8, 10, 11, 12, 13, 14].map (fun p => Call.free p 0)) = true ∧
    run_ret cfg2 (List.replicate 7 (Call.alloc 0))
      = some (run_state cfg2 (List.replicate 7 (Call.alloc 0))) ∧
    run_ret cfg2 (List.replicate 7 (Call.alloc 0) ++
        [8, 10, 11, 12, 13, 14].map (fun p => Call.free p 0))
      = some (run_state cfg2 (List.replicate 7 (Call.alloc 0) ++
        [8, 10, 11, 12, 13, 14].map (fun p => Call.free p 0))) ∧
    pcp_list (run_state cfg2 (List.replicate 7 (Call.alloc 0))).1 = [] ∧
    6 * cfg2.BATCH_SIZE ≤ [8, 10, 11, 12, 13, 14].length ∧
    1 ≤ [8, 10, 11, 12, 13, 14].length ∧
    (free_units cfg2 (run_state cfg2 (List.replicate 7 (Call.alloc 0))).1,
      (List.range 2).map (fun o =>
        ((run_state cfg2 (List.replicate 7 (Call.alloc 0))).1.free_area o).free_list),
      free_units cfg2 (run_state cfg2 (List.replicate 7 (Call.alloc 0) ++
        [8, 10, 11, 12, 13, 14].map (fun p => Call.free p 0))).1,
      (List.range 2).map (fun o => ((run_state cfg2 (List.replicate 7 (Call.alloc 0) ++
        [8, 10, 11, 12, 13, 14].map (fun p => Call.free p 0))).1.free_area o).free_list),
      pcp_list (run_state cfg2 (List.replicate 7 (Call.alloc 0) ++
        [8, 10, 11, 12, 13, 14].map (fun p => Call.free p 0))).1)
      = (1, [[9], []], 2, [[], [8]], [14, 13, 12, 11, 10]) ∧
    ((∃ pcp, (run_state cfg2 (List.replicate 7 (Call.alloc 0))).1.pcp = some pcp ∧
      pcp.lists = [] ∧ pcp.high ≤ [8, 10, 11, 12, 13, 14].length ∧
      free_units cfg2 (run_state cfg2 (List.replicate 7 (Call.alloc 0))).1 + pcp.batch
        ≤ free_units cfg2 (run_state cfg2 (List.replicate 7 (Call.alloc 0) ++
          [8, 10, 11, 12, 13, 14].map (fun p => Call.free p 0))).1 ∧
      pcp_count (run_state cfg2 (List.replicate 7 (Call.alloc 0) ++
        [8, 10, 11, 12, 13, 14].map (fun p => Call.free p 0))).1
        < (([8, 10, 11, 12, 13, 14] : List Nat).length : Int)) ∧
    (run_ok_ret cfg8 (List.replicate 6 (Call.alloc 0) ++
        [8, 9, 10, 11, 12, 13].map (fun p => Call.free p 0)) = true ∧
      (run_ret cfg8 (List.replicate 6 (Call.alloc 0) ++
        [8, 9, 10, 11, 12].map (fun p => Call.free p 0))).map
        (fun s => (pcp_list s.1, pcp_count s.1, free_units cfg8 s.1, s.2, __find_buddy_pfn 8 0,
          PageBuddy s.1 9, page_is_buddy_ret s.1 (__find_buddy_pfn 8 0) 0))
        = some ([12, 11, 10, 9, 8], 5, 2, [(13, 0)], 9, false, none) ∧
      (run_ret cfg8 (List.replicate 6 (Call.alloc 0) ++
        [8, 9, 10, 11, 12, 13].map (fun p => Call.free p 0))).isSome = false)) :=
  ⟨by decide, rfl, rfl, by decide, by decide, by decide, rfl,
    pcp_threshold cfg2 (List.replicate 7 (Call.alloc 0)) [8, 10, 11, 12, 13, 14]
      (run_state cfg2 (List.replicate 7 (Call.alloc 0)))
      (run_state cfg2 (List.replicate 7 (Call.alloc 0) ++
        [8, 10, 11, 12, 13, 14].map (fun p => Call.free p 0)))
      (by decide) rfl rfl (by decide) (by decide) (by decide)⟩

/-! ## Routing of frees (C11) -/

/-- C11 (Free routing), what the code does: for every order above 0,
`__free_pages(page, order)` is `__free_one_page(zone, page, pfn, order)`, and where that
call returns it leaves the per-CPU cache (list and count) unchanged, provided no cached
page carries the `PageBuddy` mark, as in every well-formed zone; for order 0 with
`count + 1 < high`, `__free_pages(page, 0)` only pushes the page onto the cache and counts
it: every free area (list and `nr_free`) and every page record is unchanged.  But the call
of order above 0 need not return a value from `page_is_buddy`: on `cfg8`, with page 8 in
the cache and the block of order 1 at page 10 held, `__free_pages(10, 1)` tests page 8,
which is not marked free, and `page_is_buddy` ends without a `return`; a merge there
would unlink page 8 from the cache without touching `count`. -/
theorem free_pages_routing (cfg : Config) (z : zone) (pfn : Nat) :
    ((∀ order, 0 < order →
        __free_pages_ret cfg z pfn order = __free_one_page_ret cfg z pfn order ∧
        ((∀ q ∈ pcp_list z, PageBuddy z q = false) →
          ∀ z1, __free_one_page_ret cfg z pfn order = some z1 → z1.pcp = z.pcp)) ∧
      (∀ pcp, z.pcp = some pcp → pcp.count + 1 < (pcp.high : Int) →
        ∃ z1, __free_pages_ret cfg z pfn 0 = some z1 ∧
          z1.pcp = some { pcp with lists := pfn :: pcp.lists, count := pcp.count + 1 } ∧
          z1.free_area = z.free_area ∧ z1.mem_map = z.mem_map)) ∧
    (run_ok_ret cfg8 [Call.alloc 0, Call.alloc 0, Call.free 8 0, Call.alloc 1,
        Call.free 10 1] = true ∧
      (run_ret cfg8 [Call.alloc 0, Call.alloc 0, Call.free 8 0, Call.alloc 1]).map
        (fun s => (pcp_list s.1, pcp_count s.1, s.2, __find_buddy_pfn 10 1, PageBuddy s.1 8,
          page_is_buddy_ret s.1 (__find_buddy_pfn 10 1) 1,
          (__free_pages_ret cfg8 s.1 10 1).isSome))
        = some ([8], 1, [(10, 1), (9, 0)], 8, false, none, false)) := by
  refine ⟨⟨fun order ho => ⟨free_pages_ret_pos cfg z pfn ho, fun hq z1 hz1 => ?_⟩,
    fun pcp hp hc => ?_⟩, by decide, rfl⟩
  · have e := free_one_page_ret_eq hz1
    have := ((free_pages_routing_r0 cfg z pfn).1 order ho).2 hq
    rw [e] at this
    exact this
  · refine ⟨{ z with pcp := some { pcp with lists := pfn :: pcp.lists, count := pcp.count + 1 } },
      ?_, rfl, rfl, rfl⟩
    have hn : ¬ pcp.count + 1 ≥ (pcp.high : Int) := by omega
    simp only [__free_pages_ret, free_the_page_ret, if_true, free_unref_page_ret,
      free_unref_page_commit_ret, hp, hn, if_false]

/-- Witness of C11 on `cfg8`, in the state after `__alloc_pages(1)` has returned the block
at page 8: `__free_pages(8, 1)` returns, as `__free_one_page(8, 1)` does, having merged the
block with the free blocks at pages 10 and 12, and the cache is as before. -/
theorem free_pages_routing_witness :
    (run_ret cfg8 [Call.alloc 1] = some (run_state cfg8 [Call.alloc 1]) ∧
      ((__free_pages_ret cfg8 (run_state cfg8 [Call.alloc 1]).1 8 1).map
        (fun z => ((List.range 4).map (fun o => (z.free_area o).free_list), pcp_list z)))
        = some ([[], [], [], [8]], [])) ∧
    (((∀ order, 0 < order →
        __free_pages_ret cfg8 (run_state cfg8 [Call.alloc 1]).1 8 order
          = __free_one_page_ret cfg8 (run_state cfg8 [Call.alloc 1]).1 8 order ∧
        ((∀ q ∈ pcp_list (run_state cfg8 [Call.alloc 1]).1,
            PageBuddy (run_state cfg8 [Call.alloc 1]).1 q = false) →
          ∀ z1, __free_one_page_ret cfg8 (run_state cfg8 [Call.alloc 1]).1 8 order = some z1 →
            z1.pcp = (run_state cfg8 [Call.alloc 1]).1.pcp)) ∧
      (∀ pcp, (run_state cfg8 [Call.alloc 1]).1.pcp = some pcp →
        pcp.count + 1 < (pcp.high : Int) →
        ∃ z1, __free_pages_ret cfg8 (run_state cfg8 [Call.alloc 1]).1 8 0 = some z1 ∧
          z1.pcp = some { pcp with lists := 8 :: pcp.lists, count := pcp.count + 1 } ∧
          z1.free_area = (run_state cfg8 [Call.alloc 1]).1.free_area ∧
          z1.mem_map = (run_state cfg8 [Call.alloc 1]).1.mem_map)) ∧
    (run_ok_ret cfg8 [Call.alloc 0, Call.alloc 0, Call.free 8 0, Call.alloc 1,
        Call.free 10 1] = true ∧
      (run_ret cfg8 [Call.alloc 0, Call.alloc 0, Call.free 8 0, Call.alloc 1]).map
        (fun s => (pcp_list s.1, pcp_count s.1, s.2, __find_buddy_pfn 10 1, PageBuddy s.1 8,
          page_is_buddy_ret s.1 (__find_buddy_pfn 10 1) 1,
          (__free_pages_ret cfg8 s.1 10 1).isSome))
        = some ([8], 1, [(10, 1), (9, 0)], 8, false, none, false))) :=
  ⟨⟨rfl, by decide⟩, free_pages_routing cfg8 (run_state cfg8 [Call.alloc 1]).1 8⟩

/-! ## Accounting of give_back (C12) -/

/-- C12 (give_back accounting), what the code does: in a well-formed zone in which the
block `(pfn, order)` is busy, where `__free_one_page(zone, page, pfn, order)` returns it
ends with the block in the free area of a destination order `o1 >= order`; `nr_free` of
that order has gone up by exactly one, `nr_free` of every order from `order` up to
`o1 - 1` (where a buddy was absorbed) has gone down by one, every other `nr_free` is
unchanged, and the weighted free total `sum_o nr_free(o) * 2^o` has gone up by exactly
`2^order`.  The placement step, where it returns, adds one to `nr_free` and `2^o` to the
total whether it links the block at the head or at the tail.  But the call need not get a
value from `page_is_buddy`: on `cfg8`, after `__rmqueue_smallest` of order 1 twice (blocks
at pages 8 and 10), `__free_one_page(8, 1)` tests the held block at page 10, which is not
marked free, and `page_is_buddy` ends without a `return`; a merge there would decrement
`free_area[1].nr_free` from 0. -/
theorem free_one_page_counts {cfg : Config} {z z1 : zone} {busy : List (Nat × Nat)}
    {pfn order : Nat} (h : zone_inv cfg z ((pfn, order) :: busy))
    (hpcp : ∀ q ∈ pcp_list z, (q, 0) ∈ busy)
    (hr : __free_one_page_ret cfg z pfn order = some z1) :
    ((∃ o1, order ≤ o1 ∧ o1 < cfg.MAX_ORDER ∧
        (z1.free_area o1).nr_free = (z.free_area o1).nr_free + 1 ∧
        (∀ k, order ≤ k → k < o1 → (z1.free_area k).nr_free + 1 = (z.free_area k).nr_free) ∧
        (∀ k, (k < order ∨ o1 < k) → (z1.free_area k).nr_free = (z.free_area k).nr_free) ∧
        ∃ p1, p1 ≤ pfn ∧ pfn + 2 ^ order ≤ p1 + 2 ^ o1 ∧ p1 ∈ (z1.free_area o1).free_list) ∧
      free_units cfg z1 = free_units cfg z + 2 ^ order ∧
      (∀ (z2 z3 : zone) (p2 o2 bp : Nat), o2 < cfg.MAX_ORDER →
        __free_one_page_place_ret cfg z2 p2 o2 bp = some z3 →
        (z3.free_area o2).free_list =
          (if __free_one_page_tail_ret cfg (set_page_order z2 p2 o2) p2 o2 bp = some true then
            (z2.free_area o2).free_list ++ [p2] else p2 :: (z2.free_area o2).free_list) ∧
        (z3.free_area o2).nr_free = (z2.free_area o2).nr_free + 1 ∧
        free_units cfg z3 = free_units cfg z2 + 2 ^ o2)) ∧
    (zone_run_ok_ret cfg8 [ZoneCall.take_smallest 1, ZoneCall.take_smallest 1,
        ZoneCall.give_back 8 1] = true ∧
      (zone_run_ret cfg8 [ZoneCall.take_smallest 1, ZoneCall.take_smallest 1]).map
        (fun s => ((List.range 4).map (fun o => ((s.1.free_area o).free_list,
            (s.1.free_area o).nr_free)), s.2, __find_buddy_pfn 8 1, PageBuddy s.1 10,
          page_is_buddy_ret s.1 (__find_buddy_pfn 8 1) 1,
          (__free_one_page_ret cfg8 s.1 8 1).isSome))
        = some ([([], 0), ([], 0), ([12], 1), ([], 0)], [(10, 1), (8, 1)], 10, false, none,
          false)) := by
  refine ⟨?_, by decide, rfl⟩
  have e := free_one_page_ret_eq hr
  obtain ⟨c1, c2, c3⟩ := free_one_page_counts_r0 h hpcp
  rw [e] at c1 c2
  refine ⟨c1, c2, fun z2 z3 p2 o2 bp ho hp => ?_⟩
  obtain ⟨d1, d2, d3⟩ := c3 z2 p2 o2 bp ho
  have e2 := free_one_page_place_ret_eq hp
  rw [e2] at d1 d2 d3
  refine ⟨?_, d2, d3⟩
  rw [d1]
  unfold __free_one_page_place_ret at hp
  rcases ht : __free_one_page_tail_ret cfg (set_page_order z2 p2 o2) p2 o2 bp with _ | t
  · rw [ht] at hp
    cases hp
  · rw [free_one_page_tail_ret_eq ht]
    cases t <;> simp

/-- Witness of C12 on `cfg8`: page 8 is taken, which splits the block of order 3 and
leaves the free blocks at pages 9, 10 and 12; giving page 8 back absorbs the three of
them, one at each of the orders 0, 1 and 2, and ends with the block of order 3. -/
theorem free_one_page_counts_witness :
    zone_inv cfg8 (zone_run_state cfg8 [ZoneCall.take_smallest 0]).1
      ((8, 0) :: ((zone_run_state cfg8 [ZoneCall.take_smallest 0]).2.erase (8, 0))) ∧
    (∀ q ∈ pcp_list (zone_run_state cfg8 [ZoneCall.take_smallest 0]).1,
      (q, 0) ∈ ((zone_run_state cfg8 [ZoneCall.take_smallest 0]).2.erase (8, 0))) ∧
    __free_one_page_ret cfg8 (zone_run_state cfg8 [ZoneCall.take_smallest 0]).1 8 0
      = some (zone_run_state cfg8 [ZoneCall.take_smallest 0, ZoneCall.give_back 8 0]).1 ∧
    ((List.range 4).map (fun o =>
        (((zone_run_state cfg8 [ZoneCall.take_smallest 0]).1.free_area o).free_list,
          ((zone_run_state cfg8 [ZoneCall.take_smallest 0]).1.free_area o).nr_free)),
      (List.range 4).map (fun o =>
        (((zone_run_state cfg8 [ZoneCall.take_smallest 0, ZoneCall.give_back 8 0]).1.free_area o).free_list,
          ((zone_run_state cfg8 [ZoneCall.take_smallest 0, ZoneCall.give_back 8 0]).1.free_area o).nr_free)))
      = ([([9], 1), ([10], 1), ([12], 1), ([], 0)], [([], 0), ([], 0), ([], 0), ([8], 1)]) ∧
    (((∃ o1, 0 ≤ o1 ∧ o1 < cfg8.MAX_ORDER ∧
        ((zone_run_state cfg8 [ZoneCall.take_smallest 0, ZoneCall.give_back 8 0]).1.free_area o1).nr_free
          = ((zone_run_state cfg8 [ZoneCall.take_smallest 0]).1.free_area o1).nr_free + 1 ∧
        (∀ k, 0 ≤ k → k < o1 →
          ((zone_run_state cfg8 [ZoneCall.take_smallest 0, ZoneCall.give_back 8 0]).1.free_area k).nr_free + 1
            = ((zone_run_state cfg8 [ZoneCall.take_smallest 0]).1.free_area k).nr_free) ∧
        (∀ k, (k < 0 ∨ o1 < k) →
          ((zone_run_state cfg8 [ZoneCall.take_smallest 0, ZoneCall.give_back 8 0]).1.free_area k).nr_free
            = ((zone_run_state cfg8 [ZoneCall.take_smallest 0]).1.free_area k).nr_free) ∧
        ∃ p1, p1 ≤ 8 ∧ 8 + 2 ^ 0 ≤ p1 + 2 ^ o1 ∧
          p1 ∈ ((zone_run_state cfg8 [ZoneCall.take_smallest 0, ZoneCall.give_back 8 0]).1.free_area o1).free_list) ∧
      free_units cfg8 (zone_run_state cfg8 [ZoneCall.take_smallest 0, ZoneCall.give_back 8 0]).1
        = free_units cfg8 (zone_run_state cfg8 [ZoneCall.take_smallest 0]).1 + 2 ^ 0 ∧
      (∀ (z2 z3 : zone) (p2 o2 bp : Nat), o2 < cfg8.MAX_ORDER →
        __free_one_page_place_ret cfg8 z2 p2 o2 bp = some z3 →
        (z3.free_area o2).free_list =
          (if __free_one_page_tail_ret cfg8 (set_page_order z2 p2 o2) p2 o2 bp = some true then
            (z2.free_area o2).free_list ++ [p2] else p2 :: (z2.free_area o2).free_list) ∧
        (z3.free_area o2).nr_free = (z2.free_area o2).nr_free + 1 ∧
        free_units cfg8 z3 = free_units cfg8 z2 + 2 ^ o2)) ∧
    (zone_run_ok_ret cfg8 [ZoneCall.take_smallest 1, ZoneCall.take_smallest 1,
        ZoneCall.give_back 8 1] = true ∧
      (zone_run_ret cfg8 [ZoneCall.take_smallest 1, ZoneCall.take_smallest 1]).map
        (fun s => ((List.range 4).map (fun o => ((s.1.free_area o).free_list,
            (s.1.free_area o).nr_free)), s.2, __find_buddy_pfn 8 1, PageBuddy s.1 10,
          page_is_buddy_ret s.1 (__find_buddy_pfn 8 1) 1,
          (__free_one_page_ret cfg8 s.1 8 1).isSome))
        = some ([([], 0), ([], 0), ([12], 1), ([], 0)], [(10, 1), (8, 1)], 10, false, none,
          false))) :=
  ⟨(@zone_inv_of_zone_run_ret cfg8 [ZoneCall.take_smallest 0]
      (zone_run_state cfg8 [ZoneCall.take_smallest 0]) (by decide) rfl (8, 0) (by decide)).1,
    (@zone_inv_of_zone_run_ret cfg8 [ZoneCall.take_smallest 0]
      (zone_run_state cfg8 [ZoneCall.take_smallest 0]) (by decide) rfl (8, 0) (by decide)).2, rfl, by decide,
    free_one_page_counts
      (@zone_inv_of_zone_run_ret cfg8 [ZoneCall.take_smallest 0]
      (zone_run_state cfg8 [ZoneCall.take_smallest 0]) (by decide) rfl (8, 0) (by decide)).1
      (@zone_inv_of_zone_run_ret cfg8 [ZoneCall.take_smallest 0]
      (zone_run_state cfg8 [ZoneCall.take_smallest 0]) (by decide) rfl (8, 0) (by decide)).2 rfl⟩

/-! ## The drain of the cache (C13) -/

/-- C13 (free_to_pcp), what the code does: in a well-formed allocator state,
`free_unref_page_commit` of a held page pushes the page onto the cache and adds one to
`count`; if the new count is below `high` nothing else happens and the call returns; if
the new count is at least `high` it drains: `batch` pages leave the tail of the cache,
`count` goes down by `batch`, and each of them is given back with
`__free_one_page(zone, page, pfn, 0)`, first the last of the list; where these calls all
return, the cache is what the removal left and the weighted free total has grown by
`batch`.  But a give-back of the drain need not get a value from `page_is_buddy`: on
`cfg8`, after six allocations of order 0 (pages 8 to 13) and the frees of pages 8 to 12,
the free of page 13 drains page 8, whose buddy, page 9, is in the cache and not marked
free, and `page_is_buddy` ends without a `return`. -/
theorem free_unref_page_commit_drain {cfg : Config} {s : zone × List (Nat × Nat)} {p : Nat}
    {pcp : per_cpu_pages} (h : alloc_inv cfg s) (hpcp : s.1.pcp = some pcp)
    (hp : (p, 0) ∈ s.2) :
    ((pcp.count + 1 < (pcp.high : Int) →
        free_unref_page_commit_ret cfg s.1 p = some
          { s.1 with pcp := some { pcp with lists := p :: pcp.lists, count := pcp.count + 1 } }) ∧
      ((pcp.high : Int) ≤ pcp.count + 1 →
        ∃ (removed : List Nat) (pcp1 : per_cpu_pages), removed.length = pcp.batch ∧
          p :: pcp.lists = pcp1.lists ++ removed.reverse ∧
          pcp1.count = pcp.count + 1 - (pcp.batch : Int) ∧
          pcp1.high = pcp.high ∧ pcp1.batch = pcp.batch ∧
          free_unref_page_commit_ret cfg s.1 p
            = removed.foldlM (fun z pg => __free_one_page_ret cfg z pg 0)
                { s.1 with pcp := some pcp1 } ∧
          ∀ z1, free_unref_page_commit_ret cfg s.1 p = some z1 →
            z1.pcp = some pcp1 ∧ free_units cfg z1 = free_units cfg s.1 + pcp.batch)) ∧
    (run_ok_ret cfg8 (List.replicate 6 (Call.alloc 0) ++
        [8, 9, 10, 11, 12, 13].map (fun p => Call.free p 0)) = true ∧
      (run_ret cfg8 (List.replicate 6 (Call.alloc 0) ++
        [8, 9, 10, 11, 12].map (fun p => Call.free p 0))).map
        (fun s => (pcp_list s.1, pcp_count s.1, s.2, __find_buddy_pfn 8 0, PageBuddy s.1 9,
          page_is_buddy_ret s.1 (__find_buddy_pfn 8 0) 0,
          (free_unref_page_commit_ret cfg8 s.1 13).isSome))
        = some ([12, 11, 10, 9, 8], 5, [(13, 0)], 9, false, none, false)) := by
  refine ⟨⟨fun hlt => ?_, fun hge => ?_⟩, by decide, rfl⟩
  · have hn : ¬ pcp.count + 1 ≥ (pcp.high : Int) := by omega
    simp only [free_unref_page_commit_ret, hpcp, hn, if_false]
  · obtain ⟨z0, pcp0, e1, e2, _, e4⟩ := free_unref_page_commit_drain_r0 h hpcp hp
    obtain ⟨rem0, f1, f2, f3, f4, f5, _, f7⟩ := e4 hge
    have hne : (p :: pcp.lists) ≠ [] := List.cons_ne_nil _ _
    obtain ⟨removed, _, r2, r3, r4, r5, r6, r7⟩ :=
      free_pcppages_bulk_loop_spec (p :: pcp.lists).length (pcp.batch : Int)
        { pcp with lists := p :: pcp.lists, count := pcp.count + 1 } [] hne (Nat.le_refl _)
    simp only [List.nil_append] at r2 r3 r4 r5 r6 r7
    have hl2 : (p :: pcp.lists).length = pcp0.lists.length + rem0.length := by
      rw [f2, List.length_append, List.length_reverse]
    have hb : 1 ≤ pcp.batch := by
      obtain ⟨pcpa, a1, _, a3, _⟩ := h
      rw [hpcp] at a1
      cases a1
      rw [a3.2]
      exact Nat.le_max_left _ _
    have hlen : removed.length = pcp.batch := by
      have h7 := r7 (by exact_mod_cast hb)
      have : pcp.batch ≤ (p :: pcp.lists).length := by rw [hl2, f1]; omega
      omega
    have hcall : free_unref_page_commit_ret cfg s.1 p
        = removed.foldlM (fun z pg => __free_one_page_ret cfg z pg 0)
            { s.1 with pcp := some (free_pcppages_bulk_loop (p :: pcp.lists).length
              (pcp.batch : Int) { pcp with lists := p :: pcp.lists, count := pcp.count + 1 }
              []).1 } := by
      have hc : pcp.count + 1 ≥ (pcp.high : Int) := hge
      simp only [free_unref_page_commit_ret, hpcp, hc, if_true, free_pcppages_bulk_ret, hne,
        if_false, r3]
    have hsame : (free_pcppages_bulk_loop (p :: pcp.lists).length (pcp.batch : Int)
        { pcp with lists := p :: pcp.lists, count := pcp.count + 1 } []).1 = pcp0 := by
      have hli := List.append_inj' (r2.symm.trans f2)
        (by rw [List.length_reverse, List.length_reverse, hlen, f1])
      generalize (free_pcppages_bulk_loop (p :: pcp.lists).length (pcp.batch : Int)
        { pcp with lists := p :: pcp.lists, count := pcp.count + 1 } []).1 = q
        at r2 r4 r5 r6 hli
      rcases q with ⟨qc, qh, qb, ql⟩
      rcases pcp0 with ⟨c0, h0, b0, l0⟩
      simp only at r4 r5 r6 hli f3 f4 f5
      have e1 : qc = c0 := by rw [r4, f3, hlen]
      rw [e1, r5, r6, hli.1, f4, f5]
    rw [hsame] at hcall
    refine ⟨removed, pcp0, hlen, ?_, f3, f4, f5, hcall, fun z1 hz1 => ?_⟩
    · rw [← hsame]
      exact r2
    · have := free_unref_page_commit_ret_eq hz1
      rw [e1] at this
      cases this
      exact ⟨e2, f7⟩

/-- Witness of C13 on `cfg2`, where the largest block has order 1: seven pages are
allocated and pages 8, 10, 11, 12, 13 freed into the cache; `free_unref_page_commit` of
page 14 reaches `count = 6 = high` and drains page 8, whose buddy, page 9, is a free block
of order 0, so the give-back returns with the block of order 1 at page 8. -/
theorem free_unref_page_commit_drain_witness :
    alloc_inv cfg2 (run_state cfg2
      (List.replicate 7 (Call.alloc 0) ++ [8, 10, 11, 12, 13].map (fun p => Call.free p 0))) ∧
    (run_state cfg2
      (List.replicate 7 (Call.alloc 0) ++ [8, 10, 11, 12, 13].map (fun p => Call.free p 0))).1.pcp
      = some ({ count := 5, high := 6, batch := 1, lists := [13, 12, 11, 10, 8] } : per_cpu_pages) ∧
    (14, 0) ∈ (run_state cfg2
      (List.replicate 7 (Call.alloc 0) ++ [8, 10, 11, 12, 13].map (fun p => Call.free p 0))).2 ∧
    (free_unref_page_commit_ret cfg2 (run_state cfg2
      (List.replicate 7 (Call.alloc 0) ++ [8, 10, 11, 12, 13].map (fun p => Call.free p 0))).1 14).map
      (fun z => (pcp_list z, pcp_count z, (List.range 2).map (fun o => (z.free_area o).free_list)))
      = some ([14, 13, 12, 11, 10], 5, [[], [8]]) ∧
    (((({ count := 5, high := 6, batch := 1, lists := [13, 12, 11, 10, 8] } : per_cpu_pages).count + 1
          < ((({ count := 5, high := 6, batch := 1, lists := [13, 12, 11, 10, 8] } : per_cpu_pages).high : Nat) : Int) →
        free_unref_page_commit_ret cfg2 (run_state cfg2
      (List.replicate 7 (Call.alloc 0) ++ [8, 10, 11, 12, 13].map (fun p => Call.free p 0))).1 14 = some
          { (run_state cfg2
      (List.replicate 7 (Call.alloc 0) ++ [8, 10, 11, 12, 13].map (fun p => Call.free p 0))).1 with
            pcp := some { ({ count := 5, high := 6, batch := 1, lists := [13, 12, 11, 10, 8] } : per_cpu_pages) with
              lists := 14 :: ({ count := 5, high := 6, batch := 1, lists := [13, 12, 11, 10, 8] } : per_cpu_pages).lists,
              count := ({ count := 5, high := 6, batch := 1, lists := [13, 12, 11, 10, 8] } : per_cpu_pages).count + 1 } }) ∧
      (((({ count := 5, high := 6, batch := 1, lists := [13, 12, 11, 10, 8] } : per_cpu_pages).high : Nat) : Int)
          ≤ ({ count := 5, high := 6, batch := 1, lists := [13, 12, 11, 10, 8] } : per_cpu_pages).count + 1 →
        ∃ (removed : List Nat) (pcp1 : per_cpu_pages),
          removed.length = ({ count := 5, high := 6, batch := 1, lists := [13, 12, 11, 10, 8] } : per_cpu_pages).batch ∧
          14 :: ({ count := 5, high := 6, batch := 1, lists := [13, 12, 11, 10, 8] } : per_cpu_pages).lists
            = pcp1.lists ++ removed.reverse ∧
          pcp1.count = ({ count := 5, high := 6, batch := 1, lists := [13, 12, 11, 10, 8] } : per_cpu_pages).count + 1
            - ((({ count := 5, high := 6, batch := 1, lists := [13, 12, 11, 10, 8] } : per_cpu_pages).batch : Nat) : Int) ∧
          pcp1.high = ({ count := 5, high := 6, batch := 1, lists := [13, 12, 11, 10, 8] } : per_cpu_pages).high ∧
          pcp1.batch = ({ count := 5, high := 6, batch := 1, lists := [13, 12, 11, 10, 8] } : per_cpu_pages).batch ∧
          free_unref_page_commit_ret cfg2 (run_state cfg2
      (List.replicate 7 (Call.alloc 0) ++ [8, 10, 11, 12, 13].map (fun p => Call.free p 0))).1 14
            = removed.foldlM (fun z pg => __free_one_page_ret cfg2 z pg 0)
                { (run_state cfg2
      (List.replicate 7 (Call.alloc 0) ++ [8, 10, 11, 12, 13].map (fun p => Call.free p 0))).1 with pcp := some pcp1 } ∧
          ∀ z1, free_unref_page_commit_ret cfg2 (run_state cfg2
      (List.replicate 7 (Call.alloc 0) ++ [8, 10, 11, 12, 13].map (fun p => Call.free p 0))).1 14 = some z1 →
            z1.pcp = some pcp1 ∧
            free_units cfg2 z1 = free_units cfg2 (run_state cfg2
      (List.replicate 7 (Call.alloc 0) ++ [8, 10, 11, 12, 13].map (fun p => Call.free p 0))).1
              + ({ count := 5, high := 6, batch := 1, lists := [13, 12, 11, 10, 8] } : per_cpu_pages).batch)) ∧
    (run_ok_ret cfg8 (List.replicate 6 (Call.alloc 0) ++
        [8, 9, 10, 11, 12, 13].map (fun p => Call.free p 0)) = true ∧
      (run_ret cfg8 (List.replicate 6 (Call.alloc 0) ++
        [8, 9, 10, 11, 12].map (fun p => Call.free p 0))).map
        (fun s => (pcp_list s.1, pcp_count s.1, s.2, __find_buddy_pfn 8 0, PageBuddy s.1 9,
          page_is_buddy_ret s.1 (__find_buddy_pfn 8 0) 0,
          (free_unref_page_commit_ret cfg8 s.1 13).isSome))
        = some ([12, 11, 10, 9, 8], 5, [(13, 0)], 9, false, none, false))) :=
  ⟨(@run_ret_spec cfg2 (List.replicate 7 (Call.alloc 0) ++ [8, 10, 11, 12, 13].map (fun p => Call.free p 0))
      (run_state cfg2 (List.replicate 7 (Call.alloc 0) ++ [8, 10, 11, 12, 13].map (fun p => Call.free p 0))) (by decide) rfl).1, rfl, by decide, by decide,
    free_unref_page_commit_drain
      (@run_ret_spec cfg2 (List.replicate 7 (Call.alloc 0) ++ [8, 10, 11, 12, 13].map (fun p => Call.free p 0))
        (run_state cfg2 (List.replicate 7 (Call.alloc 0) ++ [8, 10, 11, 12, 13].map (fun p => Call.free p 0))) (by decide) rfl).1 rfl (by decide)⟩

/-! ## Allocate-then-free round trip (C23) -/

/-- C23 (Allocate-then-free round trip), what the code does: in a well-formed zone with no
free block of order `max_order` or above (none can exist when
`MAX_ORDER <= pageblock_order + 1`), for every order `o > 0` for which `__alloc_pages(o)`
returns a block `p`, where `__free_pages(p, o)` called right afterwards returns, it has
brought every `free_area[j].nr_free` back to its value before the allocation and every
free list back to the same blocks, up to their position in the list, and the per-CPU cache
is not touched.  But `__free_pages(p, o)` need not get a value from `page_is_buddy`: on
`cfg8`, with the block of order 1 at page 8 held, `__alloc_pages(1)` returns the block at
page 10, and `__free_pages(10, 1)` tests the held block at page 8, which is not marked
free, so `page_is_buddy` ends without a `return`. -/
theorem alloc_free_round_trip {cfg : Config} {z z1 z2 : zone} {busy : List (Nat × Nat)}
    {o p : Nat} (h : zone_inv cfg z busy)
    (hM : ∀ j, min cfg.MAX_ORDER (pageblock_order + 1) ≤ j → (z.free_area j).free_list = [])
    (ho : 0 < o) (ha : __alloc_pages cfg z o = some (z1, some p))
    (hf : __free_pages_ret cfg z1 p o = some z2) :
    (z2.pcp = z.pcp ∧
      ∀ j, (z2.free_area j).nr_free = (z.free_area j).nr_free ∧
        (z2.free_area j).free_list.Perm (z.free_area j).free_list) ∧
    (run_ok_ret cfg8 [Call.alloc 1, Call.alloc 1, Call.free 10 1] = true ∧
      (run_ret cfg8 [Call.alloc 1]).map
        (fun s => (s.2, (List.range 4).map (fun j => (s.1.free_area j).free_list),
          (__alloc_pages cfg8 s.1 1).map (fun r => r.2)))
        = some ([(8, 1)], [[], [10], [12], []], some (some 10)) ∧
      (run_ret cfg8 [Call.alloc 1, Call.alloc 1]).map
        (fun s => (s.2, (List.range 4).map (fun j => (s.1.free_area j).free_list),
          __find_buddy_pfn 10 1, PageBuddy s.1 8,
          page_is_buddy_ret s.1 (__find_buddy_pfn 10 1) 1,
          (__free_pages_ret cfg8 s.1 10 1).isSome))
        = some ([(10, 1), (8, 1)], [[], [], [12], []], 8, false, none, false)) := by
  refine ⟨?_, by decide, by decide, rfl⟩
  obtain ⟨z3, e1, e2⟩ := alloc_free_round_trip_r0 h hM ho ha
  rw [free_pages_ret_eq hf] at e1
  cases e1
  exact e2

/-- Witness of C23 on the zone set up by `memory_init` on `cfg8` (one free block of order
3 at page 8): `__alloc_pages(1)` returns the block at page 8 and leaves the blocks at page
10 (order 1) and page 12 (order 2) free; `__free_pages(8, 1)` merges them back into the
block of order 3 at page 8, whose buddy lies outside the region. -/
theorem alloc_free_round_trip_witness :
    zone_inv cfg8 (run_state cfg8 []).1
      ((pcp_list (run_state cfg8 []).1).map (fun q => (q, 0)) ++ (run_state cfg8 []).2) ∧
    (∀ j, min cfg8.MAX_ORDER (pageblock_order + 1) ≤ j →
      ((run_state cfg8 []).1.free_area j).free_list = []) ∧
    0 < 1 ∧
    __alloc_pages cfg8 (run_state cfg8 []).1 1
      = some ((__rmqueue_smallest cfg8 (run_state cfg8 []).1 1).1, some 8) ∧
    __free_pages_ret cfg8 (__rmqueue_smallest cfg8 (run_state cfg8 []).1 1).1 8 1
      = some (run_state cfg8 [Call.alloc 1, Call.free 8 1]).1 ∧
    ((List.range 4).map (fun j => ((run_state cfg8 []).1.free_area j).free_list),
      (List.range 4).map (fun j => ((__rmqueue_smallest cfg8 (run_state cfg8 []).1 1).1.free_area j).free_list),
      (List.range 4).map (fun j => ((run_state cfg8 [Call.alloc 1, Call.free 8 1]).1.free_area j).free_list))
      = ([[], [], [], [8]], [[], [10], [12], []], [[], [], [], [8]]) ∧
    (((run_state cfg8 [Call.alloc 1, Call.free 8 1]).1.pcp = (run_state cfg8 []).1.pcp ∧
      ∀ j, ((run_state cfg8 [Call.alloc 1, Call.free 8 1]).1.free_area j).nr_free
          = ((run_state cfg8 []).1.free_area j).nr_free ∧
        ((run_state cfg8 [Call.alloc 1, Call.free 8 1]).1.free_area j).free_list.Perm
          ((run_state cfg8 []).1.free_area j).free_list) ∧
    (run_ok_ret cfg8 [Call.alloc 1, Call.alloc 1, Call.free 10 1] = true ∧
      (run_ret cfg8 [Call.alloc 1]).map
        (fun s => (s.2, (List.range 4).map (fun j => (s.1.free_area j).free_list),
          (__alloc_pages cfg8 s.1 1).map (fun r => r.2)))
        = some ([(8, 1)], [[], [10], [12], []], some (some 10)) ∧
      (run_ret cfg8 [Call.alloc 1, Call.alloc 1]).map
        (fun s => (s.2, (List.range 4).map (fun j => (s.1.free_area j).free_list),
          __find_buddy_pfn 10 1, PageBuddy s.1 8,
          page_is_buddy_ret s.1 (__find_buddy_pfn 10 1) 1,
          (__free_pages_ret cfg8 s.1 10 1).isSome))
        = some ([(10, 1), (8, 1)], [[], [], [12], []], 8, false, none, false))) :=
  ⟨(zone_inv_of_alloc_inv
      (@run_ret_spec cfg8 [] (run_state cfg8 []) (by decide) rfl).1),
    fun j hj => (zone_inv_of_alloc_inv
      (@run_ret_spec cfg8 [] (run_state cfg8 []) (by decide) rfl).1).empty_above j hj,
    by decide, rfl, rfl, by decide,
    @alloc_free_round_trip cfg8 (run_state cfg8 []).1
      (__rmqueue_smallest cfg8 (run_state cfg8 []).1 1).1
      (run_state cfg8 [Call.alloc 1, Call.free 8 1]).1
      ((pcp_list (run_state cfg8 []).1).map (fun q => (q, 0)) ++ (run_state cfg8 []).2) 1 8
      (zone_inv_of_alloc_inv
      (@run_ret_spec cfg8 [] (run_state cfg8 []) (by decide) rfl).1)
      (fun j hj => (zone_inv_of_alloc_inv
      (@run_ret_spec cfg8 [] (run_state cfg8 []) (by decide) rfl).1).empty_above j hj)
      (by decide) rfl rfl⟩

/-! ## The result of the merge (C26) -/

/-- C26 (Merge result), what the code does: for every
`__free_one_page(zone, page, pfn, order)` in a well-formed zone in which the block
`(pfn, order)` is busy (so `pfn` is aligned to `2^order`), with `order <= max_order - 1`,
where the merge loop returns it has stopped at a block `(p1, o1)` with
`order <= o1 <= max_order - 1`, where `p1` is `pfn` with the bits below `o1` cleared, and
the block holds the freed block; at every order `k` from `order` to `o1 - 1` the buddy of
the block of that order was free, and at the end of the loop it is linked in no free area
and carries no `PageBuddy` mark, and `free_area[k].nr_free` is one less; the loop has
stopped because `o1 = max_order - 1` or because the buddy of order `o1` of `(p1, o1)` lies
outside the region; and where `__free_one_page` returns, it ends with `(p1, o1)` as the one
free block that holds the freed block.  But the loop has no third way to stop: where the
buddy lies in the region and is not a free block of the same order, `page_is_buddy` ends
without a `return`.  On `cfg8`, after `__rmqueue_smallest` of order 1 twice (blocks at
pages 8 and 10), `__free_one_page(8, 1)` tests the held block at page 10 and the loop has
no value. -/
theorem merge_result {cfg : Config} {z zm : zone} {busy : List (Nat × Nat)}
    {pfn order p1 o1 bp : Nat}
    (h : zone_inv cfg z ((pfn, order) :: busy)) (hpcp : ∀ q ∈ pcp_list z, (q, 0) ∈ busy)
    (ho : order ≤ min cfg.MAX_ORDER (pageblock_order + 1) - 1)
    (hm : __free_one_page_merge_ret cfg (min cfg.MAX_ORDER (pageblock_order + 1))
      (min cfg.MAX_ORDER (pageblock_order + 1) - 1 - order) z pfn order 0
        = some (zm, p1, o1, bp)) :
    (order ≤ o1 ∧ o1 ≤ min cfg.MAX_ORDER (pageblock_order + 1) - 1 ∧
      p1 = pfn / 2 ^ o1 * 2 ^ o1 ∧ p1 ≤ pfn ∧ pfn + 2 ^ order ≤ p1 + 2 ^ o1 ∧
      (∀ k, order ≤ k → k < o1 →
        __find_buddy_pfn (pfn / 2 ^ k * 2 ^ k) k ∈ (z.free_area k).free_list ∧
        (∀ j, __find_buddy_pfn (pfn / 2 ^ k * 2 ^ k) k ∉ (zm.free_area j).free_list) ∧
        PageBuddy zm (__find_buddy_pfn (pfn / 2 ^ k * 2 ^ k) k) = false ∧
        (zm.free_area k).nr_free + 1 = (z.free_area k).nr_free) ∧
      (o1 = min cfg.MAX_ORDER (pageblock_order + 1) - 1 ∨
        pfn_valid_within cfg (__find_buddy_pfn p1 o1) = false) ∧
      ∀ z1, __free_one_page_ret cfg z pfn order = some z1 →
        p1 ∈ (z1.free_area o1).free_list ∧
        (z1.free_area o1).free_list.count p1 = 1 ∧
        (∀ o2 p2, p2 ∈ (z1.free_area o2).free_list →
          ¬ disjoint_blocks (p2, o2) (pfn, order) → p2 = p1 ∧ o2 = o1)) ∧
    (zone_run_ok_ret cfg8 [ZoneCall.take_smallest 1, ZoneCall.take_smallest 1,
        ZoneCall.give_back 8 1] = true ∧
      (zone_run_ret cfg8 [ZoneCall.take_smallest 1, ZoneCall.take_smallest 1]).map
        (fun s => (s.2, __find_buddy_pfn 8 1, pfn_valid_within cfg8 (__find_buddy_pfn 8 1),
          PageBuddy s.1 10, page_is_buddy_ret s.1 (__find_buddy_pfn 8 1) 1,
          (__free_one_page_merge_ret cfg8 (min cfg8.MAX_ORDER (pageblock_order + 1))
            (min cfg8.MAX_ORDER (pageblock_order + 1) - 1 - 1) s.1 8 1 0).isSome,
          (__free_one_page_ret cfg8 s.1 8 1).isSome))
        = some ([(10, 1), (8, 1)], 10, true, false, none, false, false)) := by
  refine ⟨?_, by decide, rfl⟩
  have e := free_one_page_merge_ret_eq cfg _ _ _ _ _ _ _ hm
  obtain ⟨zm0, q1, r1, bp0, c0, c1, c2, c3, c4, c5, c6, c7, c8, c9, c10⟩ :=
    merge_result_r0 h hpcp ho
  rw [e] at c0
  simp only [Prod.mk.injEq] at c0
  obtain ⟨rfl, rfl, rfl, rfl⟩ := c0
  refine ⟨c1, c2, c3, c4, c5, c6, ?_, fun z1 hz1 => ?_⟩
  · rcases free_one_page_merge_ret_exit cfg _ _ _ _ _ _ _ _ _ _ (Nat.le_refl _) hm with hx | hx
    · left
      omega
    · exact Or.inr hx
  · rw [free_one_page_ret_eq hz1] at c8 c9 c10
    exact ⟨c8, c9, c10⟩

/-- Witness of C26 on `cfg8`: page 8 is taken, which leaves the free blocks at pages 9, 10
and 12; the merge loop of `__free_one_page(8, 0)` absorbs the three of them and stops at
the block of order 3 at page 8, whose buddy, page 0, lies outside the region. -/
theorem merge_result_witness :
    zone_inv cfg8 (zone_run_state cfg8 [ZoneCall.take_smallest 0]).1
      ((8, 0) :: ((zone_run_state cfg8 [ZoneCall.take_smallest 0]).2.erase (8, 0))) ∧
    (∀ q ∈ pcp_list (zone_run_state cfg8 [ZoneCall.take_smallest 0]).1,
      (q, 0) ∈ ((zone_run_state cfg8 [ZoneCall.take_smallest 0]).2.erase (8, 0))) ∧
    0 ≤ min cfg8.MAX_ORDER (pageblock_order + 1) - 1 ∧
    (__free_one_page_merge_ret cfg8 (min cfg8.MAX_ORDER (pageblock_order + 1))
        (min cfg8.MAX_ORDER (pageblock_order + 1) - 1 - 0) (zone_run_state cfg8 [ZoneCall.take_smallest 0]).1 8 0 0)
      = some ((((__free_one_page_merge_ret cfg8 (min cfg8.MAX_ORDER (pageblock_order + 1))
        (min cfg8.MAX_ORDER (pageblock_order + 1) - 1 - 0) (zone_run_state cfg8 [ZoneCall.take_smallest 0]).1 8 0 0).getD
        ((zone_run_state cfg8 [ZoneCall.take_smallest 0]).1, 0, 0, 0)).1), 8, 3, 0) ∧
    ((List.range 4).map (fun o => ((zone_run_state cfg8 [ZoneCall.take_smallest 0]).1.free_area o).free_list),
      (List.range 4).map (fun o => ((((__free_one_page_merge_ret cfg8 (min cfg8.MAX_ORDER (pageblock_order + 1))
        (min cfg8.MAX_ORDER (pageblock_order + 1) - 1 - 0) (zone_run_state cfg8 [ZoneCall.take_smallest 0]).1 8 0 0).getD
        ((zone_run_state cfg8 [ZoneCall.take_smallest 0]).1, 0, 0, 0)).1).free_area o).free_list),
      __find_buddy_pfn 8 3, pfn_valid_within cfg8 (__find_buddy_pfn 8 3))
      = ([[9], [10], [12], []], [[], [], [], []], 0, false) ∧
    ((0 ≤ 3 ∧ 3 ≤ min cfg8.MAX_ORDER (pageblock_order + 1) - 1 ∧
      8 = 8 / 2 ^ 3 * 2 ^ 3 ∧ 8 ≤ 8 ∧ 8 + 2 ^ 0 ≤ 8 + 2 ^ 3 ∧
      (∀ k, 0 ≤ k → k < 3 →
        __find_buddy_pfn (8 / 2 ^ k * 2 ^ k) k ∈ ((zone_run_state cfg8 [ZoneCall.take_smallest 0]).1.free_area k).free_list ∧
        (∀ j, __find_buddy_pfn (8 / 2 ^ k * 2 ^ k) k ∉ ((((__free_one_page_merge_ret cfg8 (min cfg8.MAX_ORDER (pageblock_order + 1))
        (min cfg8.MAX_ORDER (pageblock_order + 1) - 1 - 0) (zone_run_state cfg8 [ZoneCall.take_smallest 0]).1 8 0 0).getD
        ((zone_run_state cfg8 [ZoneCall.take_smallest 0]).1, 0, 0, 0)).1).free_area j).free_list) ∧
        PageBuddy (((__free_one_page_merge_ret cfg8 (min cfg8.MAX_ORDER (pageblock_order + 1))
        (min cfg8.MAX_ORDER (pageblock_order + 1) - 1 - 0) (zone_run_state cfg8 [ZoneCall.take_smallest 0]).1 8 0 0).getD
        ((zone_run_state cfg8 [ZoneCall.take_smallest 0]).1, 0, 0, 0)).1) (__find_buddy_pfn (8 / 2 ^ k * 2 ^ k) k) = false ∧
        ((((__free_one_page_merge_ret cfg8 (min cfg8.MAX_ORDER (pageblock_order + 1))
        (min cfg8.MAX_ORDER (pageblock_order + 1) - 1 - 0) (zone_run_state cfg8 [ZoneCall.take_smallest 0]).1 8 0 0).getD
        ((zone_run_state cfg8 [ZoneCall.take_smallest 0]).1, 0, 0, 0)).1).free_area k).nr_free + 1 = ((zone_run_state cfg8 [ZoneCall.take_smallest 0]).1.free_area k).nr_free) ∧
      (3 = min cfg8.MAX_ORDER (pageblock_order + 1) - 1 ∨
        pfn_valid_within cfg8 (__find_buddy_pfn 8 3) = false) ∧
      ∀ z1, __free_one_page_ret cfg8 (zone_run_state cfg8 [ZoneCall.take_smallest 0]).1 8 0 = some z1 →
        8 ∈ (z1.free_area 3).free_list ∧
        (z1.free_area 3).free_list.count 8 = 1 ∧
        (∀ o2 p2, p2 ∈ (z1.free_area o2).free_list →
          ¬ disjoint_blocks (p2, o2) (8, 0) → p2 = 8 ∧ o2 = 3)) ∧
    (zone_run_ok_ret cfg8 [ZoneCall.take_smallest 1, ZoneCall.take_smallest 1,
        ZoneCall.give_back 8 1] = true ∧
      (zone_run_ret cfg8 [ZoneCall.take_smallest 1, ZoneCall.take_smallest 1]).map
        (fun s => (s.2, __find_buddy_pfn 8 1, pfn_valid_within cfg8 (__find_buddy_pfn 8 1),
          PageBuddy s.1 10, page_is_buddy_ret s.1 (__find_buddy_pfn 8 1) 1,
          (__free_one_page_merge_ret cfg8 (min cfg8.MAX_ORDER (pageblock_order + 1))
            (min cfg8.MAX_ORDER (pageblock_order + 1) - 1 - 1) s.1 8 1 0).isSome,
          (__free_one_page_ret cfg8 s.1 8 1).isSome))
        = some ([(10, 1), (8, 1)], 10, true, false, none, false, false))) :=
  ⟨(@zone_inv_of_zone_run_ret cfg8 [ZoneCall.take_smallest 0]
      (zone_run_state cfg8 [ZoneCall.take_smallest 0]) (by decide) rfl (8, 0) (by decide)).1,
    (@zone_inv_of_zone_run_ret cfg8 [ZoneCall.take_smallest 0]
      (zone_run_state cfg8 [ZoneCall.take_smallest 0]) (by decide) rfl (8, 0) (by decide)).2, by decide, rfl, by decide,
    @merge_result cfg8 (zone_run_state cfg8 [ZoneCall.take_smallest 0]).1
      (((__free_one_page_merge_ret cfg8 (min cfg8.MAX_ORDER (pageblock_order + 1))
        (min cfg8.MAX_ORDER (pageblock_order + 1) - 1 - 0) (zone_run_state cfg8 [ZoneCall.take_smallest 0]).1 8 0 0).getD
        ((zone_run_state cfg8 [ZoneCall.take_smallest 0]).1, 0, 0, 0)).1)
      ((zone_run_state cfg8 [ZoneCall.take_smallest 0]).2.erase (8, 0)) 8 0 8 3 0
      (@zone_inv_of_zone_run_ret cfg8 [ZoneCall.take_smallest 0]
      (zone_run_state cfg8 [ZoneCall.take_smallest 0]) (by decide) rfl (8, 0) (by decide)).1
      (@zone_inv_of_zone_run_ret cfg8 [ZoneCall.take_smallest 0]
      (zone_run_state cfg8 [ZoneCall.take_smallest 0]) (by decide) rfl (8, 0) (by decide)).2 (by decide) rfl⟩

/-! ## The placement policy (C27) -/

/-- In a well-formed zone in which the block `(p, o)` is busy, `page_is_buddy` called at
order `o + 1` on a page of the region, after `set_page_order(page, o)`, returns 1 if the
page heads a free block of order `o + 1` and ends without a value if not. -/
theorem page_is_buddy_ret_parent {cfg : Config} {z : zone} {busy : List (Nat × Nat)}
    {p o : Nat} (h : zone_inv cfg z ((p, o) :: busy)) (b : Nat)
    (hv : pfn_valid_within cfg b = true) :
    (b ∈ (z.free_area (o + 1)).free_list →
      page_is_buddy_ret (set_page_order z p o) b (o + 1) = some 1) ∧
    (b ∉ (z.free_area (o + 1)).free_list →
      page_is_buddy_ret (set_page_order z p o) b (o + 1) = none) := by
  have hfree : ∀ q, q ∈ (z.free_area (o + 1)).free_list → q ≠ p := by
    intro q hq e
    subst e
    have hd := h.busy_free (q, o) (List.mem_cons_self _ _) (o + 1) q hq
    have h1 := Nat.two_pow_pos o
    have h2 := Nat.two_pow_pos (o + 1)
    simp only [disjoint_blocks] at hd
    omega
  refine ⟨fun hb => ?_, fun hb => ?_⟩
  · have hm := h.marked (o + 1) b hb
    have hne := hfree b hb
    simp only [page_is_buddy_ret, PageBuddy_set_page_order, page_order_set_page_order, hne,
      if_false, hm.1, hm.2, beq_self_eq_true, Bool.and_self, if_true]
  · rw [page_is_buddy_ret_none_iff]
    simp only [PageBuddy_set_page_order, page_order_set_page_order]
    by_cases hbp : b = p
    · simp only [hbp, if_true]
      omega
    · simp only [hbp, if_false]
      intro hh
      have := h.linked b hv hh.1
      rw [hh.2] at this
      exact hb this

/-- C27 as amended (Placement policy): in a well-formed zone in which the block
given back is busy, let the merge loop of `__free_one_page` return with the block
`(p1, o1)` and with `bp` the last buddy index it computed.  The block is linked at the
head of `free_area[o1]` if `o1` is 0, or `o1 >= MAX_ORDER - 2`, or `bp` lies outside the
region, or the buddy of order `o1 + 1` of the parent `bp & p1` lies outside the region.
In the remaining case (`0 < o1 < MAX_ORDER - 2`, both inside the region) the block is
linked at the tail if that buddy is a free block of order `o1 + 1`, and if it is not,
`page_is_buddy` ends without a `return` and the placement has no value.  Where the loop
stopped below `max_order - 1`, it stopped at a buddy outside the region, `bp` is that
buddy, and the block goes to the head.  Where the call returns, `free_area[o1].nr_free`
has gone up by one.  All this is for a call in which the loop body runs
(`order < max_order - 1`) or `buddy_pfn` is not read (`order == 0` or
`order >= MAX_ORDER - 2`); in the remaining calls the test reads `buddy_pfn` before it is
assigned and the call has no value. -/
theorem placement_policy {cfg : Config} {z zm : zone} {busy : List (Nat × Nat)}
    {pfn order p1 o1 bp : Nat}
    (h : zone_inv cfg z ((pfn, order) :: busy)) (hpcp : ∀ q ∈ pcp_list z, (q, 0) ∈ busy)
    (hb : order < min cfg.MAX_ORDER (pageblock_order + 1) - 1 ∨ order = 0 ∨
      cfg.MAX_ORDER - 2 ≤ order)
    (hm : __free_one_page_merge_ret cfg (min cfg.MAX_ORDER (pageblock_order + 1))
      (min cfg.MAX_ORDER (pageblock_order + 1) - 1 - order) z pfn order 0
        = some (zm, p1, o1, bp)) :
    order ≤ o1 ∧
    ((o1 = 0 ∨ cfg.MAX_ORDER - 2 ≤ o1 ∨ pfn_valid_within cfg bp = false ∨
        pfn_valid_within cfg (__find_buddy_pfn (bp &&& p1) (o1 + 1)) = false) →
      ∃ z1, __free_one_page_ret cfg z pfn order = some z1 ∧
        (z1.free_area o1).free_list = p1 :: (z.free_area o1).free_list ∧
        (z1.free_area o1).nr_free = (z.free_area o1).nr_free + 1) ∧
    (0 < o1 → o1 < cfg.MAX_ORDER - 2 → pfn_valid_within cfg bp = true →
      pfn_valid_within cfg (__find_buddy_pfn (bp &&& p1) (o1 + 1)) = true →
      (__find_buddy_pfn (bp &&& p1) (o1 + 1) ∈ (z.free_area (o1 + 1)).free_list →
        ∃ z1, __free_one_page_ret cfg z pfn order = some z1 ∧
          (z1.free_area o1).free_list = (z.free_area o1).free_list ++ [p1] ∧
          (z1.free_area o1).nr_free = (z.free_area o1).nr_free + 1) ∧
      (__find_buddy_pfn (bp &&& p1) (o1 + 1) ∉ (z.free_area (o1 + 1)).free_list →
        page_is_buddy_ret (set_page_order zm p1 o1)
          (__find_buddy_pfn (bp &&& p1) (o1 + 1)) (o1 + 1) = none ∧
        __free_one_page_ret cfg z pfn order = none)) ∧
    (o1 < min cfg.MAX_ORDER (pageblock_order + 1) - 1 →
      bp = __find_buddy_pfn p1 o1 ∧ pfn_valid_within cfg bp = false) ∧
    (∀ (z2 : zone) (p2 o2 : Nat),
      ¬ (o2 < min cfg.MAX_ORDER (pageblock_order + 1) - 1 ∨ o2 = 0 ∨ cfg.MAX_ORDER - 2 ≤ o2) →
      __free_one_page_ret cfg z2 p2 o2 = none) := by
  have e := free_one_page_merge_ret_eq cfg _ _ _ _ _ _ _ hm
  obtain ⟨t1, _, _, _, t5, _⟩ := free_one_page_merge_trace
    (min cfg.MAX_ORDER (pageblock_order + 1) - 1 - order) z pfn order 0 h hpcp
  obtain ⟨m1, _, _, _, _⟩ := free_one_page_merge_spec
    (min cfg.MAX_ORDER (pageblock_order + 1) - 1 - order) z pfn order 0 h hpcp (Nat.le_refl _)
  have hbp := free_one_page_merge_bp cfg (min cfg.MAX_ORDER (pageblock_order + 1))
    (min cfg.MAX_ORDER (pageblock_order + 1) - 1 - order) z pfn order 0 (Nat.le_refl _)
  rw [e] at t1 t5 m1 hbp
  simp only at t1 t5 m1 hbp
  have hcall : __free_one_page_ret cfg z pfn order = __free_one_page_place_ret cfg zm p1 o1 bp := by
    unfold __free_one_page_ret
    rw [if_pos hb, hm]
    rfl
  have hfa : zm.free_area o1 = z.free_area o1 := t5 o1 (Or.inr (Nat.le_refl _))
  have hfa1 : zm.free_area (o1 + 1) = z.free_area (o1 + 1) := t5 (o1 + 1) (Or.inr (Nat.le_succ _))
  have hplace : ∀ t, __free_one_page_tail_ret cfg (set_page_order zm p1 o1) p1 o1 bp = some t →
      ∃ z1, __free_one_page_ret cfg z pfn order = some z1 ∧
        (z1.free_area o1).free_list
          = (if t then (z.free_area o1).free_list ++ [p1] else p1 :: (z.free_area o1).free_list) ∧
        (z1.free_area o1).nr_free = (z.free_area o1).nr_free + 1 := by
    intro t ht
    rw [hcall]
    unfold __free_one_page_place_ret
    rw [ht]
    refine ⟨_, rfl, ?_, ?_⟩
    · simp only [set_free_area_free_area, if_true, hfa]
    · simp only [set_free_area_free_area, if_true, hfa]
  have hpar := page_is_buddy_ret_parent m1
  rw [hfa1] at hpar
  refine ⟨t1, fun hh => ?_, fun h1 h2 h3 h4 => ⟨fun hin => ?_, fun hout => ?_⟩, fun hlt => ?_,
    fun z2 p2 o2 hn => by unfold __free_one_page_ret; rw [if_neg hn]⟩
  · have ht : __free_one_page_tail_ret cfg (set_page_order zm p1 o1) p1 o1 bp = some false := by
      unfold __free_one_page_tail_ret
      by_cases h0 : o1 = 0
      · rw [if_pos h0]
      · rw [if_neg h0]
        rcases hh with hh | hh | hh | hh
        · exact absurd hh h0
        · have hn : ¬ o1 < cfg.MAX_ORDER - 2 := by omega
          simp only [hn, decide_False, Bool.false_and, Bool.false_eq_true, if_false]
        · simp only [hh, Bool.and_false, Bool.false_eq_true, if_false]
        · by_cases hc : (decide (o1 < cfg.MAX_ORDER - 2) && pfn_valid_within cfg bp) = true
          · rw [if_pos hc]
            simp only [hh, Bool.false_eq_true, if_false]
          · rw [if_neg hc]
    obtain ⟨z1, a1, a2, a3⟩ := hplace false ht
    exact ⟨z1, a1, by simpa using a2, a3⟩
  · have ht : __free_one_page_tail_ret cfg (set_page_order zm p1 o1) p1 o1 bp = some true := by
      unfold __free_one_page_tail_ret
      have h0 : ¬ o1 = 0 := by omega
      simp only [h0, if_false, h2, decide_True, h3, Bool.and_self, if_true, h4,
        (hpar _ h4).1 hin, Option.map_some']
      rfl
    obtain ⟨z1, a1, a2, a3⟩ := hplace true ht
    exact ⟨z1, a1, by simpa using a2, a3⟩
  · have hn := (hpar _ h4).2 hout
    refine ⟨hn, ?_⟩
    rw [hcall]
    unfold __free_one_page_place_ret __free_one_page_tail_ret
    have h0 : ¬ o1 = 0 := by omega
    simp only [h0, if_false, h2, decide_True, h3, Bool.and_self, if_true, h4, hn,
      Option.map_none']
  · have hb := (hbp hlt).1
    refine ⟨hb, ?_⟩
    rcases free_one_page_merge_ret_exit cfg _ _ _ _ _ _ _ _ _ _ (Nat.le_refl _) hm with hx | hx
    · exact absurd hlt hx
    · rw [hb]
      exact hx

/-- Witness of C27 as amended on `cfg13`, where `MAX_ORDER - 2 = 11` lies above the last
order, 10, that the merge loop reaches: `__alloc_pages(9)` returns the block at page 4096 and leaves
free blocks at pages 4608 (order 9), 5120 (order 10) and 6144 (order 11);
`__free_pages(4096, 9)` absorbs the block at page 4608 and stops at order 10 with
`bp = 4608`; the parent `bp & p1` is 4096, its buddy of order 11 is page 6144, a free
block of order 11, and the block is linked at the tail of `free_area[10]`, after the block
at page 5120. -/
theorem placement_policy_witness :
    zone_inv cfg13 (run_state cfg13 [Call.alloc 9]).1
      ((4096, 9) :: ((pcp_list (run_state cfg13 [Call.alloc 9]).1).map (fun q => (q, 0)) ++ (run_state cfg13 [Call.alloc 9]).2.erase (4096, 9))) ∧
    (∀ q ∈ pcp_list (run_state cfg13 [Call.alloc 9]).1,
      (q, 0) ∈ ((pcp_list (run_state cfg13 [Call.alloc 9]).1).map (fun q => (q, 0)) ++ (run_state cfg13 [Call.alloc 9]).2.erase (4096, 9))) ∧
    (9 < min cfg13.MAX_ORDER (pageblock_order + 1) - 1 ∨ 9 = 0 ∨ cfg13.MAX_ORDER - 2 ≤ 9) ∧
    (__free_one_page_merge_ret cfg13 (min cfg13.MAX_ORDER (pageblock_order + 1))
        (min cfg13.MAX_ORDER (pageblock_order + 1) - 1 - 9) (run_state cfg13 [Call.alloc 9]).1 4096 9 0)
      = some ((((__free_one_page_merge_ret cfg13 (min cfg13.MAX_ORDER (pageblock_order + 1))
        (min cfg13.MAX_ORDER (pageblock_order + 1) - 1 - 9) (run_state cfg13 [Call.alloc 9]).1 4096 9 0).getD
        ((run_state cfg13 [Call.alloc 9]).1, 0, 0, 0)).1), 4096, 10, 4608) ∧
    ((List.range' 9 4).map (fun o => ((run_state cfg13 [Call.alloc 9]).1.free_area o).free_list),
      __find_buddy_pfn (4608 &&& 4096) (10 + 1),
      (__free_one_page_ret cfg13 (run_state cfg13 [Call.alloc 9]).1 4096 9).map
        (fun z => (List.range' 9 4).map (fun o => (z.free_area o).free_list)))
      = ([[4608], [5120], [6144], []], 6144, some [[], [5120, 4096], [6144], []]) ∧
    (9 ≤ 10 ∧
    ((10 = 0 ∨ cfg13.MAX_ORDER - 2 ≤ 10 ∨ pfn_valid_within cfg13 4608 = false ∨
        pfn_valid_within cfg13 (__find_buddy_pfn (4608 &&& 4096) (10 + 1)) = false) →
      ∃ z1, __free_one_page_ret cfg13 (run_state cfg13 [Call.alloc 9]).1 4096 9 = some z1 ∧
        (z1.free_area 10).free_list = 4096 :: ((run_state cfg13 [Call.alloc 9]).1.free_area 10).free_list ∧
        (z1.free_area 10).nr_free = ((run_state cfg13 [Call.alloc 9]).1.free_area 10).nr_free + 1) ∧
    (0 < 10 → 10 < cfg13.MAX_ORDER - 2 → pfn_valid_within cfg13 4608 = true →
      pfn_valid_within cfg13 (__find_buddy_pfn (4608 &&& 4096) (10 + 1)) = true →
      (__find_buddy_pfn (4608 &&& 4096) (10 + 1) ∈ ((run_state cfg13 [Call.alloc 9]).1.free_area (10 + 1)).free_list →
        ∃ z1, __free_one_page_ret cfg13 (run_state cfg13 [Call.alloc 9]).1 4096 9 = some z1 ∧
          (z1.free_area 10).free_list = ((run_state cfg13 [Call.alloc 9]).1.free_area 10).free_list ++ [4096] ∧
          (z1.free_area 10).nr_free = ((run_state cfg13 [Call.alloc 9]).1.free_area 10).nr_free + 1) ∧
      (__find_buddy_pfn (4608 &&& 4096) (10 + 1) ∉ ((run_state cfg13 [Call.alloc 9]).1.free_area (10 + 1)).free_list →
        page_is_buddy_ret (set_page_order (((__free_one_page_merge_ret cfg13 (min cfg13.MAX_ORDER (pageblock_order + 1))
        (min cfg13.MAX_ORDER (pageblock_order + 1) - 1 - 9) (run_state cfg13 [Call.alloc 9]).1 4096 9 0).getD
        ((run_state cfg13 [Call.alloc 9]).1, 0, 0, 0)).1) 4096 10)
          (__find_buddy_pfn (4608 &&& 4096) (10 + 1)) (10 + 1) = none ∧
        __free_one_page_ret cfg13 (run_state cfg13 [Call.alloc 9]).1 4096 9 = none)) ∧
    (10 < min cfg13.MAX_ORDER (pageblock_order + 1) - 1 →
      4608 = __find_buddy_pfn 4096 10 ∧ pfn_valid_within cfg13 4608 = false) ∧
    (∀ (z2 : zone) (p2 o2 : Nat),
      ¬ (o2 < min cfg13.MAX_ORDER (pageblock_order + 1) - 1 ∨ o2 = 0 ∨
        cfg13.MAX_ORDER - 2 ≤ o2) →
      __free_one_page_ret cfg13 z2 p2 o2 = none)) :=
  ⟨(@zone_inv_of_run_ret cfg13 [Call.alloc 9] (run_state cfg13 [Call.alloc 9])
      (by decide) rfl (4096, 9) (by decide)).1,
    (@zone_inv_of_run_ret cfg13 [Call.alloc 9] (run_state cfg13 [Call.alloc 9])
      (by decide) rfl (4096, 9) (by decide)).2, by decide, rfl, by decide,
    @placement_policy cfg13 (run_state cfg13 [Call.alloc 9]).1
      (((__free_one_page_merge_ret cfg13 (min cfg13.MAX_ORDER (pageblock_order + 1))
        (min cfg13.MAX_ORDER (pageblock_order + 1) - 1 - 9) (run_state cfg13 [Call.alloc 9]).1 4096 9 0).getD
        ((run_state cfg13 [Call.alloc 9]).1, 0, 0, 0)).1)
      ((pcp_list (run_state cfg13 [Call.alloc 9]).1).map (fun q => (q, 0)) ++ (run_state cfg13 [Call.alloc 9]).2.erase (4096, 9)) 4096 9 4096 10 4608
      (@zone_inv_of_run_ret cfg13 [Call.alloc 9] (run_state cfg13 [Call.alloc 9])
      (by decide) rfl (4096, 9) (by decide)).1
      (@zone_inv_of_run_ret cfg13 [Call.alloc 9] (run_state cfg13 [Call.alloc 9])
      (by decide) rfl (4096, 9) (by decide)).2 (by decide) rfl⟩

/-- C27 as stated fails: on `cfg64` (the region of pages 16 to 79, which `memory_init`
frees as the blocks of order 4 at page 16, of order 5 at page 32 and of order 4 at page 64)
the two blocks of order 4 are allocated and the one at page 64 is freed; then
`__free_pages(16, 4)` stops merging at order 4, which is below the last order 10, because
the buddy, page 0, lies outside the region; the parent `0 & 16` is page 0 and its buddy of
order 5, page 32, is a free block of order 5; yet the block is linked at the head of
`free_area[4]`, before the block at page 64, not at the tail: the code does not look at
the parent's buddy when the block's own buddy lies outside the region. -/
theorem placement_policy_counterexample :
    run_ok_ret cfg64 [Call.alloc 4, Call.alloc 4, Call.free 64 4, Call.free 16 4] = true ∧
    memory_init_blocks cfg64 (cfg64.end_pfn - cfg64.start_pfn) cfg64.start_pfn
      = [(16, 4), (32, 5), (64, 4)] ∧
    min cfg64.MAX_ORDER (pageblock_order + 1) - 1 = 10 ∧
    (run_ret cfg64 [Call.alloc 4, Call.alloc 4, Call.free 64 4]).map
      (fun s => (s.2, (s.1.free_area 4).free_list, (s.1.free_area 5).free_list,
        (__free_one_page_merge_ret cfg64 (min cfg64.MAX_ORDER (pageblock_order + 1))
          (min cfg64.MAX_ORDER (pageblock_order + 1) - 1 - 4) s.1 16 4 0).map
            (fun m => (m.2.1, m.2.2.1, m.2.2.2)),
        pfn_valid_within cfg64 (__find_buddy_pfn 16 4),
        __find_buddy_pfn (__find_buddy_pfn 16 4 &&& 16) (4 + 1),
        PageBuddy s.1 32, page_order s.1 32))
      = some ([(16, 4)], [64], [32], some (16, 4, 0), false, 32, true, 5) ∧
    (run_ret cfg64 [Call.alloc 4, Call.alloc 4, Call.free 64 4, Call.free 16 4]).map
      (fun s => ((s.1.free_area 4).free_list, (s.1.free_area 5).free_list))
      = some ([16, 64], [32]) :=
  ⟨by decide, by decide, by decide, rfl, by decide⟩

/-! ## Reuse of the unit freed last (C31) -/

/-- C31 (Hot-unit reuse), what the code does: with `BATCH_SIZE >= 1`, in every state
reached from `memory_init` by `__alloc_pages` and `__free_pages` calls (frees of held
blocks) all of which have returned, the tunables satisfy `batch >= 1` and `high > batch`,
and for every order-0 unit `u` held by the caller, where `__free_pages(u, 0)` returns,
`__alloc_pages(0)` called at once returns `u`: the free has left `u` at the head of the
per-CPU list, the other entries being the old list, or, when the drain ran, the old list
without its last `batch` entries; and the allocation pops the head and leaves the other
entries.  But the free need not return: when it drains, a page is given back with
`__free_one_page`, which tests its buddy with `page_is_buddy`.  On `cfg8`, after six
allocations of order 0 (pages 8 to 13) and the frees of pages 8, 10, 11, 12, 13, the free
of page 9 pushes page 9 and drains page 8, whose buddy is page 9 itself, in the cache and
not marked free: `page_is_buddy` ends without a `return`; a merge there would unlink
page 9 from the cache, and the next `__alloc_pages(0)` would pop page 13. -/
theorem hot_unit_reuse (cfg : Config) (cs : List Call) (s : zone × List (Nat × Nat))
    (hB : 1 ≤ cfg.BATCH_SIZE) (h : run_ok_ret cfg cs = true)
    (hr : run_ret cfg cs = some s) :
    (∃ pcp, s.1.pcp = some pcp ∧ 1 ≤ pcp.batch ∧ pcp.batch < pcp.high ∧
      ∀ u, (u, 0) ∈ s.2 → ∀ z1, __free_pages_ret cfg s.1 u 0 = some z1 →
        ∃ z2 rest, pcp_list z1 = u :: rest ∧
          (pcp.count + 1 < (pcp.high : Int) → rest = pcp.lists) ∧
          ((pcp.high : Int) ≤ pcp.count + 1 →
            ∃ removed : List Nat, removed.length = pcp.batch ∧
              pcp.lists = rest ++ removed.reverse) ∧
          __alloc_pages cfg z1 0 = some (z2, some u) ∧ pcp_list z2 = rest) ∧
    (run_ok_ret cfg8 (List.replicate 6 (Call.alloc 0) ++
        [8, 10, 11, 12, 13, 9].map (fun p => Call.free p 0) ++ [Call.alloc 0]) = true ∧
      (run_ret cfg8 (List.replicate 6 (Call.alloc 0) ++
        [8, 10, 11, 12, 13].map (fun p => Call.free p 0))).map
        (fun s => (pcp_list s.1, pcp_count s.1, s.2, __find_buddy_pfn 8 0, PageBuddy s.1 9,
          page_is_buddy_ret s.1 (__find_buddy_pfn 8 0) 0,
          (__free_pages_ret cfg8 s.1 9 0).isSome))
        = some ([13, 12, 11, 10, 8], 5, [(9, 0)], 9, false, none, false)) := by
  refine ⟨?_, by decide, rfl⟩
  obtain ⟨e1, e2⟩ := run_ret_eq hr
  obtain ⟨s0, pcp, r0, c1, c2, c3, c4⟩ := hot_unit_reuse_r0 cfg cs hB (e2.trans h)
  rw [e1] at r0
  cases r0
  refine ⟨pcp, c1, c2, c3, fun u hu z1 hz1 => ?_⟩
  obtain ⟨z0, z2, rest, d1, d2, d3, d4, d5, d6⟩ := c4 u hu
  rw [free_pages_ret_eq hz1] at d1
  cases d1
  exact ⟨z2, rest, d2, d3, d4, d5, d6⟩

/-- Witness of C31 on `cfg2`, where the largest block has order 1: seven pages are
allocated and pages 8, 10, 11, 12, 13 freed into the cache; the free of page 14 reaches
`count = 6 = high` and drains page 8, whose buddy, page 9, is a free block of order 0, so
it returns, with page 14 at the head of the cache; `__alloc_pages(0)` then returns
page 14. -/
theorem hot_unit_reuse_witness :
    1 ≤ cfg2.BATCH_SIZE ∧
    run_ok_ret cfg2 (List.replicate 7 (Call.alloc 0) ++
      [8, 10, 11, 12, 13].map (fun p => Call.free p 0)) = true ∧
    run_ret cfg2 (List.replicate 7 (Call.alloc 0) ++
      [8, 10, 11, 12, 13].map (fun p => Call.free p 0))
      = some (run_state cfg2 (List.replicate 7 (Call.alloc 0) ++
      [8, 10, 11, 12, 13].map (fun p => Call.free p 0))) ∧
    (pcp_list (run_state cfg2 (List.replicate 7 (Call.alloc 0) ++
      [8, 10, 11, 12, 13].map (fun p => Call.free p 0))).1,
      (run_state cfg2 (List.replicate 7 (Call.alloc 0) ++
      [8, 10, 11, 12, 13].map (fun p => Call.free p 0))).2,
      (__free_pages_ret cfg2 (run_state cfg2 (List.replicate 7 (Call.alloc 0) ++
      [8, 10, 11, 12, 13].map (fun p => Call.free p 0))).1 14 0).map
        (fun z => (pcp_list z, (List.range 2).map (fun o => (z.free_area o).free_list),
          (__alloc_pages cfg2 z 0).map (fun r => (pcp_list r.1, r.2)))))
      = ([13, 12, 11, 10, 8], [(15, 0), (14, 0)],
        some ([14, 13, 12, 11, 10], [[], [8]], some ([13, 12, 11, 10], some 14))) ∧
    ((∃ pcp, (run_state cfg2 (List.replicate 7 (Call.alloc 0) ++
      [8, 10, 11, 12, 13].map (fun p => Call.free p 0))).1.pcp = some pcp ∧ 1 ≤ pcp.batch ∧ pcp.batch < pcp.high ∧
      ∀ u, (u, 0) ∈ (run_state cfg2 (List.replicate 7 (Call.alloc 0) ++
      [8, 10, 11, 12, 13].map (fun p => Call.free p 0))).2 → ∀ z1, __free_pages_ret cfg2 (run_state cfg2 (List.replicate 7 (Call.alloc 0) ++
      [8, 10, 11, 12, 13].map (fun p => Call.free p 0))).1 u 0 = some z1 →
        ∃ z2 rest, pcp_list z1 = u :: rest ∧
          (pcp.count + 1 < (pcp.high : Int) → rest = pcp.lists) ∧
          ((pcp.high : Int) ≤ pcp.count + 1 →
            ∃ removed : List Nat, removed.length = pcp.batch ∧
              pcp.lists = rest ++ removed.reverse) ∧
          __alloc_pages cfg2 z1 0 = some (z2, some u) ∧ pcp_list z2 = rest) ∧
    (run_ok_ret cfg8 (List.replicate 6 (Call.alloc 0) ++
        [8, 10, 11, 12, 13, 9].map (fun p => Call.free p 0) ++ [Call.alloc 0]) = true ∧
      (run_ret cfg8 (List.replicate 6 (Call.alloc 0) ++
        [8, 10, 11, 12, 13].map (fun p => Call.free p 0))).map
        (fun s => (pcp_list s.1, pcp_count s.1, s.2, __find_buddy_pfn 8 0, PageBuddy s.1 9,
          page_is_buddy_ret s.1 (__find_buddy_pfn 8 0) 0,
          (__free_pages_ret cfg8 s.1 9 0).isSome))
        = some ([13, 12, 11, 10, 8], 5, [(9, 0)], 9, false, none, false))) :=
  ⟨by decide, by decide, rfl, rfl,
    hot_unit_reuse cfg2 (List.replicate 7 (Call.alloc 0) ++
      [8, 10, 11, 12, 13].map (fun p => Call.free p 0))
      (run_state cfg2 (List.replicate 7 (Call.alloc 0) ++
      [8, 10, 11, 12, 13].map (fun p => Call.free p 0))) (by decide) (by decide) rfl⟩

/-! ## Safety of the drain (C32) -/

/-- C32 (Drain safety): in every state reached from `memory_init` by `__alloc_pages` and
`__free_pages` calls (frees of held blocks) that have returned, `pcp->batch >= 1` and the
per-CPU list with a held page added holds no page twice.  And in every state with
`pcp->batch >= 1`, whenever `free_unref_page_commit` reaches `count >= high` it calls
`free_pcppages_bulk(zone, batch, pcp)` on a list that holds the page just added, so the
first removal of the do-while does not act on an empty list; the loop stops by itself
within `length` iterations (any larger bound gives the same result), having moved exactly
`min(batch, length)` pages, at least one, from the tail of the list, oldest first, to the
local list; these pages are pairwise distinct where the list holds no page twice; and the
call then is one `__free_one_page(zone, page, pfn, 0)` for each of them, in that order. -/
theorem drain_safety (cfg : Config) (cs : List Call) (s : zone × List (Nat × Nat))
    (h : run_ok_ret cfg cs = true) (hr : run_ret cfg cs = some s) :
    (∃ pcp, s.1.pcp = some pcp ∧ 1 ≤ pcp.batch ∧
      ∀ p, (p, 0) ∈ s.2 → (p :: pcp.lists).Nodup) ∧
    (∀ (z : zone) (pcp : per_cpu_pages) (p : Nat), z.pcp = some pcp → 1 ≤ pcp.batch →
      (pcp.high : Int) ≤ pcp.count + 1 →
      free_unref_page_commit_ret cfg z p =
        free_pcppages_bulk_ret cfg
          { z with pcp := some { pcp with lists := p :: pcp.lists, count := pcp.count + 1 } }
          (pcp.batch : Int) { pcp with lists := p :: pcp.lists, count := pcp.count + 1 } ∧
      p :: pcp.lists ≠ [] ∧
      (∀ fuel, pcp.lists.length + 1 ≤ fuel →
        free_pcppages_bulk_loop fuel (pcp.batch : Int)
            { pcp with lists := p :: pcp.lists, count := pcp.count + 1 } [] =
          ({ count := pcp.count + 1 - (min pcp.batch (pcp.lists.length + 1) : Nat)
             high := pcp.high
             batch := pcp.batch
             lists := (p :: pcp.lists).take
               (pcp.lists.length + 1 - min pcp.batch (pcp.lists.length + 1)) },
           (p :: pcp.lists).reverse.take (min pcp.batch (pcp.lists.length + 1)))) ∧
      ((p :: pcp.lists).reverse.take (min pcp.batch (pcp.lists.length + 1))).length
        = min pcp.batch (pcp.lists.length + 1) ∧
      1 ≤ min pcp.batch (pcp.lists.length + 1) ∧
      ((p :: pcp.lists).Nodup →
        ((p :: pcp.lists).reverse.take (min pcp.batch (pcp.lists.length + 1))).Nodup) ∧
      free_unref_page_commit_ret cfg z p =
        ((p :: pcp.lists).reverse.take (min pcp.batch (pcp.lists.length + 1))).foldlM
          (fun z pg => __free_one_page_ret cfg z pg 0)
          { z with
            pcp := some (
              { count := pcp.count + 1 - (min pcp.batch (pcp.lists.length + 1) : Nat)
                high := pcp.high
                batch := pcp.batch
                lists := (p :: pcp.lists).take
                  (pcp.lists.length + 1 - min pcp.batch (pcp.lists.length + 1)) }) }) := by
  refine ⟨?_, fun z pcp p hp hb1 hge => ?_⟩
  · obtain ⟨pcp, hp, hc, ⟨hhigh, hbatch⟩, hz⟩ := (run_ret_spec h hr).1
    have hb1 : 1 ≤ pcp.batch := by rw [hbatch]; exact Nat.le_max_left _ _
    refine ⟨pcp, hp, hb1, fun p hu => ?_⟩
    have hpw := hz.busy_disj
    rw [List.pairwise_append] at hpw
    refine List.nodup_cons.mpr ⟨fun hm => ?_, nodup_of_pairwise_disjoint hpw.1⟩
    have := hpw.2.2 (p, 0) (List.mem_map.mpr ⟨p, hm, rfl⟩) (p, 0) hu
    simp only [disjoint_blocks, pow_zero] at this
    omega
  · have hcall : free_unref_page_commit_ret cfg z p =
        free_pcppages_bulk_ret cfg
          { z with pcp := some { pcp with lists := p :: pcp.lists, count := pcp.count + 1 } }
          (pcp.batch : Int) { pcp with lists := p :: pcp.lists, count := pcp.count + 1 } := by
      simp only [free_unref_page_commit_ret, hp]
      rw [if_pos (by omega)]
    have hloop : ∀ fuel, pcp.lists.length + 1 ≤ fuel →
        free_pcppages_bulk_loop fuel (pcp.batch : Int)
            { pcp with lists := p :: pcp.lists, count := pcp.count + 1 } [] =
          ({ count := pcp.count + 1 - (min pcp.batch (pcp.lists.length + 1) : Nat)
             high := pcp.high
             batch := pcp.batch
             lists := (p :: pcp.lists).take
               (pcp.lists.length + 1 - min pcp.batch (pcp.lists.length + 1)) },
           (p :: pcp.lists).reverse.take (min pcp.batch (pcp.lists.length + 1))) := by
      intro fuel hf
      exact free_pcppages_bulk_loop_eq fuel pcp.batch
        { pcp with lists := p :: pcp.lists, count := pcp.count + 1 }
        (List.cons_ne_nil _ _) hf hb1
    refine ⟨hcall, List.cons_ne_nil _ _, hloop, ?_, by omega, fun hnd => ?_, ?_⟩
    · rw [List.length_take, List.length_reverse, List.length_cons]
      omega
    · exact (List.take_sublist _ _).nodup (List.nodup_reverse.mpr hnd)
    · rw [hcall]
      unfold free_pcppages_bulk_ret
      rw [if_neg (List.cons_ne_nil _ _)]
      have e := hloop (p :: pcp.lists).length (by simp)
      simp only at e ⊢
      rw [e]

/-- Witness of C32 on `cfg2`, where the largest block has order 1: seven pages are
allocated and pages 8, 10, 11, 12, 13 freed into the cache; `free_unref_page_commit` of
page 14 reaches `count = 6 = high` and the drain moves `min(1, 6) = 1` page, page 8, off
the tail of the list and gives it back. -/
theorem drain_safety_witness :
    run_ok_ret cfg2 (List.replicate 7 (Call.alloc 0) ++
      [8, 10, 11, 12, 13].map (fun p => Call.free p 0)) = true ∧
    run_ret cfg2 (List.replicate 7 (Call.alloc 0) ++
      [8, 10, 11, 12, 13].map (fun p => Call.free p 0))
      = some (run_state cfg2 (List.replicate 7 (Call.alloc 0) ++
      [8, 10, 11, 12, 13].map (fun p => Call.free p 0))) ∧
    ((run_state cfg2 (List.replicate 7 (Call.alloc 0) ++
      [8, 10, 11, 12, 13].map (fun p => Call.free p 0))).1.pcp,
      (run_state cfg2 (List.replicate 7 (Call.alloc 0) ++
      [8, 10, 11, 12, 13].map (fun p => Call.free p 0))).2,
      (free_pcppages_bulk_loop 6 1
        { count := 6, high := 6, batch := 1, lists := [14, 13, 12, 11, 10, 8] } []),
      (free_unref_page_commit_ret cfg2 (run_state cfg2 (List.replicate 7 (Call.alloc 0) ++
      [8, 10, 11, 12, 13].map (fun p => Call.free p 0))).1 14).map
        (fun z => (pcp_list z, pcp_count z,
          (List.range 2).map (fun o => (z.free_area o).free_list))))
      = (some { count := 5, high := 6, batch := 1, lists := [13, 12, 11, 10, 8] },
        [(15, 0), (14, 0)],
        ({ count := 5, high := 6, batch := 1, lists := [14, 13, 12, 11, 10] }, [8]),
        some ([14, 13, 12, 11, 10], 5, [[], [8]])) ∧
    ((∃ pcp, (run_state cfg2 (List.replicate 7 (Call.alloc 0) ++
      [8, 10, 11, 12, 13].map (fun p => Call.free p 0))).1.pcp = some pcp ∧ 1 ≤ pcp.batch ∧
      ∀ p, (p, 0) ∈ (run_state cfg2 (List.replicate 7 (Call.alloc 0) ++
      [8, 10, 11, 12, 13].map (fun p => Call.free p 0))).2 → (p :: pcp.lists).Nodup) ∧
    (∀ (z : zone) (pcp : per_cpu_pages) (p : Nat), z.pcp = some pcp → 1 ≤ pcp.batch →
      (pcp.high : Int) ≤ pcp.count + 1 →
      free_unref_page_commit_ret cfg2 z p =
        free_pcppages_bulk_ret cfg2
          { z with pcp := some { pcp with lists := p :: pcp.lists, count := pcp.count + 1 } }
          (pcp.batch : Int) { pcp with lists := p :: pcp.lists, count := pcp.count + 1 } ∧
      p :: pcp.lists ≠ [] ∧
      (∀ fuel, pcp.lists.length + 1 ≤ fuel →
        free_pcppages_bulk_loop fuel (pcp.batch : Int)
            { pcp with lists := p :: pcp.lists, count := pcp.count + 1 } [] =
          ({ count := pcp.count + 1 - (min pcp.batch (pcp.lists.length + 1) : Nat)
             high := pcp.high
             batch := pcp.batch
             lists := (p :: pcp.lists).take
               (pcp.lists.length + 1 - min pcp.batch (pcp.lists.length + 1)) },
           (p :: pcp.lists).reverse.take (min pcp.batch (pcp.lists.length + 1)))) ∧
      ((p :: pcp.lists).reverse.take (min pcp.batch (pcp.lists.length + 1))).length
        = min pcp.batch (pcp.lists.length + 1) ∧
      1 ≤ min pcp.batch (pcp.lists.length + 1) ∧
      ((p :: pcp.lists).Nodup →
        ((p :: pcp.lists).reverse.take (min pcp.batch (pcp.lists.length + 1))).Nodup) ∧
      free_unref_page_commit_ret cfg2 z p =
        ((p :: pcp.lists).reverse.take (min pcp.batch (pcp.lists.length + 1))).foldlM
          (fun z pg => __free_one_page_ret cfg2 z pg 0)
          { z with
            pcp := some (
              { count := pcp.count + 1 - (min pcp.batch (pcp.lists.length + 1) : Nat)
                high := pcp.high
                batch := pcp.batch
                lists := (p :: pcp.lists).take
                  (pcp.lists.length + 1 - min pcp.batch (pcp.lists.length + 1)) }) })) :=
  ⟨by decide, rfl, rfl,
    drain_safety cfg2 (List.replicate 7 (Call.alloc 0) ++
      [8, 10, 11, 12, 13].map (fun p => Call.free p 0))
      (run_state cfg2 (List.replicate 7 (Call.alloc 0) ++
      [8, 10, 11, 12, 13].map (fun p => Call.free p 0))) (by decide) rfl⟩

end Buddy
